import Mathlib

/-! # The component analyser of flyx/tbc (askew)

A shallow embedding of `components/components.go`: the pass that walks the
children of an `<a:component>` element and builds the intermediate
representation of the component (assignments, bindings, captures, embeds and
control blocks), followed by theorems about it.

Conventions of the embedding.

* Go maps are association lists; a lookup returns the first entry of a key.
  A map that may be `nil` is an `Option` of such a list.
* Go slices are lists; `append` adds at the end.
* `int` values that can be negative (`curFormPos`, `FormDepth`) are `Int`;
  child indices and lengths are `Nat`.
* Go code mutates its receivers in place and can return an error after having
  mutated them.  A Go function that does so is embedded as a function that
  returns the new state together with an optional error.
* The packages `data`, `attributes`, `walker` and `parsers` the analyser
  imports are not part of the sources at hand.  Their type declarations are
  reproduced with the fields the analyser reads and writes; what their
  functions do is taken from the specification and marked as such.
-/

namespace Askew

/-! ## Package `data`: values of the intermediate representation -/

/-- Kinds of `data.ParamType`.  `OtherType` stands for every kind that is
not `int`, `string` or `bool`. -/
inductive ParamTypeKind where
  | IntType
  | StringType
  | BoolType
  | OtherType
deriving DecidableEq, Repr

/-- Go `data.ParamType`. -/
structure ParamType where
  Kind : ParamTypeKind
deriving DecidableEq, Repr

/-- Go `data.Param`: a formal parameter of a handler (`Typ` is the field
`Type`). -/
structure Param where
  Name : String
  Typ : ParamType
deriving DecidableEq, Repr

/-- Go `data.Handler`; `Returns` is a pointer that may be nil. -/
structure Handler where
  Params : List Param
  Returns : Option ParamType
deriving DecidableEq, Repr

/-- Go `data.ControllerMethod`. -/
structure ControllerMethod where
  Handler : Handler
  CanCapture : Bool
deriving DecidableEq, Repr

/-- Go `data.BoundKind`. -/
inductive BoundKind where
  | BoundSelf
  | BoundProperty
  | BoundStyle
  | BoundDataset
  | BoundClass
  | BoundFormValue
  | BoundEventValue
  | BoundExpr
  | BoundData
deriving DecidableEq, Repr

/-- Go `data.BoundValue`.  A composite literal that names only `Kind` and `ID`
leaves the other fields at their zero values. -/
structure BoundValue where
  Kind : BoundKind
  ID : String := ""
  IDs : List String := []
  IsRadio : Bool := false
  FormDepth : Int := 0
deriving DecidableEq, Repr

/-- Go `data.BoundParam`. -/
structure BoundParam where
  Param : String
  Value : BoundValue
deriving DecidableEq, Repr

/-- Go `data.EventHandling`. -/
inductive EventHandling where
  | AutoPreventDefault
  | PreventDefault
  | DontPreventDefault
  | AskPreventDefault
deriving DecidableEq, Repr

/-- Go `data.UnboundEventMapping`: a capture as the attribute parser delivers
it.  `ParamMappings` is a Go map from parameter name to bound value. -/
structure UnboundEventMapping where
  Event : String
  Handler : String
  ParamMappings : List (String × BoundValue)
  Handling : EventHandling
deriving DecidableEq, Repr

/-- Go `data.EventMapping`. -/
structure EventMapping where
  Event : String
  Handler : String
  ParamMappings : List BoundParam
  Handling : EventHandling
  FromController : Bool
deriving DecidableEq, Repr

/-- Go `data.Capture`. -/
structure Capture where
  Path : List Nat
  Mappings : List EventMapping
deriving DecidableEq, Repr

/-- Go `data.VariableType`. -/
inductive VariableType where
  | AutoVar
  | IntVar
  | StringVar
  | BoolVar
deriving DecidableEq, Repr

/-- Go `data.Variable` (`Typ` is the field `Type`). -/
structure Variable where
  Typ : VariableType
  Name : String
deriving DecidableEq, Repr

/-- Go `data.VariableMapping`. -/
structure VariableMapping where
  Value : BoundValue
  Variable : Variable
  Path : List Nat := []
deriving DecidableEq, Repr

/-- Go `data.Assignment`. -/
structure Assignment where
  Expression : String
  Path : List Nat := []
  Target : BoundValue
deriving DecidableEq, Repr

/-- Kind of a control block: `a:if` or `a:for`. -/
inductive ControlBlockKind where
  | IfBlock
  | ForBlock
deriving DecidableEq, Repr

/-- Go `data.ControlBlock` together with the `data.Block` it embeds: the
fields `Assignments` and `Controlled` are those of the inner block. -/
inductive ControlBlock where
  | mk (Kind : ControlBlockKind) (Index Variable Expression : String)
      (Path : List Nat) (Assignments : List Assignment)
      (Controlled : List ControlBlock)
deriving Repr

/-- Go `data.Block`. -/
structure Block where
  Assignments : List Assignment := []
  Controlled : List ControlBlock := []
deriving Repr

namespace ControlBlock

/-- Field `Path` of a control block. -/
def Path : ControlBlock → List Nat
  | .mk _ _ _ _ p _ _ => p

/-- Field `Block` of a control block. -/
def Block : ControlBlock → Block
  | .mk _ _ _ _ _ a c => { Assignments := a, Controlled := c }

/-- Field `Expression` of a control block. -/
def Expression : ControlBlock → String
  | .mk _ _ _ e _ _ _ => e

/-- Field `Kind` of a control block. -/
def Kind : ControlBlock → ControlBlockKind
  | .mk k _ _ _ _ _ _ => k

/-- Field `Index` of a control block. -/
def Index : ControlBlock → String
  | .mk _ i _ _ _ _ _ => i

/-- Field `Variable` of a control block. -/
def Variable : ControlBlock → String
  | .mk _ _ v _ _ _ _ => v

/-- The control block with `Path` replaced. -/
def setPath : ControlBlock → List Nat → ControlBlock
  | .mk k i v e _ a c, p => .mk k i v e p a c

/-- The control block with its inner `Block` replaced. -/
def setBlock : ControlBlock → Askew.Block → ControlBlock
  | .mk k i v e p _ _, b => .mk k i v e p b.Assignments b.Controlled

end ControlBlock

/-- Go `data.Arguments`: the parsed `args` attribute. -/
structure Arguments where
  Count : Nat := 0
  Raw : String := ""
deriving DecidableEq, Repr

/-- Go `data.EmbedKind`. -/
inductive EmbedKind where
  | DirectEmbed
  | ListEmbed
  | OptionalEmbed
deriving DecidableEq, Repr

/-- Go `data.NestedConstructorKind`. -/
inductive NestedConstructorKind where
  | NestedDirect
  | NestedIf
  | NestedFor
deriving DecidableEq, Repr

/-- Go `data.NestedConstructorCall` (with the embedded `ConstructorCall`). -/
structure NestedConstructorCall where
  Args : Arguments
  Kind : NestedConstructorKind
  Index : String := ""
  Variable : String := ""
  Expression : String := ""
deriving DecidableEq, Repr

/-- Go `data.Embed`. -/
structure Embed where
  Kind : EmbedKind
  Path : List Nat
  Field : String
  Control : Bool
  T : String := ""
  Ns : String := ""
  Args : Arguments := {}
  ConstructorCalls : List NestedConstructorCall := []
deriving DecidableEq, Repr

/-- The entry of a form scope (`formValue` of components.go). -/
structure formValue where
  t : VariableType
  radio : Bool
deriving DecidableEq, Repr

/-- A Go map with string keys. -/
abbrev StrMap (α : Type) := List (String × α)

/-- Go `data.ComponentParam`: a parameter of a component. -/
structure ComponentParam where
  Name : String
  Typ : String
deriving DecidableEq, Repr

/-- Go `data.Field`: a declaration of `<a:data>`. -/
structure Field where
  Name : String
  Typ : String
  DefaultValue : Option String := none
deriving DecidableEq, Repr

/-- An entry of the list `parsers.ParseHandlers` returns. -/
structure HandlerSpec where
  Name : String
  Params : List Param
  Returns : Option ParamType
deriving DecidableEq, Repr

/-! ## Packages `html` and `attributes`: the parsed document -/

/-- Go `html.NodeType`, the kinds that occur in a template. -/
inductive NodeType where
  | TextNode
  | ElementNode
  | CommentNode
deriving DecidableEq, Repr

/-- Go `atom.Atom`: the atoms the analyser compares with; `Zero` is the atom
of an element whose name is not a known HTML name, `Other` any other atom. -/
inductive Atom where
  | Zero
  | Form
  | Input
  | Select
  | Textarea
  | Template
  | Other
deriving DecidableEq, Repr

/-- Go `html.Attribute`. -/
structure Attribute where
  Key : String
  Val : String
deriving DecidableEq, Repr

/-- Go `attributes.General`: the askew attributes of a plain element
(`a:assign`, `a:bindings`, `a:capture`, `a:if`, `a:for`) after parsing.  An
absent attribute is an empty list, respectively `none`. -/
structure General where
  Assign : List Assignment := []
  Bindings : List VariableMapping := []
  Capture : List UnboundEventMapping := []
  If : Option ControlBlock := none
  For : Option ControlBlock := none

/-- Go `attributes.Embed`: the attributes of an `<a:embed>` after parsing. -/
structure EmbedAttrs where
  Name : String := ""
  T : String := ""
  List : Bool := false
  Optional : Bool := false
  Control : Bool := false
  Args : Arguments := {}
deriving DecidableEq, Repr

/-- Go `attributes.Component`: the attributes of an `<a:component>`. -/
structure ComponentAttrs where
  Name : String := ""
  Params : List ComponentParam := []
  Init : String := ""
deriving DecidableEq, Repr

/-- Go `attributes.Site`: the attributes of the root element of a site
skeleton (`html-file`, `js-path`, `wasm-exec-path`, `wasm-path`); a field is
`""` if the attribute is absent. -/
structure SiteAttrs where
  HTMLFile : String := ""
  JSPath : String := ""
  WASMExecPath : String := ""
  WASMPath : String := ""
deriving DecidableEq, Repr

/-- What the functions of package `attributes` return for one element.  The
attribute micro-grammars are outside the analyser, which reads only their
results; a node therefore carries, next to its raw attribute list, the result
of `attributes.ExtractAskewAttribs` (`General`) and of `attributes.Collect`
into an `attributes.Embed`, `attributes.Component` or `attributes.Site`.  Each
may be an error. -/
structure Extracted where
  General : Except String General := .ok {}
  Embed : Except String EmbedAttrs := .ok {}
  Component : Except String ComponentAttrs := .ok {}
  Site : Except String SiteAttrs := .ok {}

/-- Go `html.Node` as a tree: the sibling and child pointers are the list
`Children`.  `Ext` is what package `attributes` extracts from `Attr`. -/
inductive Node where
  | mk (Typ : NodeType) (DataAtom : Atom) (Data : String)
      (Attr : List Attribute) (Ext : Extracted) (Children : List Node)

namespace Node

/-- Field `Type` of a node. -/
def Typ : Node → NodeType
  | .mk t _ _ _ _ _ => t

/-- Field `DataAtom` of a node. -/
def DataAtom : Node → Atom
  | .mk _ a _ _ _ _ => a

/-- Field `Data` of a node. -/
def Data : Node → String
  | .mk _ _ d _ _ _ => d

/-- Field `Attr` of a node. -/
def Attr : Node → List Attribute
  | .mk _ _ _ a _ _ => a

/-- The results of attribute extraction for a node. -/
def Ext : Node → Extracted
  | .mk _ _ _ _ e _ => e

/-- The child nodes, `FirstChild` and its `NextSibling` chain. -/
def Children : Node → List Node
  | .mk _ _ _ _ _ c => c

/-- The node with its child list replaced (assignment to `FirstChild` and
`LastChild`). -/
def setChildren : Node → List Node → Node
  | .mk t a d as e _, c => .mk t a d as e c

/-- A text node. -/
def text (data : String) : Node := .mk .TextNode .Zero data [] {} []

/-- A comment node, `&html.Node{Type: html.CommentNode, Data: data}`. -/
def comment (data : String) : Node := .mk .CommentNode .Zero data [] {} []

end Node

/-- Go `attributes.Val`: the value of the attribute `key`, `""` if absent. -/
def attributes.Val (attr : List Attribute) (key : String) : String :=
  match attr.find? (fun a => a.Key == key) with
  | some a => a.Val
  | none => ""

/-- Descend from a node along a child-index path. -/
def Node.descend : Node → List Nat → Option Node
  | n, [] => some n
  | n, i :: rest =>
    match n.Children.get? i with
    | some c => Node.descend c rest
    | none => none

/-! ## Components and the symbol table -/

/-- Go `data.Component`, with the embedded `data.EmbedHost` (field `Embeds`)
and `data.Block` (field `Block`). -/
structure Component where
  Name : String := ""
  ID : String := ""
  Template : Node := Node.mk .ElementNode .Template "template" [] {} []
  Parameters : List ComponentParam := []
  Init : String := ""
  Handlers : Option (StrMap Handler) := none
  Controller : Option (StrMap ControllerMethod) := none
  Fields : Option (List Field) := none
  Block : Block := {}
  Embeds : List Embed := []
  Captures : List Capture := []
  Variables : List VariableMapping := []
  NeedsList : Bool := false
  NeedsOptional : Bool := false

/-- Go `data.EmbedHost`: the owner of a list of embeds. -/
structure EmbedHost where
  Embeds : List Embed := []
deriving DecidableEq, Repr

/-- The part of a component that is the target of an embed which
`resolveEmbed` and `constructProcessor` read and write: its parameters and
the two wrapper flags. -/
structure Target where
  Parameters : List ComponentParam := []
  NeedsList : Bool := false
  NeedsOptional : Bool := false
deriving DecidableEq, Repr

/-- Go `data.Symbols`.  `CurHost` is the embed host under analysis (in Go a
pointer to the `EmbedHost` inside the component; the embedding keeps the host
here during the walk and stores its embeds in the component afterwards).
`Components` is `CurFile.Components`.  `Targets` are the components an embed
can refer to and `Refs` maps a reference (`Name` or `alias.Name`) to the index
of its target, its type name and its alias. -/
structure Symbols where
  CurHost : EmbedHost := {}
  Components : Option (StrMap Component) := none
  Targets : List Target := []
  Refs : StrMap (Nat × String × String) := []

/-- Modelled from the spec: `data.Symbols.ResolveComponent` (package `data` is
not among the sources).  It takes a bare name or `alias.Name` and returns the
target component (here its index), its type name and the alias; it fails if
the alias is unknown or the component is absent. -/
def Symbols.ResolveComponent (syms : Symbols) (ref : String) :
    Except String (Nat × String × String) :=
  match syms.Refs.lookup ref with
  | some (i, typeName, aliasName) =>
    if i < syms.Targets.length then .ok (i, typeName, aliasName)
    else .error ("unknown component: " ++ ref)
  | none => .error ("unknown component: " ++ ref)

/-- The functions outside the sources that the analyser calls: the parsers of
package `parsers` for text content, and `unicode.ToLower`, the table of lower
case of the Go library.  They are taken as parameters. -/
structure Parsers where
  ParseHandlers : String → Except String (List HandlerSpec)
  ParseFields : String → Except String (Option (List Field))
  AnalyseArguments : String → Except String Arguments
  ToLower : Char → Char

/-- Lookup in a Go map that may be nil: a nil map has no entries. -/
def mapGet {α : Type} (m : Option (StrMap α)) (key : String) : Option α :=
  match m with
  | some l => l.lookup key
  | none => none

/-- Assignment `m[key] = v` to a Go map: replaces the entry of `key` or adds
one. -/
def mapSet {α : Type} (m : StrMap α) (key : String) (v : α) : StrMap α :=
  if (m.lookup key).isSome then
    m.map (fun e => if e.1 == key then (key, v) else e)
  else m ++ [(key, v)]

/-! ## Package `walker` -/

/-- What a `walker.NodeHandler` returns from `Process`: the three results
`descend`, `replacement` and `err`, the node after the changes the handler made
to it in place (`node`), and the state of the handler afterwards (`st`). -/
structure HandlerResult (σ : Type) where
  descend : Bool := false
  replacement : Option Node := none
  err : Option String := none
  node : Node
  st : σ

/-- What `WalkChildren` returns: the chain of children (`first` to `last`), the
error, and the state afterwards. -/
structure WalkResult (σ : Type) where
  nodes : List Node
  err : Option String
  st : σ

/-- What walking one node returns: the node that stands in its place. -/
structure NodeResult (σ : Type) where
  node : Node
  err : Option String
  st : σ

/-- Go `walker.NodeHandler`.  The second argument walks the children of the
node with the walker that dispatched the node, from a given state: it stands
for the call `w.WalkChildren(n, ...)` of a handler on a walker that has the
handler itself in a slot. -/
abbrev NodeHandler (σ : Type) := Node → (σ → WalkResult σ) → σ → HandlerResult σ

/-- Go `walker.Allow`: descend, no replacement. -/
def walker.Allow {σ : Type} : NodeHandler σ :=
  fun n _ s => { descend := true, node := n, st := s }

/-- Go `walker.DontDescend`: keep the node, do not descend. -/
def walker.DontDescend {σ : Type} : NodeHandler σ :=
  fun n _ s => { descend := false, node := n, st := s }

/-- Modelled from the spec: `walker.WhitespaceOnly`, the text-node policy that
is an error on text that is not whitespace. -/
def walker.WhitespaceOnly {σ : Type} : NodeHandler σ :=
  fun n _ s =>
    if n.Data.all Char.isWhitespace then { descend := false, node := n, st := s }
    else { err := some ": non-whitespace text not allowed here", node := n, st := s }

/-- Access of a walker to the index path it shares with its handlers
(`IndexList *[]int`). -/
structure IndexRef (σ : Type) where
  get : σ → List Nat
  set : List Nat → σ → σ

/-- Go `walker.Walker`: one handler slot per node kind, nil if the kind is not
allowed, and the shared index path. -/
structure Walker (σ : Type) where
  TextNode : Option (NodeHandler σ) := none
  Text : Option (NodeHandler σ) := none
  Embed : Option (NodeHandler σ) := none
  Construct : Option (NodeHandler σ) := none
  Handlers : Option (NodeHandler σ) := none
  Controller : Option (NodeHandler σ) := none
  Data : Option (NodeHandler σ) := none
  Import : Option (NodeHandler σ) := none
  Component : Option (NodeHandler σ) := none
  Macro : Option (NodeHandler σ) := none
  StdElements : Option (NodeHandler σ) := none
  IndexList : Option (IndexRef σ) := none

namespace Walker

variable {σ : Type}

/-- The slot an element is dispatched to, chosen by its name. -/
def elementSlot (w : Walker σ) (name : String) : Option (NodeHandler σ) :=
  if name = "a:text" then w.Text
  else if name = "a:embed" then w.Embed
  else if name = "a:construct" then w.Construct
  else if name = "a:handlers" then w.Handlers
  else if name = "a:controller" then w.Controller
  else if name = "a:data" then w.Data
  else if name = "a:import" then w.Import
  else if name = "a:component" then w.Component
  else if name = "a:macro" then w.Macro
  else w.StdElements

/-- The slot a node is dispatched to: `TextNode` for a text node, the slot of
its name for an element. -/
def slot (w : Walker σ) (t : NodeType) (name : String) : Option (NodeHandler σ) :=
  match t with
  | .TextNode => w.TextNode
  | _ => w.elementSlot name

/-- Push the sibling index of the child that is entered. -/
def push (w : Walker σ) (k : Nat) (s : σ) : σ :=
  match w.IndexList with
  | some r => r.set (r.get s ++ [k]) s
  | none => s

/-- Pop the index when the child is left. -/
def pop (w : Walker σ) (s : σ) : σ :=
  match w.IndexList with
  | some r => r.set (r.get s).dropLast s
  | none => s

mutual

/-- Modelled from the spec: the walker's treatment of one node (package
`walker` is not among the sources).  The node is dispatched to the handler of
its kind; a kind without handler is an error; comments are kept.  An error of
the handler ends the walk.  A replacement takes the place of the node.  If the
handler asks to descend, the children are walked.  No handler of the analyser
returns a replacement together with `descend = true`, so a replaced node is
not descended into.  The locator text a walker frame may put in front of an
error message is not modelled. -/
def walkNode (w : Walker σ) : Node → σ → NodeResult σ
  | .mk t a d as e kids, s =>
    let n := Node.mk t a d as e kids
    match t with
    | .CommentNode => { node := n, err := none, st := s }
    | _ =>
      match w.slot t d with
      | none => { node := n, err := some (d ++ ": element not allowed here"), st := s }
      | some h =>
        let r := h n (fun s1 => walkChildren w kids 0 s1) s
        match r.err with
        | some msg => { node := r.node, err := some msg, st := r.st }
        | none =>
          match r.replacement with
          | some rep => { node := rep, err := none, st := r.st }
          | none =>
            if r.descend then
              let k := walkChildren w kids 0 r.st
              { node := r.node.setChildren k.nodes, err := k.err, st := k.st }
            else { node := r.node, err := none, st := r.st }

/-- Modelled from the spec: `walker.Walker.WalkChildren`.  The children are
visited in sibling order; before child `k` is entered `k` is pushed on the
index path, and it is popped when the child is left.  The first error ends the
walk; the children not yet visited stay as they are. -/
def walkChildren (w : Walker σ) : List Node → Nat → σ → WalkResult σ
  | [], _, s => { nodes := [], err := none, st := s }
  | n :: rest, k, s =>
    let r := walkNode w n (w.push k s)
    match r.err with
    | some msg => { nodes := r.node :: rest, err := some msg, st := r.st }
    | none =>
      let r2 := walkChildren w rest (k + 1) (w.pop r.st)
      { nodes := r.node :: r2.nodes, err := r2.err, st := r2.st }

end

/-- Go `w.WalkChildren(parent, &walker.Siblings{Cur: parent.FirstChild})`. -/
def WalkChildren (w : Walker σ) (children : List Node) (s : σ) : WalkResult σ :=
  walkChildren w children 0 s

end Walker

/-! ## Package `components` -/

/-- Go `stdElementHandler`: the state the handler of plain elements shares
with its walker.  `b` is the block under construction. -/
structure stdElementHandler where
  syms : Symbols
  indexList : List Nat
  b : Block
  curFormPos : Int
  curForm : Option (StrMap formValue)

/-- Go `componentElementHandler`.  In Go `b` points to the block inside `c`
and `syms.CurHost` to the embed host inside `c`; the embedding keeps both in
the handler during the walk and stores them in the component afterwards. -/
structure componentElementHandler extends stdElementHandler where
  c : Component

/-- The loop
`tmp := make([]T, len(xs)); for i, e := range xs { tmp[len(tmp)-i-1] = e }`
of components.go, from index `i` on; `zero` is the zero value of `T`. -/
def reverseInto {α : Type} (tmp : List α) : Nat → List α → List α
  | _, [] => tmp
  | i, e :: rest => reverseInto (tmp.set (tmp.length - i - 1) e) (i + 1) rest

/-- The result `tmp` of the reversal loop of components.go. -/
def reverseCopy {α : Type} (zero : α) (xs : List α) : List α :=
  reverseInto (List.replicate xs.length zero) 0 xs

/-- Zero value of `data.Embed`. -/
def Embed.zero : Embed := { Kind := .DirectEmbed, Path := [], Field := "", Control := false }

/-- Stands for the nil pointer in a fresh `[]*data.ControlBlock`. -/
def ControlBlock.zero : ControlBlock := .mk .IfBlock "" "" "" [] [] []

/-- Go `resolveEmbed`.  Next to the embed and the target (its index in
`syms.Targets`) or the error, the symbol table is returned: the wrapper flag
of the target is set before the argument checks. -/
def resolveEmbed (n : Node) (syms : Symbols) (indexList : List Nat) :
    Except String (Embed × Option Nat) × Symbols :=
  match n.Ext.Embed with
  | .error msg => (.error msg, syms)
  | .ok attrs =>
    let e : Embed := { Kind := .DirectEmbed, Path := indexList, Field := attrs.Name,
                       Control := attrs.Control }
    if e.Field = "" then (.error ": attribute `name` missing", syms) else
    let e := if attrs.List then { e with Kind := .ListEmbed } else e
    if attrs.Optional ∧ e.Kind ≠ .DirectEmbed then
      (.error ": cannot mix `list` and `optional`", syms) else
    let e := if attrs.Optional then { e with Kind := .OptionalEmbed } else e
    if attrs.T = "" then
      if e.Kind = .DirectEmbed then
        (.error ": attribute `type` missing (may only be omitted for optional or list embeds)", syms)
      else if attrs.Args.Count ≠ 0 then
        (.error ": embed with `list` or `optional` cannot have `args`", syms)
      else (.ok (e, none), syms)
    else
    match syms.ResolveComponent attrs.T with
    | .error msg => (.error (": attribute `type` invalid: " ++ msg), syms)
    | .ok (i, typeName, aliasName) =>
      let target := syms.Targets.getD i {}
      let target := match e.Kind with
        | .ListEmbed => { target with NeedsList := true }
        | .OptionalEmbed => { target with NeedsOptional := true }
        | .DirectEmbed => target
      let syms := { syms with Targets := syms.Targets.set i target }
      let e := { e with T := typeName, Ns := aliasName }
      if e.Kind ≠ .DirectEmbed then
        if attrs.Args.Count ≠ 0 then
          (.error ": embed with `list` or `optional` cannot have `args`", syms)
        else (.ok (e, some i), syms)
      else
        let e := { e with Args := attrs.Args }
        if target.Parameters.length ≠ e.Args.Count then
          (.error (": target component requires " ++ toString target.Parameters.length
            ++ " arguments, but " ++ toString e.Args.Count ++ " were given"), syms)
        else (.ok (e, some i), syms)

/-- Go `constructProcessor`: the embed under construction and its target. -/
structure constructProcessor where
  e : Embed
  target : Option Target

/-- Go `constructProcessor.Process`. -/
def constructProcessor.Process (P : Parsers) : NodeHandler constructProcessor :=
  fun n _ cp =>
    if cp.e.Kind = .DirectEmbed then
      { err := some ": element requires list or optional embed as parent", node := n, st := cp } else
    match cp.target with
    | none => { err := some ": element requires embed with explicit type as parent", node := n, st := cp }
    | some target =>
    match n.Ext.General with
    | .error msg => { err := some msg, node := n, st := cp }
    | .ok attrs =>
    if attrs.Assign ≠ [] then { err := some ": a:assign not allowed here", node := n, st := cp } else
    if attrs.Bindings ≠ [] then { err := some ": a:bindings not allowed here", node := n, st := cp } else
    if attrs.Capture ≠ [] then { err := some ": a:capture not allowed here", node := n, st := cp } else
    if attrs.For.isSome ∧ attrs.If.isSome then
      { err := some ": cannot have both a:if and a:for here", node := n, st := cp } else
    match P.AnalyseArguments (attributes.Val n.Attr "args") with
    | .error msg => { err := some (": in args: " ++ msg), node := n, st := cp }
    | .ok args =>
    if args.Count ≠ target.Parameters.length then
      { err := some (": target component requires " ++ toString target.Parameters.length
          ++ " arguments, but " ++ toString args.Count ++ " were given"), node := n, st := cp } else
    let added : Except String NestedConstructorCall :=
      match attrs.If, attrs.For with
      | some i, _ => .ok { Args := args, Kind := .NestedIf, Expression := i.Expression }
      | none, some f =>
        if cp.e.Kind = .OptionalEmbed then .error ": a:for not allowed inside optional embed"
        else .ok { Args := args, Kind := .NestedFor, Index := f.Index, Variable := f.Variable,
                   Expression := f.Expression }
      | none, none => .ok { Args := args, Kind := .NestedDirect }
    match added with
    | .error msg => { err := some msg, node := n, st := cp }
    | .ok call =>
      let cp := { cp with e := { cp.e with ConstructorCalls := cp.e.ConstructorCalls ++ [call] } }
      let w : Walker Unit := { TextNode := some walker.WhitespaceOnly }
      let r := w.WalkChildren n.Children ()
      { descend := false, replacement := none, err := r.err, node := n, st := cp }

/-- Go `EmbedProcessor.Process`, on the symbol table and the index path. -/
def EmbedProcessor.Process (P : Parsers) (n : Node) (syms : Symbols) (indexList : List Nat) :
    HandlerResult Symbols :=
  match resolveEmbed n syms indexList with
  | (.error msg, syms) => { err := some msg, node := n, st := syms }
  | (.ok (e, target), syms) =>
    let w : Walker constructProcessor :=
      { TextNode := some walker.WhitespaceOnly, Construct := some (constructProcessor.Process P) }
    let r := w.WalkChildren n.Children
      { e := e, target := target.map (fun i => syms.Targets.getD i {}) }
    let e := r.st.e
    if e.Kind = .OptionalEmbed ∧ e.ConstructorCalls.length > 1 then
      { err := some ": too many <a:construct> for optional embed", node := n, st := syms }
    else
      let syms := { syms with CurHost := { Embeds := syms.CurHost.Embeds ++ [e] } }
      { descend := false, replacement := some (Node.comment ("embed(" ++ e.Field ++ ")")),
        err := r.err, node := n, st := syms }

/-- Go `canCapture`. -/
def canCapture : List Param → Bool
  | [] => true
  | p :: rest =>
    match p.Typ.Kind with
    | .IntType => canCapture rest
    | .StringType => canCapture rest
    | .BoolType => canCapture rest
    | _ => false

/-- The message of the run-time panic of Go on `def.Type` when `def` is nil.
The embedding reports a panic as an error with this message. -/
def nilDereference : String :=
  "panic: runtime error: invalid memory address or nil pointer dereference"

/-- The check `def := n.FirstChild; def.Type != html.TextNode ||
def.NextSibling != nil` shared by the three declaration processors: the text
of the only child, or the error. -/
def plainTextContent (n : Node) : Except String String :=
  match n.Children with
  | [] => .error nilDereference
  | d :: rest =>
    if d.Typ ≠ .TextNode ∨ rest.isEmpty = false then
      .error ": must have plain text as content and nothing else"
    else .ok d.Data

/-- The loop of `handlersProcessor.Process` over the parsed declarations. -/
def handlersProcessor.insertAll (controller : Option (StrMap ControllerMethod)) :
    List HandlerSpec → StrMap Handler → StrMap Handler × Option String
  | [], m => (m, none)
  | raw :: rest, m =>
    let ok := (m.lookup raw.Name).isSome
    let ok := if !ok ∧ controller.isSome then (mapGet controller raw.Name).isSome else ok
    if ok then (m, some (": duplicate handler name: " ++ raw.Name))
    else if !canCapture raw.Params then
      (m, some ": handlers must only use int, string and bool as parameter types")
    else handlersProcessor.insertAll controller rest
      (mapSet m raw.Name { Params := raw.Params, Returns := raw.Returns })

/-- Go `handlersProcessor.Process`. -/
def handlersProcessor.Process (P : Parsers) : NodeHandler componentElementHandler :=
  fun n _ hp =>
    if hp.indexList.length ≠ 1 then
      { err := some ": must be defined as direct child of <a:component>", node := n, st := hp } else
    match plainTextContent n with
    | .error msg => { err := some msg, node := n, st := hp }
    | .ok text =>
    match P.ParseHandlers text with
    | .error msg =>
      { err := some (": unable to parse `" ++ text ++ "`: " ++ msg), node := n, st := hp }
    | .ok parsed =>
    if hp.c.Handlers.isSome then
      { err := some ": only one <a:handlers> allowed per <a:component>", node := n, st := hp } else
    match handlersProcessor.insertAll hp.c.Controller parsed [] with
    | (m, some msg) =>
      { err := some msg, node := n, st := { hp with c := { hp.c with Handlers := some m } } }
    | (m, none) =>
      { descend := false, replacement := some (Node.comment "handlers"), node := n,
        st := { hp with c := { hp.c with Handlers := some m } } }

/-- The loop of `controllerProcessor.Process` over the parsed declarations. -/
def controllerProcessor.insertAll (handlers : Option (StrMap Handler)) :
    List HandlerSpec → StrMap ControllerMethod → StrMap ControllerMethod × Option String
  | [], m => (m, none)
  | raw :: rest, m =>
    let ok := (m.lookup raw.Name).isSome
    let ok := if !ok ∧ handlers.isSome then (mapGet handlers raw.Name).isSome else ok
    if ok then (m, some (": duplicate handler name: " ++ raw.Name))
    else controllerProcessor.insertAll handlers rest
      (mapSet m raw.Name { Handler := { Params := raw.Params, Returns := raw.Returns },
                           CanCapture := canCapture raw.Params })

/-- Go `controllerProcessor.Process`. -/
def controllerProcessor.Process (P : Parsers) : NodeHandler componentElementHandler :=
  fun n _ cp =>
    if cp.indexList.length ≠ 1 then
      { err := some ": must be defined as direct child of <a:component>", node := n, st := cp } else
    match plainTextContent n with
    | .error msg => { err := some msg, node := n, st := cp }
    | .ok text =>
    if cp.c.Controller.isSome then
      { err := some ": only one <a:controller> allowed per <a:component>", node := n, st := cp } else
    match P.ParseHandlers text with
    | .error msg =>
      { err := some (": unable to parse `" ++ text ++ "`: " ++ msg), node := n, st := cp }
    | .ok parsed =>
    match controllerProcessor.insertAll cp.c.Handlers parsed [] with
    | (m, some msg) =>
      { err := some msg, node := n, st := { cp with c := { cp.c with Controller := some m } } }
    | (m, none) =>
      { descend := false, replacement := some (Node.comment "handlers"), node := n,
        st := { cp with c := { cp.c with Controller := some m } } }

/-- Go `aDataProcessor.Process`.  `ParseFields` returns a slice that may be
nil; on a parse error the field list it returned (nil) is stored. -/
def aDataProcessor.Process (P : Parsers) : NodeHandler componentElementHandler :=
  fun n _ dp =>
    if dp.c.Fields.isSome then
      { err := some ": duplicate a:data for component", node := n, st := dp } else
    if dp.indexList.length ≠ 1 then
      { err := some ": must be defined as direct child of <a:component>", node := n, st := dp } else
    match plainTextContent n with
    | .error msg => { err := some msg, node := n, st := dp }
    | .ok text =>
    match P.ParseFields text with
    | .error msg =>
      { err := some (": unable to parse fields: " ++ msg), node := n,
        st := { dp with c := { dp.c with Fields := none } } }
    | .ok fields =>
      { descend := false, replacement := none, err := none, node := n,
        st := { dp with c := { dp.c with Fields := fields } } }

/-- Go `formValueDiscovery`. -/
structure formValueDiscovery where
  values : StrMap formValue

/-- Go `formValueDiscovery.Process`. -/
def formValueDiscovery.Process : NodeHandler formValueDiscovery :=
  fun n _ d =>
    let skip : HandlerResult formValueDiscovery := { node := n, st := d }
    let fail (msg : String) : HandlerResult formValueDiscovery :=
      { err := some msg, node := n, st := d }
    let name := attributes.Val n.Attr "name"
    if name = "" then skip else
    let classified : Except (HandlerResult formValueDiscovery) formValue :=
      match n.DataAtom with
      | .Input =>
        let inputType := attributes.Val n.Attr "type"
        if inputType = "radio" then .ok { t := .StringVar, radio := true }
        else if inputType = "number" ∨ inputType = "range" then
          if (attributes.Val n.Attr "min").contains '.' ∨
             (attributes.Val n.Attr "max").contains '.' ∨
             (attributes.Val n.Attr "step").contains '.' then
            .error (fail (": non-integer " ++ inputType ++ " inputs not supported"))
          else .ok { t := .IntVar, radio := false }
        else if inputType = "text" ∨ inputType = "" then .ok { t := .StringVar, radio := false }
        else if inputType = "submit" ∨ inputType = "reset" ∨ inputType = "hidden" then
          .error skip
        else .error (fail (": unsupported input type: `" ++ inputType ++ "`"))
      | .Select => .ok { t := .StringVar, radio := false }
      | .Textarea => .ok { t := .StringVar, radio := false }
      | _ => .error skip
    match classified with
    | .error r => r
    | .ok v =>
      match d.values.lookup name with
      | some existing =>
        if v.radio ∧ existing.radio then skip
        else fail (": duplicate name `" ++ name ++ "` in same form")
      | none => { node := n, st := { values := mapSet d.values name v } }

/-- Go `discoverFormValues`: the map of the form, nil on error.  No handler of
this walk replaces or changes a node, so the children of the form stay as they
are. -/
def discoverFormValues (form : Node) : Option (StrMap formValue) × Option String :=
  let w : Walker formValueDiscovery :=
    { TextNode := some walker.Allow, Embed := some walker.DontDescend,
      Handlers := some walker.DontDescend, Text := some walker.Allow,
      StdElements := some formValueDiscovery.Process }
  let r := w.WalkChildren form.Children { values := [] }
  match r.err with
  | some msg => (none, some msg)
  | none => (some r.st.values, none)

/-- Go `stdElementHandler.formDepth`; `mapCaptures`, `processBindings` and
`processAssignments` compute the same value in their first lines. -/
def stdElementHandler.formDepth (seh : stdElementHandler) : Int :=
  if seh.curFormPos = -1 then -1
  else (seh.indexList.length : Int) - seh.curFormPos

/-- Handler lookup of `mapCaptures` (the first part of its loop body): the
signature found and `fromController`, or the error. -/
def mapCaptures.lookupHandler (c : Component) (name : String) :
    Except String (Handler × Bool) :=
  match mapGet c.Handlers name with
  | some h => .ok (h, false)
  | none =>
    match mapGet c.Controller name with
    | some cm =>
      if !cm.CanCapture then
        .error ("capture references handler whose parameter types are not only int, string and bool: "
          ++ name)
      else .ok (cm.Handler, true)
    | none => .error ("capture references unknown handler: " ++ name)

/-- The loop of `mapCaptures` over the formal parameters `h.Params`.
`notMapped` is the set of user-supplied names not yet matched, `mapped` the
bound parameters so far. -/
def mapCaptures.mapParams (formDepth : Int) (curForm : Option (StrMap formValue))
    (paramMappings : StrMap BoundValue) :
    List Param → List String → List BoundParam → Except String (List BoundParam × List String)
  | [], notMapped, mapped => .ok (mapped, notMapped)
  | p :: rest, notMapped, mapped =>
    match paramMappings.lookup p.Name with
    | none =>
      mapCaptures.mapParams formDepth curForm paramMappings rest notMapped
        (mapped ++ [{ Param := p.Name, Value := { Kind := .BoundData, ID := p.Name } }])
    | some bVal =>
      let notMapped := notMapped.filter (fun k => k != p.Name)
      if bVal.Kind = .BoundFormValue then
        if formDepth = -1 then .error ": illegal form() binding outside of <form> element"
        else
          let bVal := { bVal with FormDepth := formDepth }
          match mapGet curForm bVal.ID with
          | none => .error (": unknown form value name: `" ++ bVal.ID ++ "`")
          | some _ =>
            mapCaptures.mapParams formDepth curForm paramMappings rest notMapped
              (mapped ++ [{ Param := p.Name, Value := bVal }])
      else
        mapCaptures.mapParams formDepth curForm paramMappings rest notMapped
          (mapped ++ [{ Param := p.Name, Value := bVal }])

/-- The body of the loop of `mapCaptures` over the raw captures: one raw
capture is resolved to an `EventMapping`.  Go iterates over the set
`notMapped` in unspecified order and reports the first name it meets; here
that is the first name in the order of the user-supplied mappings. -/
def mapCaptures.mapOne (c : Component) (formDepth : Int)
    (curForm : Option (StrMap formValue)) (unmapped : UnboundEventMapping) :
    Except String EventMapping :=
  match mapCaptures.lookupHandler c unmapped.Handler with
  | .error msg => .error msg
  | .ok (h, fromController) =>
    match mapCaptures.mapParams formDepth curForm unmapped.ParamMappings h.Params
        (unmapped.ParamMappings.map Prod.fst) [] with
    | .error msg => .error msg
    | .ok (mapped, notMapped) =>
      match notMapped with
      | unknown :: _ => .error ("unknown param for capture mapping: " ++ unknown)
      | [] =>
        let handling :=
          if unmapped.Handling = .AutoPreventDefault then
            match h.Returns with
            | some r => if r.Kind = .BoolType then EventHandling.AskPreventDefault
                        else EventHandling.DontPreventDefault
            | none => EventHandling.DontPreventDefault
          else unmapped.Handling
        .ok { Event := unmapped.Event, Handler := unmapped.Handler, ParamMappings := mapped,
              Handling := handling, FromController := fromController }

/-- The loop of `mapCaptures` over the raw captures; `ret` collects the
resolved mappings. -/
def mapCaptures.mapAll (c : Component) (formDepth : Int)
    (curForm : Option (StrMap formValue)) :
    List UnboundEventMapping → List EventMapping → Except String (List EventMapping)
  | [], ret => .ok ret
  | unmapped :: rest, ret =>
    match mapCaptures.mapOne c formDepth curForm unmapped with
    | .error msg => .error msg
    | .ok m => mapCaptures.mapAll c formDepth curForm rest (ret ++ [m])

/-- Go `componentElementHandler.mapCaptures`. -/
def componentElementHandler.mapCaptures (ceh : componentElementHandler) (_n : Node)
    (v : List UnboundEventMapping) : componentElementHandler × Option String :=
  if v.length = 0 then (ceh, none) else
  let formDepth : Int :=
    if ceh.curFormPos ≠ -1 then (ceh.indexList.length : Int) - ceh.curFormPos else -1
  match mapCaptures.mapAll ceh.c formDepth ceh.curForm v [] with
  | .error msg => (ceh, some msg)
  | .ok ret =>
    ({ ceh with c := { ceh.c with
        Captures := ceh.c.Captures ++ [{ Path := ceh.indexList, Mappings := ret }] } }, none)

/-- The loop of `processBindings`; `vars` is `ceh.c.Variables`. -/
def processBindings.loop (formDepth : Int) (curForm : Option (StrMap formValue))
    (path : List Nat) :
    List VariableMapping → List VariableMapping → List VariableMapping × Option String
  | [], vars => (vars, none)
  | vb :: rest, vars =>
    if vb.Value.Kind = .BoundFormValue then
      if formDepth = -1 then (vars, some ": illegal form() binding outside of <form> element")
      else
        let vb := { vb with Value := { vb.Value with FormDepth := formDepth } }
        match mapGet curForm vb.Value.ID with
        | none => (vars, some (": unknown form value name: `" ++ vb.Value.ID ++ "`"))
        | some val =>
          let vb := if vb.Variable.Typ = .AutoVar then
              { vb with Variable := { vb.Variable with Typ := val.t } } else vb
          processBindings.loop formDepth curForm path rest (vars ++ [{ vb with Path := path }])
    else
      let vb := if vb.Variable.Typ = .AutoVar then
          (if vb.Value.Kind = .BoundClass then
            { vb with Variable := { vb.Variable with Typ := .BoolVar } }
           else { vb with Variable := { vb.Variable with Typ := .StringVar } })
        else vb
      processBindings.loop formDepth curForm path rest (vars ++ [{ vb with Path := path }])

/-- Go `componentElementHandler.processBindings`. -/
def componentElementHandler.processBindings (ceh : componentElementHandler)
    (arr : List VariableMapping) : componentElementHandler × Option String :=
  let formDepth : Int :=
    if ceh.curFormPos ≠ -1 then (ceh.indexList.length : Int) - ceh.curFormPos else -1
  let path := ceh.indexList
  let r := processBindings.loop formDepth ceh.curForm path arr ceh.c.Variables
  ({ ceh with c := { ceh.c with Variables := r.1 } }, r.2)

/-- The loop of `processAssignments`; `assignments` is `seh.b.Assignments`. -/
def processAssignments.loop (formDepth : Int) (curForm : Option (StrMap formValue))
    (path : List Nat) :
    List Assignment → List Assignment → List Assignment × Option String
  | [], assignments => (assignments, none)
  | a :: rest, assignments =>
    if a.Target.Kind = .BoundFormValue then
      if formDepth = -1 then
        (assignments, some ": illegal form() binding outside of <form> element")
      else
        let a := { a with Target := { a.Target with FormDepth := formDepth } }
        match mapGet curForm a.Target.ID with
        | none => (assignments, some (": unknown form value name: `" ++ a.Target.ID ++ "`"))
        | some _ =>
          processAssignments.loop formDepth curForm path rest (assignments ++ [{ a with Path := path }])
    else
      processAssignments.loop formDepth curForm path rest (assignments ++ [{ a with Path := path }])

/-- Go `stdElementHandler.processAssignments`. -/
def stdElementHandler.processAssignments (seh : stdElementHandler)
    (arr : List Assignment) (path : List Nat) : stdElementHandler × Option String :=
  let formDepth : Int :=
    if seh.curFormPos ≠ -1 then (seh.indexList.length : Int) - seh.curFormPos else -1
  let r := processAssignments.loop formDepth seh.curForm path arr seh.b.Assignments
  ({ seh with b := { seh.b with Assignments := r.1 } }, r.2)

/-- Go `stdElementHandler.updateCurForm`. -/
def stdElementHandler.updateCurForm (seh : stdElementHandler) (n : Node) :
    stdElementHandler × Option String :=
  let seh := if (seh.indexList.length : Int) ≤ seh.curFormPos then
      { seh with curFormPos := -1, curForm := none } else seh
  if n.DataAtom = .Form then
    if seh.curFormPos ≠ -1 then (seh, some ": nested <form> not allowed")
    else
      let seh := { seh with curFormPos := (seh.indexList.length : Int) }
      match discoverFormValues n with
      | (_, some msg) => (seh, some msg)
      | (vals, none) => ({ seh with curForm := vals }, none)
  else (seh, none)

/-- Go `stdElementHandler.handleControlBlocksAndAssignments`.  `walkInner`
is the walk of the children of `n` by the walker built for the control block
(`w.WalkChildren(n, ...)`), from the state of the inner handler `cp`.  The
results of `cp.processAssignments` and of the inner walk are used for their
effects; the error of either is not returned. -/
def stdElementHandler.handleControlBlocksAndAssignments (seh : stdElementHandler)
    (walkInner : stdElementHandler → WalkResult stdElementHandler)
    (n : Node) (attrs : General) : HandlerResult stdElementHandler :=
  let block := attrs.If
  if attrs.For.isSome ∧ block.isSome then
    { descend := false, err := some ": cannot have a:if and a:for on same element",
      node := n, st := seh } else
  let block := match attrs.For with
    | some f => some f
    | none => block
  match block with
  | some block =>
    let block := block.setPath seh.indexList
    let cp : stdElementHandler :=
      { syms := seh.syms, indexList := [], b := block.Block,
        curFormPos := seh.curFormPos, curForm := seh.curForm }
    let cp := (cp.processAssignments attrs.Assign []).1
    let r := walkInner cp
    let inner := r.st.b
    let block := block.setBlock
      { inner with Controlled := reverseCopy ControlBlock.zero inner.Controlled }
    { descend := false, err := none, node := n.setChildren r.nodes,
      st := { seh with syms := r.st.syms,
                       b := { seh.b with Controlled := seh.b.Controlled ++ [block] } } }
  | none =>
    match seh.processAssignments attrs.Assign seh.indexList with
    | (seh, some msg) => { descend := false, err := some msg, node := n, st := seh }
    | (seh, none) => { descend := true, err := none, node := n, st := seh }

/-- Go `aTextProcessor.Process`, on the block and the index path of a
handler state. -/
def aTextProcessor.Process (atp : stdElementHandler) (n : Node) :
    HandlerResult stdElementHandler :=
  let expr := attributes.Val n.Attr "expr"
  if expr = "" then { err := some ": missing attribute `expr`", node := n, st := atp } else
  if n.Children.isEmpty = false then
    { err := some ": node may not have child nodes", node := n, st := atp } else
  { descend := false, replacement := some (Node.comment "a:text"), err := none, node := n,
    st := { atp with b := { atp.b with
      Assignments := atp.b.Assignments ++
        [{ Expression := expr, Path := atp.indexList, Target := { Kind := .BoundSelf } }] } } }

/-- Go `ctrlBlockElementProcessor.Process`. -/
def ctrlBlockElementProcessor.Process : NodeHandler stdElementHandler :=
  fun n walkInner cbeh =>
    match cbeh.updateCurForm n with
    | (cbeh, some msg) => { err := some msg, node := n, st := cbeh }
    | (cbeh, none) =>
    match n.Ext.General with
    | .error msg => { err := some msg, node := n, st := cbeh }
    | .ok attrs =>
    if attrs.Capture.length > 0 then
      { err := some ": cannot capture inside a:if or a:for", node := n, st := cbeh } else
    if attrs.Bindings.length > 0 then
      { err := some ": cannot bind inside a:if or a:for", node := n, st := cbeh } else
    cbeh.handleControlBlocksAndAssignments walkInner n attrs

/-- The embed processor as a handler of a walk on `stdElementHandler`. -/
def embedHandler (P : Parsers) (seh : stdElementHandler) (n : Node) :
    HandlerResult stdElementHandler :=
  let r := EmbedProcessor.Process P n seh.syms seh.indexList
  { descend := r.descend, replacement := r.replacement, err := r.err, node := r.node,
    st := { seh with syms := r.st } }

/-- The index path `&indexList` that a walker shares with the handlers of a
control block. -/
def stdElementHandler.indexRef : IndexRef stdElementHandler :=
  { get := fun s => s.indexList, set := fun l s => { s with indexList := l } }

/-- The walker `handleControlBlocksAndAssignments` builds for a control block:
text nodes allowed, `<a:text>`, `<a:embed>` and plain elements handled, the
index path shared. -/
def ctrlBlockWalker (P : Parsers) : Walker stdElementHandler :=
  { TextNode := some walker.Allow,
    Text := some (fun n _ s => aTextProcessor.Process s n),
    Embed := some (fun n _ s => embedHandler P s n),
    StdElements := some ctrlBlockElementProcessor.Process,
    IndexList := some stdElementHandler.indexRef }

/-- A result on `stdElementHandler` as a result on the component handler that
extends it. -/
def componentElementHandler.lift (ceh : componentElementHandler)
    (r : HandlerResult stdElementHandler) : HandlerResult componentElementHandler :=
  { descend := r.descend, replacement := r.replacement, err := r.err, node := r.node,
    st := { ceh with tostdElementHandler := r.st } }

/-- Go `componentElementHandler.Process`. -/
def componentElementHandler.Process (P : Parsers) : NodeHandler componentElementHandler :=
  fun n _ ceh =>
    match ceh.updateCurForm n with
    | (seh, some msg) =>
      { err := some msg, node := n, st := { ceh with tostdElementHandler := seh } }
    | (seh, none) =>
    let ceh := { ceh with tostdElementHandler := seh }
    match n.Ext.General with
    | .error msg => { err := some msg, node := n, st := ceh }
    | .ok attrs =>
    let r := ceh.tostdElementHandler.handleControlBlocksAndAssignments
      (fun cp => (ctrlBlockWalker P).WalkChildren n.Children cp) n attrs
    let ceh := { ceh with tostdElementHandler := r.st }
    if r.descend then
      match ceh.mapCaptures r.node attrs.Capture with
      | (ceh, some msg) => { err := some (": " ++ msg), node := r.node, st := ceh }
      | (ceh, none) =>
        match ceh.processBindings attrs.Bindings with
        | (ceh, some msg) => { err := some msg, node := r.node, st := ceh }
        | (ceh, none) => { descend := true, err := r.err, node := r.node, st := ceh }
    else
      if attrs.Capture.length > 0 then
        { err := some ": cannot capture inside a:if or a:for", node := r.node, st := ceh } else
      if attrs.Bindings.length > 0 then
        { err := some ": cannot bind inside a:if or a:for", node := r.node, st := ceh } else
      { descend := false, err := r.err, node := r.node, st := ceh }

/-- The index path `&indexList` that the walker of a component shares with
its handlers. -/
def componentElementHandler.indexRef : IndexRef componentElementHandler :=
  { get := fun s => s.indexList, set := fun l s => { s with indexList := l } }

/-- The walker `Processor.Process` builds for the children of a component. -/
def componentWalker (P : Parsers) : Walker componentElementHandler :=
  { TextNode := some walker.Allow,
    Text := some (fun n _ s => s.lift (aTextProcessor.Process s.tostdElementHandler n)),
    Embed := some (fun n _ s => s.lift (embedHandler P s.tostdElementHandler n)),
    Handlers := some (handlersProcessor.Process P),
    Controller := some (controllerProcessor.Process P),
    Data := some (aDataProcessor.Process P),
    StdElements := some (componentElementHandler.Process P),
    IndexList := some componentElementHandler.indexRef }

/-- The value a result of Go `int` arithmetic has on a 64-bit platform: the
integer in the range from -2^63 to 2^63 - 1 that differs from `x` by a
multiple of 2^64. -/
def goInt.wrap (x : Int) : Int :=
  (x + 9223372036854775808) % 18446744073709551616 - 9223372036854775808

/-- The values of Go `int` on a 64-bit platform. -/
def goInt.inRange (x : Int) : Prop :=
  -9223372036854775808 ≤ x ∧ x ≤ 9223372036854775807

/-- Go `strings.ToLower`: in a string of ASCII characters only, the letters
`A` to `Z` are replaced by `a` to `z`; in any other string every character is
mapped with `unicode.ToLower`, which is the argument `lower`. -/
def strings.ToLower (lower : Char → Char) (s : String) : String :=
  if s.data.all (fun c => c.toNat < 128) then
    String.mk (s.data.map (fun c => if 'A' ≤ c ∧ c ≤ 'Z' then Char.ofNat (c.toNat + 32) else c))
  else String.mk (s.data.map lower)

/-- Go `Processor`; `counter` is the `int` the pointer refers to. -/
structure Processor where
  syms : Symbols
  counter : Int

/-- What `Processor.Process` returns and leaves behind: its three results, the
processor afterwards, and the component it built (`none` if it returned
before building one). -/
structure ProcessResult where
  descend : Bool := false
  replacement : Option Node := none
  err : Option String := none
  p : Processor
  cmp : Option Component := none

/-- The synthesised id of the component that `Processor.Process` builds when
the counter holds `p.counter`: `(*p.counter)++` followed by
`fmt.Sprintf("askew-component-%d-%s", *p.counter, strings.ToLower(name))`.
The verb `%d` writes an `int` in decimal, with a minus sign if it is
negative. -/
def Processor.componentID (P : Parsers) (p : Processor) (cmpAttrs : ComponentAttrs) :
    String :=
  "askew-component-" ++ toString (goInt.wrap (p.counter + 1)) ++ "-"
    ++ strings.ToLower P.ToLower cmpAttrs.Name

/-- The template node `Processor.Process` creates as replacement, before the
walk has filled in its children. -/
def Processor.newTemplate (P : Parsers) (p : Processor) (cmpAttrs : ComponentAttrs) : Node :=
  Node.mk .ElementNode .Template "template"
    [{ Key := "id", Val := p.componentID P cmpAttrs }] {} []

/-- The component `Processor.Process` creates before the walk. -/
def Processor.newComponent (P : Parsers) (p : Processor) (cmpAttrs : ComponentAttrs) :
    Component :=
  { Name := cmpAttrs.Name, ID := p.componentID P cmpAttrs,
    Template := p.newTemplate P cmpAttrs,
    Parameters := cmpAttrs.Params, Init := cmpAttrs.Init }

/-- The walk of `Processor.Process` over the children of the component
element: the call `w.WalkChildren(replacement, ...)` with the handlers of the
component, an empty index path, no form scope and a fresh embed host. -/
def Processor.walk (P : Parsers) (p : Processor) (cmpAttrs : ComponentAttrs) (n : Node) :
    WalkResult componentElementHandler :=
  (componentWalker P).WalkChildren n.Children
    { syms := { p.syms with CurHost := {} }, indexList := [],
      b := (p.newComponent P cmpAttrs).Block, curFormPos := -1, curForm := none,
      c := p.newComponent P cmpAttrs }

/-- Go `Processor.Process`. -/
def Processor.Process (P : Parsers) (p : Processor) (n : Node) : ProcessResult :=
  match n.Ext.Component with
  | .error msg => { err := some msg, p := p }
  | .ok cmpAttrs =>
    if cmpAttrs.Name.length = 0 then { err := some ": attribute `name` missing", p := p } else
    let r := p.walk P cmpAttrs n
    let replacement := (p.newTemplate P cmpAttrs).setChildren r.nodes
    let embeds := reverseCopy Embed.zero r.st.syms.CurHost.Embeds
    let controlled := reverseCopy ControlBlock.zero r.st.b.Controlled
    let cmp := { r.st.c with Template := replacement, Embeds := embeds,
                             Block := { r.st.b with Controlled := controlled } }
    let syms := { r.st.syms with
      CurHost := { Embeds := embeds },
      Components := some (mapSet (r.st.syms.Components.getD []) cmpAttrs.Name cmp) }
    { descend := false, replacement := some replacement, err := r.err,
      p := { syms := syms, counter := goInt.wrap (p.counter + 1) }, cmp := some cmp }


/-! ## Package `units`: the site descriptor -/

/-- Go `filepath.Base` with the separator `/`: the last element of the path.
Trailing separators are removed first; the empty path gives `.`, a path of
separators only gives `/`. -/
def filepath.Base (path : String) : String :=
  if path = "" then "." else
  let stripped := path.data.reverse.dropWhile (fun c => c == '/')
  let last := (stripped.takeWhile (fun c => c != '/')).reverse
  if last = [] then "/" else String.mk last

/-- Go `data.ASiteFile`, the fields `processSiteDescriptor` reads and writes:
the base name and the path of the file, the parsed document, and the four
output paths. -/
structure ASiteFile where
  BaseName : String
  Path : String := ""
  Document : Node
  HTMLFile : String := ""
  JSPath : String := ""
  WASMExecPath : String := ""
  WASMPath : String := ""

/-- The root element of a site, `site.Document.FirstChild.NextSibling`: the
second child of the document, `none` if there is none. -/
def ASiteFile.rootNode (site : ASiteFile) : Option Node :=
  match site.Document.Children with
  | _ :: root :: _ => some root
  | _ => none

/-- The assignments `rootNode.Data = "html"` and
`rootNode.DataAtom = atom.Html`; `atom.Html` is an atom the analyser never
compares with, `Atom.Other`. -/
def Node.toHtml : Node → Node
  | .mk t _ _ as e c => .mk t .Other "html" as e c

/-- Go `processSiteDescriptor`.  The site after the call and the error.  When
the document has no second child the root node is nil and the run ends in a
panic, reported as an error. -/
def processSiteDescriptor (site : ASiteFile) : ASiteFile × Option String :=
  match site.rootNode with
  | none => (site, some nilDereference)
  | some rootNode =>
    match rootNode.Ext.Site with
    | .error msg => (site, some msg)
    | .ok siteAttrs =>
      let htmlFile := if siteAttrs.HTMLFile = "" then "index.html" else siteAttrs.HTMLFile
      let jsPath :=
        if siteAttrs.JSPath = "" then filepath.Base site.BaseName ++ ".js" else siteAttrs.JSPath
      let wasmExecPath :=
        if siteAttrs.WASMExecPath = "" then "wasm_exec.js" else siteAttrs.WASMExecPath
      let wasmPath :=
        if siteAttrs.WASMPath = "" then filepath.Base site.BaseName ++ ".wasm"
        else siteAttrs.WASMPath
      ({ site with
          HTMLFile := htmlFile, JSPath := jsPath, WASMExecPath := wasmExecPath,
          WASMPath := wasmPath,
          Document := site.Document.setChildren
            (site.Document.Children.set 1 rootNode.toHtml) }, none)


/-! ## Statements and example inputs -/

/-- The bound parameter the capture resolver stores for the formal parameter
`p`: the user-supplied mapping of that name, with its `FormDepth` set to the
form depth if it is a form value, or `Data(p.Name)` if there is none. -/
def expectedParam (formDepth : Int) (paramMappings : StrMap BoundValue) (p : Param) :
    BoundParam :=
  match paramMappings.lookup p.Name with
  | some bVal =>
    { Param := p.Name,
      Value := if bVal.Kind = .BoundFormValue then { bVal with FormDepth := formDepth } else bVal }
  | none => { Param := p.Name, Value := { Kind := .BoundData, ID := p.Name } }

/-- The table of lower case for the examples: the capital letters of ASCII
and of Latin-1 are mapped as `unicode.ToLower` maps them, every other
character to itself. -/
def latinToLower (c : Char) : Char :=
  if ('A' ≤ c ∧ c ≤ 'Z') ∨ ('À' ≤ c ∧ c ≤ 'Þ' ∧ c ≠ '×') then Char.ofNat (c.toNat + 32)
  else c

/-- Parsers for the examples: the handler declarations
`onClick(n int, s string)` and `h(q string)` are known, no fields, no
arguments. -/
def exampleParsers : Parsers :=
  { ParseHandlers := fun text =>
      if text = "onClick(n int, s string)" then
        .ok [{ Name := "onClick",
               Params := [{ Name := "n", Typ := { Kind := .IntType } },
                          { Name := "s", Typ := { Kind := .StringType } }],
               Returns := none }]
      else if text = "h(q string)" then
        .ok [{ Name := "h", Params := [{ Name := "q", Typ := { Kind := .StringType } }],
               Returns := none }]
      else .error "syntax error",
    ParseFields := fun _ => .ok none,
    AnalyseArguments := fun _ => .ok {},
    ToLower := latinToLower }

/-- A plain HTML element with its parsed askew attributes. -/
def plainElement (tag : String) (atom : Atom) (attr : List Attribute) (g : General)
    (children : List Node) : Node :=
  .mk .ElementNode atom tag attr { General := .ok g } children

/-- An `<a:embed name=... type=...>` without children. -/
def embedElement (field type : String) : Node :=
  .mk .ElementNode .Zero "a:embed" [] { Embed := .ok { Name := field, T := type } } []

/-- An `<a:component name=...>` with the given children. -/
def componentElement (name : String) (children : List Node) : Node :=
  .mk .ElementNode .Zero "a:component" [] { Component := .ok { Name := name } } children

/-- An `<a:text>` element with the given attributes. -/
def textElement (attr : List Attribute) : Node :=
  .mk .ElementNode .Zero "a:text" attr {} []

/-- An `<a:handlers>` element with the given text. -/
def handlersElement (text : String) : Node :=
  .mk .ElementNode .Zero "a:handlers" [] {} [Node.text text]

/-- The control block the attribute parser delivers for `a:if="expr"`. -/
def ifBlock (expr : String) : ControlBlock := .mk .IfBlock "" "" expr [] [] []

/-- A symbol table in which the component `T`, without parameters, can be
embedded. -/
def exampleSymbols : Symbols := { Targets := [{}], Refs := [("T", (0, "T", ""))] }

/-- A processor before its first component. -/
def exampleProcessor : Processor := { syms := exampleSymbols, counter := 0 }

/-- The form scope of `<form><input name="q" type="text"><input name="n"
type="number" min="1"></form>`. -/
def exampleFormScope : Option (StrMap formValue) :=
  some [("q", { t := .StringVar, radio := false }), ("n", { t := .IntVar, radio := false })]

/-- A component with the handlers `onClick(n int, s string)` and
`h(q string)`. -/
def exampleComponent : Component :=
  { Name := "C",
    Handlers := some
      [("onClick", { Params := [{ Name := "n", Typ := { Kind := .IntType } },
                                { Name := "s", Typ := { Kind := .StringType } }],
                     Returns := none }),
       ("h", { Params := [{ Name := "q", Typ := { Kind := .StringType } }],
               Returns := none })] }

/-- The handler state at an element at depth 3 inside a form that began at
depth 1. -/
def insideForm : componentElementHandler :=
  { syms := {}, indexList := [0, 0, 0], b := {}, curFormPos := 1,
    curForm := exampleFormScope, c := exampleComponent }

/-- A `<button>` element. -/
def button : Node := plainElement "button" .Other [] {} []

/-- The raw capture `click:onClick`. -/
def clickCapture : UnboundEventMapping :=
  { Event := "click", Handler := "onClick", ParamMappings := [],
    Handling := .AutoPreventDefault }

/-- The raw capture `click:h{q=form(q)}`. -/
def formCapture : UnboundEventMapping :=
  { Event := "click", Handler := "h",
    ParamMappings := [("q", { Kind := .BoundFormValue, ID := "q" })],
    Handling := .AutoPreventDefault }

/-- The binding `form(n):count`. -/
def formBinding : VariableMapping :=
  { Value := { Kind := .BoundFormValue, ID := "n" },
    Variable := { Typ := .AutoVar, Name := "count" } }

/-- The assignment `form(q)=x`. -/
def formAssignment : Assignment :=
  { Expression := "x", Target := { Kind := .BoundFormValue, ID := "q" } }

/-- The component
`<a:component name="C"><a:embed name="a" type="T"/><a:embed name="b" type="T"/></a:component>`:
two direct embeds at sibling indices 0 and 1. -/
def twoEmbeds : Node :=
  componentElement "C" [embedElement "a" "T", embedElement "b" "T"]

/-- The component `<a:component name="C"><p></p><div a:if="c"><span></span>
<a:embed name="a" type="T"/></div></a:component>` (without the whitespace):
an embed at index 1 of a control element that is at index 1. -/
def embedInControlBlock : Node :=
  componentElement "C"
    [plainElement "p" .Other [] {} [],
     plainElement "div" .Other [] { If := some (ifBlock "c") }
       [plainElement "span" .Other [] {} [], embedElement "a" "T"]]

/-- The component `<a:component name="C"><div a:if="c"><a:text></a:text></div>
</a:component>`: an `<a:text>` without `expr` inside a control block. -/
def textErrorInControlBlock : Node :=
  componentElement "C"
    [plainElement "div" .Other [] { If := some (ifBlock "c") } [textElement []]]

/-- The component `<a:component name="C"><a:handlers>onClick(n int, s string)
</a:handlers><div a:if="c"><span a:capture="click:onClick"></span></div>
</a:component>`: a capture on a descendant of a control element. -/
def captureInControlBlock : Node :=
  componentElement "C"
    [handlersElement "onClick(n int, s string)",
     plainElement "div" .Other [] { If := some (ifBlock "c") }
       [plainElement "span" .Other [] { Capture := [clickCapture] } []]]

/-- The element `<p a:if="c" a:assign="form(q)=x"></p>`. -/
def controlWithFormAssignment : Node :=
  plainElement "p" .Other [] { If := some (ifBlock "c"), Assign := [formAssignment] } []

/-- The component `<a:component name="C"><p a:if="c" a:assign="form(q)=x"></p>
</a:component>`: a form value outside of any form, on a control element. -/
def formValueOutsideForm : Node :=
  componentElement "C" [controlWithFormAssignment]

/-- The component `<a:component name="C"><div><form><input name="q">
<p a:if="c" a:assign="form(q)=x"></p></form></div></a:component>`: a control
element with a form assignment inside a form that begins at depth 2. -/
def controlInsideForm : Node :=
  componentElement "C"
    [plainElement "div" .Other [] {}
      [plainElement "form" .Form [] {}
        [plainElement "input" .Input [{ Key := "name", Val := "q" }] {} [],
         controlWithFormAssignment]]]

/-- The handler state at a top-level element of a component, outside of any
form. -/
def atTopLevel : componentElementHandler :=
  { syms := exampleSymbols, indexList := [0], b := {}, curFormPos := -1, curForm := none,
    c := exampleComponent }

/-- Document order of two index paths: `a` is visited before `b` by a
depth-first walk, i.e. `a` is a proper prefix of `b` or is smaller at the
first index where they differ. -/
def docBefore : List Nat → List Nat → Bool
  | [], [] => false
  | [], _ :: _ => true
  | _ :: _, [] => false
  | x :: a, y :: b => x < y || (x == y && docBefore a b)

/-- A list of paths is in reverse document order: each path is visited after
all the paths that follow it in the list. -/
def reverseDocOrder : List (List Nat) → Bool
  | [] => true
  | p :: rest => rest.all (fun q => docBefore q p) && reverseDocOrder rest

mutual

/-- The `Controlled` list of the inner block of a control block is in reverse
document order, and so is that of every control block nested in it, at any
depth. -/
def ControlBlock.revOrdered : ControlBlock → Bool
  | .mk _ _ _ _ _ _ ctl =>
    reverseDocOrder (ctl.map ControlBlock.Path) && ControlBlock.allRevOrdered ctl

/-- Every control block of the list satisfies `revOrdered`. -/
def ControlBlock.allRevOrdered : List ControlBlock → Bool
  | [] => true
  | c :: rest => c.revOrdered && ControlBlock.allRevOrdered rest

end

/-- The `Controlled` list of a block is in reverse document order, and so is
that of the inner block of every control block in it, at any depth. -/
def Block.revOrdered (b : Block) : Bool :=
  reverseDocOrder (b.Controlled.map ControlBlock.Path) && ControlBlock.allRevOrdered b.Controlled

/-- The control blocks that the attribute parser delivered for an element
(`a:if`, `a:for`) have no nested control blocks yet: the parser fills in the
kind and the expression and leaves the inner block to the analyser. -/
def General.fresh (g : General) : Bool :=
  (match g.If with
   | some b => b.Block.Controlled.isEmpty
   | none => true) &&
  (match g.For with
   | some b => b.Block.Controlled.isEmpty
   | none => true)

mutual

/-- Every element of the tree has askew attributes as the parser delivers
them, in the sense of `General.fresh`. -/
def Node.freshBlocks : Node → Bool
  | .mk _ _ _ _ e kids =>
    (match e.General with
     | .ok g => g.fresh
     | .error _ => true) && Node.allFreshBlocks kids

/-- Every node of the list satisfies `freshBlocks`. -/
def Node.allFreshBlocks : List Node → Bool
  | [] => true
  | n :: rest => n.freshBlocks && Node.allFreshBlocks rest

end

/-- The component `<a:component name="C"><div a:if="a"><p a:if="b"></p>
<p a:if="c"></p></div><div a:if="d"></div></a:component>`: two control
elements at the top level, the first with two nested ones. -/
def nestedControlBlocks : Node :=
  componentElement "C"
    [plainElement "div" .Other [] { If := some (ifBlock "a") }
       [plainElement "p" .Other [] { If := some (ifBlock "b") } [],
        plainElement "p" .Other [] { If := some (ifBlock "c") } []],
     plainElement "div" .Other [] { If := some (ifBlock "d") } []]

/-- The state of a block while its walk is under way: its control blocks are
in document order, each of them was entered before the path `bound`, and each
of them is complete, i.e. satisfies `revOrdered`. -/
def Ascending (bound : List Nat) (b : Block) : Prop :=
  List.Pairwise (fun x y => docBefore x.Path y.Path = true) b.Controlled ∧
  (∀ c ∈ b.Controlled, docBefore c.Path bound = true) ∧
  ControlBlock.allRevOrdered b.Controlled = true

/-- What the handlers in the slots of `w` have to guarantee for the walker to
keep the block `getB` of the state in document order: a handler leaves the
index path alone, and the block stays in document order -- bounded by the path
of the node if the handler asks to descend, by the path of the next sibling in
any case.  `inner` is the walk of the children of the node. -/
def HandlerKeepsOrder {σ : Type} (w : Walker σ) (ix : IndexRef σ) (getB : σ → Block) : Prop :=
  ∀ (t : NodeType) (a : Atom) (d : String) (as : List Attribute) (e : Extracted)
    (kids : List Node) (h : NodeHandler σ) (inner : σ → WalkResult σ) (s : σ)
    (p : List Nat) (k : Nat),
    w.slot t d = some h → (Node.mk t a d as e kids).freshBlocks = true →
    ix.get s = p ++ [k] → Ascending (p ++ [k]) (getB s) →
    (∀ s1, Ascending (ix.get s1 ++ [0]) (getB s1) →
      Ascending (ix.get s1 ++ [kids.length]) (getB (inner s1).st)) →
    ix.get (h (Node.mk t a d as e kids) inner s).st = p ++ [k] ∧
    ((h (Node.mk t a d as e kids) inner s).descend = true →
      Ascending (p ++ [k]) (getB (h (Node.mk t a d as e kids) inner s).st)) ∧
    Ascending (p ++ [k + 1]) (getB (h (Node.mk t a d as e kids) inner s).st)

/-- Modelled from the spec: the normalised handling for a requested handling
and the return type of the resolved handler.  `AutoPreventDefault` becomes
`AskPreventDefault` if the return type exists and is `bool` and
`DontPreventDefault` otherwise; any other request is kept. -/
def normalisedHandling (requested : EventHandling) (returns : Option ParamType) :
    EventHandling :=
  match requested with
  | .AutoPreventDefault =>
    match returns with
    | some r => if r.Kind = .BoolType then .AskPreventDefault else .DontPreventDefault
    | none => .DontPreventDefault
  | other => other

/-- The raw capture `click:onClick{n=prop(value), x=prop(title)}`: `x` is not
a parameter of `onClick(n int, s string)`. -/
def unknownParamCapture : UnboundEventMapping :=
  { Event := "click", Handler := "onClick",
    ParamMappings := [("n", { Kind := .BoundProperty, ID := "value" }),
                      ("x", { Kind := .BoundProperty, ID := "title" })],
    Handling := .AutoPreventDefault }

/-- The raw capture `submit:onClick{n=prop(value)}` with the handling
`PreventDefault` requested. -/
def preventCapture : UnboundEventMapping :=
  { Event := "submit", Handler := "onClick",
    ParamMappings := [("n", { Kind := .BoundProperty, ID := "value" })],
    Handling := .PreventDefault }

/-- The component `<a:component name="C"><a:handlers>onClick(n int, s string)
</a:handlers><button a:capture="click:onClick
submit:onClick(n=prop(value)) {preventDefault}"></button></a:component>`. -/
def capturingComponent : Node :=
  componentElement "C"
    [handlersElement "onClick(n int, s string)",
     plainElement "button" .Other [] { Capture := [clickCapture, preventCapture] } []]

/-- The key sets of the tables `Handlers` and `Controller` of a component are
disjoint: no name has an entry in both. -/
def Component.namesDisjoint (c : Component) : Prop :=
  ∀ name, ¬ ((mapGet c.Handlers name).isSome = true ∧ (mapGet c.Controller name).isSome = true)

/-- Every handler in the table `Handlers` has only `int`, `string` and `bool`
parameters. -/
def Component.handlersCapturable (c : Component) : Prop :=
  ∀ name h, mapGet c.Handlers name = some h → canCapture h.Params = true

/-- Every method in the table `Controller` carries the flag
`CanCapture = canCapture(params)`. -/
def Component.controllerFlagged (c : Component) : Prop :=
  ∀ name cm, mapGet c.Controller name = some cm → cm.CanCapture = canCapture cm.Handler.Params

/-- Parsers for the examples of the declaration processors.  Handler texts:
`f()`, `g(v Vec)` (a parameter that is not `int`, `string` or `bool`), the two
together, and `f()` twice.  Field texts: `x int` is one field, a blank text is
an empty field list, returned as a nil slice. -/
def declarationParsers : Parsers :=
  { ParseHandlers := fun text =>
      if text = "f()" then .ok [{ Name := "f", Params := [], Returns := none }]
      else if text = "g(v Vec)" then
        .ok [{ Name := "g", Params := [{ Name := "v", Typ := { Kind := .OtherType } }],
               Returns := none }]
      else if text = "f() g(v Vec)" then
        .ok [{ Name := "f", Params := [], Returns := none },
             { Name := "g", Params := [{ Name := "v", Typ := { Kind := .OtherType } }],
               Returns := none }]
      else if text = "f() f()" then
        .ok [{ Name := "f", Params := [], Returns := none },
             { Name := "f", Params := [], Returns := none }]
      else .error "syntax error",
    ParseFields := fun text =>
      if text = "x int" then .ok (some [{ Name := "x", Typ := "int" }])
      else if text = " " then .ok none
      else .error "syntax error",
    AnalyseArguments := fun _ => .ok {},
    ToLower := latinToLower }

/-- An `<a:controller>` element with the given text. -/
def controllerElement (text : String) : Node :=
  .mk .ElementNode .Zero "a:controller" [] {} [Node.text text]

/-- An `<a:data>` element with the given text. -/
def dataElement (text : String) : Node :=
  .mk .ElementNode .Zero "a:data" [] {} [Node.text text]

/-- The handler state at a direct child of a component that has no tables
yet. -/
def atDirectChild : componentElementHandler :=
  { syms := {}, indexList := [0], b := {}, curFormPos := -1, curForm := none,
    c := { Name := "C" } }

/-- An element with the given tag, no attributes and no child nodes, such as
`<a:handlers></a:handlers>`. -/
def emptyElement (tag : String) : Node :=
  .mk .ElementNode .Zero tag [] {} []

/-- The callback of a handler that does not walk anything. -/
def noWalk : componentElementHandler → WalkResult componentElementHandler :=
  fun s => { nodes := [], err := none, st := s }

/-- An `<a:embed name=... type=... list>` without children. -/
def listEmbedElement (field type : String) : Node :=
  .mk .ElementNode .Zero "a:embed" []
    { Embed := .ok { Name := field, T := type, List := true } } []

/-- An `<a:embed name=... type=... optional>` without children. -/
def optionalEmbedElement (field type : String) : Node :=
  .mk .ElementNode .Zero "a:embed" []
    { Embed := .ok { Name := field, T := type, Optional := true } } []

/-- A node that is not dispatched to the handler of `<a:construct>`. -/
def Node.notConstruct (c : Node) : Prop :=
  c.Typ = .TextNode ∨ c.Typ = .CommentNode ∨ c.Data ≠ "a:construct"

/-- The embed that `<a:embed name="e" type="T" list>` at path `[2]` yields. -/
def listEmbedOfT : Embed :=
  { Kind := .ListEmbed, Path := [2], Field := "e", Control := false, T := "T" }

/-- The symbol table `exampleSymbols` after a list embed has referred to `T`. -/
def exampleSymbolsWithList : Symbols :=
  { Targets := [{ NeedsList := true }], Refs := [("T", (0, "T", ""))] }

/-- The element names a walker dispatches to a slot of their own. -/
def askewElementNames : List String :=
  ["a:text", "a:embed", "a:construct", "a:handlers", "a:controller", "a:data", "a:import",
   "a:component", "a:macro"]

/-- A plain element: an element that a walker dispatches to `StdElements`. -/
def Node.isPlainElement (c : Node) : Prop :=
  c.Typ = .ElementNode ∧ c.Data ∉ askewElementNames

/-- The control block the attribute parser delivers for `a:for="i, v := range
items"`. -/
def forBlock : ControlBlock := .mk .ForBlock "i" "v" "items" [] [] []

/-- The assignment `prop(title)=expr`. -/
def propAssignment (expr : String) : Assignment :=
  { Expression := expr, Target := { Kind := .BoundProperty, ID := "title" } }

/-- The attributes `a:for="i, v := range items" a:assign="prop(title)=i"`. -/
def loopAttrs : General := { For := some forBlock, Assign := [propAssignment "i"] }

/-- The element `<li a:for="i, v := range items" a:assign="prop(title)=i">
<b></b><span a:assign="prop(title)=v"></span></li>`: a loop whose second
child carries an assignment. -/
def loopWithSpan : Node :=
  plainElement "li" .Other [] loopAttrs
    [plainElement "b" .Other [] {} [],
     plainElement "span" .Other [] { Assign := [propAssignment "v"] } []]

/-- The element `<div a:for="i, v := range items"><p a:if="b">
<span a:assign="prop(title)=v"></span></p></div>`: an assignment below a
control element that is nested in another one. -/
def nestedControlAssignment : Node :=
  plainElement "div" .Other [] { For := some forBlock }
    [plainElement "p" .Other [] { If := some (ifBlock "b") }
      [plainElement "span" .Other [] { Assign := [propAssignment "v"] } []]]

/-- The handler state at the element with path `[3]`, outside of any form,
with an empty block. -/
def atFourthChild : stdElementHandler :=
  { syms := exampleSymbols, indexList := [3], b := {}, curFormPos := -1, curForm := none }

/-- The handler `cp` that `handleControlBlocksAndAssignments` creates for the
control block `cb` of an element: an empty index path, the block of `cb`, the
symbols and the form scope of the enclosing handler `seh`, after
`cp.processAssignments(attrs.Assign, nil)` has run. -/
def innerHandler (seh : stdElementHandler) (cb : ControlBlock) (attrs : General) :
    stdElementHandler :=
  (({ syms := seh.syms, indexList := [], b := cb.Block, curFormPos := seh.curFormPos,
      curForm := seh.curForm } : stdElementHandler).processAssignments attrs.Assign []).1

/-- The walk `w.WalkChildren(n, ...)` of `handleControlBlocksAndAssignments`
over the children of the control element `n`. -/
def controlWalk (P : Parsers) (n : Node) (cp : stdElementHandler) :
    WalkResult stdElementHandler :=
  (ctrlBlockWalker P).WalkChildren n.Children cp

/-- The node is dispatched to the handler of `<a:construct>`: an element with
that name. -/
def Node.isConstruct (c : Node) : Bool :=
  decide (c.Typ = .ElementNode ∧ c.Data = "a:construct")

/-- The walker `EmbedProcessor.Process` builds for the children of an
`<a:embed>`: whitespace text and `<a:construct>` elements only. -/
def constructWalker (P : Parsers) : Walker constructProcessor :=
  { TextNode := some walker.WhitespaceOnly, Construct := some (constructProcessor.Process P) }

/-- Parsers for the examples of constructor calls: the argument texts `1` and
`1, 2` have one and two arguments, the empty text none. -/
def argumentParsers : Parsers :=
  { ParseHandlers := fun _ => .error "syntax error",
    ParseFields := fun _ => .ok none,
    AnalyseArguments := fun raw =>
      if raw = "" then .ok {}
      else if raw = "1" then .ok { Count := 1, Raw := "1" }
      else if raw = "1, 2" then .ok { Count := 2, Raw := "1, 2" }
      else .error "syntax error",
    ToLower := latinToLower }

/-- A symbol table in which the component `U`, with the one parameter
`n int`, can be embedded. -/
def unarySymbols : Symbols :=
  { Targets := [{ Parameters := [{ Name := "n", Typ := "int" }] }],
    Refs := [("U", (0, "U", ""))] }

/-- An `<a:construct args=...>` with the given parsed askew attributes. -/
def constructElement (args : String) (g : General) : Node :=
  .mk .ElementNode .Zero "a:construct" [{ Key := "args", Val := args }] { General := .ok g } []

/-- An `<a:embed>` with the given attributes and children. -/
def embedWith (attrs : EmbedAttrs) (children : List Node) : Node :=
  .mk .ElementNode .Zero "a:embed" [] { Embed := .ok attrs } children

/-- The constructor state under `<a:embed name="items" type="U" list>`. -/
def underListOfU : constructProcessor :=
  { e := { Kind := .ListEmbed, Path := [2], Field := "items", Control := false, T := "U" },
    target := some { Parameters := [{ Name := "n", Typ := "int" }] } }

/-- The callback of a constructor that does not walk anything. -/
def noConstructWalk : constructProcessor → WalkResult constructProcessor :=
  fun s => { nodes := [], err := none, st := s }

/-- The number a list of decimal digits denotes. -/
def decimalValue (l : List Char) : Nat :=
  l.foldl (fun acc c => 10 * acc + (c.toNat - 48)) 0

/-- The component `Processor.Process` has built when the walk of the children
is over: the component of the walk with the template, the reversed embeds and
the reversed control blocks. -/
def Processor.built (P : Parsers) (p : Processor) (cmpAttrs : ComponentAttrs) (n : Node) :
    Component :=
  { (p.walk P cmpAttrs n).st.c with
    Template := (p.newTemplate P cmpAttrs).setChildren (p.walk P cmpAttrs n).nodes,
    Embeds := reverseCopy Embed.zero (p.walk P cmpAttrs n).st.syms.CurHost.Embeds,
    Block := { (p.walk P cmpAttrs n).st.b with
      Controlled := reverseCopy ControlBlock.zero (p.walk P cmpAttrs n).st.b.Controlled } }

/-- A component `C` registered earlier in the current file. -/
def earlierC : Component :=
  { Name := "C", ID := "askew-component-1-c", Init := "first" }

/-- A processor after the component `C` has been registered: the symbol table
of the examples with `C` in `Components`, the counter at 1. -/
def processorWithC : Processor :=
  { syms := { exampleSymbols with Components := some [("C", earlierC)] }, counter := 1 }

/-- The component `<a:component name="C"><a:embed name="a" type="T"/>
<a:embed name="a" type="T"/></a:component>` (without the whitespace): two
embeds with the same name. -/
def sameNameEmbeds : Node :=
  componentElement "C" [embedElement "a" "T", embedElement "a" "T"]

/-- The symbol table of the examples when the current host holds an embed
with the field `a` already. -/
def symbolsWithEmbedA : Symbols :=
  { exampleSymbols with
    CurHost := { Embeds := [{ Kind := .DirectEmbed, Path := [0], Field := "a", Control := false,
                              T := "T" }] } }

/-- An `<input name=... type=...>` with further attributes. -/
def inputElement (name type : String) (extra : List Attribute) : Node :=
  plainElement "input" .Input
    ([{ Key := "name", Val := name }, { Key := "type", Val := type }] ++ extra) {} []

/-- A named element that is not an `<input>`: `<select name=...>`,
`<textarea name=...>`, `<div name=...>`. -/
def namedElement (tag : String) (atom : Atom) (name : String) (children : List Node) : Node :=
  plainElement tag atom [{ Key := "name", Val := name }] {} children

/-- The callback of a form value discovery that does not walk anything. -/
def noDiscoveryWalk : formValueDiscovery → WalkResult formValueDiscovery :=
  fun s => { nodes := [], err := none, st := s }

/-- A `<form>` with the given children. -/
def formElement (children : List Node) : Node :=
  plainElement "form" .Form [] {} children

/-- The radio input `<input name="q" type="radio">`. -/
def radioQ : Node := inputElement "q" "radio" []

/-- A form value discovery that has seen nothing yet. -/
def emptyDiscovery : formValueDiscovery := { values := [] }

/-- The entry `formValueDiscovery.Process` stores for an element offered to an
empty map: the name and the form value of a named, supported form input, and
`none` for an element that is skipped or rejected. -/
def Node.formEntry (n : Node) : Option (String × formValue) :=
  let r := formValueDiscovery.Process n noDiscoveryWalk emptyDiscovery
  if r.err.isSome then none else r.st.values.head?

/-- The calls of `formValueDiscovery.Process` on a sequence of elements, one
after the other on the same discovery, up to the first error: what a walk
does on siblings that are not descended into. -/
def formValueDiscovery.offerAll :
    List Node → formValueDiscovery → formValueDiscovery × Option String
  | [], d => (d, none)
  | n :: rest, d =>
    let r := formValueDiscovery.Process n noDiscoveryWalk d
    match r.err with
    | some msg => (r.st, some msg)
    | none => formValueDiscovery.offerAll rest r.st

/-- The walker `discoverFormValues` builds for the children of a form. -/
def discoveryWalker : Walker formValueDiscovery :=
  { TextNode := some walker.Allow, Embed := some walker.DontDescend,
    Handlers := some walker.DontDescend, Text := some walker.Allow,
    StdElements := some formValueDiscovery.Process }

/-- Two inputs of a form may share their name only if both are radio
inputs. -/
def formValue.compatible (a b : String × formValue) : Prop :=
  a.1 = b.1 → a.2.radio = true ∧ b.2.radio = true

/-- The names in a map of form values are distinct, and its radio entries
have the type string. -/
def formValueDiscovery.wellFormed (d : formValueDiscovery) : Prop :=
  (d.values.map Prod.fst).Nodup ∧
  ∀ k v, d.values.lookup k = some v → v.radio = true → v.t = .StringVar

/-- The branch `case "radio"` of `formValueDiscovery.Process`: an `<input>`
whose `type` is `radio`. -/
def Node.isRadioInput (n : Node) : Prop :=
  n.DataAtom = .Input ∧ attributes.Val n.Attr "type" = "radio"

/-- The inputs `<input name="q" type="radio">`, `<input name="t" type="text">`
and once more `<input name="q" type="radio">`. -/
def radioGroupInputs : List Node := [radioQ, inputElement "t" "text" [], radioQ]

/-- The inputs `<input name="q" type="radio">` and
`<input name="q" type="text">`. -/
def clashingInputs : List Node := [radioQ, inputElement "q" "text" []]

/-- The form `<form><div><input name="q"></div></form>`. -/
def nestedInputForm : Node :=
  formElement [plainElement "div" .Other [] {} [namedElement "input" .Input "q" []]]

/-- The form `<form><input name="q"></form>`. -/
def directInputForm : Node :=
  formElement [namedElement "input" .Input "q" []]

/-- The binding `form(q):x`. -/
def formBindingQ : VariableMapping :=
  { Value := { Kind := .BoundFormValue, ID := "q" },
    Variable := { Typ := .AutoVar, Name := "x" } }

/-- The component `<a:component name="C"><form><div>
<input name="q" a:bindings="form(q):x"></div></form></a:component>` (without
the whitespace): the input of the form is bound, below a `<div>`. -/
def boundNestedInput : Node :=
  componentElement "C"
    [formElement [plainElement "div" .Other [] {}
      [plainElement "input" .Input [{ Key := "name", Val := "q" }]
        { Bindings := [formBindingQ] } []]]]

/-- The component `<a:component name="C"><form>
<input name="q" a:bindings="form(q):x"></form></a:component>`: the bound
input is a child of the form. -/
def boundDirectInput : Node :=
  componentElement "C"
    [formElement [plainElement "input" .Input [{ Key := "name", Val := "q" }]
      { Bindings := [formBindingQ] } []]]

/-- The component `<a:component name="C"><form><form></form></form>
</a:component>`: a form inside a form. -/
def nestedForms : Node :=
  componentElement "C" [formElement [formElement []]]

/-- The component `<a:component name="C"><div><form></form></div><form></form>
<form></form></a:component>`: a form that is shallower than the form before
it, and a form that is a later sibling of a form. -/
def siblingForms : Node :=
  componentElement "C"
    [plainElement "div" .Other [] {} [formElement []], formElement [], formElement []]

/-- The handler state at the first child of a form that is a top-level element
of a component. -/
def insideTopLevelForm : stdElementHandler :=
  { syms := exampleSymbols, indexList := [0, 0], b := {}, curFormPos := 1,
    curForm := some [] }

/-- The handler state at the top-level element that follows a form. -/
def afterTopLevelForm : stdElementHandler :=
  { syms := exampleSymbols, indexList := [1], b := {}, curFormPos := 1,
    curForm := some [] }

/-- The binding `class(active):active`, declared without a type. -/
def classBinding : VariableMapping :=
  { Value := { Kind := .BoundClass, IDs := ["active"] },
    Variable := { Typ := .AutoVar, Name := "active" } }

/-- The binding `prop(title):title`, declared without a type. -/
def propBinding : VariableMapping :=
  { Value := { Kind := .BoundProperty, ID := "title" },
    Variable := { Typ := .AutoVar, Name := "title" } }

/-- The binding `prop(width):(width int)`, declared with the type int. -/
def typedBinding : VariableMapping :=
  { Value := { Kind := .BoundProperty, ID := "width" },
    Variable := { Typ := .IntVar, Name := "width" } }

/-- The bindings `form(n):count`, `class(active):active`, `prop(title):title`
and `prop(width):(width int)`. -/
def exampleBindings : List VariableMapping :=
  [formBinding, classBinding, propBinding, typedBinding]

/-- The handler state at an element at depth 3 inside a form that began at
depth 1 and whose only input is the radio group `q`. -/
def insideRadioForm : componentElementHandler :=
  { syms := {}, indexList := [0, 0, 0], b := {}, curFormPos := 1,
    curForm := some [("q", { t := .StringVar, radio := true })], c := exampleComponent }

/-- The binding `form(q):x` as a parser that marks radio groups would supply
it, with `IsRadio` set. -/
def radioBindingQ : VariableMapping :=
  { Value := { Kind := .BoundFormValue, ID := "q", IsRadio := true },
    Variable := { Typ := .AutoVar, Name := "x" } }

/-- The root element of a site skeleton with the given collected
attributes. -/
def siteRoot (attrs : SiteAttrs) : Node :=
  .mk .ElementNode .Zero "a:site" [] { Site := .ok attrs } []

/-- A parsed site skeleton: a document whose children are a doctype node
(modelled as a comment) and the root element. -/
def siteDocument (attrs : SiteAttrs) : Node :=
  .mk .ElementNode .Zero "" [] {} [Node.comment "doctype", siteRoot attrs]

/-- The site `web/shop.asite` whose root element has only the attribute
`js-path="app.js"`. -/
def shopSite : ASiteFile :=
  { BaseName := "web/shop", Path := "web/shop.asite",
    Document := siteDocument { JSPath := "app.js" } }

/-- The site `main.asite` whose root element has all four attributes. -/
def mainSite : ASiteFile :=
  { BaseName := "main", Path := "main.asite",
    Document := siteDocument
      { HTMLFile := "out.html", JSPath := "app.js", WASMExecPath := "exec.js",
        WASMPath := "app.wasm" } }

/-- A processor whose counter holds the largest value of Go `int`. -/
def lastCounterProcessor : Processor :=
  { syms := exampleSymbols, counter := 9223372036854775807 }

/-- Modelled from the spec: an assignment as the path reset of a control block
is stated for it: its path, its expression and its target, the depth of the
form scope apart. -/
def Assignment.entry (a : Assignment) : List Nat × String × BoundValue :=
  (a.Path, a.Expression, { a.Target with FormDepth := 0 })

/-- Modelled from the spec: the assignments of a node itself that belong to
the block around it, at the path `q` of the node: the `a:assign` entries of a
plain element that carries neither `a:if` nor `a:for`, and the text of an
`<a:text>`.  An element with `a:if` or `a:for` has its entries in the block of
its own. -/
def Node.ownAssignments (n : Node) (q : List Nat) : List Assignment :=
  match n.Typ with
  | .ElementNode =>
    if n.Data = "a:text" then
      [{ Expression := attributes.Val n.Attr "expr", Path := q, Target := { Kind := .BoundSelf } }]
    else if n.Data ∈ askewElementNames then []
    else
      match n.Ext.General with
      | .ok attrs =>
        if attrs.If.isSome ∨ attrs.For.isSome then []
        else attrs.Assign.map (fun a => { a with Path := q })
      | .error _ => []
  | _ => []

/-- Modelled from the spec: the descendants of the node belong to the same
block as the node: it is a plain element that carries neither `a:if` nor
`a:for`, or a text node. -/
def Node.isOpen (n : Node) : Bool :=
  match n.Typ with
  | .TextNode => true
  | .ElementNode =>
    if n.Data ∈ askewElementNames then false
    else
      match n.Ext.General with
      | .ok attrs => !(attrs.If.isSome || attrs.For.isSome)
      | .error _ => false
  | .CommentNode => false

mutual

/-- Modelled from the spec: the assignments of the node at path `q` and of its
descendants that are not inside an element with `a:if` or `a:for`, each at its
path, in document order. -/
def subtreeAssignments : Node → List Nat → List Assignment
  | .mk t a d as e kids, q =>
    (Node.mk t a d as e kids).ownAssignments q ++
      (if (Node.mk t a d as e kids).isOpen then childrenAssignments kids q 0 else [])

/-- Modelled from the spec: `subtreeAssignments` of the nodes of a list of
siblings, the first of which is child `k` of the node at path `q`. -/
def childrenAssignments : List Node → List Nat → Nat → List Assignment
  | [], _, _ => []
  | n :: rest, q, k => subtreeAssignments n (q ++ [k]) ++ childrenAssignments rest q (k + 1)

end

/-- Modelled from the spec: the descendant at the path `q` relative to the
parent of the siblings `kids`, if no node on the way to it is an element with
`a:if` or `a:for` (or another node whose descendants are not of the same
block). -/
def reachedAt : List Node → List Nat → Option Node
  | _, [] => none
  | kids, [k] => kids.get? k
  | kids, k :: j :: q =>
    match kids.get? k with
    | some c => if c.isOpen then reachedAt c.Children (j :: q) else none
    | none => none

/-- The handler state `cp` that `handleControlBlocksAndAssignments` creates for
the control block `cb`, before `cp.processAssignments` runs. -/
def freshInnerHandler (seh : stdElementHandler) (cb : ControlBlock) : stdElementHandler :=
  { syms := seh.syms, indexList := [], b := cb.Block, curFormPos := seh.curFormPos,
    curForm := seh.curForm }

/-- The element `<li a:for="i, v := range items" a:assign="prop(title)=i">
<div><span a:assign="prop(title)=v"></span></div><a:text expr="t"></a:text>
<p a:if="b" a:assign="prop(title)=w"></p></li>`: a loop with an assignment at
a grandchild, a text binding at the second child, and a nested `a:if` element
with an assignment of its own. -/
def loopWithGrandchild : Node :=
  plainElement "li" .Other [] loopAttrs
    [plainElement "div" .Other [] {}
       [plainElement "span" .Other [] { Assign := [propAssignment "v"] } []],
     textElement [{ Key := "expr", Val := "t" }],
     plainElement "p" .Other [] { If := some (ifBlock "b"), Assign := [propAssignment "w"] } []]

/-! # Theorems -/

/-! ## Resolution of captures -/

theorem formDepth_inline (seh : stdElementHandler) :
    (if seh.curFormPos ≠ -1 then (seh.indexList.length : Int) - seh.curFormPos else -1)
      = seh.formDepth := by
  unfold stdElementHandler.formDepth
  by_cases h : seh.curFormPos = -1 <;> simp [h]

theorem formDepth_eq_of_ne (seh : stdElementHandler) (h : seh.formDepth ≠ -1) :
    seh.formDepth = (seh.indexList.length : Int) - seh.curFormPos := by
  unfold stdElementHandler.formDepth at *
  by_cases hc : seh.curFormPos = -1
  · simp [hc] at h
  · simp [hc]

theorem mapParams_ok (fd : Int) (cf : Option (StrMap formValue)) (pm : StrMap BoundValue) :
    ∀ (params : List Param) (notMapped : List String) (mapped res : List BoundParam)
      (nm : List String),
      mapCaptures.mapParams fd cf pm params notMapped mapped = .ok (res, nm) →
      res = mapped ++ params.map (expectedParam fd pm) := by
  intro params
  induction params with
  | nil =>
    intro notMapped mapped res nm h
    simp only [mapCaptures.mapParams, Except.ok.injEq, Prod.mk.injEq] at h
    simp [h.1]
  | cons p rest ih =>
    intro notMapped mapped res nm h
    unfold mapCaptures.mapParams at h
    split at h
    · rename_i hl
      have := ih _ _ _ _ h
      simp [this, expectedParam, hl]
    · rename_i bVal hl
      simp only at h
      split at h
      · rename_i hk
        split at h
        · cases h
        · split at h
          · cases h
          · have := ih _ _ _ _ h
            simp [this, expectedParam, hl, hk]
      · rename_i hk
        have := ih _ _ _ _ h
        simp [this, expectedParam, hl, hk]

/-- A successful parameter loop has checked every form value it was given:
a form scope is active and holds the name. -/
theorem mapParams_form_checked (fd : Int) (cf : Option (StrMap formValue))
    (pm : StrMap BoundValue) :
    ∀ (params : List Param) (notMapped : List String) (mapped res : List BoundParam)
      (nm : List String),
      mapCaptures.mapParams fd cf pm params notMapped mapped = .ok (res, nm) →
      ∀ p ∈ params, ∀ bVal, pm.lookup p.Name = some bVal → bVal.Kind = .BoundFormValue →
        fd ≠ -1 ∧ (mapGet cf bVal.ID).isSome = true := by
  intro params
  induction params with
  | nil => intro _ _ _ _ _ p hp; cases hp
  | cons q rest ih =>
    intro notMapped mapped res nm h p hp bVal hl hk
    unfold mapCaptures.mapParams at h
    split at h
    · rename_i hq
      rcases List.mem_cons.1 hp with rfl | hp
      · rw [hq] at hl; cases hl
      · exact ih _ _ _ _ h p hp bVal hl hk
    · rename_i qVal hq
      simp only at h
      split at h
      · rename_i hqk
        split at h
        · cases h
        · rename_i hfd
          split at h
          · cases h
          · rename_i fv hfv
            rcases List.mem_cons.1 hp with rfl | hp
            · rw [hq] at hl
              cases hl
              exact ⟨hfd, by simpa using congrArg Option.isSome hfv⟩
            · exact ih _ _ _ _ h p hp bVal hl hk
      · rename_i hqk
        rcases List.mem_cons.1 hp with rfl | hp
        · rw [hq] at hl
          cases hl
          exact absurd hk hqk
        · exact ih _ _ _ _ h p hp bVal hl hk

theorem mapOne_ok (c : Component) (fd : Int) (cf : Option (StrMap formValue))
    (u : UnboundEventMapping) (m : EventMapping)
    (h : mapCaptures.mapOne c fd cf u = .ok m) :
    ∃ sig, mapCaptures.lookupHandler c u.Handler = .ok (sig, m.FromController) ∧
      m.ParamMappings = sig.Params.map (expectedParam fd u.ParamMappings) ∧
      m.Event = u.Event ∧ m.Handler = u.Handler ∧
      (∀ p ∈ sig.Params, ∀ bVal, u.ParamMappings.lookup p.Name = some bVal →
        bVal.Kind = .BoundFormValue → fd ≠ -1 ∧ (mapGet cf bVal.ID).isSome = true) := by
  unfold mapCaptures.mapOne at h
  split at h
  · cases h
  · rename_i sig fc hl
    split at h
    · cases h
    · rename_i mapped nm hp
      split at h
      · cases h
      · simp only [Except.ok.injEq] at h
        subst h
        refine ⟨sig, hl, ?_, rfl, rfl, ?_⟩
        · simpa using mapParams_ok fd cf _ _ _ _ _ _ hp
        · exact mapParams_form_checked fd cf _ _ _ _ _ _ hp

theorem mapOne_lookup_error (c : Component) (fd : Int) (cf : Option (StrMap formValue))
    (u : UnboundEventMapping) (msg : String)
    (h : mapCaptures.lookupHandler c u.Handler = .error msg) :
    mapCaptures.mapOne c fd cf u = .error msg := by
  unfold mapCaptures.mapOne
  rw [h]

theorem mapAll_ok (c : Component) (fd : Int) (cf : Option (StrMap formValue)) :
    ∀ (v : List UnboundEventMapping) (ret res : List EventMapping),
      mapCaptures.mapAll c fd cf v ret = .ok res →
      ∃ ms, res = ret ++ ms ∧
        List.Forall₂ (fun u m => mapCaptures.mapOne c fd cf u = .ok m) v ms := by
  intro v
  induction v with
  | nil =>
    intro ret res h
    simp only [mapCaptures.mapAll, Except.ok.injEq] at h
    exact ⟨[], by simp [h], List.Forall₂.nil⟩
  | cons u rest ih =>
    intro ret res h
    unfold mapCaptures.mapAll at h
    split at h
    · cases h
    · rename_i m hm
      obtain ⟨ms, hres, hall⟩ := ih _ _ h
      exact ⟨m :: ms, by simp [hres], List.Forall₂.cons hm hall⟩

theorem mapAll_error_of_mem (c : Component) (fd : Int) (cf : Option (StrMap formValue)) :
    ∀ (v : List UnboundEventMapping) (ret : List EventMapping) (u : UnboundEventMapping),
      u ∈ v → (∃ msg, mapCaptures.mapOne c fd cf u = .error msg) →
      ∃ msg, mapCaptures.mapAll c fd cf v ret = .error msg := by
  intro v
  induction v with
  | nil => intro _ u hu; cases hu
  | cons w rest ih =>
    intro ret u hu hfail
    unfold mapCaptures.mapAll
    split
    · rename_i msg _
      exact ⟨msg, rfl⟩
    · rename_i m hm
      rcases List.mem_cons.1 hu with rfl | hu
      · obtain ⟨msg, hmsg⟩ := hfail
        rw [hmsg] at hm
        cases hm
      · exact ih _ u hu hfail

theorem mapCaptures_ok (ceh : componentElementHandler) (n : Node)
    (v : List UnboundEventMapping) (hv : v ≠ [])
    (hok : (ceh.mapCaptures n v).2 = none) :
    ∃ ms, (ceh.mapCaptures n v).1.c.Captures
          = ceh.c.Captures ++ [{ Path := ceh.indexList, Mappings := ms }] ∧
      List.Forall₂ (fun u m =>
        mapCaptures.mapOne ceh.c ceh.formDepth ceh.curForm u = .ok m) v ms := by
  unfold componentElementHandler.mapCaptures at hok ⊢
  have hlen : v.length ≠ 0 := by
    intro h0
    exact hv (List.length_eq_zero.1 h0)
  rw [formDepth_inline] at hok ⊢
  simp only [hlen, if_false] at hok ⊢
  split at hok
  · simp at hok
  · rename_i ret hret
    obtain ⟨ms, hres, hall⟩ := mapAll_ok _ _ _ _ _ _ hret
    refine ⟨ms, ?_, hall⟩
    simp [hret, hres]

theorem forall₂_mem_right {α β : Type} {R : α → β → Prop} {l₁ : List α} {l₂ : List β}
    (h : List.Forall₂ R l₁ l₂) : ∀ y ∈ l₂, ∃ x ∈ l₁, R x y := by
  induction h with
  | nil => intro y hy; cases hy
  | cons hr _ ih =>
    intro y hy
    rcases List.mem_cons.1 hy with rfl | hy
    · exact ⟨_, List.mem_cons_self _ _, hr⟩
    · obtain ⟨x, hx, hxy⟩ := ih y hy
      exact ⟨x, List.mem_cons_of_mem _ hx, hxy⟩

theorem expectedParam_formValue (fd : Int) (pm : StrMap BoundValue) (p : Param)
    (hk : (expectedParam fd pm p).Value.Kind = .BoundFormValue) :
    ∃ bVal, pm.lookup p.Name = some bVal ∧ bVal.Kind = .BoundFormValue ∧
      (expectedParam fd pm p).Value = { bVal with FormDepth := fd } := by
  cases hl : pm.lookup p.Name with
  | none => simp [expectedParam, hl] at hk
  | some bVal =>
    by_cases hb : bVal.Kind = .BoundFormValue
    · exact ⟨bVal, rfl, hb, by simp [expectedParam, hl, hb]⟩
    · simp [expectedParam, hl, hb] at hk

/-- Every form value a successful `mapOne` stores has the form depth of the
handler state, which is then the path length minus the start of the form. -/
theorem mapOne_formValue (c : Component) (fd : Int) (cf : Option (StrMap formValue))
    (u : UnboundEventMapping) (m : EventMapping)
    (h : mapCaptures.mapOne c fd cf u = .ok m) :
    ∀ bp ∈ m.ParamMappings, bp.Value.Kind = .BoundFormValue →
      bp.Value.FormDepth = fd ∧ fd ≠ -1 ∧ (mapGet cf bp.Value.ID).isSome = true := by
  obtain ⟨sig, _, hp, _, _, hchk⟩ := mapOne_ok _ _ _ _ _ h
  intro bp hbp hk
  rw [hp] at hbp
  obtain ⟨p, hpm, rfl⟩ := List.mem_map.1 hbp
  obtain ⟨bVal, hl, hbk, hv⟩ := expectedParam_formValue _ _ _ hk
  obtain ⟨hfd, hin⟩ := hchk p hpm bVal hl hbk
  rw [hv]
  exact ⟨rfl, hfd, hin⟩

theorem processBindings_loop_spec (fd : Int) (cf : Option (StrMap formValue))
    (path : List Nat) :
    ∀ (arr vars : List VariableMapping),
      ∃ added, (processBindings.loop fd cf path arr vars).1 = vars ++ added ∧
        ∀ vb ∈ added, vb.Value.Kind = .BoundFormValue →
          vb.Value.FormDepth = fd ∧ fd ≠ -1 ∧ (mapGet cf vb.Value.ID).isSome = true := by
  intro arr
  induction arr with
  | nil => intro vars; exact ⟨[], by simp [processBindings.loop], by simp⟩
  | cons vb rest ih =>
    intro vars
    unfold processBindings.loop
    split
    · rename_i hk
      split
      · exact ⟨[], by simp, by simp⟩
      · rename_i hfd
        simp only
        split
        · exact ⟨[], by simp, by simp⟩
        · rename_i val hval
          obtain ⟨added, hres, hall⟩ := ih (vars ++
            [{ (if vb.Variable.Typ = VariableType.AutoVar then
                  { Value := { vb.Value with FormDepth := fd },
                    Variable := { vb.Variable with Typ := val.t }, Path := vb.Path }
                else { vb with Value := { vb.Value with FormDepth := fd } } : VariableMapping)
               with Path := path }])
          refine ⟨_, by rw [hres, List.append_assoc], ?_⟩
          intro x hx hxk
          rcases List.mem_append.1 hx with hx | hx
          · rw [List.mem_singleton] at hx
            subst hx
            split
            · exact ⟨rfl, hfd, by simpa using congrArg Option.isSome hval⟩
            · exact ⟨rfl, hfd, by simpa using congrArg Option.isSome hval⟩
          · exact hall x hx hxk
    · rename_i hk
      simp only
      obtain ⟨added, hres, hall⟩ := ih (vars ++
        [{ (if vb.Variable.Typ = VariableType.AutoVar then
              (if vb.Value.Kind = BoundKind.BoundClass then
                { vb with Variable := { vb.Variable with Typ := .BoolVar } }
               else { vb with Variable := { vb.Variable with Typ := .StringVar } })
            else vb : VariableMapping) with Path := path }])
      refine ⟨_, by rw [hres, List.append_assoc], ?_⟩
      intro x hx hxk
      rcases List.mem_append.1 hx with hx | hx
      · rw [List.mem_singleton] at hx
        subst hx
        exfalso
        apply hk
        revert hxk
        split
        · split <;> exact id
        · exact id
      · exact hall x hx hxk

theorem processAssignments_loop_spec (fd : Int) (cf : Option (StrMap formValue))
    (path : List Nat) :
    ∀ (arr assignments : List Assignment),
      ∃ added, (processAssignments.loop fd cf path arr assignments).1 = assignments ++ added ∧
        ∀ a ∈ added, a.Target.Kind = .BoundFormValue →
          a.Target.FormDepth = fd ∧ fd ≠ -1 ∧ (mapGet cf a.Target.ID).isSome = true := by
  intro arr
  induction arr with
  | nil => intro assignments; exact ⟨[], by simp [processAssignments.loop], by simp⟩
  | cons a rest ih =>
    intro assignments
    unfold processAssignments.loop
    split
    · rename_i hk
      split
      · exact ⟨[], by simp, by simp⟩
      · rename_i hfd
        simp only
        split
        · exact ⟨[], by simp, by simp⟩
        · rename_i val hval
          obtain ⟨added, hres, hall⟩ := ih (assignments ++
            [{ Expression := a.Expression, Path := path,
               Target := { a.Target with FormDepth := fd } }])
          refine ⟨_, by rw [hres, List.append_assoc], ?_⟩
          intro x hx hxk
          rcases List.mem_append.1 hx with hx | hx
          · rw [List.mem_singleton] at hx
            subst hx
            exact ⟨rfl, hfd, by simpa using congrArg Option.isSome hval⟩
          · exact hall x hx hxk
    · rename_i hk
      obtain ⟨added, hres, hall⟩ := ih (assignments ++ [{ a with Path := path }])
      refine ⟨_, by rw [hres, List.append_assoc], ?_⟩
      intro x hx hxk
      rcases List.mem_append.1 hx with hx | hx
      · rw [List.mem_singleton] at hx
        subst hx
        exact absurd hxk hk
      · exact hall x hx hxk

theorem processAssignments_spec (seh : stdElementHandler) (arr : List Assignment)
    (path : List Nat) :
    ∃ added, (seh.processAssignments arr path).1.b.Assignments = seh.b.Assignments ++ added ∧
      (seh.processAssignments arr path).1.b.Controlled = seh.b.Controlled ∧
      (seh.processAssignments arr path).1.syms = seh.syms ∧
      (seh.processAssignments arr path).1.indexList = seh.indexList ∧
      (seh.processAssignments arr path).1.curFormPos = seh.curFormPos ∧
      (seh.processAssignments arr path).1.curForm = seh.curForm ∧
      ∀ a ∈ added, a.Target.Kind = .BoundFormValue →
        a.Target.FormDepth = seh.formDepth ∧ seh.formDepth ≠ -1 ∧
          (mapGet seh.curForm a.Target.ID).isSome = true := by
  unfold stdElementHandler.processAssignments
  rw [formDepth_inline]
  obtain ⟨added, hres, hall⟩ :=
    processAssignments_loop_spec seh.formDepth seh.curForm path arr seh.b.Assignments
  exact ⟨added, hres, rfl, rfl, rfl, rfl, rfl, hall⟩

/-! ## The reversal loop -/

theorem drop_set_self {α : Type} (e : α) :
    ∀ (l : List α) (k : Nat), k < l.length → (l.set k e).drop k = e :: l.drop (k + 1) := by
  intro l
  induction l with
  | nil => intro k h; simp at h
  | cons a t ih =>
    intro k h
    cases k with
    | zero => simp
    | succ j =>
      simp only [List.length_cons, Nat.add_lt_add_iff_right] at h
      simpa using ih j h

theorem reverseInto_eq {α : Type} :
    ∀ (rest tmp : List α) (i : Nat), i + rest.length = tmp.length →
      reverseInto tmp i rest = rest.reverse ++ tmp.drop rest.length := by
  intro rest
  induction rest with
  | nil => intro tmp i _; simp [reverseInto]
  | cons e r ih =>
    intro tmp i h
    simp only [List.length_cons] at h
    unfold reverseInto
    have hidx : tmp.length - i - 1 = r.length := by omega
    have hlt : r.length < tmp.length := by omega
    rw [hidx, ih (tmp.set r.length e) (i + 1) (by simp; omega), drop_set_self e tmp _ hlt]
    simp

/-- The reversal loop of components.go computes the reverse of the list. -/
theorem reverseCopy_eq_reverse {α : Type} (zero : α) (xs : List α) :
    reverseCopy zero xs = xs.reverse := by
  unfold reverseCopy
  rw [reverseInto_eq xs _ 0 (by simp)]
  simp

/-! ## Document order of control blocks -/

theorem docBefore_trans : ∀ (a b c : List Nat),
    docBefore a b = true → docBefore b c = true → docBefore a c = true := by
  intro a
  induction a with
  | nil =>
    intro b c hab hbc
    cases b with
    | nil => simp [docBefore] at hab
    | cons y b =>
      cases c with
      | nil => simp [docBefore] at hbc
      | cons z c => simp [docBefore]
  | cons x a ih =>
    intro b c hab hbc
    cases b with
    | nil => simp [docBefore] at hab
    | cons y b =>
      cases c with
      | nil => simp [docBefore] at hbc
      | cons z c =>
        simp only [docBefore, Bool.or_eq_true, decide_eq_true_eq, Bool.and_eq_true,
          beq_iff_eq] at hab hbc ⊢
        rcases hab with hxy | ⟨hxy, hab⟩
        · rcases hbc with hyz | ⟨hyz, _⟩
          · exact Or.inl (by omega)
          · exact Or.inl (by omega)
        · rcases hbc with hyz | ⟨hyz, hbc⟩
          · exact Or.inl (by omega)
          · exact Or.inr ⟨by omega, ih b c hab hbc⟩

theorem docBefore_append_left : ∀ (p a b : List Nat),
    docBefore (p ++ a) (p ++ b) = docBefore a b := by
  intro p
  induction p with
  | nil => intro a b; rfl
  | cons x p ih =>
    intro a b
    simp [docBefore, ih]

theorem docBefore_next (p : List Nat) (k m : Nat) :
    docBefore (p ++ [k]) (p ++ [k + 1 + m]) = true := by
  rw [docBefore_append_left]
  simp [docBefore]
  omega

theorem docBefore_child (q : List Nat) (m : Nat) : docBefore q (q ++ [m]) = true := by
  have h := docBefore_append_left q [] [m]
  simp only [List.append_nil] at h
  rw [h]
  rfl

theorem docBefore_child_next (p : List Nat) (k m : Nat) :
    docBefore (p ++ [k] ++ [m]) (p ++ [k + 1]) = true := by
  rw [List.append_assoc, docBefore_append_left]
  simp [docBefore]

theorem Ascending.mono {bound bound2 : List Nat} {b : Block} (h : Ascending bound b)
    (hb : docBefore bound bound2 = true) : Ascending bound2 b :=
  ⟨h.1, fun c hc => docBefore_trans _ _ _ (h.2.1 c hc) hb, h.2.2⟩

theorem Ascending.same_controlled {bound : List Nat} {b b2 : Block} (h : Ascending bound b)
    (hc : b2.Controlled = b.Controlled) : Ascending bound b2 := by
  unfold Ascending at *
  rw [hc]
  exact h

theorem Ascending.empty (bound : List Nat) (b : Block) (h : b.Controlled = []) :
    Ascending bound b := by
  unfold Ascending
  rw [h]
  exact ⟨List.Pairwise.nil, by simp, rfl⟩

theorem allRevOrdered_iff : ∀ (l : List ControlBlock),
    ControlBlock.allRevOrdered l = true ↔ ∀ c ∈ l, c.revOrdered = true := by
  intro l
  induction l with
  | nil => simp [ControlBlock.allRevOrdered]
  | cons c rest ih => simp [ControlBlock.allRevOrdered, ih]

theorem reverseDocOrder_iff : ∀ (l : List (List Nat)),
    reverseDocOrder l = true ↔ List.Pairwise (fun p q => docBefore q p = true) l := by
  intro l
  induction l with
  | nil => simp [reverseDocOrder]
  | cons p rest ih => simp [reverseDocOrder, ih]

/-- Appending a complete control block whose path is the bound keeps the
block in document order, with any later path as the new bound. -/
theorem Ascending.append {q bound2 : List Nat} {b : Block} (h : Ascending q b)
    (cb : ControlBlock) (hp : cb.Path = q) (hcb : cb.revOrdered = true)
    (hb : docBefore q bound2 = true) :
    Ascending bound2 { b with Controlled := b.Controlled ++ [cb] } := by
  obtain ⟨h1, h2, h3⟩ := h
  refine ⟨?_, ?_, ?_⟩
  · rw [List.pairwise_append]
    refine ⟨h1, List.pairwise_singleton _ _, ?_⟩
    intro x hx y hy
    rw [List.mem_singleton] at hy
    subst hy
    rw [hp]
    exact h2 x hx
  · intro c hc
    rcases List.mem_append.1 hc with hc | hc
    · exact docBefore_trans _ _ _ (h2 c hc) hb
    · rw [List.mem_singleton] at hc
      subst hc
      rw [hp]
      exact hb
  · rw [allRevOrdered_iff] at h3 ⊢
    intro c hc
    rcases List.mem_append.1 hc with hc | hc
    · exact h3 c hc
    · rw [List.mem_singleton] at hc
      subst hc
      exact hcb

/-- Reversing a block that is in document order gives a block in reverse
document order. -/
theorem Ascending.reverse {bound : List Nat} {b : Block} (h : Ascending bound b) :
    Block.revOrdered { b with Controlled := b.Controlled.reverse } = true := by
  obtain ⟨h1, _, h3⟩ := h
  unfold Block.revOrdered
  simp only [Bool.and_eq_true]
  constructor
  · rw [reverseDocOrder_iff, List.map_reverse, List.pairwise_reverse, List.pairwise_map]
    exact h1
  · rw [allRevOrdered_iff] at h3 ⊢
    intro c hc
    exact h3 c (List.mem_reverse.1 hc)

/-! ## The walker keeps a block in document order -/

theorem freshBlocks_children (t : NodeType) (a : Atom) (d : String) (as : List Attribute)
    (e : Extracted) (kids : List Node)
    (h : (Node.mk t a d as e kids).freshBlocks = true) :
    Node.allFreshBlocks kids = true := by
  unfold Node.freshBlocks at h
  simp only [Bool.and_eq_true] at h
  exact h.2

theorem Ascending.to_sibling {p : List Nat} {k : Nat} {b : Block} (m : Nat)
    (h : Ascending (p ++ [k]) b) : Ascending (p ++ [k + 1 + m]) b :=
  h.mono (docBefore_next p k m)

theorem Ascending.from_sibling {p : List Nat} {k : Nat} {b : Block} (m : Nat)
    (h : Ascending (p ++ [k]) b) : Ascending (p ++ [k + m]) b := by
  cases m with
  | zero => exact h
  | succ j =>
    have := h.to_sibling j
    rwa [show k + 1 + j = k + (j + 1) by omega] at this

mutual

/-- Walking one node at path `p ++ [k]` keeps the block in document order,
bounded by the path of the next sibling. -/
theorem walkNode_keeps_order {σ : Type} (w : Walker σ) (ix : IndexRef σ) (getB : σ → Block)
    (hstep : HandlerKeepsOrder w ix getB)
    (hidx : w.IndexList = some ix)
    (hget : ∀ l s, ix.get (ix.set l s) = l)
    (hblk : ∀ l s, getB (ix.set l s) = getB s) :
    ∀ (n : Node) (s : σ) (p : List Nat) (k : Nat), n.freshBlocks = true →
      ix.get s = p ++ [k] → Ascending (p ++ [k]) (getB s) →
      Ascending (p ++ [k + 1]) (getB (w.walkNode n s).st) ∧
      ((w.walkNode n s).err = none → ix.get (w.walkNode n s).st = p ++ [k])
  | .mk t a d as e kids, s, p, k, hf, hp, hasc => by
    have hkids := freshBlocks_children t a d as e kids hf
    have hinner : ∀ s1, Ascending (ix.get s1 ++ [0]) (getB s1) →
        Ascending (ix.get s1 ++ [kids.length]) (getB (w.walkChildren kids 0 s1).st) := by
      intro s1 h1
      have := (walkChildren_keeps_order w ix getB hstep hidx hget hblk kids 0 s1 hkids h1).1
      simpa using this
    unfold Walker.walkNode
    cases t with
    | CommentNode => exact ⟨hasc.to_sibling 0, fun _ => hp⟩
    | TextNode =>
      simp only
      cases hs : w.slot .TextNode d with
      | none => exact ⟨hasc.to_sibling 0, by simp⟩
      | some h =>
        obtain ⟨h1, h2, h3⟩ := hstep .TextNode a d as e kids h
          (fun s1 => w.walkChildren kids 0 s1) s p k hs hf hp hasc hinner
        simp only
        split
        · exact ⟨h3, by simp⟩
        · split
          · exact ⟨h3, fun _ => h1⟩
          · split
            · rename_i hd
              have hc := walkChildren_keeps_order w ix getB hstep hidx hget hblk kids 0 _ hkids
                (by rw [h1]; exact (h2 hd).mono (docBefore_child _ 0))
              refine ⟨?_, ?_⟩
              · have := hc.1
                rw [h1] at this
                exact this.mono (docBefore_child_next p k _)
              · intro herr
                rw [hc.2 herr, h1]
            · exact ⟨h3, fun _ => h1⟩
    | ElementNode =>
      simp only
      cases hs : w.slot .ElementNode d with
      | none => exact ⟨hasc.to_sibling 0, by simp⟩
      | some h =>
        obtain ⟨h1, h2, h3⟩ := hstep .ElementNode a d as e kids h
          (fun s1 => w.walkChildren kids 0 s1) s p k hs hf hp hasc hinner
        simp only
        split
        · exact ⟨h3, by simp⟩
        · split
          · exact ⟨h3, fun _ => h1⟩
          · split
            · rename_i hd
              have hc := walkChildren_keeps_order w ix getB hstep hidx hget hblk kids 0 _ hkids
                (by rw [h1]; exact (h2 hd).mono (docBefore_child _ 0))
              refine ⟨?_, ?_⟩
              · have := hc.1
                rw [h1] at this
                exact this.mono (docBefore_child_next p k _)
              · intro herr
                rw [hc.2 herr, h1]
            · exact ⟨h3, fun _ => h1⟩

/-- Walking the children from sibling index `k` on keeps the block in document
order, bounded by the index after the last child. -/
theorem walkChildren_keeps_order {σ : Type} (w : Walker σ) (ix : IndexRef σ)
    (getB : σ → Block)
    (hstep : HandlerKeepsOrder w ix getB)
    (hidx : w.IndexList = some ix)
    (hget : ∀ l s, ix.get (ix.set l s) = l)
    (hblk : ∀ l s, getB (ix.set l s) = getB s) :
    ∀ (l : List Node) (k : Nat) (s : σ), Node.allFreshBlocks l = true →
      Ascending (ix.get s ++ [k]) (getB s) →
      Ascending (ix.get s ++ [k + l.length]) (getB (w.walkChildren l k s).st) ∧
      ((w.walkChildren l k s).err = none → ix.get (w.walkChildren l k s).st = ix.get s)
  | [], k, s, _, hasc => by
    unfold Walker.walkChildren
    exact ⟨by simpa using hasc, fun _ => rfl⟩
  | n :: rest, k, s, hf, hasc => by
    unfold Node.allFreshBlocks at hf
    simp only [Bool.and_eq_true] at hf
    have hpush : ix.get (w.push k s) = ix.get s ++ [k] := by
      simp [Walker.push, hidx, hget]
    have hpushB : getB (w.push k s) = getB s := by
      simp [Walker.push, hidx, hblk]
    have hn := walkNode_keeps_order w ix getB hstep hidx hget hblk n (w.push k s)
      (ix.get s) k hf.1 hpush (by rw [hpushB]; exact hasc)
    unfold Walker.walkChildren
    simp only
    split
    · rename_i msg herr
      refine ⟨?_, by simp⟩
      have := hn.1.from_sibling rest.length
      simpa [Nat.add_assoc, Nat.add_comm 1] using this
    · rename_i herr
      have hi := hn.2 herr
      have hpop : ix.get (w.pop (w.walkNode n (w.push k s)).st) = ix.get s := by
        simp [Walker.pop, hidx, hget, hi]
      have hpopB : getB (w.pop (w.walkNode n (w.push k s)).st)
          = getB (w.walkNode n (w.push k s)).st := by
        simp [Walker.pop, hidx, hblk]
      have hr := walkChildren_keeps_order w ix getB hstep hidx hget hblk rest (k + 1)
        (w.pop (w.walkNode n (w.push k s)).st) hf.2
        (by rw [hpop, hpopB]; exact hn.1)
      rw [hpop] at hr
      refine ⟨?_, hr.2⟩
      have := hr.1
      simpa [Nat.add_assoc, Nat.add_comm 1] using this

end

/-! ## The handlers keep a block in document order -/

theorem ControlBlock.setPath_Path (cb : ControlBlock) (p : List Nat) :
    (cb.setPath p).Path = p := by
  cases cb; rfl

theorem ControlBlock.setPath_Block (cb : ControlBlock) (p : List Nat) :
    (cb.setPath p).Block = cb.Block := by
  cases cb; rfl

theorem ControlBlock.setBlock_Path (cb : ControlBlock) (b : Askew.Block) :
    (cb.setBlock b).Path = cb.Path := by
  cases cb; rfl

theorem ControlBlock.setBlock_revOrdered (cb : ControlBlock) (b : Askew.Block) :
    (cb.setBlock b).revOrdered = b.revOrdered := by
  cases cb
  simp [ControlBlock.setBlock, ControlBlock.revOrdered, Block.revOrdered]

theorem updateCurForm_frame (seh : stdElementHandler) (n : Node) :
    (seh.updateCurForm n).1.b = seh.b ∧
    (seh.updateCurForm n).1.indexList = seh.indexList ∧
    (seh.updateCurForm n).1.syms = seh.syms := by
  unfold stdElementHandler.updateCurForm
  simp only
  split_ifs <;> (try split) <;> simp

/-- `handleControlBlocksAndAssignments` keeps the block in document order: a
control block is appended with the path of its element, after its own
`Controlled` list has been reversed. -/
theorem handle_keeps_order (seh : stdElementHandler)
    (walkInner : stdElementHandler → WalkResult stdElementHandler) (n : Node)
    (attrs : General) (p : List Nat) (k : Nat)
    (hfresh : attrs.fresh = true) (hidx : seh.indexList = p ++ [k])
    (hasc : Ascending (p ++ [k]) seh.b)
    (hinner : ∀ s1 : stdElementHandler, Ascending (s1.indexList ++ [0]) s1.b →
      ∃ bound, Ascending bound (walkInner s1).st.b) :
    (seh.handleControlBlocksAndAssignments walkInner n attrs).st.indexList = p ++ [k] ∧
    ((seh.handleControlBlocksAndAssignments walkInner n attrs).descend = true →
      Ascending (p ++ [k]) (seh.handleControlBlocksAndAssignments walkInner n attrs).st.b) ∧
    Ascending (p ++ [k + 1]) (seh.handleControlBlocksAndAssignments walkInner n attrs).st.b := by
  have hblock : ∀ blk : ControlBlock, blk.Block.Controlled.isEmpty = true →
      Ascending (p ++ [k + 1])
        { seh.b with Controlled := seh.b.Controlled ++
          [(blk.setPath seh.indexList).setBlock
            { (walkInner ((stdElementHandler.processAssignments
                  { syms := seh.syms, indexList := [], b := (blk.setPath seh.indexList).Block,
                    curFormPos := seh.curFormPos, curForm := seh.curForm }
                  attrs.Assign []).1)).st.b with
              Controlled := reverseCopy ControlBlock.zero
                (walkInner ((stdElementHandler.processAssignments
                  { syms := seh.syms, indexList := [], b := (blk.setPath seh.indexList).Block,
                    curFormPos := seh.curFormPos, curForm := seh.curForm }
                  attrs.Assign []).1)).st.b.Controlled }] } := by
    intro blk hempty
    obtain ⟨added, _, hctl, _, hix, _, _, _⟩ := processAssignments_spec
      { syms := seh.syms, indexList := [], b := (blk.setPath seh.indexList).Block,
        curFormPos := seh.curFormPos, curForm := seh.curForm } attrs.Assign []
    have hstart : Ascending
        ((stdElementHandler.processAssignments
          { syms := seh.syms, indexList := [], b := (blk.setPath seh.indexList).Block,
            curFormPos := seh.curFormPos, curForm := seh.curForm } attrs.Assign []).1.indexList
          ++ [0])
        (stdElementHandler.processAssignments
          { syms := seh.syms, indexList := [], b := (blk.setPath seh.indexList).Block,
            curFormPos := seh.curFormPos, curForm := seh.curForm } attrs.Assign []).1.b := by
      apply Ascending.empty
      rw [hctl]
      simp only [ControlBlock.setPath_Block]
      exact List.isEmpty_iff.1 hempty
    obtain ⟨bound, hb⟩ := hinner _ hstart
    apply Ascending.append hasc
    · rw [ControlBlock.setBlock_Path, ControlBlock.setPath_Path, hidx]
    · rw [ControlBlock.setBlock_revOrdered, reverseCopy_eq_reverse]
      exact hb.reverse
    · exact docBefore_next p k 0
  unfold General.fresh at hfresh
  simp only [Bool.and_eq_true] at hfresh
  unfold stdElementHandler.handleControlBlocksAndAssignments
  cases hif : attrs.If with
  | some bi =>
    cases hfor : attrs.For with
    | some bf =>
      simp only [Option.isSome_some, and_self, if_true]
      exact ⟨hidx, fun _ => hasc, hasc.to_sibling 0⟩
    | none =>
      simp only [Option.isSome_none, Bool.false_eq_true, false_and, if_false]
      refine ⟨hidx, by simp, ?_⟩
      have h1 := hfresh.1
      rw [hif] at h1
      exact hblock bi h1
  | none =>
    cases hfor : attrs.For with
    | some bf =>
      simp only [Option.isSome_none, Bool.false_eq_true, and_false, if_false]
      refine ⟨hidx, by simp, ?_⟩
      have h2 := hfresh.2
      rw [hfor] at h2
      exact hblock bf h2
    | none =>
      simp only [Option.isSome_none, Bool.false_eq_true, and_self, if_false]
      obtain ⟨added, _, hctl, _, hix, _, _, _⟩ :=
        processAssignments_spec seh attrs.Assign seh.indexList
      split
      · rename_i seh2 msg heq
        have h1 : seh2 = (seh.processAssignments attrs.Assign seh.indexList).1 := by rw [heq]
        subst h1
        exact ⟨by rw [hix, hidx], by simp, (hasc.same_controlled hctl).to_sibling 0⟩
      · rename_i seh2 heq
        have h1 : seh2 = (seh.processAssignments attrs.Assign seh.indexList).1 := by rw [heq]
        subst h1
        exact ⟨by rw [hix, hidx], fun _ => hasc.same_controlled hctl,
          (hasc.same_controlled hctl).to_sibling 0⟩

theorem fresh_of_freshBlocks (n : Node) (attrs : General) (hf : n.freshBlocks = true)
    (hg : n.Ext.General = .ok attrs) : attrs.fresh = true := by
  cases n with
  | mk t a d as e kids =>
    unfold Node.freshBlocks at hf
    simp only [Node.Ext] at hg
    simp only [hg, Bool.and_eq_true] at hf
    exact hf.1

theorem ctrlProcess_keeps_order (n : Node)
    (inner : stdElementHandler → WalkResult stdElementHandler) (cbeh : stdElementHandler)
    (p : List Nat) (k : Nat) (hf : n.freshBlocks = true)
    (hidx : cbeh.indexList = p ++ [k]) (hasc : Ascending (p ++ [k]) cbeh.b)
    (hinner : ∀ s1 : stdElementHandler, Ascending (s1.indexList ++ [0]) s1.b →
      ∃ bound, Ascending bound (inner s1).st.b) :
    (ctrlBlockElementProcessor.Process n inner cbeh).st.indexList = p ++ [k] ∧
    ((ctrlBlockElementProcessor.Process n inner cbeh).descend = true →
      Ascending (p ++ [k]) (ctrlBlockElementProcessor.Process n inner cbeh).st.b) ∧
    Ascending (p ++ [k + 1]) (ctrlBlockElementProcessor.Process n inner cbeh).st.b := by
  obtain ⟨hb, hi, _⟩ := updateCurForm_frame cbeh n
  have hidx1 : (cbeh.updateCurForm n).1.indexList = p ++ [k] := by rw [hi, hidx]
  have hasc1 : Ascending (p ++ [k]) (cbeh.updateCurForm n).1.b := by rw [hb]; exact hasc
  unfold ctrlBlockElementProcessor.Process
  split
  · rename_i x msg heq
    have hx : x = (cbeh.updateCurForm n).1 := by rw [heq]
    subst hx
    exact ⟨hidx1, fun _ => hasc1, hasc1.to_sibling 0⟩
  · rename_i x heq
    have hx : x = (cbeh.updateCurForm n).1 := by rw [heq]
    subst hx
    split
    · exact ⟨hidx1, fun _ => hasc1, hasc1.to_sibling 0⟩
    · rename_i attrs hg
      split
      · exact ⟨hidx1, fun _ => hasc1, hasc1.to_sibling 0⟩
      · split
        · exact ⟨hidx1, fun _ => hasc1, hasc1.to_sibling 0⟩
        · exact handle_keeps_order _ inner n attrs p k (fresh_of_freshBlocks n attrs hf hg)
            hidx1 hasc1 hinner

theorem aText_frame (atp : stdElementHandler) (n : Node) :
    (aTextProcessor.Process atp n).st.indexList = atp.indexList ∧
    (aTextProcessor.Process atp n).st.b.Controlled = atp.b.Controlled := by
  unfold aTextProcessor.Process
  simp only
  split_ifs <;> simp

theorem embedHandler_frame (P : Parsers) (seh : stdElementHandler) (n : Node) :
    (embedHandler P seh n).st.indexList = seh.indexList ∧
    (embedHandler P seh n).st.b = seh.b := by
  simp [embedHandler]

theorem ctrlBlockWalker_slot (P : Parsers) (t : NodeType) (d : String)
    (h : NodeHandler stdElementHandler) (hs : (ctrlBlockWalker P).slot t d = some h) :
    h = walker.Allow ∨ h = (fun n _ s => aTextProcessor.Process s n) ∨
    h = (fun n _ s => embedHandler P s n) ∨ h = ctrlBlockElementProcessor.Process := by
  unfold Walker.slot Walker.elementSlot ctrlBlockWalker at hs
  cases t
  · simp only [Option.some.injEq] at hs
    exact Or.inl hs.symm
  all_goals
    dsimp only at hs
    split_ifs at hs <;> simp only [Option.some.injEq, reduceCtorEq] at hs
    all_goals first
      | exact Or.inr (Or.inl hs.symm)
      | exact Or.inr (Or.inr (Or.inl hs.symm))
      | exact Or.inr (Or.inr (Or.inr hs.symm))

/-- The handlers of the walker of a control block keep the block in document
order. -/
theorem ctrlBlockWalker_keeps_order (P : Parsers) :
    HandlerKeepsOrder (ctrlBlockWalker P) stdElementHandler.indexRef (fun s => s.b) := by
  intro t a d as e kids h inner s p k hs hf hp hasc hinner
  have hp2 : s.indexList = p ++ [k] := hp
  rcases ctrlBlockWalker_slot P t d h hs with rfl | rfl | rfl | rfl
  · exact ⟨hp, fun _ => hasc, hasc.to_sibling 0⟩
  · obtain ⟨h1, h2⟩ := aText_frame s (Node.mk t a d as e kids)
    have h3 : Ascending (p ++ [k]) (aTextProcessor.Process s (Node.mk t a d as e kids)).st.b :=
      hasc.same_controlled h2
    exact ⟨by show (aTextProcessor.Process s (Node.mk t a d as e kids)).st.indexList = _; rw [h1, hp2],
      fun _ => h3, h3.to_sibling 0⟩
  · obtain ⟨h1, h2⟩ := embedHandler_frame P s (Node.mk t a d as e kids)
    have h3 : Ascending (p ++ [k]) (embedHandler P s (Node.mk t a d as e kids)).st.b := by
      rw [h2]; exact hasc
    exact ⟨by show (embedHandler P s (Node.mk t a d as e kids)).st.indexList = _; rw [h1, hp2],
      fun _ => h3, h3.to_sibling 0⟩
  · exact ctrlProcess_keeps_order _ inner s p k hf hp2 hasc
      (fun s1 h1 => ⟨_, hinner s1 h1⟩)

/-- The walk of the children of a control element leaves the inner block in
document order. -/
theorem ctrlBlockWalker_walk_ordered (P : Parsers) (kids : List Node) (s : stdElementHandler)
    (hf : Node.allFreshBlocks kids = true) (hasc : Ascending (s.indexList ++ [0]) s.b) :
    Ascending (s.indexList ++ [kids.length]) ((ctrlBlockWalker P).WalkChildren kids s).st.b := by
  have := (walkChildren_keeps_order (ctrlBlockWalker P) stdElementHandler.indexRef
    (fun s => s.b) (ctrlBlockWalker_keeps_order P) rfl (fun _ _ => rfl) (fun _ _ => rfl)
    kids 0 s hf hasc).1
  simpa [Walker.WalkChildren] using this

theorem handlersProcessor_frame (P : Parsers) (n : Node)
    (inner : componentElementHandler → WalkResult componentElementHandler)
    (hp : componentElementHandler) :
    (handlersProcessor.Process P n inner hp).st.indexList = hp.indexList ∧
    (handlersProcessor.Process P n inner hp).st.b = hp.b := by
  unfold handlersProcessor.Process
  simp only
  repeat' split
  all_goals simp

theorem controllerProcessor_frame (P : Parsers) (n : Node)
    (inner : componentElementHandler → WalkResult componentElementHandler)
    (cp : componentElementHandler) :
    (controllerProcessor.Process P n inner cp).st.indexList = cp.indexList ∧
    (controllerProcessor.Process P n inner cp).st.b = cp.b := by
  unfold controllerProcessor.Process
  simp only
  repeat' split
  all_goals simp

theorem aDataProcessor_frame (P : Parsers) (n : Node)
    (inner : componentElementHandler → WalkResult componentElementHandler)
    (dp : componentElementHandler) :
    (aDataProcessor.Process P n inner dp).st.indexList = dp.indexList ∧
    (aDataProcessor.Process P n inner dp).st.b = dp.b := by
  unfold aDataProcessor.Process
  simp only
  repeat' split
  all_goals simp

theorem mapCaptures_frame (ceh : componentElementHandler) (n : Node)
    (v : List UnboundEventMapping) :
    (ceh.mapCaptures n v).1.indexList = ceh.indexList ∧ (ceh.mapCaptures n v).1.b = ceh.b := by
  unfold componentElementHandler.mapCaptures
  simp only
  repeat' split
  all_goals simp

theorem processBindings_frame (ceh : componentElementHandler) (arr : List VariableMapping) :
    (ceh.processBindings arr).1.indexList = ceh.indexList ∧
    (ceh.processBindings arr).1.b = ceh.b := by
  simp [componentElementHandler.processBindings]

theorem componentProcess_keeps_order (P : Parsers) (n : Node)
    (inner : componentElementHandler → WalkResult componentElementHandler)
    (ceh : componentElementHandler) (p : List Nat) (k : Nat) (hf : n.freshBlocks = true)
    (hidx : ceh.indexList = p ++ [k]) (hasc : Ascending (p ++ [k]) ceh.b) :
    (componentElementHandler.Process P n inner ceh).st.indexList = p ++ [k] ∧
    ((componentElementHandler.Process P n inner ceh).descend = true →
      Ascending (p ++ [k]) (componentElementHandler.Process P n inner ceh).st.b) ∧
    Ascending (p ++ [k + 1]) (componentElementHandler.Process P n inner ceh).st.b := by
  obtain ⟨hb, hi, _⟩ := updateCurForm_frame ceh.tostdElementHandler n
  have hidx1 : (ceh.tostdElementHandler.updateCurForm n).1.indexList = p ++ [k] := by
    rw [hi]; exact hidx
  have hasc1 : Ascending (p ++ [k]) (ceh.tostdElementHandler.updateCurForm n).1.b := by
    rw [hb]; exact hasc
  have hkids : Node.allFreshBlocks n.Children = true := by
    cases n with
    | mk t a d as e kids => exact freshBlocks_children t a d as e kids hf
  unfold componentElementHandler.Process
  split
  · rename_i x msg heq
    have hx : x = (ceh.tostdElementHandler.updateCurForm n).1 := by rw [heq]
    subst hx
    exact ⟨hidx1, fun _ => hasc1, hasc1.to_sibling 0⟩
  · rename_i x heq
    have hx : x = (ceh.tostdElementHandler.updateCurForm n).1 := by rw [heq]
    subst hx
    simp only
    split
    · exact ⟨hidx1, fun _ => hasc1, hasc1.to_sibling 0⟩
    · rename_i attrs hg
      obtain ⟨h1, h2, h3⟩ := handle_keeps_order (ceh.tostdElementHandler.updateCurForm n).1
        (fun cp => (ctrlBlockWalker P).WalkChildren n.Children cp) n attrs p k
        (fresh_of_freshBlocks n attrs hf hg) hidx1 hasc1
        (fun s1 hs1 => ⟨_, ctrlBlockWalker_walk_ordered P n.Children s1 hkids hs1⟩)
      split
      · rename_i hd
        have h2 := h2 hd
        split
        · rename_i y msg hy
          obtain ⟨hm1, hm2⟩ := mapCaptures_frame
            { ceh with tostdElementHandler :=
              ((ceh.tostdElementHandler.updateCurForm n).1.handleControlBlocksAndAssignments
                (fun cp => (ctrlBlockWalker P).WalkChildren n.Children cp) n attrs).st }
            ((ceh.tostdElementHandler.updateCurForm n).1.handleControlBlocksAndAssignments
                (fun cp => (ctrlBlockWalker P).WalkChildren n.Children cp) n attrs).node
            attrs.Capture
          rw [hy] at hm1 hm2
          simp only at hm1 hm2
          have hy3 : Ascending (p ++ [k]) y.b := by rw [hm2]; exact h2
          exact ⟨by rw [hm1]; exact h1, fun _ => hy3, hy3.to_sibling 0⟩
        · rename_i y hy
          obtain ⟨hm1, hm2⟩ := mapCaptures_frame
            { ceh with tostdElementHandler :=
              ((ceh.tostdElementHandler.updateCurForm n).1.handleControlBlocksAndAssignments
                (fun cp => (ctrlBlockWalker P).WalkChildren n.Children cp) n attrs).st }
            ((ceh.tostdElementHandler.updateCurForm n).1.handleControlBlocksAndAssignments
                (fun cp => (ctrlBlockWalker P).WalkChildren n.Children cp) n attrs).node
            attrs.Capture
          rw [hy] at hm1 hm2
          simp only at hm1 hm2
          have hy3 : Ascending (p ++ [k]) y.b := by rw [hm2]; exact h2
          have hy1 : y.indexList = p ++ [k] := by rw [hm1]; exact h1
          obtain ⟨hb1, hb2⟩ := processBindings_frame y attrs.Bindings
          split
          · rename_i z msg hz
            rw [hz] at hb1 hb2
            simp only at hb1 hb2
            have hz3 : Ascending (p ++ [k]) z.b := by rw [hb2]; exact hy3
            exact ⟨by rw [hb1]; exact hy1, fun _ => hz3, hz3.to_sibling 0⟩
          · rename_i z hz
            rw [hz] at hb1 hb2
            simp only at hb1 hb2
            have hz3 : Ascending (p ++ [k]) z.b := by rw [hb2]; exact hy3
            exact ⟨by rw [hb1]; exact hy1, fun _ => hz3, hz3.to_sibling 0⟩
      · split
        · exact ⟨h1, by simp, h3⟩
        · split
          · exact ⟨h1, by simp, h3⟩
          · exact ⟨h1, by simp, h3⟩

theorem componentWalker_slot (P : Parsers) (t : NodeType) (d : String)
    (h : NodeHandler componentElementHandler) (hs : (componentWalker P).slot t d = some h) :
    h = walker.Allow ∨
    h = (fun n _ s => s.lift (aTextProcessor.Process s.tostdElementHandler n)) ∨
    h = (fun n _ s => s.lift (embedHandler P s.tostdElementHandler n)) ∨
    h = handlersProcessor.Process P ∨ h = controllerProcessor.Process P ∨
    h = aDataProcessor.Process P ∨ h = componentElementHandler.Process P := by
  unfold Walker.slot Walker.elementSlot componentWalker at hs
  cases t
  · simp only [Option.some.injEq] at hs
    exact Or.inl hs.symm
  all_goals
    dsimp only at hs
    split_ifs at hs <;> simp only [Option.some.injEq, reduceCtorEq] at hs
    all_goals first
      | exact Or.inr (Or.inl hs.symm)
      | exact Or.inr (Or.inr (Or.inl hs.symm))
      | exact Or.inr (Or.inr (Or.inr (Or.inl hs.symm)))
      | exact Or.inr (Or.inr (Or.inr (Or.inr (Or.inl hs.symm))))
      | exact Or.inr (Or.inr (Or.inr (Or.inr (Or.inr (Or.inl hs.symm)))))
      | exact Or.inr (Or.inr (Or.inr (Or.inr (Or.inr (Or.inr hs.symm)))))

/-- The handlers of the walker of a component keep the root block in document
order. -/
theorem componentWalker_keeps_order (P : Parsers) :
    HandlerKeepsOrder (componentWalker P) componentElementHandler.indexRef (fun s => s.b) := by
  intro t a d as e kids h inner s p k hs hf hp hasc _
  have hp2 : s.indexList = p ++ [k] := hp
  have hasc2 : Ascending (p ++ [k]) s.b := hasc
  rcases componentWalker_slot P t d h hs with rfl | rfl | rfl | rfl | rfl | rfl | rfl
  · exact ⟨hp, fun _ => hasc, hasc.to_sibling 0⟩
  · obtain ⟨h1, h2⟩ := aText_frame s.tostdElementHandler (Node.mk t a d as e kids)
    have h3 : Ascending (p ++ [k])
        (aTextProcessor.Process s.tostdElementHandler (Node.mk t a d as e kids)).st.b :=
      hasc2.same_controlled h2
    exact ⟨by
      show (aTextProcessor.Process s.tostdElementHandler (Node.mk t a d as e kids)).st.indexList = _
      rw [h1, hp2], fun _ => h3, h3.to_sibling 0⟩
  · obtain ⟨h1, h2⟩ := embedHandler_frame P s.tostdElementHandler (Node.mk t a d as e kids)
    have h3 : Ascending (p ++ [k])
        (embedHandler P s.tostdElementHandler (Node.mk t a d as e kids)).st.b := by
      rw [h2]; exact hasc2
    exact ⟨by
      show (embedHandler P s.tostdElementHandler (Node.mk t a d as e kids)).st.indexList = _
      rw [h1, hp2], fun _ => h3, h3.to_sibling 0⟩
  · obtain ⟨h1, h2⟩ := handlersProcessor_frame P (Node.mk t a d as e kids) inner s
    have h3 : Ascending (p ++ [k])
        (handlersProcessor.Process P (Node.mk t a d as e kids) inner s).st.b := by
      rw [h2]; exact hasc2
    exact ⟨by
      show (handlersProcessor.Process P (Node.mk t a d as e kids) inner s).st.indexList = _
      rw [h1, hp2], fun _ => h3, h3.to_sibling 0⟩
  · obtain ⟨h1, h2⟩ := controllerProcessor_frame P (Node.mk t a d as e kids) inner s
    have h3 : Ascending (p ++ [k])
        (controllerProcessor.Process P (Node.mk t a d as e kids) inner s).st.b := by
      rw [h2]; exact hasc2
    exact ⟨by
      show (controllerProcessor.Process P (Node.mk t a d as e kids) inner s).st.indexList = _
      rw [h1, hp2], fun _ => h3, h3.to_sibling 0⟩
  · obtain ⟨h1, h2⟩ := aDataProcessor_frame P (Node.mk t a d as e kids) inner s
    have h3 : Ascending (p ++ [k])
        (aDataProcessor.Process P (Node.mk t a d as e kids) inner s).st.b := by
      rw [h2]; exact hasc2
    exact ⟨by
      show (aDataProcessor.Process P (Node.mk t a d as e kids) inner s).st.indexList = _
      rw [h1, hp2], fun _ => h3, h3.to_sibling 0⟩
  · exact componentProcess_keeps_order P _ inner s p k hf hp2 hasc2

/-- C1 (amended).  When `mapCaptures` succeeds on a non-empty list of raw
captures it appends one capture whose mappings correspond one to one to the
raw captures, and each mapping has exactly one bound parameter per formal
parameter of the resolved handler, in declaration order: the parameter list
has the length of `Params`, and entry `i` is the parameter the resolver builds
for `Params[i]` -- its name, and as value the user-supplied mapping of that
name (with `FormDepth` set to the current form depth when it is a form value)
or `Data(name)` when the user supplied none. -/
theorem mapCaptures_one_param_per_formal (ceh : componentElementHandler) (n : Node)
    (v : List UnboundEventMapping) (hv : v ≠ [])
    (hok : (ceh.mapCaptures n v).2 = none) :
    ∃ ms, (ceh.mapCaptures n v).1.c.Captures
          = ceh.c.Captures ++ [{ Path := ceh.indexList, Mappings := ms }] ∧
      List.Forall₂ (fun u m =>
        ∃ sig, mapCaptures.lookupHandler ceh.c u.Handler = .ok (sig, m.FromController) ∧
          m.ParamMappings.length = sig.Params.length ∧
          m.ParamMappings = sig.Params.map (expectedParam ceh.formDepth u.ParamMappings) ∧
          (∀ i (hi : i < sig.Params.length), ∀ bp, m.ParamMappings[i]? = some bp →
            bp.Param = (sig.Params.get ⟨i, hi⟩).Name ∧
            (u.ParamMappings.lookup bp.Param = none →
              bp.Value = { Kind := .BoundData, ID := bp.Param }) ∧
            (∀ bVal, u.ParamMappings.lookup bp.Param = some bVal →
              bVal.Kind ≠ .BoundFormValue → bp.Value = bVal) ∧
            (∀ bVal, u.ParamMappings.lookup bp.Param = some bVal →
              bVal.Kind = .BoundFormValue →
              bp.Value = { bVal with FormDepth := ceh.formDepth }))) v ms := by
  obtain ⟨ms, hcap, hall⟩ := mapCaptures_ok ceh n v hv hok
  refine ⟨ms, hcap, ?_⟩
  refine List.Forall₂.imp ?_ hall
  intro u m hm
  obtain ⟨sig, hl, hp, _, _, _⟩ := mapOne_ok _ _ _ _ _ hm
  refine ⟨sig, hl, by simp [hp], hp, ?_⟩
  intro i hi bp hbp
  rw [hp] at hbp
  simp only [List.getElem?_map, List.getElem?_eq_getElem hi, Option.map_some',
    Option.some.injEq] at hbp
  subst hbp
  have hname : (expectedParam ceh.formDepth u.ParamMappings sig.Params[i]).Param
      = sig.Params[i].Name := by
    unfold expectedParam
    split <;> rfl
  refine ⟨by simpa using hname, ?_, ?_, ?_⟩
  · intro hnone
    rw [hname] at hnone ⊢
    simp [expectedParam, hnone]
  · intro bVal hsome hk
    rw [hname] at hsome
    simp [expectedParam, hsome, hk]
  · intro bVal hsome hk
    rw [hname] at hsome
    simp [expectedParam, hsome, hk]

/-- Witness of C1: the handler `onClick(n int, s string)` with the capture
`click:onClick` yields the mappings `n -> Data(n)`, `s -> Data(s)`. -/
theorem mapCaptures_one_param_per_formal_witness :
    (insideForm.mapCaptures button [clickCapture]).1.c.Captures
      = [{ Path := [0, 0, 0],
           Mappings := [{ Event := "click", Handler := "onClick",
                          ParamMappings :=
                            [{ Param := "n", Value := { Kind := .BoundData, ID := "n" } },
                             { Param := "s", Value := { Kind := .BoundData, ID := "s" } }],
                          Handling := .DontPreventDefault, FromController := false }] }] ∧
    ∃ ms, (insideForm.mapCaptures button [clickCapture]).1.c.Captures
          = insideForm.c.Captures ++ [{ Path := insideForm.indexList, Mappings := ms }] ∧
      List.Forall₂ (fun u m =>
        ∃ sig, mapCaptures.lookupHandler insideForm.c u.Handler
            = .ok (sig, m.FromController) ∧
          m.ParamMappings.length = sig.Params.length ∧
          m.ParamMappings
            = sig.Params.map (expectedParam insideForm.formDepth u.ParamMappings) ∧
          (∀ i (hi : i < sig.Params.length), ∀ bp, m.ParamMappings[i]? = some bp →
            bp.Param = (sig.Params.get ⟨i, hi⟩).Name ∧
            (u.ParamMappings.lookup bp.Param = none →
              bp.Value = { Kind := .BoundData, ID := bp.Param }) ∧
            (∀ bVal, u.ParamMappings.lookup bp.Param = some bVal →
              bVal.Kind ≠ .BoundFormValue → bp.Value = bVal) ∧
            (∀ bVal, u.ParamMappings.lookup bp.Param = some bVal →
              bVal.Kind = .BoundFormValue →
              bp.Value = { bVal with FormDepth := insideForm.formDepth })))
        [clickCapture] ms :=
  ⟨by decide,
   mapCaptures_one_param_per_formal insideForm button [clickCapture] (by decide) (by decide)⟩

/-- Counterexample to C1 as stated: the capture `click:h{q=form(q)}` on an
element at depth 3 of a form that began at depth 1 is accepted, and the value
stored for `q` is not the user-supplied mapping: its `FormDepth` is 2, where
the user-supplied one has 0. -/
theorem mapCaptures_value_differs_from_user_mapping :
    (insideForm.mapCaptures button [formCapture]).2 = none ∧
    (insideForm.mapCaptures button [formCapture]).1.c.Captures
      = [{ Path := [0, 0, 0],
           Mappings := [{ Event := "click", Handler := "h",
                          ParamMappings :=
                            [{ Param := "q",
                               Value := { Kind := .BoundFormValue, ID := "q", FormDepth := 2 } }],
                          Handling := .DontPreventDefault, FromController := false }] }] ∧
    formCapture.ParamMappings.lookup "q"
      = some { Kind := .BoundFormValue, ID := "q", FormDepth := 0 } ∧
    ({ Kind := .BoundFormValue, ID := "q", FormDepth := 2 } : BoundValue)
      ≠ { Kind := .BoundFormValue, ID := "q", FormDepth := 0 } := by
  decide

theorem handle_no_control_block (seh : stdElementHandler)
    (walkInner : stdElementHandler → WalkResult stdElementHandler) (n : Node)
    (attrs : General) (hif : attrs.If = none) (hfor : attrs.For = none) :
    (seh.handleControlBlocksAndAssignments walkInner n attrs).st
        = (seh.processAssignments attrs.Assign seh.indexList).1 ∧
    (seh.handleControlBlocksAndAssignments walkInner n attrs).err
        = (seh.processAssignments attrs.Assign seh.indexList).2 := by
  unfold stdElementHandler.handleControlBlocksAndAssignments
  simp only [hif, hfor, Option.isSome_none, Bool.false_eq_true, and_self, if_false]
  split <;> rename_i h <;> simp [h]

/-- C9.  A form value that the analyser accepts is stored with `FormDepth`
equal to the length of the current index path minus the path length at which
the active form began: for the capture parameter mappings of a successful
`mapCaptures`, for the bindings `processBindings` stores, and for the
assignments of an element without `a:if` and `a:for`. -/
theorem formValue_depth_is_path_length_minus_form_start
    (ceh : componentElementHandler) (n : Node) (v : List UnboundEventMapping)
    (arr : List VariableMapping) (seh : stdElementHandler)
    (walkInner : stdElementHandler → WalkResult stdElementHandler) (el : Node)
    (attrs : General)
    (hok : (ceh.mapCaptures n v).2 = none)
    (hif : attrs.If = none) (hfor : attrs.For = none) :
    (∀ cap ∈ (ceh.mapCaptures n v).1.c.Captures.drop ceh.c.Captures.length,
      ∀ m ∈ cap.Mappings, ∀ bp ∈ m.ParamMappings, bp.Value.Kind = .BoundFormValue →
        bp.Value.FormDepth = (ceh.indexList.length : Int) - ceh.curFormPos) ∧
    (∀ vb ∈ (ceh.processBindings arr).1.c.Variables.drop ceh.c.Variables.length,
      vb.Value.Kind = .BoundFormValue →
        vb.Value.FormDepth = (ceh.indexList.length : Int) - ceh.curFormPos) ∧
    (∀ a ∈ (seh.handleControlBlocksAndAssignments walkInner el attrs).st.b.Assignments.drop
        seh.b.Assignments.length,
      a.Target.Kind = .BoundFormValue →
        a.Target.FormDepth = (seh.indexList.length : Int) - seh.curFormPos) := by
  refine ⟨?_, ?_, ?_⟩
  · by_cases hv : v = []
    · subst hv
      simp [componentElementHandler.mapCaptures]
    · obtain ⟨ms, hcap, hall⟩ := mapCaptures_ok ceh n v hv hok
      rw [hcap, List.drop_left]
      intro cap hcap m hm bp hbp hk
      rw [List.mem_singleton] at hcap
      subst hcap
      obtain ⟨u, _, hu⟩ := forall₂_mem_right hall m hm
      obtain ⟨hd, hne, _⟩ := mapOne_formValue _ _ _ _ _ hu bp hbp hk
      rw [hd]
      exact formDepth_eq_of_ne ceh.tostdElementHandler hne
  · unfold componentElementHandler.processBindings
    rw [formDepth_inline]
    obtain ⟨added, hres, hall⟩ := processBindings_loop_spec
      ceh.formDepth ceh.curForm ceh.indexList arr ceh.c.Variables
    simp only [hres, List.drop_left]
    intro vb hvb hk
    obtain ⟨hd, hne, _⟩ := hall vb hvb hk
    rw [hd]
    exact formDepth_eq_of_ne ceh.tostdElementHandler hne
  · rw [(handle_no_control_block seh walkInner el attrs hif hfor).1]
    obtain ⟨added, hres, _, _, _, _, _, hall⟩ :=
      processAssignments_spec seh attrs.Assign seh.indexList
    rw [hres, List.drop_left]
    intro a ha hk
    obtain ⟨hd, hne, _⟩ := hall a ha hk
    rw [hd]
    exact formDepth_eq_of_ne seh hne

/-- Witness of C9: with the form starting at depth 1 and the capturing element
at depth 3, the capture `click:h{q=form(q)}` is stored as
`FormValue{id q, formDepth 2}`; the binding `form(n):count` and the assignment
`form(q)=x` get depth 2 as well. -/
theorem formValue_depth_is_path_length_minus_form_start_witness :
    ((insideForm.mapCaptures button [formCapture]).1.c.Captures.map
        (fun cap => cap.Mappings.map (fun m => m.ParamMappings)))
      = [[[{ Param := "q",
             Value := { Kind := .BoundFormValue, ID := "q", IsRadio := false,
                        FormDepth := 2 } }]]] ∧
    ((insideForm.processBindings [formBinding]).1.c.Variables.map
        (fun vb => vb.Value.FormDepth)) = [2] ∧
    ((insideForm.tostdElementHandler.handleControlBlocksAndAssignments
        (fun cp => { nodes := [], err := none, st := cp }) button
        { Assign := [formAssignment] }).st.b.Assignments.map
        (fun a => a.Target.FormDepth)) = [2] ∧
    ((∀ cap ∈ (insideForm.mapCaptures button [formCapture]).1.c.Captures.drop
          insideForm.c.Captures.length,
      ∀ m ∈ cap.Mappings, ∀ bp ∈ m.ParamMappings, bp.Value.Kind = .BoundFormValue →
        bp.Value.FormDepth = (insideForm.indexList.length : Int) - insideForm.curFormPos) ∧
    (∀ vb ∈ (insideForm.processBindings [formBinding]).1.c.Variables.drop
          insideForm.c.Variables.length,
      vb.Value.Kind = .BoundFormValue →
        vb.Value.FormDepth = (insideForm.indexList.length : Int) - insideForm.curFormPos) ∧
    (∀ a ∈ (insideForm.tostdElementHandler.handleControlBlocksAndAssignments
          (fun cp => { nodes := [], err := none, st := cp }) button
          { Assign := [formAssignment] }).st.b.Assignments.drop
        insideForm.tostdElementHandler.b.Assignments.length,
      a.Target.Kind = .BoundFormValue →
        a.Target.FormDepth = (insideForm.tostdElementHandler.indexList.length : Int)
          - insideForm.tostdElementHandler.curFormPos)) :=
  ⟨by decide, by decide, by decide,
   formValue_depth_is_path_length_minus_form_start insideForm button [formCapture]
     [formBinding] insideForm.tostdElementHandler
     (fun cp => { nodes := [], err := none, st := cp }) button
     { Assign := [formAssignment] } (by decide) rfl rfl⟩

/-- C10.  Handler resolution in `mapCaptures`.  The name is looked up in
`Handlers` first and in `Controller` only if it is absent there.  Resolution
fails iff the name is in neither table, or is absent from `Handlers` and the
controller method of that name has `CanCapture = false`.  On success
`fromController` is true exactly when the name was not found in `Handlers`,
and the signature is that of the table entry found.  A resolved mapping
carries that flag and is built from that signature; a raw capture whose
handler does not resolve makes `mapCaptures` fail. -/
theorem mapCaptures_handler_resolution (c : Component) (name : String) :
    ((∃ msg, mapCaptures.lookupHandler c name = .error msg) ↔
      (mapGet c.Handlers name = none ∧
        (mapGet c.Controller name = none ∨
          ∃ cm, mapGet c.Controller name = some cm ∧ cm.CanCapture = false))) ∧
    (∀ sig, mapGet c.Handlers name = some sig →
      mapCaptures.lookupHandler c name = .ok (sig, false)) ∧
    (∀ sig fromController, mapCaptures.lookupHandler c name = .ok (sig, fromController) →
      (fromController = true ↔ mapGet c.Handlers name = none) ∧
      (fromController = false → mapGet c.Handlers name = some sig) ∧
      (fromController = true →
        ∃ cm, mapGet c.Controller name = some cm ∧ cm.CanCapture = true ∧ cm.Handler = sig)) ∧
    (∀ fd cf u m, u.Handler = name → mapCaptures.mapOne c fd cf u = .ok m →
      ∃ sig, mapCaptures.lookupHandler c name = .ok (sig, m.FromController) ∧
        m.ParamMappings = sig.Params.map (expectedParam fd u.ParamMappings)) ∧
    (∀ (ceh : componentElementHandler) n v u, ceh.c = c → u ∈ v → u.Handler = name →
      (∃ msg, mapCaptures.lookupHandler c name = .error msg) →
      (ceh.mapCaptures n v).2 ≠ none) := by
  refine ⟨?_, ?_, ?_, ?_, ?_⟩
  · unfold mapCaptures.lookupHandler
    cases hh : mapGet c.Handlers name with
    | some h => simp
    | none =>
      cases hc : mapGet c.Controller name with
      | none => simp
      | some cm =>
        cases hcc : cm.CanCapture <;> simp [hcc]
  · intro sig hs
    simp [mapCaptures.lookupHandler, hs]
  · intro sig fc h
    unfold mapCaptures.lookupHandler at h
    cases hh : mapGet c.Handlers name with
    | some h0 =>
      simp only [hh, Except.ok.injEq, Prod.mk.injEq] at h
      obtain ⟨rfl, rfl⟩ := h
      simp
    | none =>
      cases hc : mapGet c.Controller name with
      | none => simp [hh, hc] at h
      | some cm =>
        cases hcc : cm.CanCapture with
        | false => simp [hh, hc, hcc] at h
        | true =>
          simp only [hh, hc, hcc, Bool.not_true, Bool.false_eq_true, if_false,
            Except.ok.injEq, Prod.mk.injEq] at h
          obtain ⟨rfl, rfl⟩ := h
          simp [hcc]
  · intro fd cf u m hu hm
    subst hu
    obtain ⟨sig, hl, hp, _⟩ := mapOne_ok _ _ _ _ _ hm
    exact ⟨sig, hl, hp⟩
  · intro ceh n v u hc hu hname hfail
    subst hc hname
    obtain ⟨msg, hmsg⟩ := hfail
    have hv : v.length ≠ 0 := by
      intro h0
      rw [List.length_eq_zero.1 h0] at hu
      cases hu
    obtain ⟨msg2, hall⟩ := mapAll_error_of_mem ceh.c ceh.formDepth ceh.curForm v [] u hu
      ⟨msg, mapOne_lookup_error _ _ _ _ _ hmsg⟩
    unfold componentElementHandler.mapCaptures
    rw [formDepth_inline]
    simp [hv, hall]

/-- C2.  After `Processor.Process` has analysed a component, `cmp.Embeds` is
exactly the reverse of the list in which the walk appended the embeds to the
host: it has the same length, and element `i` of the result is element
`n - 1 - i` of the walk-order list. -/
theorem process_embeds_reversed (P : Parsers) (p : Processor) (n : Node)
    (cmpAttrs : ComponentAttrs) (hattrs : n.Ext.Component = .ok cmpAttrs)
    (hname : cmpAttrs.Name.length ≠ 0) :
    ∃ cmp, (Processor.Process P p n).cmp = some cmp ∧
      cmp.Embeds = (p.walk P cmpAttrs n).st.syms.CurHost.Embeds.reverse ∧
      cmp.Embeds.length = (p.walk P cmpAttrs n).st.syms.CurHost.Embeds.length ∧
      (∀ i, i < cmp.Embeds.length →
        cmp.Embeds[i]?
          = (p.walk P cmpAttrs n).st.syms.CurHost.Embeds[cmp.Embeds.length - 1 - i]?) := by
  unfold Processor.Process
  simp only [hattrs, hname, if_false]
  refine ⟨_, rfl, ?_, ?_, ?_⟩
  · simp [reverseCopy_eq_reverse]
  · simp [reverseCopy_eq_reverse]
  · intro i hi
    simp only [reverseCopy_eq_reverse, List.length_reverse] at hi ⊢
    rw [List.getElem?_reverse hi]

/-- Witness of C2: for two direct embeds `a` at path `[0]` and `b` at path
`[1]` the walk appends `a`, `b` and the component holds `[b@[1], a@[0]]`. -/
theorem process_embeds_reversed_witness :
    ((exampleProcessor.walk exampleParsers { Name := "C" } twoEmbeds).st.syms.CurHost.Embeds.map
      (fun e => (e.Field, e.Path))) = [("a", [0]), ("b", [1])] ∧
    ((Processor.Process exampleParsers exampleProcessor twoEmbeds).cmp.map
      (fun cmp => cmp.Embeds.map (fun e => (e.Field, e.Path))))
      = some [("b", [1]), ("a", [0])] ∧
    ∃ cmp, (Processor.Process exampleParsers exampleProcessor twoEmbeds).cmp = some cmp ∧
      cmp.Embeds = (exampleProcessor.walk exampleParsers { Name := "C" }
        twoEmbeds).st.syms.CurHost.Embeds.reverse ∧
      cmp.Embeds.length = (exampleProcessor.walk exampleParsers { Name := "C" }
        twoEmbeds).st.syms.CurHost.Embeds.length ∧
      (∀ i, i < cmp.Embeds.length →
        cmp.Embeds[i]? = (exampleProcessor.walk exampleParsers { Name := "C" }
          twoEmbeds).st.syms.CurHost.Embeds[cmp.Embeds.length - 1 - i]?) :=
  ⟨by decide, by decide,
   process_embeds_reversed exampleParsers exampleProcessor twoEmbeds { Name := "C" } rfl
     (by decide)⟩

/-- C4 (the code at the failing input).  In `<div><form><input name="q">
<p a:if="c" a:assign="form(q)=x"></p></form></div>` the form begins at depth
2.  The analysis succeeds and stores, in the control block of the `<p>`, the
assignment to the form value `q` with `FormDepth = -2`. -/
theorem control_element_in_form_gets_negative_depth :
    (Processor.Process exampleParsers exampleProcessor controlInsideForm).err = none ∧
    ((Processor.Process exampleParsers exampleProcessor controlInsideForm).cmp.map
      (fun cmp => cmp.Block.Controlled.map
        (fun cb => (cb.Path, cb.Block.Assignments.map
          (fun a => (a.Path, a.Target.Kind, a.Target.ID, a.Target.FormDepth))))))
      = some [([0, 0, 1], [([], .BoundFormValue, "q", -2)])] :=
  ⟨by decide, rfl⟩

/-- C5 (the code at the failing input).  In `<p></p><div a:if="c"><span>
</span><a:embed name="a" type="T"/></div>` the embed is replaced by the comment
`embed(a)` at the absolute path `[1, 1]`.  The analysis succeeds and stores the
embed with path `[1]`, the path relative to the control element; descending
from the template root by `[1]` reaches the `<div>`. -/
theorem embed_in_control_block_has_relative_path :
    (Processor.Process exampleParsers exampleProcessor embedInControlBlock).err = none ∧
    ((Processor.Process exampleParsers exampleProcessor embedInControlBlock).cmp.map
      (fun cmp => cmp.Embeds.map (fun e => (e.Field, e.Path)))) = some [("a", [1])] ∧
    ((Processor.Process exampleParsers exampleProcessor embedInControlBlock).cmp.map
      (fun cmp => (cmp.Template.descend [1]).map (fun n => (n.Typ, n.Data))))
      = some (some (.ElementNode, "div")) ∧
    ((Processor.Process exampleParsers exampleProcessor embedInControlBlock).cmp.map
      (fun cmp => (cmp.Template.descend [1, 1]).map (fun n => (n.Typ, n.Data))))
      = some (some (.CommentNode, "embed(a)")) := by
  decide

/-- C6 (the code at the failing input).  In `<div a:if="c"><a:text></a:text>
</div>` the handler of `<a:text>` returns the error that `expr` is missing,
and the analysis of the component returns no error. -/
theorem error_in_control_block_is_dropped :
    (aTextProcessor.Process
      { syms := exampleSymbols, indexList := [0], b := {}, curFormPos := -1, curForm := none }
      (textElement [])).err = some ": missing attribute `expr`" ∧
    ((ctrlBlockWalker exampleParsers).WalkChildren [textElement []]
      { syms := exampleSymbols, indexList := [], b := {}, curFormPos := -1,
        curForm := none }).err = some ": missing attribute `expr`" ∧
    (Processor.Process exampleParsers exampleProcessor textErrorInControlBlock).err = none := by
  decide

/-- C7 (the code at the failing input).  In `<a:handlers>onClick(n int, s string)
</a:handlers><div a:if="c"><span a:capture="click:onClick"></span></div>` a
descendant of a control element carries `a:capture`.  Its handler returns the
error, and the analysis of the component returns no error. -/
theorem capture_in_control_block_is_accepted :
    (ctrlBlockElementProcessor.Process
      (plainElement "span" .Other [] { Capture := [clickCapture] } [])
      (fun cp => { nodes := [], err := none, st := cp })
      { syms := exampleSymbols, indexList := [0], b := {}, curFormPos := -1,
        curForm := none }).err = some ": cannot capture inside a:if or a:for" ∧
    (Processor.Process exampleParsers exampleProcessor captureInControlBlock).err = none ∧
    ((Processor.Process exampleParsers exampleProcessor captureInControlBlock).cmp.map
      (fun cmp => cmp.Captures)) = some [] := by
  decide

/-- C8 (the code at the failing input).  `<p a:if="c" a:assign="form(q)=x">
</p>` stands outside of any form.  `processAssignments` reports the illegal
form value for the inner handler, but processing the element returns no error
and neither does the analysis of the component; the assignment is not
stored. -/
theorem form_value_on_control_element_is_not_reported :
    (stdElementHandler.processAssignments
      { syms := exampleSymbols, indexList := [], b := {}, curFormPos := -1, curForm := none }
      [formAssignment] []).2 = some ": illegal form() binding outside of <form> element" ∧
    (componentElementHandler.Process exampleParsers controlWithFormAssignment
      (fun s => { nodes := [], err := none, st := s }) atTopLevel).err = none ∧
    (Processor.Process exampleParsers exampleProcessor formValueOutsideForm).err = none ∧
    ((Processor.Process exampleParsers exampleProcessor formValueOutsideForm).cmp.map
      (fun cmp => cmp.Block.Controlled.map (fun cb => cb.Block.Assignments)))
      = some [[]] := by
  decide

/-- C3.  After `Processor.Process` has analysed a component whose `a:if` and
`a:for` attributes are as the parser delivers them, every block of the
component -- the root block and the inner block of every control block at any
nesting depth -- has its `Controlled` list in reverse document order: in each
such list the path of a control element comes after the paths of all the
control elements that follow it in the list.  (This holds whether or not the
walk returned an error.) -/
theorem process_controlled_reverse_document_order (P : Parsers) (p : Processor) (n : Node)
    (cmpAttrs : ComponentAttrs) (hattrs : n.Ext.Component = .ok cmpAttrs)
    (hname : cmpAttrs.Name.length ≠ 0) (hfresh : n.freshBlocks = true) :
    ∃ cmp, (Processor.Process P p n).cmp = some cmp ∧ cmp.Block.revOrdered = true ∧
      cmp.Block.Controlled = (p.walk P cmpAttrs n).st.b.Controlled.reverse := by
  have hkids : Node.allFreshBlocks n.Children = true := by
    cases n with
    | mk t a d as e kids => exact freshBlocks_children t a d as e kids hfresh
  have hwalk := (walkChildren_keeps_order (componentWalker P) componentElementHandler.indexRef
    (fun s => s.b) (componentWalker_keeps_order P) rfl (fun _ _ => rfl) (fun _ _ => rfl)
    n.Children 0
    { syms := { p.syms with CurHost := {} }, indexList := [],
      b := (p.newComponent P cmpAttrs).Block, curFormPos := -1, curForm := none,
      c := p.newComponent P cmpAttrs } hkids (Ascending.empty _ _ rfl)).1
  unfold Processor.Process
  simp only [hattrs, hname, if_false]
  refine ⟨_, rfl, ?_, ?_⟩
  · simp only [reverseCopy_eq_reverse]
    exact hwalk.reverse
  · simp only [reverseCopy_eq_reverse]

/-- Witness of C3: in `<div a:if="a"><p a:if="b"></p><p a:if="c"></p></div>
<div a:if="d"></div>` the root block holds the control blocks of paths `[1]`,
`[0]` and the block of `[0]` holds those of paths `[1]`, `[0]`. -/
theorem process_controlled_reverse_document_order_witness :
    ((Processor.Process exampleParsers exampleProcessor nestedControlBlocks).cmp.map
      (fun cmp => cmp.Block.Controlled.map
        (fun cb => (cb.Path, cb.Block.Controlled.map (fun c => c.Path)))))
      = some [([1], []), ([0], [[1], [0]])] ∧
    ∃ cmp, (Processor.Process exampleParsers exampleProcessor nestedControlBlocks).cmp
        = some cmp ∧ cmp.Block.revOrdered = true ∧
      cmp.Block.Controlled = (exampleProcessor.walk exampleParsers { Name := "C" }
        nestedControlBlocks).st.b.Controlled.reverse :=
  ⟨rfl,
   process_controlled_reverse_document_order exampleParsers exampleProcessor
     nestedControlBlocks { Name := "C" } rfl (by decide) (by decide)⟩

/-! ## Invariants of a walk -/

mutual

/-- A property of the state that every handler of the walker preserves, and
that pushing and popping an index preserves, holds after walking a node. -/
theorem walkNode_preserves {σ : Type} (w : Walker σ) (I : σ → Prop)
    (hstep : ∀ (t : NodeType) (d : String) (h : NodeHandler σ) (n : Node)
      (inner : σ → WalkResult σ) (s : σ), w.slot t d = some h →
      (∀ s1, I s1 → I (inner s1).st) → I s → I (h n inner s).st)
    (hpush : ∀ k s, I s → I (w.push k s)) (hpop : ∀ s, I s → I (w.pop s)) :
    ∀ (n : Node) (s : σ), I s → I (w.walkNode n s).st
  | .mk t a d as e kids, s, hs => by
    have hinner : ∀ s1, I s1 → I (w.walkChildren kids 0 s1).st :=
      fun s1 h1 => walkChildren_preserves w I hstep hpush hpop kids 0 s1 h1
    unfold Walker.walkNode
    cases t with
    | CommentNode => exact hs
    | TextNode =>
      simp only
      cases hsl : w.slot .TextNode d with
      | none => exact hs
      | some h =>
        have h1 := hstep .TextNode d h (Node.mk .TextNode a d as e kids)
          (fun s1 => w.walkChildren kids 0 s1) s hsl hinner hs
        simp only
        split
        · exact h1
        · split
          · exact h1
          · split
            · exact hinner _ h1
            · exact h1
    | ElementNode =>
      simp only
      cases hsl : w.slot .ElementNode d with
      | none => exact hs
      | some h =>
        have h1 := hstep .ElementNode d h (Node.mk .ElementNode a d as e kids)
          (fun s1 => w.walkChildren kids 0 s1) s hsl hinner hs
        simp only
        split
        · exact h1
        · split
          · exact h1
          · split
            · exact hinner _ h1
            · exact h1

/-- A property of the state that every handler of the walker preserves holds
after walking a list of children. -/
theorem walkChildren_preserves {σ : Type} (w : Walker σ) (I : σ → Prop)
    (hstep : ∀ (t : NodeType) (d : String) (h : NodeHandler σ) (n : Node)
      (inner : σ → WalkResult σ) (s : σ), w.slot t d = some h →
      (∀ s1, I s1 → I (inner s1).st) → I s → I (h n inner s).st)
    (hpush : ∀ k s, I s → I (w.push k s)) (hpop : ∀ s, I s → I (w.pop s)) :
    ∀ (l : List Node) (k : Nat) (s : σ), I s → I (w.walkChildren l k s).st
  | [], _, s, hs => by
    unfold Walker.walkChildren
    exact hs
  | n :: rest, k, s, hs => by
    have hn := walkNode_preserves w I hstep hpush hpop n (w.push k s) (hpush k s hs)
    unfold Walker.walkChildren
    simp only
    split
    · exact hn
    · exact walkChildren_preserves w I hstep hpush hpop rest (k + 1) _ (hpop _ hn)

end

/-! ## Unknown capture parameters and the handling -/

theorem mapParams_no_form (fd : Int) (cf : Option (StrMap formValue))
    (pm : StrMap BoundValue) (hnf : ∀ kv ∈ pm, kv.2.Kind ≠ .BoundFormValue) :
    ∀ (params : List Param) (notMapped : List String) (mapped : List BoundParam),
      (∀ k ∈ notMapped, k ∈ pm.map Prod.fst) →
      ∃ res, mapCaptures.mapParams fd cf pm params notMapped mapped
        = .ok (res, notMapped.filter (fun k => decide (k ∉ params.map (fun p => p.Name)))) := by
  intro params
  induction params with
  | nil =>
    intro notMapped mapped _
    exact ⟨mapped, by simp [mapCaptures.mapParams]⟩
  | cons p rest ih =>
    intro notMapped mapped hsub
    unfold mapCaptures.mapParams
    cases hl : pm.lookup p.Name with
    | none =>
      simp only
      obtain ⟨res, hres⟩ := ih notMapped
        (mapped ++ [{ Param := p.Name, Value := { Kind := .BoundData, ID := p.Name } }]) hsub
      refine ⟨res, ?_⟩
      rw [hres]
      congr 2
      apply List.filter_congr
      intro k hk
      have hkey := hsub k hk
      have hne : k ≠ p.Name := by
        intro heq
        subst heq
        rw [List.lookup_eq_none_iff] at hl
        obtain ⟨kv, hkv, hfst⟩ := List.mem_map.1 hkey
        have := hl kv hkv
        simp [hfst] at this
      simp [hne]
    | some bVal =>
      have hk : bVal.Kind ≠ .BoundFormValue := by
        obtain ⟨kv, hkv, hfst⟩ : ∃ kv ∈ pm, kv = (p.Name, bVal) := by
          have := List.lookup_eq_some_iff.1 hl
          obtain ⟨l1, l2, hpm, _⟩ := this
          exact ⟨(p.Name, bVal), by rw [hpm]; simp, rfl⟩
        subst hfst
        exact hnf _ hkv
      simp only [hk, if_false]
      obtain ⟨res, hres⟩ := ih (notMapped.filter (fun k => k != p.Name))
        (mapped ++ [{ Param := p.Name, Value := bVal }])
        (fun k hk => hsub k (List.mem_filter.1 hk).1)
      refine ⟨res, ?_⟩
      rw [hres, List.filter_filter]
      congr 2
      apply List.filter_congr
      intro k _
      by_cases hkp : k = p.Name <;> simp [hkp]

theorem mapOne_no_form (c : Component) (fd : Int) (cf : Option (StrMap formValue))
    (u : UnboundEventMapping) (sig : Handler) (fc : Bool)
    (hl : mapCaptures.lookupHandler c u.Handler = .ok (sig, fc))
    (hnf : ∀ kv ∈ u.ParamMappings, kv.2.Kind ≠ .BoundFormValue) :
    (∃ msg, mapCaptures.mapOne c fd cf u = .error msg) ↔
      ∃ k ∈ u.ParamMappings.map Prod.fst, k ∉ sig.Params.map (fun p => p.Name) := by
  obtain ⟨res, hres⟩ := mapParams_no_form fd cf u.ParamMappings hnf sig.Params
    (u.ParamMappings.map Prod.fst) [] (fun k hk => hk)
  unfold mapCaptures.mapOne
  simp only [hl, hres]
  cases hf : (u.ParamMappings.map Prod.fst).filter
      (fun k => decide (k ∉ sig.Params.map (fun p => p.Name))) with
  | nil =>
    simp only [reduceCtorEq, exists_false, false_iff, not_exists, not_and, not_not]
    intro k hk
    by_contra hnot
    have : k ∈ (u.ParamMappings.map Prod.fst).filter
        (fun k => decide (k ∉ sig.Params.map (fun p => p.Name))) :=
      List.mem_filter.2 ⟨hk, by simpa using hnot⟩
    rw [hf] at this
    cases this
  | cons k rest =>
    have hk : k ∈ (u.ParamMappings.map Prod.fst).filter
        (fun k => decide (k ∉ sig.Params.map (fun p => p.Name))) := by
      rw [hf]; exact List.mem_cons_self _ _
    obtain ⟨hk1, hk2⟩ := List.mem_filter.1 hk
    exact ⟨fun _ => ⟨k, hk1, by simpa using hk2⟩, fun _ => ⟨_, rfl⟩⟩

theorem mapAll_error_mem (c : Component) (fd : Int) (cf : Option (StrMap formValue)) :
    ∀ (v : List UnboundEventMapping) (ret : List EventMapping) (msg : String),
      mapCaptures.mapAll c fd cf v ret = .error msg →
      ∃ u ∈ v, mapCaptures.mapOne c fd cf u = .error msg := by
  intro v
  induction v with
  | nil => intro ret msg h; simp [mapCaptures.mapAll] at h
  | cons w rest ih =>
    intro ret msg h
    unfold mapCaptures.mapAll at h
    split at h
    · rename_i m hm
      simp only [Except.error.injEq] at h
      subst h
      exact ⟨w, List.mem_cons_self _ _, hm⟩
    · obtain ⟨u, hu, hmu⟩ := ih _ _ h
      exact ⟨u, List.mem_cons_of_mem _ hu, hmu⟩

theorem mapCaptures_error_iff (ceh : componentElementHandler) (n : Node)
    (v : List UnboundEventMapping) :
    (ceh.mapCaptures n v).2 ≠ none ↔
      ∃ u ∈ v, ∃ msg, mapCaptures.mapOne ceh.c ceh.formDepth ceh.curForm u = .error msg := by
  unfold componentElementHandler.mapCaptures
  rw [formDepth_inline]
  by_cases hv : v.length = 0
  · have : v = [] := List.length_eq_zero.1 hv
    subst this
    simp
  · simp only [hv, if_false]
    cases hall : mapCaptures.mapAll ceh.c ceh.formDepth ceh.curForm v [] with
    | error msg =>
      simp only [ne_eq, reduceCtorEq, not_false_eq_true, true_iff]
      obtain ⟨u, hu, hmu⟩ := mapAll_error_mem _ _ _ _ _ _ hall
      exact ⟨u, hu, msg, hmu⟩
    | ok ret =>
      simp only [ne_eq, not_true_eq_false, false_iff, not_exists, not_and]
      intro u hu msg hmsg
      obtain ⟨msg2, h2⟩ := mapAll_error_of_mem ceh.c ceh.formDepth ceh.curForm v [] u hu
        ⟨msg, hmsg⟩
      rw [hall] at h2
      cases h2

theorem mapOne_handling (c : Component) (fd : Int) (cf : Option (StrMap formValue))
    (u : UnboundEventMapping) (m : EventMapping)
    (h : mapCaptures.mapOne c fd cf u = .ok m) :
    ∃ sig, mapCaptures.lookupHandler c u.Handler = .ok (sig, m.FromController) ∧
      m.Handling = normalisedHandling u.Handling sig.Returns ∧
      m.Handling ≠ .AutoPreventDefault := by
  unfold mapCaptures.mapOne at h
  split at h
  · cases h
  · rename_i sig fc hl
    split at h
    · cases h
    · split at h
      · cases h
      · simp only [Except.ok.injEq] at h
        subst h
        refine ⟨sig, hl, ?_, ?_⟩
        · simp only [normalisedHandling]
          cases hh : u.Handling <;> simp
        · simp only
          cases hh : u.Handling <;> simp
          cases hr : sig.Returns with
          | none => simp
          | some r => simp only; split <;> simp

theorem mapCaptures_cases (ceh : componentElementHandler) (n : Node)
    (v : List UnboundEventMapping) :
    ((ceh.mapCaptures n v).1 = ceh) ∨
    ((ceh.mapCaptures n v).2 = none ∧ v ≠ [] ∧
      ∃ ms, (ceh.mapCaptures n v).1.c.Captures
            = ceh.c.Captures ++ [{ Path := ceh.indexList, Mappings := ms }] ∧
        List.Forall₂ (fun u m =>
          mapCaptures.mapOne ceh.c ceh.formDepth ceh.curForm u = .ok m) v ms) := by
  by_cases hv : v = []
  · subst hv
    left
    simp [componentElementHandler.mapCaptures]
  · cases herr : (ceh.mapCaptures n v).2 with
    | some msg =>
      left
      unfold componentElementHandler.mapCaptures at herr ⊢
      have hlen : v.length ≠ 0 := fun h0 => hv (List.length_eq_zero.1 h0)
      simp only [hlen, if_false] at herr ⊢
      split at herr
      · rename_i heq; simp [heq]
      · simp at herr
    | none =>
      right
      exact ⟨rfl, hv, mapCaptures_ok ceh n v hv herr⟩

theorem mapCaptures_c_frame (ceh : componentElementHandler) (n : Node)
    (v : List UnboundEventMapping) :
    (ceh.mapCaptures n v).1.c.Handlers = ceh.c.Handlers ∧
    (ceh.mapCaptures n v).1.c.Controller = ceh.c.Controller ∧
    (ceh.mapCaptures n v).1.c.Fields = ceh.c.Fields ∧
    (ceh.mapCaptures n v).1.c.Variables = ceh.c.Variables ∧
    (ceh.mapCaptures n v).1.tostdElementHandler = ceh.tostdElementHandler := by
  unfold componentElementHandler.mapCaptures
  simp only
  repeat' split
  all_goals simp

theorem processBindings_c_frame (ceh : componentElementHandler) (arr : List VariableMapping) :
    (ceh.processBindings arr).1.c.Handlers = ceh.c.Handlers ∧
    (ceh.processBindings arr).1.c.Controller = ceh.c.Controller ∧
    (ceh.processBindings arr).1.c.Fields = ceh.c.Fields ∧
    (ceh.processBindings arr).1.c.Captures = ceh.c.Captures ∧
    (ceh.processBindings arr).1.tostdElementHandler = ceh.tostdElementHandler := by
  simp [componentElementHandler.processBindings]

/-- What `componentElementHandler.Process` does to the component: the tables
and the field list stay as they are, and the captures are those that
`mapCaptures` leaves, called on a state with the same component. -/
theorem componentProcess_c (P : Parsers) (n : Node)
    (inner : componentElementHandler → WalkResult componentElementHandler)
    (ceh : componentElementHandler) :
    (componentElementHandler.Process P n inner ceh).st.c.Handlers = ceh.c.Handlers ∧
    (componentElementHandler.Process P n inner ceh).st.c.Controller = ceh.c.Controller ∧
    (componentElementHandler.Process P n inner ceh).st.c.Fields = ceh.c.Fields ∧
    ∃ (s1 : componentElementHandler) (nd : Node) (v : List UnboundEventMapping),
      s1.c = ceh.c ∧
      (componentElementHandler.Process P n inner ceh).st.c.Captures
        = (s1.mapCaptures nd v).1.c.Captures := by
  have hnone : ∀ s1 : componentElementHandler, s1.c = ceh.c →
      ∃ (s2 : componentElementHandler) (nd : Node) (v : List UnboundEventMapping),
        s2.c = ceh.c ∧ s1.c.Captures = (s2.mapCaptures nd v).1.c.Captures :=
    fun s1 h1 => ⟨s1, n, [], h1, by simp [componentElementHandler.mapCaptures]⟩
  unfold componentElementHandler.Process
  split
  · exact ⟨rfl, rfl, rfl, hnone _ rfl⟩
  · simp only
    split
    · exact ⟨rfl, rfl, rfl, hnone _ rfl⟩
    · rename_i seh hupd _ attrs hg
      generalize seh.handleControlBlocksAndAssignments
        (fun cp => (ctrlBlockWalker P).WalkChildren n.Children cp) n attrs = r
      obtain ⟨m1, m2, m3, _, _⟩ := mapCaptures_c_frame
        { ceh with tostdElementHandler := r.st } r.node attrs.Capture
      split
      · split
        · rename_i y msg hy
          rw [hy] at m1 m2 m3
          exact ⟨m1, m2, m3, { ceh with tostdElementHandler := r.st }, r.node, attrs.Capture,
            rfl, by rw [hy]⟩
        · rename_i y hy
          rw [hy] at m1 m2 m3
          obtain ⟨b1, b2, b3, b4, _⟩ := processBindings_c_frame y attrs.Bindings
          have hcap : y.c.Captures = (componentElementHandler.mapCaptures
              { ceh with tostdElementHandler := r.st } r.node attrs.Capture).1.c.Captures := by
            rw [hy]
          split
          · rename_i z msg hz
            rw [hz] at b1 b2 b3 b4
            simp only at b1 b2 b3 b4
            exact ⟨by rw [b1]; exact m1, by rw [b2]; exact m2, by rw [b3]; exact m3,
              { ceh with tostdElementHandler := r.st }, r.node, attrs.Capture, rfl,
              by show z.c.Captures = _; rw [b4, hcap]⟩
          · rename_i z hz
            rw [hz] at b1 b2 b3 b4
            simp only at b1 b2 b3 b4
            exact ⟨by rw [b1]; exact m1, by rw [b2]; exact m2, by rw [b3]; exact m3,
              { ceh with tostdElementHandler := r.st }, r.node, attrs.Capture, rfl,
              by show z.c.Captures = _; rw [b4, hcap]⟩
      · split
        · exact ⟨rfl, rfl, rfl, hnone _ rfl⟩
        · split
          · exact ⟨rfl, rfl, rfl, hnone _ rfl⟩
          · exact ⟨rfl, rfl, rfl, hnone _ rfl⟩

/-- A property of the component that the four processors which write to it
preserve holds after the walk of the component's children. -/
theorem componentWalker_c_invariant (P : Parsers) (I : Component → Prop)
    (hH : ∀ n inner (s : componentElementHandler), I s.c →
      I (handlersProcessor.Process P n inner s).st.c)
    (hC : ∀ n inner (s : componentElementHandler), I s.c →
      I (controllerProcessor.Process P n inner s).st.c)
    (hD : ∀ n inner (s : componentElementHandler), I s.c →
      I (aDataProcessor.Process P n inner s).st.c)
    (hE : ∀ n inner (s : componentElementHandler), I s.c →
      I (componentElementHandler.Process P n inner s).st.c) :
    ∀ (kids : List Node) (k : Nat) (s : componentElementHandler), I s.c →
      I ((componentWalker P).walkChildren kids k s).st.c := by
  apply walkChildren_preserves (componentWalker P) (fun s => I s.c)
  · intro t d h n inner s hs _ hI
    rcases componentWalker_slot P t d h hs with rfl | rfl | rfl | rfl | rfl | rfl | rfl
    · exact hI
    · exact hI
    · exact hI
    · exact hH n inner s hI
    · exact hC n inner s hI
    · exact hD n inner s hI
    · exact hE n inner s hI
  · intro k s hI
    exact hI
  · intro s hI
    exact hI

/-- The fields of the component that `Processor.Process` takes over from the
walk as they are. -/
theorem process_cmp_fields (P : Parsers) (p : Processor) (n : Node)
    (cmpAttrs : ComponentAttrs) (hattrs : n.Ext.Component = .ok cmpAttrs)
    (hname : cmpAttrs.Name.length ≠ 0) :
    ∃ cmp, (Processor.Process P p n).cmp = some cmp ∧
      cmp.Captures = (p.walk P cmpAttrs n).st.c.Captures ∧
      cmp.Variables = (p.walk P cmpAttrs n).st.c.Variables ∧
      cmp.Handlers = (p.walk P cmpAttrs n).st.c.Handlers ∧
      cmp.Controller = (p.walk P cmpAttrs n).st.c.Controller ∧
      cmp.Fields = (p.walk P cmpAttrs n).st.c.Fields ∧
      cmp.Block.Assignments = (p.walk P cmpAttrs n).st.b.Assignments := by
  unfold Processor.Process
  simp only [hattrs, hname, if_false]
  exact ⟨_, rfl, rfl, rfl, rfl, rfl, rfl, rfl⟩

theorem handlersProcessor_c_frame (P : Parsers) (n : Node)
    (inner : componentElementHandler → WalkResult componentElementHandler)
    (hp : componentElementHandler) :
    (handlersProcessor.Process P n inner hp).st.c.Controller = hp.c.Controller ∧
    (handlersProcessor.Process P n inner hp).st.c.Fields = hp.c.Fields ∧
    (handlersProcessor.Process P n inner hp).st.c.Captures = hp.c.Captures ∧
    (handlersProcessor.Process P n inner hp).st.c.Variables = hp.c.Variables := by
  unfold handlersProcessor.Process
  simp only
  repeat' split
  all_goals simp

theorem controllerProcessor_c_frame (P : Parsers) (n : Node)
    (inner : componentElementHandler → WalkResult componentElementHandler)
    (cp : componentElementHandler) :
    (controllerProcessor.Process P n inner cp).st.c.Handlers = cp.c.Handlers ∧
    (controllerProcessor.Process P n inner cp).st.c.Fields = cp.c.Fields ∧
    (controllerProcessor.Process P n inner cp).st.c.Captures = cp.c.Captures ∧
    (controllerProcessor.Process P n inner cp).st.c.Variables = cp.c.Variables := by
  unfold controllerProcessor.Process
  simp only
  repeat' split
  all_goals simp

theorem aDataProcessor_c_frame (P : Parsers) (n : Node)
    (inner : componentElementHandler → WalkResult componentElementHandler)
    (dp : componentElementHandler) :
    (aDataProcessor.Process P n inner dp).st.c.Handlers = dp.c.Handlers ∧
    (aDataProcessor.Process P n inner dp).st.c.Controller = dp.c.Controller ∧
    (aDataProcessor.Process P n inner dp).st.c.Captures = dp.c.Captures ∧
    (aDataProcessor.Process P n inner dp).st.c.Variables = dp.c.Variables := by
  unfold aDataProcessor.Process
  simp only
  repeat' split
  all_goals simp

/-- No capture the walk of a component records has the handling
`AutoPreventDefault`. -/
theorem walk_no_auto_handling (P : Parsers) (kids : List Node) (k : Nat)
    (s : componentElementHandler)
    (hs : ∀ cap ∈ s.c.Captures, ∀ m ∈ cap.Mappings, m.Handling ≠ .AutoPreventDefault) :
    ∀ cap ∈ ((componentWalker P).walkChildren kids k s).st.c.Captures,
      ∀ m ∈ cap.Mappings, m.Handling ≠ .AutoPreventDefault := by
  apply componentWalker_c_invariant P
    (fun c => ∀ cap ∈ c.Captures, ∀ m ∈ cap.Mappings, m.Handling ≠ .AutoPreventDefault)
    _ _ _ _ kids k s hs
  · intro n inner s hI
    rw [(handlersProcessor_c_frame P n inner s).2.2.1]
    exact hI
  · intro n inner s hI
    rw [(controllerProcessor_c_frame P n inner s).2.2.1]
    exact hI
  · intro n inner s hI
    rw [(aDataProcessor_c_frame P n inner s).2.2.1]
    exact hI
  · intro n inner s hI
    obtain ⟨_, _, _, s1, nd, v, hc, hcap⟩ := componentProcess_c P n inner s
    rw [hcap]
    rcases mapCaptures_cases s1 nd v with h1 | ⟨_, _, ms, hms, hall⟩
    · rw [h1, hc]
      exact hI
    · rw [hms, hc]
      intro cap hcap2 m hm
      rcases List.mem_append.1 hcap2 with h2 | h2
      · exact hI cap h2 m hm
      · rw [List.mem_singleton] at h2
        subst h2
        obtain ⟨u, _, hu⟩ := forall₂_mem_right hall m hm
        exact (mapOne_handling _ _ _ _ _ hu).choose_spec.2.2

/-! ## The tables of handlers and controller methods -/

theorem lookup_cons_eq {α : Type} (k ek : String) (ev : α) (rest : StrMap α) :
    List.lookup k ((ek, ev) :: rest) = if k = ek then some ev else List.lookup k rest := by
  by_cases h : k = ek
  · subst h
    simp [List.lookup]
  · have hb : (k == ek) = false := by simpa using h
    simp [List.lookup, hb, h]

theorem lookup_replace {α : Type} (key : String) (v : α) (k : String) :
    ∀ (m : StrMap α),
      (m.map (fun e => if e.1 == key then (key, v) else e)).lookup k
        = if k = key then (m.lookup key).map (fun _ => v) else m.lookup k := by
  intro m
  induction m with
  | nil => simp
  | cons e rest ih =>
    obtain ⟨ek, ev⟩ := e
    by_cases hek : ek = key
    · subst hek
      have hmap : ((ek, ev) :: rest).map (fun e => if e.1 == ek then (ek, v) else e)
          = (ek, v) :: rest.map (fun e => if e.1 == ek then (ek, v) else e) := by
        simp
      rw [hmap, lookup_cons_eq, lookup_cons_eq, ih]
      by_cases hk : k = ek
      · simp [hk]
      · simp [hk, lookup_cons_eq]
    · have hmap : ((ek, ev) :: rest).map (fun e => if e.1 == key then (key, v) else e)
          = (ek, ev) :: rest.map (fun e => if e.1 == key then (key, v) else e) := by
        simp [hek]
      rw [hmap, lookup_cons_eq, lookup_cons_eq, lookup_cons_eq, ih]
      by_cases hk : k = ek
      · subst hk
        simp [hek]
      · have hke : ¬ key = ek := fun h => hek h.symm
        simp [hk, hke]

theorem lookup_mapSet {α : Type} (m : StrMap α) (key : String) (v : α) (k : String) :
    (mapSet m key v).lookup k = if k = key then some v else m.lookup k := by
  unfold mapSet
  split
  · rename_i hin
    rw [lookup_replace]
    by_cases hk : k = key
    · simp only [hk, if_true]
      cases h : List.lookup key m with
      | none => simp [h] at hin
      | some x => rfl
    · simp [hk]
  · rename_i hnot
    have hnone : List.lookup key m = none := by
      cases h : List.lookup key m with
      | none => rfl
      | some x => simp [h] at hnot
    rw [List.lookup_append]
    by_cases hk : k = key
    · subst hk
      simp [hnone, lookup_cons_eq]
    · simp [hk, lookup_cons_eq]

theorem handlers_insertAll_cons (controller : Option (StrMap ControllerMethod))
    (raw : HandlerSpec) (rest : List HandlerSpec) (m : StrMap Handler) :
    handlersProcessor.insertAll controller (raw :: rest) m =
      if ((m.lookup raw.Name).isSome || (mapGet controller raw.Name).isSome) = true then
        (m, some (": duplicate handler name: " ++ raw.Name))
      else if canCapture raw.Params = false then
        (m, some ": handlers must only use int, string and bool as parameter types")
      else handlersProcessor.insertAll controller rest
        (mapSet m raw.Name { Params := raw.Params, Returns := raw.Returns }) := by
  rw [handlersProcessor.insertAll]
  cases h1 : (m.lookup raw.Name).isSome <;> cases controller <;>
    (simp [mapGet]; try (cases h2 : canCapture raw.Params <;> simp))
  all_goals
    rename_i cm
    cases h3 : (List.lookup raw.Name cm).isSome <;> simp [h3]

theorem controller_insertAll_cons (handlers : Option (StrMap Handler))
    (raw : HandlerSpec) (rest : List HandlerSpec) (m : StrMap ControllerMethod) :
    controllerProcessor.insertAll handlers (raw :: rest) m =
      if ((m.lookup raw.Name).isSome || (mapGet handlers raw.Name).isSome) = true then
        (m, some (": duplicate handler name: " ++ raw.Name))
      else controllerProcessor.insertAll handlers rest
        (mapSet m raw.Name { Handler := { Params := raw.Params, Returns := raw.Returns },
                             CanCapture := canCapture raw.Params }) := by
  rw [controllerProcessor.insertAll]
  cases h1 : (m.lookup raw.Name).isSome <;> cases handlers <;> simp [mapGet]
  all_goals
    rename_i hm
    cases h3 : (List.lookup raw.Name hm).isSome <;> simp [h3]

theorem handlers_insertAll_entries (controller : Option (StrMap ControllerMethod)) :
    ∀ (parsed : List HandlerSpec) (m : StrMap Handler) (k : String) (h : Handler),
      (handlersProcessor.insertAll controller parsed m).1.lookup k = some h →
      m.lookup k = some h ∨
        ((mapGet controller k).isSome = false ∧ canCapture h.Params = true ∧
          ∃ raw ∈ parsed, raw.Name = k ∧ h = { Params := raw.Params, Returns := raw.Returns }) := by
  intro parsed
  induction parsed with
  | nil => intro m k h hl; exact Or.inl (by simpa [handlersProcessor.insertAll] using hl)
  | cons raw rest ih =>
    intro m k h hl
    rw [handlers_insertAll_cons] at hl
    split at hl
    · exact Or.inl hl
    · rename_i hdup
      split at hl
      · exact Or.inl hl
      · rename_i hcan
        rcases ih _ k h hl with h1 | ⟨h1, h2, raw2, hr2, hn, hh⟩
        · rw [lookup_mapSet] at h1
          by_cases hk : k = raw.Name
          · simp only [hk, if_true, Option.some.injEq] at h1
            subst h1
            refine Or.inr ⟨?_, by simpa using hcan, raw, List.mem_cons_self _ _, hk.symm, rfl⟩
            rw [hk]
            simp only [Bool.or_eq_true, not_or, Bool.not_eq_true] at hdup
            exact hdup.2
          · simp only [hk, if_false] at h1
            exact Or.inl h1
        · exact Or.inr ⟨h1, h2, raw2, List.mem_cons_of_mem _ hr2, hn, hh⟩

theorem handlers_insertAll_keeps (controller : Option (StrMap ControllerMethod)) :
    ∀ (parsed : List HandlerSpec) (m : StrMap Handler) (k : String),
      (m.lookup k).isSome = true →
      ((handlersProcessor.insertAll controller parsed m).1.lookup k).isSome = true := by
  intro parsed
  induction parsed with
  | nil => intro m k h; simpa [handlersProcessor.insertAll] using h
  | cons raw rest ih =>
    intro m k h
    rw [handlers_insertAll_cons]
    split
    · exact h
    · split
      · exact h
      · apply ih
        rw [lookup_mapSet]
        split
        · rfl
        · exact h

theorem handlers_insertAll_ok (controller : Option (StrMap ControllerMethod)) :
    ∀ (parsed : List HandlerSpec) (m : StrMap Handler),
      (handlersProcessor.insertAll controller parsed m).2 = none →
      ∀ raw ∈ parsed, canCapture raw.Params = true ∧
        ((handlersProcessor.insertAll controller parsed m).1.lookup raw.Name).isSome = true := by
  intro parsed
  induction parsed with
  | nil => intro m _ raw hr; cases hr
  | cons r rest ih =>
    intro m hok raw hr
    rw [handlers_insertAll_cons] at hok ⊢
    split at hok
    · simp at hok
    · rename_i hdup
      simp only [hdup, if_false]
      split at hok
      · simp at hok
      · rename_i hcan
        simp only [hcan, if_false]
        rcases List.mem_cons.1 hr with rfl | hr
        · refine ⟨by simpa using hcan, ?_⟩
          apply handlers_insertAll_keeps
          rw [lookup_mapSet]
          simp
        · exact ih _ hok raw hr

theorem handlers_insertAll_append (controller : Option (StrMap ControllerMethod)) :
    ∀ (pre rest : List HandlerSpec) (m : StrMap Handler),
      (handlersProcessor.insertAll controller pre m).2 = none →
      handlersProcessor.insertAll controller (pre ++ rest) m
        = handlersProcessor.insertAll controller rest
            (handlersProcessor.insertAll controller pre m).1 := by
  intro pre
  induction pre with
  | nil => intro rest m _; simp [handlersProcessor.insertAll]
  | cons r pre ih =>
    intro rest m hok
    rw [List.cons_append, handlers_insertAll_cons]
    rw [handlers_insertAll_cons] at hok ⊢
    split at hok
    · simp at hok
    · rename_i hdup
      simp only [hdup, if_false]
      split at hok
      · simp at hok
      · rename_i hcan
        simp only [hcan, if_false]
        exact ih rest _ hok

theorem controller_insertAll_entries (handlers : Option (StrMap Handler)) :
    ∀ (parsed : List HandlerSpec) (m : StrMap ControllerMethod) (k : String)
      (cm : ControllerMethod),
      (controllerProcessor.insertAll handlers parsed m).1.lookup k = some cm →
      m.lookup k = some cm ∨
        ((mapGet handlers k).isSome = false ∧
          ∃ raw ∈ parsed, raw.Name = k ∧
            cm = { Handler := { Params := raw.Params, Returns := raw.Returns },
                   CanCapture := canCapture raw.Params }) := by
  intro parsed
  induction parsed with
  | nil => intro m k h hl; exact Or.inl (by simpa [controllerProcessor.insertAll] using hl)
  | cons raw rest ih =>
    intro m k cm hl
    rw [controller_insertAll_cons] at hl
    split at hl
    · exact Or.inl hl
    · rename_i hdup
      rcases ih _ k cm hl with h1 | ⟨h1, raw2, hr2, hn, hh⟩
      · rw [lookup_mapSet] at h1
        by_cases hk : k = raw.Name
        · simp only [hk, if_true, Option.some.injEq] at h1
          subst h1
          refine Or.inr ⟨?_, raw, List.mem_cons_self _ _, hk.symm, rfl⟩
          rw [hk]
          simp only [Bool.or_eq_true, not_or, Bool.not_eq_true] at hdup
          exact hdup.2
        · simp only [hk, if_false] at h1
          exact Or.inl h1
      · exact Or.inr ⟨h1, raw2, List.mem_cons_of_mem _ hr2, hn, hh⟩

theorem controller_insertAll_keeps (handlers : Option (StrMap Handler)) :
    ∀ (parsed : List HandlerSpec) (m : StrMap ControllerMethod) (k : String),
      (m.lookup k).isSome = true →
      ((controllerProcessor.insertAll handlers parsed m).1.lookup k).isSome = true := by
  intro parsed
  induction parsed with
  | nil => intro m k h; simpa [controllerProcessor.insertAll] using h
  | cons raw rest ih =>
    intro m k h
    rw [controller_insertAll_cons]
    split
    · exact h
    · apply ih
      rw [lookup_mapSet]
      split
      · rfl
      · exact h

theorem controller_insertAll_ok (handlers : Option (StrMap Handler)) :
    ∀ (parsed : List HandlerSpec) (m : StrMap ControllerMethod),
      (controllerProcessor.insertAll handlers parsed m).2 = none →
      ∀ raw ∈ parsed,
        ((controllerProcessor.insertAll handlers parsed m).1.lookup raw.Name).isSome = true := by
  intro parsed
  induction parsed with
  | nil => intro m _ raw hr; cases hr
  | cons r rest ih =>
    intro m hok raw hr
    rw [controller_insertAll_cons] at hok ⊢
    split at hok
    · simp at hok
    · rename_i hdup
      simp only [hdup, if_false]
      rcases List.mem_cons.1 hr with rfl | hr
      · apply controller_insertAll_keeps
        rw [lookup_mapSet]
        simp
      · exact ih _ hok raw hr

theorem controller_insertAll_append (handlers : Option (StrMap Handler)) :
    ∀ (pre rest : List HandlerSpec) (m : StrMap ControllerMethod),
      (controllerProcessor.insertAll handlers pre m).2 = none →
      controllerProcessor.insertAll handlers (pre ++ rest) m
        = controllerProcessor.insertAll handlers rest
            (controllerProcessor.insertAll handlers pre m).1 := by
  intro pre
  induction pre with
  | nil => intro rest m _; simp [controllerProcessor.insertAll]
  | cons r pre ih =>
    intro rest m hok
    rw [List.cons_append, controller_insertAll_cons]
    rw [controller_insertAll_cons] at hok ⊢
    split at hok
    · simp at hok
    · rename_i hdup
      simp only [hdup, if_false]
      exact ih rest _ hok

/-- The loop of `controllerProcessor.Process` fails only for a duplicate
name, whatever the parameter types are. -/
theorem controller_insertAll_error (handlers : Option (StrMap Handler)) :
    ∀ (parsed : List HandlerSpec) (m : StrMap ControllerMethod) (msg : String),
      (controllerProcessor.insertAll handlers parsed m).2 = some msg →
      ∃ raw ∈ parsed, msg = ": duplicate handler name: " ++ raw.Name := by
  intro parsed
  induction parsed with
  | nil => intro m msg h; simp [controllerProcessor.insertAll] at h
  | cons r rest ih =>
    intro m msg h
    rw [controller_insertAll_cons] at h
    split at h
    · simp only [Option.some.injEq] at h
      exact ⟨r, List.mem_cons_self _ _, h.symm⟩
    · obtain ⟨raw, hr, hm⟩ := ih _ msg h
      exact ⟨raw, List.mem_cons_of_mem _ hr, hm⟩

/-- The outcomes of `handlersProcessor.Process`: it fails, leaving the table
as it was or partly filled, or every check passed and the table holds the
declarations, the element being replaced by the comment `handlers`. -/
theorem handlersProcessor_cases (P : Parsers) (n : Node)
    (inner : componentElementHandler → WalkResult componentElementHandler)
    (hp : componentElementHandler) :
    ((handlersProcessor.Process P n inner hp).err ≠ none ∧
      ((handlersProcessor.Process P n inner hp).st.c.Handlers = hp.c.Handlers ∨
        (hp.c.Handlers = none ∧ ∃ text parsed, plainTextContent n = .ok text ∧
          P.ParseHandlers text = .ok parsed ∧
          (handlersProcessor.Process P n inner hp).st.c.Handlers
            = some (handlersProcessor.insertAll hp.c.Controller parsed []).1))) ∨
    (hp.indexList.length = 1 ∧ hp.c.Handlers = none ∧
      ∃ text parsed, plainTextContent n = .ok text ∧ P.ParseHandlers text = .ok parsed ∧
        (handlersProcessor.insertAll hp.c.Controller parsed []).2 = none ∧
        (handlersProcessor.Process P n inner hp).err = none ∧
        (handlersProcessor.Process P n inner hp).st.c.Handlers
          = some (handlersProcessor.insertAll hp.c.Controller parsed []).1 ∧
        (handlersProcessor.Process P n inner hp).replacement = some (Node.comment "handlers") ∧
        (handlersProcessor.Process P n inner hp).descend = false) := by
  unfold handlersProcessor.Process
  by_cases hlen : hp.indexList.length = 1
  · cases hpt : plainTextContent n with
    | error msg => simp [hlen, hpt]
    | ok text =>
      cases hparse : P.ParseHandlers text with
      | error msg => simp [hlen, hpt, hparse]
      | ok parsed =>
        cases hH : hp.c.Handlers with
        | some m0 => simp [hlen, hpt, hparse, hH]
        | none =>
          cases hins : handlersProcessor.insertAll hp.c.Controller parsed [] with
          | mk m e =>
            cases e with
            | some msg => left; simp [hlen, hpt, hparse, hH, hins]
            | none => right; simp [hlen, hpt, hparse, hH, hins]
  · simp [hlen]

/-- The outcomes of `controllerProcessor.Process`. -/
theorem controllerProcessor_cases (P : Parsers) (n : Node)
    (inner : componentElementHandler → WalkResult componentElementHandler)
    (cp : componentElementHandler) :
    ((controllerProcessor.Process P n inner cp).err ≠ none ∧
      ((controllerProcessor.Process P n inner cp).st.c.Controller = cp.c.Controller ∨
        (cp.c.Controller = none ∧ ∃ text parsed, plainTextContent n = .ok text ∧
          P.ParseHandlers text = .ok parsed ∧
          (controllerProcessor.insertAll cp.c.Handlers parsed []).2 ≠ none ∧
          (controllerProcessor.Process P n inner cp).err
            = (controllerProcessor.insertAll cp.c.Handlers parsed []).2 ∧
          (controllerProcessor.Process P n inner cp).st.c.Controller
            = some (controllerProcessor.insertAll cp.c.Handlers parsed []).1))) ∨
    (cp.indexList.length = 1 ∧ cp.c.Controller = none ∧
      ∃ text parsed, plainTextContent n = .ok text ∧ P.ParseHandlers text = .ok parsed ∧
        (controllerProcessor.insertAll cp.c.Handlers parsed []).2 = none ∧
        (controllerProcessor.Process P n inner cp).err = none ∧
        (controllerProcessor.Process P n inner cp).st.c.Controller
          = some (controllerProcessor.insertAll cp.c.Handlers parsed []).1 ∧
        (controllerProcessor.Process P n inner cp).replacement
          = some (Node.comment "handlers") ∧
        (controllerProcessor.Process P n inner cp).descend = false) := by
  unfold controllerProcessor.Process
  by_cases hlen : cp.indexList.length = 1
  · cases hpt : plainTextContent n with
    | error msg => simp [hlen, hpt]
    | ok text =>
      cases hC : cp.c.Controller with
      | some m0 => simp [hlen, hpt, hC]
      | none =>
        cases hparse : P.ParseHandlers text with
        | error msg => simp [hlen, hpt, hparse, hC]
        | ok parsed =>
          cases hins : controllerProcessor.insertAll cp.c.Handlers parsed [] with
          | mk m e =>
            cases e with
            | some msg => left; simp [hlen, hpt, hparse, hC, hins]
            | none => right; simp [hlen, hpt, hparse, hC, hins]
  · simp [hlen]

/-- The outcomes of `aDataProcessor.Process`: on success the field list the
parser returned is stored, and there is no replacement. -/
theorem aDataProcessor_cases (P : Parsers) (n : Node)
    (inner : componentElementHandler → WalkResult componentElementHandler)
    (dp : componentElementHandler) :
    ((aDataProcessor.Process P n inner dp).err ≠ none) ∨
    (dp.indexList.length = 1 ∧ dp.c.Fields = none ∧
      ∃ text fields, plainTextContent n = .ok text ∧ P.ParseFields text = .ok fields ∧
        (aDataProcessor.Process P n inner dp).err = none ∧
        (aDataProcessor.Process P n inner dp).st.c.Fields = fields ∧
        (aDataProcessor.Process P n inner dp).replacement = none ∧
        (aDataProcessor.Process P n inner dp).descend = false) := by
  unfold aDataProcessor.Process
  cases hF : dp.c.Fields with
  | some f => simp [hF]
  | none =>
    by_cases hlen : dp.indexList.length = 1
    · cases hpt : plainTextContent n with
      | error msg => simp [hlen, hpt, hF]
      | ok text =>
        cases hparse : P.ParseFields text with
        | error msg => simp [hlen, hpt, hparse, hF]
        | ok fields => right; simp [hlen, hpt, hparse, hF]
    · simp [hlen, hF]

theorem namesDisjoint_congr {c c2 : Component} (hH : c2.Handlers = c.Handlers)
    (hC : c2.Controller = c.Controller) (h : c.namesDisjoint) : c2.namesDisjoint := by
  unfold Component.namesDisjoint at *
  rw [hH, hC]
  exact h

theorem handlersProcessor_disjoint (P : Parsers) (n : Node)
    (inner : componentElementHandler → WalkResult componentElementHandler)
    (hp : componentElementHandler) (h : hp.c.namesDisjoint) :
    (handlersProcessor.Process P n inner hp).st.c.namesDisjoint := by
  have hC := (handlersProcessor_c_frame P n inner hp).1
  have hnew : ∀ parsed,
      (handlersProcessor.Process P n inner hp).st.c.Handlers
        = some (handlersProcessor.insertAll hp.c.Controller parsed []).1 →
      (handlersProcessor.Process P n inner hp).st.c.namesDisjoint := by
    intro parsed hst name ⟨h1, h2⟩
    rw [hst] at h1
    rw [hC] at h2
    cases hl : (handlersProcessor.insertAll hp.c.Controller parsed []).1.lookup name with
    | none => simp [mapGet, hl] at h1
    | some hd =>
      rcases handlers_insertAll_entries _ _ _ _ _ hl with h3 | ⟨h3, _⟩
      · simp at h3
      · rw [h3] at h2
        cases h2
  rcases handlersProcessor_cases P n inner hp with ⟨_, h1 | ⟨_, _, parsed, _, _, h1⟩⟩ |
      ⟨_, _, _, parsed, _, _, _, _, h1, _⟩
  · exact namesDisjoint_congr h1 hC h
  · exact hnew parsed h1
  · exact hnew parsed h1

theorem controllerProcessor_disjoint (P : Parsers) (n : Node)
    (inner : componentElementHandler → WalkResult componentElementHandler)
    (cp : componentElementHandler) (h : cp.c.namesDisjoint) :
    (controllerProcessor.Process P n inner cp).st.c.namesDisjoint := by
  have hH := (controllerProcessor_c_frame P n inner cp).1
  have hnew : ∀ parsed,
      (controllerProcessor.Process P n inner cp).st.c.Controller
        = some (controllerProcessor.insertAll cp.c.Handlers parsed []).1 →
      (controllerProcessor.Process P n inner cp).st.c.namesDisjoint := by
    intro parsed hst name ⟨h1, h2⟩
    rw [hst] at h2
    rw [hH] at h1
    cases hl : (controllerProcessor.insertAll cp.c.Handlers parsed []).1.lookup name with
    | none => simp [mapGet, hl] at h2
    | some cm =>
      rcases controller_insertAll_entries _ _ _ _ _ hl with h3 | ⟨h3, _⟩
      · simp at h3
      · rw [h3] at h1
        cases h1
  rcases controllerProcessor_cases P n inner cp with
      ⟨_, h1 | ⟨_, _, parsed, _, _, _, _, h1⟩⟩ | ⟨_, _, _, parsed, _, _, _, _, h1, _⟩
  · exact namesDisjoint_congr hH h1 h
  · exact hnew parsed h1
  · exact hnew parsed h1

/-- The tables of the component stay disjoint during the walk of its
children. -/
theorem walk_names_disjoint (P : Parsers) (kids : List Node) (k : Nat)
    (s : componentElementHandler) (hs : s.c.namesDisjoint) :
    ((componentWalker P).walkChildren kids k s).st.c.namesDisjoint := by
  apply componentWalker_c_invariant P Component.namesDisjoint _ _ _ _ kids k s hs
  · exact fun n inner s h => handlersProcessor_disjoint P n inner s h
  · exact fun n inner s h => controllerProcessor_disjoint P n inner s h
  · intro n inner s h
    obtain ⟨h1, h2, _⟩ := aDataProcessor_c_frame P n inner s
    exact namesDisjoint_congr h1 h2 h
  · intro n inner s h
    obtain ⟨h1, h2, _⟩ := componentProcess_c P n inner s
    exact namesDisjoint_congr h1 h2 h

theorem handlers_insertAll_duplicate (controller : Option (StrMap ControllerMethod))
    (pre : List HandlerSpec) (raw : HandlerSpec) (rest : List HandlerSpec)
    (m : StrMap Handler)
    (hpre : (handlersProcessor.insertAll controller pre m).2 = none)
    (hdup : raw.Name ∈ pre.map (fun r => r.Name) ∨ (m.lookup raw.Name).isSome = true ∨
      (mapGet controller raw.Name).isSome = true) :
    handlersProcessor.insertAll controller (pre ++ raw :: rest) m
      = ((handlersProcessor.insertAll controller pre m).1,
         some (": duplicate handler name: " ++ raw.Name)) := by
  rw [handlers_insertAll_append _ _ _ _ hpre, handlers_insertAll_cons]
  have : ((handlersProcessor.insertAll controller pre m).1.lookup raw.Name).isSome = true ∨
      (mapGet controller raw.Name).isSome = true := by
    rcases hdup with h | h | h
    · obtain ⟨r, hr, hn⟩ := List.mem_map.1 h
      left
      rw [← hn]
      exact (handlers_insertAll_ok _ _ _ hpre r hr).2
    · left
      exact handlers_insertAll_keeps _ _ _ _ h
    · right
      exact h
  rcases this with h | h <;> simp [h]

theorem controller_insertAll_duplicate (handlers : Option (StrMap Handler))
    (pre : List HandlerSpec) (raw : HandlerSpec) (rest : List HandlerSpec)
    (m : StrMap ControllerMethod)
    (hpre : (controllerProcessor.insertAll handlers pre m).2 = none)
    (hdup : raw.Name ∈ pre.map (fun r => r.Name) ∨ (m.lookup raw.Name).isSome = true ∨
      (mapGet handlers raw.Name).isSome = true) :
    controllerProcessor.insertAll handlers (pre ++ raw :: rest) m
      = ((controllerProcessor.insertAll handlers pre m).1,
         some (": duplicate handler name: " ++ raw.Name)) := by
  rw [controller_insertAll_append _ _ _ _ hpre, controller_insertAll_cons]
  have : ((controllerProcessor.insertAll handlers pre m).1.lookup raw.Name).isSome = true ∨
      (mapGet handlers raw.Name).isSome = true := by
    rcases hdup with h | h | h
    · obtain ⟨r, hr, hn⟩ := List.mem_map.1 h
      left
      rw [← hn]
      exact controller_insertAll_ok _ _ _ hpre r hr
    · left
      exact controller_insertAll_keeps _ _ _ _ h
    · right
      exact h
  rcases this with h | h <;> simp [h]

theorem canCapture_iff : ∀ (params : List Param),
    canCapture params = true ↔
      ∀ p ∈ params, p.Typ.Kind = .IntType ∨ p.Typ.Kind = .StringType ∨ p.Typ.Kind = .BoolType := by
  intro params
  induction params with
  | nil => simp [canCapture]
  | cons p rest ih =>
    unfold canCapture
    cases hk : p.Typ.Kind <;> simp [hk, ih]

theorem controller_insertAll_fresh (handlers : Option (StrMap Handler)) :
    ∀ (parsed : List HandlerSpec) (m : StrMap ControllerMethod),
      (parsed.map (fun r => r.Name)).Nodup →
      (∀ raw ∈ parsed, (m.lookup raw.Name).isSome = false ∧
        (mapGet handlers raw.Name).isSome = false) →
      (controllerProcessor.insertAll handlers parsed m).2 = none := by
  intro parsed
  induction parsed with
  | nil => intro m _ _; simp [controllerProcessor.insertAll]
  | cons r rest ih =>
    intro m hnd hfresh
    rw [controller_insertAll_cons]
    obtain ⟨h1, h2⟩ := hfresh r (List.mem_cons_self _ _)
    simp only [h1, h2, Bool.or_self, Bool.false_eq_true, if_false]
    simp only [List.map_cons, List.nodup_cons] at hnd
    apply ih _ hnd.2
    intro raw hraw
    have hne : raw.Name ≠ r.Name := by
      intro heq
      exact hnd.1 (List.mem_map.2 ⟨raw, hraw, heq⟩)
    refine ⟨?_, (hfresh raw (List.mem_cons_of_mem _ hraw)).2⟩
    rw [lookup_mapSet]
    simp only [hne, if_false]
    exact (hfresh raw (List.mem_cons_of_mem _ hraw)).1

theorem handlersProcessor_capturable (P : Parsers) (n : Node)
    (inner : componentElementHandler → WalkResult componentElementHandler)
    (hp : componentElementHandler) (h : hp.c.handlersCapturable) :
    (handlersProcessor.Process P n inner hp).st.c.handlersCapturable := by
  have hnew : ∀ parsed,
      (handlersProcessor.Process P n inner hp).st.c.Handlers
        = some (handlersProcessor.insertAll hp.c.Controller parsed []).1 →
      (handlersProcessor.Process P n inner hp).st.c.handlersCapturable := by
    intro parsed hst name hd hl
    rw [hst] at hl
    rcases handlers_insertAll_entries _ _ _ _ _ hl with h3 | ⟨_, h3, _⟩
    · simp at h3
    · exact h3
  rcases handlersProcessor_cases P n inner hp with ⟨_, h1 | ⟨_, _, parsed, _, _, h1⟩⟩ |
      ⟨_, _, _, parsed, _, _, _, _, h1, _⟩
  · intro name hd hl
    rw [h1] at hl
    exact h name hd hl
  · exact hnew parsed h1
  · exact hnew parsed h1

theorem controllerProcessor_flagged (P : Parsers) (n : Node)
    (inner : componentElementHandler → WalkResult componentElementHandler)
    (cp : componentElementHandler) (h : cp.c.controllerFlagged) :
    (controllerProcessor.Process P n inner cp).st.c.controllerFlagged := by
  have hnew : ∀ parsed,
      (controllerProcessor.Process P n inner cp).st.c.Controller
        = some (controllerProcessor.insertAll cp.c.Handlers parsed []).1 →
      (controllerProcessor.Process P n inner cp).st.c.controllerFlagged := by
    intro parsed hst name cm hl
    rw [hst] at hl
    rcases controller_insertAll_entries _ _ _ _ _ hl with h3 | ⟨_, raw, _, _, h3⟩
    · simp at h3
    · rw [h3]
  rcases controllerProcessor_cases P n inner cp with
      ⟨_, h1 | ⟨_, _, parsed, _, _, _, _, h1⟩⟩ | ⟨_, _, _, parsed, _, _, _, _, h1, _⟩
  · intro name cm hl
    rw [h1] at hl
    exact h name cm hl
  · exact hnew parsed h1
  · exact hnew parsed h1

theorem walk_tables_typed (P : Parsers) (kids : List Node) (k : Nat)
    (s : componentElementHandler) (hs : s.c.handlersCapturable ∧ s.c.controllerFlagged) :
    ((componentWalker P).walkChildren kids k s).st.c.handlersCapturable ∧
    ((componentWalker P).walkChildren kids k s).st.c.controllerFlagged := by
  apply componentWalker_c_invariant P
    (fun c => c.handlersCapturable ∧ c.controllerFlagged) _ _ _ _ kids k s hs
  · intro n inner s h
    refine ⟨handlersProcessor_capturable P n inner s h.1, ?_⟩
    intro name cm hl
    rw [(handlersProcessor_c_frame P n inner s).1] at hl
    exact h.2 name cm hl
  · intro n inner s h
    refine ⟨?_, controllerProcessor_flagged P n inner s h.2⟩
    intro name hd hl
    rw [(controllerProcessor_c_frame P n inner s).1] at hl
    exact h.1 name hd hl
  · intro n inner s h
    obtain ⟨h1, h2, _⟩ := aDataProcessor_c_frame P n inner s
    constructor
    · intro name hd hl
      rw [h1] at hl
      exact h.1 name hd hl
    · intro name cm hl
      rw [h2] at hl
      exact h.2 name cm hl
  · intro n inner s h
    obtain ⟨h1, h2, _⟩ := componentProcess_c P n inner s
    constructor
    · intro name hd hl
      rw [h1] at hl
      exact h.1 name hd hl
    · intro name cm hl
      rw [h2] at hl
      exact h.2 name cm hl

/-- C11.  For a list of raw captures whose handlers all resolve and whose
mappings contain no form value, `mapCaptures` fails iff some raw capture has a
user-supplied parameter name that is not the name of a formal parameter of its
resolved handler. -/
theorem mapCaptures_fails_iff_unknown_parameter (ceh : componentElementHandler) (n : Node)
    (v : List UnboundEventMapping)
    (hres : ∀ u ∈ v, ∃ sig fc, mapCaptures.lookupHandler ceh.c u.Handler = .ok (sig, fc))
    (hnf : ∀ u ∈ v, ∀ kv ∈ u.ParamMappings, kv.2.Kind ≠ .BoundFormValue) :
    (ceh.mapCaptures n v).2 ≠ none ↔
      ∃ u ∈ v, ∃ sig fc, mapCaptures.lookupHandler ceh.c u.Handler = .ok (sig, fc) ∧
        ∃ k ∈ u.ParamMappings.map Prod.fst, k ∉ sig.Params.map (fun p => p.Name) := by
  rw [mapCaptures_error_iff]
  constructor
  · rintro ⟨u, hu, hmsg⟩
    obtain ⟨sig, fc, hl⟩ := hres u hu
    exact ⟨u, hu, sig, fc, hl, (mapOne_no_form _ _ _ u sig fc hl (hnf u hu)).1 hmsg⟩
  · rintro ⟨u, hu, sig, fc, hl, hk⟩
    exact ⟨u, hu, (mapOne_no_form _ _ _ u sig fc hl (hnf u hu)).2 hk⟩

/-- Witness of C11: `click:onClick{n=prop(value), x=prop(title)}` names `x`,
which is no parameter of `onClick(n int, s string)`, and is rejected;
`click:onClick` is accepted. -/
theorem mapCaptures_fails_iff_unknown_parameter_witness :
    (insideForm.mapCaptures button [unknownParamCapture]).2
      = some "unknown param for capture mapping: x" ∧
    (insideForm.mapCaptures button [clickCapture]).2 = none ∧
    ((insideForm.mapCaptures button [unknownParamCapture]).2 ≠ none ↔
      ∃ u ∈ [unknownParamCapture], ∃ sig fc,
        mapCaptures.lookupHandler insideForm.c u.Handler = .ok (sig, fc) ∧
        ∃ k ∈ u.ParamMappings.map Prod.fst, k ∉ sig.Params.map (fun p => p.Name)) :=
  ⟨by decide, by decide,
   mapCaptures_fails_iff_unknown_parameter insideForm button [unknownParamCapture]
     (by
       intro u hu
       rw [List.mem_singleton] at hu
       subst hu
       exact ⟨_, _, rfl⟩)
     (by
       intro u hu
       rw [List.mem_singleton] at hu
       subst hu
       decide)⟩

/-- C12.  Handling normalisation.  For every raw capture that `mapCaptures`
accepts, the stored handling is the normalised one: for a requested
`AutoPreventDefault` it is `AskPreventDefault` when the return type of the
resolved handler exists and is `bool` and `DontPreventDefault` otherwise, and
any other requested handling is stored unchanged.  Hence no `EventMapping` of
an analysed component has the handling `AutoPreventDefault`. -/
theorem mapCaptures_handling_normalised (ceh : componentElementHandler) (n : Node)
    (v : List UnboundEventMapping) (P : Parsers) (p : Processor) (el : Node)
    (cmpAttrs : ComponentAttrs)
    (hv : v ≠ []) (hok : (ceh.mapCaptures n v).2 = none)
    (hattrs : el.Ext.Component = .ok cmpAttrs) (hname : cmpAttrs.Name.length ≠ 0) :
    (∃ ms, (ceh.mapCaptures n v).1.c.Captures
          = ceh.c.Captures ++ [{ Path := ceh.indexList, Mappings := ms }] ∧
      List.Forall₂ (fun u m =>
        ∃ sig, mapCaptures.lookupHandler ceh.c u.Handler = .ok (sig, m.FromController) ∧
          m.Handling = normalisedHandling u.Handling sig.Returns ∧
          (u.Handling = .AutoPreventDefault →
            (∃ r, sig.Returns = some r ∧ r.Kind = .BoolType) →
            m.Handling = .AskPreventDefault) ∧
          (u.Handling = .AutoPreventDefault →
            ¬ (∃ r, sig.Returns = some r ∧ r.Kind = .BoolType) →
            m.Handling = .DontPreventDefault) ∧
          (u.Handling ≠ .AutoPreventDefault → m.Handling = u.Handling) ∧
          m.Handling ≠ .AutoPreventDefault) v ms) ∧
    (∃ cmp, (Processor.Process P p el).cmp = some cmp ∧
      ∀ cap ∈ cmp.Captures, ∀ m ∈ cap.Mappings, m.Handling ≠ .AutoPreventDefault) := by
  constructor
  · obtain ⟨ms, hcap, hall⟩ := mapCaptures_ok ceh n v hv hok
    refine ⟨ms, hcap, List.Forall₂.imp ?_ hall⟩
    intro u m hm
    obtain ⟨sig, hl, hh, hne⟩ := mapOne_handling _ _ _ _ _ hm
    refine ⟨sig, hl, hh, ?_, ?_, ?_, hne⟩
    · rintro ha ⟨r, hr, hk⟩
      rw [hh, ha, hr]
      simp [normalisedHandling, hk]
    · intro ha hr
      rw [hh, ha]
      cases hret : sig.Returns with
      | none => rfl
      | some r =>
        have hk : r.Kind ≠ .BoolType := fun hk => hr ⟨r, hret, hk⟩
        simp [normalisedHandling, hk]
    · intro ha
      rw [hh]
      cases hu : u.Handling <;> simp_all [normalisedHandling]
  · obtain ⟨cmp, hcmp, hcap, _⟩ := process_cmp_fields P p el cmpAttrs hattrs hname
    refine ⟨cmp, hcmp, ?_⟩
    rw [hcap]
    exact walk_no_auto_handling P el.Children 0 _ (by simp [Processor.newComponent])

/-- Witness of C12: for `onClick(n int, s string)`, which returns nothing,
the requested `AutoPreventDefault` of `click:onClick` is stored as
`DontPreventDefault` and the requested `PreventDefault` of the second capture
is stored unchanged, by `mapCaptures` and in the analysed component. -/
theorem mapCaptures_handling_normalised_witness :
    ((insideForm.mapCaptures button [clickCapture, preventCapture]).1.c.Captures.map
      (fun cap => cap.Mappings.map (fun m => m.Handling)))
      = [[.DontPreventDefault, .PreventDefault]] ∧
    ((Processor.Process exampleParsers exampleProcessor capturingComponent).cmp.map
      (fun cmp => cmp.Captures.map (fun cap => cap.Mappings.map (fun m => m.Handling))))
      = some [[.DontPreventDefault, .PreventDefault]] ∧
    ((∃ ms, (insideForm.mapCaptures button [clickCapture, preventCapture]).1.c.Captures
          = insideForm.c.Captures ++ [{ Path := insideForm.indexList, Mappings := ms }] ∧
      List.Forall₂ (fun u m =>
        ∃ sig, mapCaptures.lookupHandler insideForm.c u.Handler
            = .ok (sig, m.FromController) ∧
          m.Handling = normalisedHandling u.Handling sig.Returns ∧
          (u.Handling = .AutoPreventDefault →
            (∃ r, sig.Returns = some r ∧ r.Kind = .BoolType) →
            m.Handling = .AskPreventDefault) ∧
          (u.Handling = .AutoPreventDefault →
            ¬ (∃ r, sig.Returns = some r ∧ r.Kind = .BoolType) →
            m.Handling = .DontPreventDefault) ∧
          (u.Handling ≠ .AutoPreventDefault → m.Handling = u.Handling) ∧
          m.Handling ≠ .AutoPreventDefault) [clickCapture, preventCapture] ms) ∧
    (∃ cmp, (Processor.Process exampleParsers exampleProcessor capturingComponent).cmp
        = some cmp ∧
      ∀ cap ∈ cmp.Captures, ∀ m ∈ cap.Mappings, m.Handling ≠ .AutoPreventDefault)) :=
  ⟨by decide, by decide,
   mapCaptures_handling_normalised insideForm button [clickCapture, preventCapture]
     exampleParsers exampleProcessor capturingComponent { Name := "C" }
     (by decide) (by decide) rfl (by decide)⟩

/-- C13.  The key sets of `Handlers` and `Controller` stay disjoint: if they
are disjoint before, they are disjoint after `handlersProcessor.Process` and
after `controllerProcessor.Process`, whatever the element and whether the call
succeeds or fails, hence after any sequence of such calls, and they are
disjoint in every analysed component.  In either processor the loop over the
declarations stops with the duplicate-handler-name error at a declaration whose
name is already in its own table, in the other table, or was declared earlier
in the same text. -/
theorem handler_and_controller_names_disjoint (P : Parsers) (n : Node)
    (inner : componentElementHandler → WalkResult componentElementHandler)
    (s : componentElementHandler) (p : Processor) (el : Node) (cmpAttrs : ComponentAttrs)
    (hs : s.c.namesDisjoint)
    (hattrs : el.Ext.Component = .ok cmpAttrs) (hname : cmpAttrs.Name.length ≠ 0) :
    (handlersProcessor.Process P n inner s).st.c.namesDisjoint ∧
    (controllerProcessor.Process P n inner s).st.c.namesDisjoint ∧
    (∃ cmp, (Processor.Process P p el).cmp = some cmp ∧ cmp.namesDisjoint) ∧
    (∀ (controller : Option (StrMap ControllerMethod)) (pre : List HandlerSpec)
      (raw : HandlerSpec) (rest : List HandlerSpec) (m : StrMap Handler),
      (handlersProcessor.insertAll controller pre m).2 = none →
      (raw.Name ∈ pre.map (fun r => r.Name) ∨ (m.lookup raw.Name).isSome = true ∨
        (mapGet controller raw.Name).isSome = true) →
      handlersProcessor.insertAll controller (pre ++ raw :: rest) m
        = ((handlersProcessor.insertAll controller pre m).1,
           some (": duplicate handler name: " ++ raw.Name))) ∧
    (∀ (handlers : Option (StrMap Handler)) (pre : List HandlerSpec)
      (raw : HandlerSpec) (rest : List HandlerSpec) (m : StrMap ControllerMethod),
      (controllerProcessor.insertAll handlers pre m).2 = none →
      (raw.Name ∈ pre.map (fun r => r.Name) ∨ (m.lookup raw.Name).isSome = true ∨
        (mapGet handlers raw.Name).isSome = true) →
      controllerProcessor.insertAll handlers (pre ++ raw :: rest) m
        = ((controllerProcessor.insertAll handlers pre m).1,
           some (": duplicate handler name: " ++ raw.Name))) := by
  refine ⟨handlersProcessor_disjoint P n inner s hs, controllerProcessor_disjoint P n inner s hs,
    ?_, ?_, ?_⟩
  · obtain ⟨cmp, hcmp, _, _, hH, hC, _⟩ := process_cmp_fields P p el cmpAttrs hattrs hname
    refine ⟨cmp, hcmp, ?_⟩
    apply namesDisjoint_congr hH hC
    apply walk_names_disjoint
    intro name
    simp [Processor.newComponent, mapGet]
  · intro controller pre raw rest m hpre hdup
    exact handlers_insertAll_duplicate controller pre raw rest m hpre hdup
  · intro handlers pre raw rest m hpre hdup
    exact controller_insertAll_duplicate handlers pre raw rest m hpre hdup

/-- Witness of C13: `f` declared twice in one `<a:handlers>`, and `f` declared
in `<a:handlers>` and in `<a:controller>` in either order, are rejected with
the duplicate-handler-name error; `<a:controller>g(v Vec)</a:controller>` with
`<a:handlers>f()</a:handlers>` is accepted, with disjoint tables. -/
theorem handler_and_controller_names_disjoint_witness :
    (handlersProcessor.Process declarationParsers (handlersElement "f() f()")
      noWalk atDirectChild).err
      = some ": duplicate handler name: f" ∧
    (Processor.Process declarationParsers exampleProcessor
      (componentElement "C" [handlersElement "f()", controllerElement "f() g(v Vec)"])).err
      = some ": duplicate handler name: f" ∧
    (Processor.Process declarationParsers exampleProcessor
      (componentElement "C" [controllerElement "f() g(v Vec)", handlersElement "f()"])).err
      = some ": duplicate handler name: f" ∧
    (Processor.Process declarationParsers exampleProcessor
      (componentElement "C" [controllerElement "g(v Vec)", handlersElement "f()"])).err = none ∧
    ((handlersProcessor.Process declarationParsers (handlersElement "f() f()")
      noWalk atDirectChild).st.c.namesDisjoint ∧
    (controllerProcessor.Process declarationParsers (handlersElement "f() f()")
      noWalk atDirectChild).st.c.namesDisjoint ∧
    (∃ cmp, (Processor.Process declarationParsers exampleProcessor
        (componentElement "C" [controllerElement "g(v Vec)", handlersElement "f()"])).cmp
          = some cmp ∧ cmp.namesDisjoint) ∧
    (∀ (controller : Option (StrMap ControllerMethod)) (pre : List HandlerSpec)
      (raw : HandlerSpec) (rest : List HandlerSpec) (m : StrMap Handler),
      (handlersProcessor.insertAll controller pre m).2 = none →
      (raw.Name ∈ pre.map (fun r => r.Name) ∨ (m.lookup raw.Name).isSome = true ∨
        (mapGet controller raw.Name).isSome = true) →
      handlersProcessor.insertAll controller (pre ++ raw :: rest) m
        = ((handlersProcessor.insertAll controller pre m).1,
           some (": duplicate handler name: " ++ raw.Name))) ∧
    (∀ (handlers : Option (StrMap Handler)) (pre : List HandlerSpec)
      (raw : HandlerSpec) (rest : List HandlerSpec) (m : StrMap ControllerMethod),
      (controllerProcessor.insertAll handlers pre m).2 = none →
      (raw.Name ∈ pre.map (fun r => r.Name) ∨ (m.lookup raw.Name).isSome = true ∨
        (mapGet handlers raw.Name).isSome = true) →
      controllerProcessor.insertAll handlers (pre ++ raw :: rest) m
        = ((controllerProcessor.insertAll handlers pre m).1,
           some (": duplicate handler name: " ++ raw.Name)))) :=
  ⟨by decide, by decide, by decide, by decide,
   handler_and_controller_names_disjoint declarationParsers (handlersElement "f() f()")
     noWalk atDirectChild exampleProcessor
     (componentElement "C" [controllerElement "g(v Vec)", handlersElement "f()"])
     { Name := "C" } (by intro name; simp [atDirectChild, mapGet]) rfl (by decide)⟩

/-- C15 (defect).  `<a:handlers>` and `<a:controller>` are accepted at most
once: a successful call leaves the table non-nil, and a call that finds the
table non-nil returns an error.  `<a:data>` is not: `aDataProcessor.Process`
takes `Fields != nil` as the sign of an earlier occurrence, and after a first
`<a:data>` whose field list comes back as a nil slice `Fields` is still nil.
The component `<a:data> </a:data><a:data>x int</a:data>` is accepted, with the
fields of the second occurrence (in the other order it is rejected). -/
theorem second_data_element_is_accepted_after_empty_field_list :
    (∀ (P : Parsers) (n : Node)
      (inner : componentElementHandler → WalkResult componentElementHandler)
      (s : componentElementHandler),
      ((handlersProcessor.Process P n inner s).err = none →
        (handlersProcessor.Process P n inner s).st.c.Handlers.isSome = true) ∧
      (s.c.Handlers.isSome = true → (handlersProcessor.Process P n inner s).err ≠ none) ∧
      ((controllerProcessor.Process P n inner s).err = none →
        (controllerProcessor.Process P n inner s).st.c.Controller.isSome = true) ∧
      (s.c.Controller.isSome = true → (controllerProcessor.Process P n inner s).err ≠ none) ∧
      (s.c.Fields.isSome = true → (aDataProcessor.Process P n inner s).err ≠ none)) ∧
    (aDataProcessor.Process declarationParsers (dataElement " ") noWalk atDirectChild).err = none ∧
    (aDataProcessor.Process declarationParsers (dataElement " ") noWalk atDirectChild).st.c.Fields
      = none ∧
    (aDataProcessor.Process declarationParsers (dataElement "x int") noWalk
      (aDataProcessor.Process declarationParsers (dataElement " ") noWalk atDirectChild).st).err
      = none ∧
    (Processor.Process declarationParsers exampleProcessor
      (componentElement "C" [dataElement " ", dataElement "x int"])).err = none ∧
    (Processor.Process declarationParsers exampleProcessor
      (componentElement "C" [dataElement " ", dataElement "x int"])).cmp.map (fun c => c.Fields)
      = some (some [{ Name := "x", Typ := "int" }]) ∧
    (Processor.Process declarationParsers exampleProcessor
      (componentElement "C" [dataElement "x int", dataElement " "])).err
      = some ": duplicate a:data for component" := by
  refine ⟨?_, by decide, by decide, by decide, by decide, by decide, by decide⟩
  intro P n inner s
  refine ⟨?_, ?_, ?_, ?_, ?_⟩
  · intro h
    rcases handlersProcessor_cases P n inner s with ⟨h2, _⟩ | ⟨_, _, _, _, _, _, _, _, h3, _⟩
    · exact absurd h h2
    · rw [h3]; rfl
  · intro h
    rcases handlersProcessor_cases P n inner s with ⟨h2, _⟩ | ⟨_, h3, _⟩
    · exact h2
    · rw [h3] at h; cases h
  · intro h
    rcases controllerProcessor_cases P n inner s with ⟨h2, _⟩ | ⟨_, _, _, _, _, _, _, _, h3, _⟩
    · exact absurd h h2
    · rw [h3]; rfl
  · intro h
    rcases controllerProcessor_cases P n inner s with ⟨h2, _⟩ | ⟨_, h3, _⟩
    · exact h2
    · rw [h3] at h; cases h
  · intro h
    rcases aDataProcessor_cases P n inner s with h2 | ⟨_, h3, _⟩
    · exact h2
    · rw [h3] at h; cases h

/-- C16 (defect).  A body that has a first child and is not exactly one text
node is rejected at depth 1 with `must have plain text as content and nothing
else`.  A body with no child node is not: the three processors read
`def.Type` of the nil `FirstChild`, so `<a:handlers></a:handlers>`,
`<a:controller></a:controller>` and `<a:data></a:data>` end in the nil
dereference of the run time, not in that error. -/
theorem empty_declaration_element_dereferences_nil :
    (∀ (P : Parsers) (n : Node) (d : Node) (rest : List Node)
      (inner : componentElementHandler → WalkResult componentElementHandler)
      (s : componentElementHandler),
      n.Children = d :: rest → (d.Typ ≠ .TextNode ∨ rest ≠ []) → s.indexList.length = 1 →
      (handlersProcessor.Process P n inner s).err
        = some ": must have plain text as content and nothing else" ∧
      (controllerProcessor.Process P n inner s).err
        = some ": must have plain text as content and nothing else" ∧
      (s.c.Fields = none → (aDataProcessor.Process P n inner s).err
        = some ": must have plain text as content and nothing else")) ∧
    (∀ (P : Parsers) (n : Node)
      (inner : componentElementHandler → WalkResult componentElementHandler)
      (s : componentElementHandler),
      n.Children = [] → s.indexList.length = 1 →
      (handlersProcessor.Process P n inner s).err = some nilDereference ∧
      (controllerProcessor.Process P n inner s).err = some nilDereference ∧
      (s.c.Fields = none → (aDataProcessor.Process P n inner s).err = some nilDereference)) ∧
    (handlersProcessor.Process declarationParsers (emptyElement "a:handlers") noWalk
      atDirectChild).err
      = some "panic: runtime error: invalid memory address or nil pointer dereference" ∧
    (controllerProcessor.Process declarationParsers (emptyElement "a:controller") noWalk
      atDirectChild).err
      = some "panic: runtime error: invalid memory address or nil pointer dereference" ∧
    (aDataProcessor.Process declarationParsers (emptyElement "a:data") noWalk
      atDirectChild).err
      = some "panic: runtime error: invalid memory address or nil pointer dereference" ∧
    (Processor.Process declarationParsers exampleProcessor
      (componentElement "C" [emptyElement "a:handlers"])).err
      = some "panic: runtime error: invalid memory address or nil pointer dereference" := by
  refine ⟨?_, ?_, by decide, by decide, by decide, by decide⟩
  · intro P n d rest inner s hch hbad hlen
    have hpt : plainTextContent n
        = .error ": must have plain text as content and nothing else" := by
      unfold plainTextContent
      rw [hch]
      rcases hbad with h | h
      · simp [h]
      · cases rest with
        | nil => exact absurd rfl h
        | cons a as => simp
    refine ⟨?_, ?_, ?_⟩
    · simp [handlersProcessor.Process, hlen, hpt]
    · simp [controllerProcessor.Process, hlen, hpt]
    · intro hF
      simp [aDataProcessor.Process, hlen, hpt, hF]
  · intro P n inner s hch hlen
    have hpt : plainTextContent n = .error nilDereference := by
      unfold plainTextContent
      rw [hch]
    refine ⟨?_, ?_, ?_⟩
    · simp [handlersProcessor.Process, hlen, hpt]
    · simp [controllerProcessor.Process, hlen, hpt]
    · intro hF
      simp [aDataProcessor.Process, hlen, hpt, hF]

/-- C17 (defect).  `<a:handlers>` and `<a:controller>`, when processed
successfully, are replaced by a comment node and not descended into.
`<a:data>` is not replaced: every successful call of `aDataProcessor.Process`
returns descend = false and a nil replacement, so the element stays in the
component template -- the template of `<a:data>x int</a:data>` holds the
element `a:data`, that of `<a:handlers>f()</a:handlers>` the comment
`handlers`. -/
theorem data_element_is_not_replaced_by_a_comment :
    (∀ (P : Parsers) (n : Node)
      (inner : componentElementHandler → WalkResult componentElementHandler)
      (s : componentElementHandler),
      ((handlersProcessor.Process P n inner s).err = none →
        (handlersProcessor.Process P n inner s).descend = false ∧
        (handlersProcessor.Process P n inner s).replacement = some (Node.comment "handlers")) ∧
      ((controllerProcessor.Process P n inner s).err = none →
        (controllerProcessor.Process P n inner s).descend = false ∧
        (controllerProcessor.Process P n inner s).replacement
          = some (Node.comment "handlers")) ∧
      ((aDataProcessor.Process P n inner s).err = none →
        (aDataProcessor.Process P n inner s).descend = false ∧
        (aDataProcessor.Process P n inner s).replacement = none)) ∧
    (Node.comment "handlers").Typ = .CommentNode ∧
    (aDataProcessor.Process declarationParsers (dataElement "x int") noWalk atDirectChild).err
      = none ∧
    (aDataProcessor.Process declarationParsers (dataElement "x int") noWalk
      atDirectChild).replacement.isSome = false ∧
    (Processor.Process declarationParsers exampleProcessor
      (componentElement "C" [dataElement "x int"])).err = none ∧
    (Processor.Process declarationParsers exampleProcessor
      (componentElement "C" [dataElement "x int"])).cmp.map
        (fun c => c.Template.Children.map (fun n => (n.Typ, n.Data)))
      = some [(.ElementNode, "a:data")] ∧
    (Processor.Process declarationParsers exampleProcessor
      (componentElement "C" [handlersElement "f()"])).cmp.map
        (fun c => c.Template.Children.map (fun n => (n.Typ, n.Data)))
      = some [(.CommentNode, "handlers")] := by
  refine ⟨?_, rfl, by decide, by decide, by decide, rfl, rfl⟩
  intro P n inner s
  refine ⟨?_, ?_, ?_⟩
  · intro h
    rcases handlersProcessor_cases P n inner s with ⟨h2, _⟩ |
        ⟨_, _, _, _, _, _, _, _, _, h3, h4⟩
    · exact absurd h h2
    · exact ⟨h4, h3⟩
  · intro h
    rcases controllerProcessor_cases P n inner s with ⟨h2, _⟩ |
        ⟨_, _, _, _, _, _, _, _, _, h3, h4⟩
    · exact absurd h h2
    · exact ⟨h4, h3⟩
  · intro h
    rcases aDataProcessor_cases P n inner s with h2 | ⟨_, _, _, _, _, _, _, _, h3, h4⟩
    · exact absurd h h2
    · exact ⟨h4, h3⟩

/-- The acceptance rule of `resolveEmbed` once the attributes are collected. -/
theorem resolveEmbed_ok_iff (n : Node) (syms : Symbols) (indexList : List Nat)
    (attrs : EmbedAttrs) (hattrs : n.Ext.Embed = .ok attrs) :
    (∃ r, (resolveEmbed n syms indexList).1 = .ok r) ↔
      (attrs.Name ≠ "" ∧ ¬ (attrs.List = true ∧ attrs.Optional = true) ∧
        ((attrs.T = "" ∧ (attrs.List = true ∨ attrs.Optional = true) ∧ attrs.Args.Count = 0) ∨
         (attrs.T ≠ "" ∧ ∃ i typeName aliasName,
            syms.ResolveComponent attrs.T = .ok (i, typeName, aliasName) ∧
            ((attrs.List = false ∧ attrs.Optional = false) →
              attrs.Args.Count = (syms.Targets.getD i {}).Parameters.length) ∧
            ((attrs.List = true ∨ attrs.Optional = true) → attrs.Args.Count = 0)))) := by
  unfold resolveEmbed
  rw [hattrs]
  by_cases hN : attrs.Name = ""
  · simp [hN]
  by_cases hT : attrs.T = ""
  · cases hL : attrs.List <;> cases hO : attrs.Optional <;> simp [hN, hT, hL, hO] <;>
      (split_ifs with h <;> simp [h])
  · cases hR : syms.ResolveComponent attrs.T with
    | error msg =>
      cases hL : attrs.List <;> cases hO : attrs.Optional <;> simp [hN, hT, hL, hO, hR]
    | ok r =>
      obtain ⟨i, typeName, aliasName⟩ := r
      cases hL : attrs.List <;> cases hO : attrs.Optional <;> simp [hN, hT, hL, hO, hR] <;>
        (split_ifs with h <;> simp [h] <;>
          first
          | exact h.symm
          | exact fun h2 => h h2.symm)

/-- A reference that resolves names a target of the table. -/
theorem resolveComponent_lt (syms : Symbols) (ref : String) (i : Nat) (typeName aliasName : String)
    (h : syms.ResolveComponent ref = .ok (i, typeName, aliasName)) : i < syms.Targets.length := by
  unfold Symbols.ResolveComponent at h
  split at h
  · split_ifs at h with hlt
    cases h
    exact hlt
  · cases h

/-- What a successful `resolveEmbed` returns: the embed, the target and the
symbol table. -/
theorem resolveEmbed_ok_spec (n : Node) (syms : Symbols) (indexList : List Nat)
    (attrs : EmbedAttrs) (e : Embed) (t : Option Nat) (syms2 : Symbols)
    (hattrs : n.Ext.Embed = .ok attrs)
    (hres : resolveEmbed n syms indexList = (.ok (e, t), syms2)) :
    e.Kind = (if attrs.List = true then EmbedKind.ListEmbed
              else if attrs.Optional = true then EmbedKind.OptionalEmbed
              else EmbedKind.DirectEmbed) ∧
    e.Path = indexList ∧ e.Field = attrs.Name ∧ e.Control = attrs.Control ∧
    e.ConstructorCalls = [] ∧
    ((attrs.T = "" ∧ t = none ∧ syms2 = syms) ∨
     (attrs.T ≠ "" ∧ ∃ i typeName aliasName,
        syms.ResolveComponent attrs.T = .ok (i, typeName, aliasName) ∧
        t = some i ∧ e.T = typeName ∧ e.Ns = aliasName ∧
        syms2.CurHost = syms.CurHost ∧ syms2.Components = syms.Components ∧
        syms2.Refs = syms.Refs ∧
        syms2.Targets = syms.Targets.set i
          (match e.Kind with
           | .ListEmbed => { syms.Targets.getD i {} with NeedsList := true }
           | .OptionalEmbed => { syms.Targets.getD i {} with NeedsOptional := true }
           | .DirectEmbed => syms.Targets.getD i {}))) := by
  unfold resolveEmbed at hres
  rw [hattrs] at hres
  by_cases hN : attrs.Name = ""
  · simp [hN] at hres
  by_cases hT : attrs.T = ""
  · cases hL : attrs.List <;> cases hO : attrs.Optional <;>
      simp [hN, hT, hL, hO] at hres <;>
      (split_ifs at hres with h
       all_goals simp at hres
       obtain ⟨⟨h1, h2⟩, h3⟩ := hres
       subst h1; subst h2; subst h3
       simp [hT])
  · cases hR : syms.ResolveComponent attrs.T with
    | error msg =>
      cases hL : attrs.List <;> cases hO : attrs.Optional <;>
        simp [hN, hT, hL, hO, hR] at hres
    | ok r =>
      obtain ⟨i, typeName, aliasName⟩ := r
      cases hL : attrs.List <;> cases hO : attrs.Optional <;>
        simp [hN, hT, hL, hO, hR] at hres <;>
        (split_ifs at hres with h
         all_goals simp at hres
         obtain ⟨⟨h1, h2⟩, h3⟩ := hres
         subst h1; subst h2; subst h3
         simp [hT, hR]
         exact ⟨_, _, _, ⟨rfl, rfl, rfl⟩, rfl, rfl, rfl, rfl⟩)

/-- The walker of `EmbedProcessor.Process` leaves the embed as it is on
children none of which is an `<a:construct>`. -/
theorem constructWalker_no_construct (h : NodeHandler constructProcessor) (kids : List Node)
    (k : Nat) (s : constructProcessor) (hkids : ∀ c ∈ kids, c.notConstruct) :
    (Walker.walkChildren { TextNode := some walker.WhitespaceOnly, Construct := some h }
      kids k s).st = s := by
  induction kids generalizing k with
  | nil => simp [Walker.walkChildren]
  | cons c rest ih =>
    have hc := hkids c (List.mem_cons_self _ _)
    have hrest : ∀ c2 ∈ rest, c2.notConstruct := fun c2 h2 => hkids c2 (List.mem_cons_of_mem _ h2)
    obtain ⟨t, a, d, as, e, ch⟩ := c
    have hnode : (Walker.walkNode { TextNode := some walker.WhitespaceOnly, Construct := some h }
        (Node.mk t a d as e ch) s).st = s := by
      unfold Node.notConstruct at hc
      simp only [Node.Typ, Node.Data] at hc
      cases t <;> simp [Walker.walkNode, Walker.slot, Walker.elementSlot, walker.WhitespaceOnly] at hc ⊢
      all_goals (repeat' split)
      all_goals simp_all
    rw [Walker.walkChildren]
    simp only [Walker.push, Walker.pop]
    rw [show (Walker.walkNode { TextNode := some walker.WhitespaceOnly, Construct := some h }
        (Node.mk t a d as e ch) s) = (Walker.walkNode
          { TextNode := some walker.WhitespaceOnly, Construct := some h }
          (Node.mk t a d as e ch) s) from rfl]
    split
    · exact hnode
    · simp only []
      rw [hnode]
      exact ih (k + 1) hrest

/-- C19.  Acceptance rule of `resolveEmbed` once the attributes are
collected: it returns without error iff `name` is non-empty, `list` and
`optional` are not both set, and either `type` is absent, the embed is list or
optional and `args` has count 0, or `type` is present, resolves to a
component, and `args.Count` equals the number of parameters of the target for
a Direct embed and is 0 for a List or Optional embed.  With `type` absent no
target is returned and the symbol table is as before. -/
theorem resolveEmbed_acceptance_rule (n : Node) (syms : Symbols) (indexList : List Nat)
    (attrs : EmbedAttrs) (hattrs : n.Ext.Embed = .ok attrs) :
    ((∃ r, (resolveEmbed n syms indexList).1 = .ok r) ↔
      (attrs.Name ≠ "" ∧ ¬ (attrs.List = true ∧ attrs.Optional = true) ∧
        ((attrs.T = "" ∧ (attrs.List = true ∨ attrs.Optional = true) ∧ attrs.Args.Count = 0) ∨
         (attrs.T ≠ "" ∧ ∃ i typeName aliasName,
            syms.ResolveComponent attrs.T = .ok (i, typeName, aliasName) ∧
            ((attrs.List = false ∧ attrs.Optional = false) →
              attrs.Args.Count = (syms.Targets.getD i {}).Parameters.length) ∧
            ((attrs.List = true ∨ attrs.Optional = true) → attrs.Args.Count = 0))))) ∧
    (∀ e t syms2, resolveEmbed n syms indexList = (.ok (e, t), syms2) →
      (attrs.T = "" → t = none ∧ syms2 = syms) ∧
      (attrs.T ≠ "" → ∃ i typeName aliasName,
        syms.ResolveComponent attrs.T = .ok (i, typeName, aliasName) ∧ t = some i)) := by
  refine ⟨resolveEmbed_ok_iff n syms indexList attrs hattrs, ?_⟩
  intro e t syms2 hres
  obtain ⟨_, _, _, _, _, h⟩ := resolveEmbed_ok_spec n syms indexList attrs e t syms2 hattrs hres
  rcases h with ⟨hT, ht, hs⟩ | ⟨hT, i, typeName, aliasName, hR, ht, _⟩
  · exact ⟨fun _ => ⟨ht, hs⟩, fun h2 => absurd hT h2⟩
  · exact ⟨fun h2 => absurd h2 hT, fun _ => ⟨i, typeName, aliasName, hR, ht⟩⟩

/-- Witness of C19: `<a:embed name="e" type="T">` with the component `T`
without parameters is accepted; with `list` and no `type` it is accepted
without target; without `name`, or with `list` and `optional`, it is
rejected. -/
theorem resolveEmbed_acceptance_rule_witness :
    (resolveEmbed (embedElement "e" "T") exampleSymbols [2]).1
      = .ok ({ Kind := .DirectEmbed, Path := [2], Field := "e", Control := false, T := "T" },
             some 0) ∧
    (resolveEmbed (listEmbedElement "e" "") exampleSymbols [2]).1
      = .ok ({ Kind := .ListEmbed, Path := [2], Field := "e", Control := false }, none) ∧
    (resolveEmbed (embedElement "" "T") exampleSymbols [2]).1
      = .error ": attribute `name` missing" ∧
    (resolveEmbed (embedElement "e" "U") exampleSymbols [2]).1
      = .error ": attribute `type` invalid: unknown component: U" ∧
    (embedElement "e" "T").Ext.Embed = .ok { Name := "e", T := "T" } ∧
    (((∃ r, (resolveEmbed (embedElement "e" "T") exampleSymbols [2]).1 = .ok r) ↔
      (({ Name := "e", T := "T" } : EmbedAttrs).Name ≠ "" ∧
        ¬ (({ Name := "e", T := "T" } : EmbedAttrs).List = true ∧
            ({ Name := "e", T := "T" } : EmbedAttrs).Optional = true) ∧
        ((({ Name := "e", T := "T" } : EmbedAttrs).T = "" ∧
            (({ Name := "e", T := "T" } : EmbedAttrs).List = true ∨
              ({ Name := "e", T := "T" } : EmbedAttrs).Optional = true) ∧
            ({ Name := "e", T := "T" } : EmbedAttrs).Args.Count = 0) ∨
         (({ Name := "e", T := "T" } : EmbedAttrs).T ≠ "" ∧ ∃ i typeName aliasName,
            exampleSymbols.ResolveComponent ({ Name := "e", T := "T" } : EmbedAttrs).T
              = .ok (i, typeName, aliasName) ∧
            ((({ Name := "e", T := "T" } : EmbedAttrs).List = false ∧
                ({ Name := "e", T := "T" } : EmbedAttrs).Optional = false) →
              ({ Name := "e", T := "T" } : EmbedAttrs).Args.Count
                = (exampleSymbols.Targets.getD i {}).Parameters.length) ∧
            ((({ Name := "e", T := "T" } : EmbedAttrs).List = true ∨
                ({ Name := "e", T := "T" } : EmbedAttrs).Optional = true) →
              ({ Name := "e", T := "T" } : EmbedAttrs).Args.Count = 0))))) ∧
    (∀ e t syms2, resolveEmbed (embedElement "e" "T") exampleSymbols [2] = (.ok (e, t), syms2) →
      ((({ Name := "e", T := "T" } : EmbedAttrs).T = "" → t = none ∧ syms2 = exampleSymbols) ∧
      (({ Name := "e", T := "T" } : EmbedAttrs).T ≠ "" → ∃ i typeName aliasName,
        exampleSymbols.ResolveComponent ({ Name := "e", T := "T" } : EmbedAttrs).T
          = .ok (i, typeName, aliasName) ∧ t = some i)))) :=
  ⟨rfl, rfl, rfl, rfl, rfl,
   resolveEmbed_acceptance_rule (embedElement "e" "T") exampleSymbols [2]
     { Name := "e", T := "T" } rfl⟩

/-- C20.  On every successful `resolveEmbed` the kind is List if `list` is
set, Optional if `optional` is set and Direct if neither.  With a resolved
type `X` (target `i`), a List embed sets `X.NeedsList` and leaves
`X.NeedsOptional` as it was, an Optional embed sets `X.NeedsOptional` and
leaves `X.NeedsList` as it was, a Direct embed changes neither flag; the
parameters of `X` and all other targets stay as they are.  An embed none of
whose children is an `<a:construct>` is recorded by `EmbedProcessor.Process`
as `resolveEmbed` returned it, with empty `ConstructorCalls` (for `list` and
`type=X`: kind List and `X.NeedsList = true`). -/
theorem resolveEmbed_kind_and_wrapper_flags (P : Parsers) (n : Node) (syms : Symbols)
    (indexList : List Nat) (attrs : EmbedAttrs) (e : Embed) (t : Option Nat) (syms2 : Symbols)
    (hattrs : n.Ext.Embed = .ok attrs)
    (hres : resolveEmbed n syms indexList = (.ok (e, t), syms2)) :
    (attrs.List = true → e.Kind = .ListEmbed) ∧
    (attrs.Optional = true → e.Kind = .OptionalEmbed) ∧
    (attrs.List = false → attrs.Optional = false → e.Kind = .DirectEmbed) ∧
    (∀ i, t = some i →
      (syms2.Targets.getD i {}).Parameters = (syms.Targets.getD i {}).Parameters ∧
      (e.Kind = .ListEmbed →
        (syms2.Targets.getD i {}).NeedsList = true ∧
        (syms2.Targets.getD i {}).NeedsOptional = (syms.Targets.getD i {}).NeedsOptional) ∧
      (e.Kind = .OptionalEmbed →
        (syms2.Targets.getD i {}).NeedsOptional = true ∧
        (syms2.Targets.getD i {}).NeedsList = (syms.Targets.getD i {}).NeedsList) ∧
      (e.Kind = .DirectEmbed →
        (syms2.Targets.getD i {}).NeedsList = (syms.Targets.getD i {}).NeedsList ∧
        (syms2.Targets.getD i {}).NeedsOptional = (syms.Targets.getD i {}).NeedsOptional) ∧
      (∀ j, j ≠ i → syms2.Targets.getD j {} = syms.Targets.getD j {})) ∧
    (t = none → syms2 = syms) ∧
    e.ConstructorCalls = [] ∧
    ((∀ c ∈ n.Children, c.notConstruct) →
      (EmbedProcessor.Process P n syms indexList).st.CurHost.Embeds
        = syms.CurHost.Embeds ++ [e] ∧
      (EmbedProcessor.Process P n syms indexList).st.Targets = syms2.Targets ∧
      (n.Children = [] → (EmbedProcessor.Process P n syms indexList).err = none)) := by
  obtain ⟨hkind, _, _, _, hcalls, h⟩ :=
    resolveEmbed_ok_spec n syms indexList attrs e t syms2 hattrs hres
  refine ⟨?_, ?_, ?_, ?_, ?_, hcalls, ?_⟩
  · intro hL
    simp [hkind, hL]
  · intro hO
    have hnot : attrs.List = false := by
      have hex : ∃ r, (resolveEmbed n syms indexList).1 = .ok r := ⟨(e, t), by rw [hres]⟩
      have := ((resolveEmbed_ok_iff n syms indexList attrs hattrs).1 hex).2.1
      cases hL : attrs.List
      · rfl
      · exact absurd ⟨hL, hO⟩ this
    simp [hkind, hnot, hO]
  · intro hL hO
    simp [hkind, hL, hO]
  · intro i hi
    rcases h with ⟨_, ht, _⟩ | ⟨_, i2, typeName, aliasName, hR, ht, _, _, _, _, _, hT⟩
    · rw [ht] at hi; cases hi
    · rw [ht] at hi
      cases hi
      have hlt := resolveComponent_lt syms attrs.T i typeName aliasName hR
      rw [hT]
      refine ⟨?_, ?_, ?_, ?_, ?_⟩
      · cases e.Kind <;> simp [List.getD_eq_getElem?_getD, List.getElem?_set, hlt]
      · intro hk
        simp [hk, List.getD_eq_getElem?_getD, List.getElem?_set, hlt]
      · intro hk
        simp [hk, List.getD_eq_getElem?_getD, List.getElem?_set, hlt]
      · intro hk
        simp [hk, List.getD_eq_getElem?_getD, List.getElem?_set, hlt]
      · intro j hj
        simp [List.getD_eq_getElem?_getD, List.getElem?_set, Ne.symm hj]
  · intro ht
    rcases h with ⟨_, _, hs⟩ | ⟨_, i2, _, _, _, ht2, _⟩
    · exact hs
    · rw [ht] at ht2; cases ht2
  · intro hkids
    have hw := constructWalker_no_construct (constructProcessor.Process P) n.Children 0
      { e := e, target := t.map (fun i => syms2.Targets.getD i {}) } hkids
    have hhost : syms2.CurHost = syms.CurHost := by
      rcases h with ⟨_, _, hs⟩ | ⟨_, _, _, _, _, _, _, _, hs, _⟩
      · rw [hs]
      · exact hs
    unfold EmbedProcessor.Process
    rw [hres]
    simp only [Walker.WalkChildren]
    rw [hw]
    simp only [hcalls]
    refine ⟨by simp [hhost], by simp, ?_⟩
    intro hnil
    simp [hnil, Walker.walkChildren]

/-- Witness of C20: `<a:embed name="e" type="T" list>` without children at
path `[2]` is recorded with kind List and no constructor calls, and `T` gets
`NeedsList`; the optional embed sets `NeedsOptional` only, the direct embed
neither flag. -/
theorem resolveEmbed_kind_and_wrapper_flags_witness :
    (resolveEmbed (optionalEmbedElement "e" "T") exampleSymbols [2]).2.Targets
      = [{ NeedsOptional := true }] ∧
    (resolveEmbed (embedElement "e" "T") exampleSymbols [2]).2.Targets = [{}] ∧
    (EmbedProcessor.Process exampleParsers (listEmbedElement "e" "T") exampleSymbols
      [2]).st.CurHost.Embeds = [listEmbedOfT] ∧
    (listEmbedElement "e" "T").Ext.Embed = .ok { Name := "e", T := "T", List := true } ∧
    resolveEmbed (listEmbedElement "e" "T") exampleSymbols [2]
      = (.ok (listEmbedOfT, some 0), exampleSymbolsWithList) ∧
    ((({ Name := "e", T := "T", List := true } : EmbedAttrs).List = true →
      listEmbedOfT.Kind = .ListEmbed) ∧
    (({ Name := "e", T := "T", List := true } : EmbedAttrs).Optional = true →
      listEmbedOfT.Kind = .OptionalEmbed) ∧
    (({ Name := "e", T := "T", List := true } : EmbedAttrs).List = false →
      ({ Name := "e", T := "T", List := true } : EmbedAttrs).Optional = false →
      listEmbedOfT.Kind = .DirectEmbed) ∧
    (∀ i, some 0 = some i →
      (exampleSymbolsWithList.Targets.getD i {}).Parameters
        = (exampleSymbols.Targets.getD i {}).Parameters ∧
      (listEmbedOfT.Kind = .ListEmbed →
        (exampleSymbolsWithList.Targets.getD i {}).NeedsList = true ∧
        (exampleSymbolsWithList.Targets.getD i {}).NeedsOptional
          = (exampleSymbols.Targets.getD i {}).NeedsOptional) ∧
      (listEmbedOfT.Kind = .OptionalEmbed →
        (exampleSymbolsWithList.Targets.getD i {}).NeedsOptional = true ∧
        (exampleSymbolsWithList.Targets.getD i {}).NeedsList
          = (exampleSymbols.Targets.getD i {}).NeedsList) ∧
      (listEmbedOfT.Kind = .DirectEmbed →
        (exampleSymbolsWithList.Targets.getD i {}).NeedsList
          = (exampleSymbols.Targets.getD i {}).NeedsList ∧
        (exampleSymbolsWithList.Targets.getD i {}).NeedsOptional
          = (exampleSymbols.Targets.getD i {}).NeedsOptional) ∧
      (∀ j, j ≠ i →
        exampleSymbolsWithList.Targets.getD j {} = exampleSymbols.Targets.getD j {})) ∧
    ((some 0 : Option Nat) = none → exampleSymbolsWithList = exampleSymbols) ∧
    listEmbedOfT.ConstructorCalls = [] ∧
    ((∀ c ∈ (listEmbedElement "e" "T").Children, c.notConstruct) →
      (EmbedProcessor.Process exampleParsers (listEmbedElement "e" "T") exampleSymbols
        [2]).st.CurHost.Embeds = exampleSymbols.CurHost.Embeds ++ [listEmbedOfT] ∧
      (EmbedProcessor.Process exampleParsers (listEmbedElement "e" "T") exampleSymbols
        [2]).st.Targets = exampleSymbolsWithList.Targets ∧
      ((listEmbedElement "e" "T").Children = [] →
        (EmbedProcessor.Process exampleParsers (listEmbedElement "e" "T") exampleSymbols
          [2]).err = none))) :=
  ⟨by decide, by decide, by decide, rfl, rfl,
   resolveEmbed_kind_and_wrapper_flags exampleParsers (listEmbedElement "e" "T") exampleSymbols
     [2] { Name := "e", T := "T", List := true } listEmbedOfT (some 0) exampleSymbolsWithList
     rfl rfl⟩

/-! ## The walk of a control block -/

/-- Walking `pre ++ l` is walking `pre` and, if that went without error,
walking `l` from the next sibling index in the state `pre` left. -/
theorem walkChildren_append {σ : Type} (w : Walker σ) (l : List Node) :
    ∀ (pre : List Node) (k : Nat) (s : σ), (w.walkChildren pre k s).err = none →
      (w.walkChildren (pre ++ l) k s).st
        = (w.walkChildren l (k + pre.length) (w.walkChildren pre k s).st).st ∧
      (w.walkChildren (pre ++ l) k s).err
        = (w.walkChildren l (k + pre.length) (w.walkChildren pre k s).st).err
  | [], k, s, _ => by
    simp [Walker.walkChildren]
  | n :: rest, k, s, herr => by
    rw [List.cons_append]
    rw [Walker.walkChildren] at herr ⊢
    rw [Walker.walkChildren]
    simp only at herr ⊢
    cases hn : (w.walkNode n (w.push k s)).err with
    | some msg => simp [hn] at herr
    | none =>
      simp only [hn] at herr ⊢
      have ih := walkChildren_append w l rest (k + 1) (w.pop (w.walkNode n (w.push k s)).st) herr
      rw [ih.1, ih.2]
      simp [Nat.add_assoc, Nat.add_comm 1]

mutual

/-- A walk that ends without error leaves the index path as it found it, if
every handler does. -/
theorem walkNode_index {σ : Type} (w : Walker σ) (ix : IndexRef σ)
    (hstep : ∀ (t : NodeType) (d : String) (h : NodeHandler σ) (n : Node)
      (inner : σ → WalkResult σ) (s : σ), w.slot t d = some h →
      ix.get (h n inner s).st = ix.get s)
    (hidx : w.IndexList = some ix) (hget : ∀ l s, ix.get (ix.set l s) = l) :
    ∀ (n : Node) (s : σ), (w.walkNode n s).err = none → ix.get (w.walkNode n s).st = ix.get s
  | .mk t a d as e kids, s => by
    have hinner : ∀ s1, (w.walkChildren kids 0 s1).err = none →
        ix.get (w.walkChildren kids 0 s1).st = ix.get s1 :=
      fun s1 h1 => walkChildren_index w ix hstep hidx hget kids 0 s1 h1
    unfold Walker.walkNode
    cases t with
    | CommentNode => intro _; rfl
    | TextNode =>
      simp only
      cases hsl : w.slot .TextNode d with
      | none => intro h; simp at h
      | some h =>
        have h1 := hstep .TextNode d h (Node.mk .TextNode a d as e kids)
          (fun s1 => w.walkChildren kids 0 s1) s hsl
        simp only
        split
        · intro h; simp at h
        · split
          · intro _; exact h1
          · split
            · intro hk
              rw [hinner _ hk, h1]
            · intro _; exact h1
    | ElementNode =>
      simp only
      cases hsl : w.slot .ElementNode d with
      | none => intro h; simp at h
      | some h =>
        have h1 := hstep .ElementNode d h (Node.mk .ElementNode a d as e kids)
          (fun s1 => w.walkChildren kids 0 s1) s hsl
        simp only
        split
        · intro h; simp at h
        · split
          · intro _; exact h1
          · split
            · intro hk
              rw [hinner _ hk, h1]
            · intro _; exact h1

/-- A walk of children that ends without error leaves the index path as it
found it, if every handler does. -/
theorem walkChildren_index {σ : Type} (w : Walker σ) (ix : IndexRef σ)
    (hstep : ∀ (t : NodeType) (d : String) (h : NodeHandler σ) (n : Node)
      (inner : σ → WalkResult σ) (s : σ), w.slot t d = some h →
      ix.get (h n inner s).st = ix.get s)
    (hidx : w.IndexList = some ix) (hget : ∀ l s, ix.get (ix.set l s) = l) :
    ∀ (l : List Node) (k : Nat) (s : σ), (w.walkChildren l k s).err = none →
      ix.get (w.walkChildren l k s).st = ix.get s
  | [], _, s => by
    unfold Walker.walkChildren
    intro _; rfl
  | n :: rest, k, s => by
    have hn := walkNode_index w ix hstep hidx hget n (w.push k s)
    unfold Walker.walkChildren
    simp only
    split
    · intro h; simp at h
    · rename_i herr
      intro hrest
      rw [walkChildren_index w ix hstep hidx hget rest (k + 1) _ hrest]
      have hn2 := hn herr
      simp only [Walker.pop, Walker.push, hidx] at hn2 ⊢
      rw [hget, hn2, hget]
      simp

end

/-- Without a form value among the targets, the loop of `processAssignments`
appends every entry with the given path and returns no error. -/
theorem processAssignments_loop_plain (fd : Int) (cf : Option (StrMap formValue))
    (path : List Nat) :
    ∀ (arr assignments : List Assignment),
      (∀ a ∈ arr, a.Target.Kind ≠ .BoundFormValue) →
      processAssignments.loop fd cf path arr assignments
        = (assignments ++ arr.map (fun a => { a with Path := path }), none) := by
  intro arr
  induction arr with
  | nil => intro assignments _; simp [processAssignments.loop]
  | cons a rest ih =>
    intro assignments h
    have ha := h a (List.mem_cons_self _ _)
    unfold processAssignments.loop
    rw [if_neg ha]
    rw [ih _ (fun x hx => h x (List.mem_cons_of_mem _ hx))]
    simp

/-- Without a form value among the targets, `processAssignments` appends
every entry with the given path and returns no error. -/
theorem processAssignments_plain (seh : stdElementHandler) (arr : List Assignment)
    (path : List Nat) (h : ∀ a ∈ arr, a.Target.Kind ≠ .BoundFormValue) :
    (seh.processAssignments arr path).1.b.Assignments
        = seh.b.Assignments ++ arr.map (fun a => { a with Path := path }) ∧
    (seh.processAssignments arr path).2 = none := by
  unfold stdElementHandler.processAssignments
  simp only
  rw [processAssignments_loop_plain _ _ _ _ _ h]
  exact ⟨rfl, rfl⟩

/-- The handler `handleControlBlocksAndAssignments` leaves the index path as
it is and only appends to the assignments of its block. -/
theorem handle_index_and_assignments (seh : stdElementHandler)
    (walkInner : stdElementHandler → WalkResult stdElementHandler) (n : Node)
    (attrs : General) :
    (seh.handleControlBlocksAndAssignments walkInner n attrs).st.indexList = seh.indexList ∧
    ∃ added, (seh.handleControlBlocksAndAssignments walkInner n attrs).st.b.Assignments
      = seh.b.Assignments ++ added := by
  obtain ⟨added, h1, _, _, h4, _⟩ := processAssignments_spec seh attrs.Assign seh.indexList
  unfold stdElementHandler.handleControlBlocksAndAssignments
  simp only
  split
  · exact ⟨rfl, [], by simp⟩
  · split
    · exact ⟨rfl, [], by simp⟩
    · split
      · rename_i s2 msg heq
        rw [heq] at h1 h4
        exact ⟨h4, added, h1⟩
      · rename_i s2 heq
        rw [heq] at h1 h4
        exact ⟨h4, added, h1⟩

/-- The handler of plain elements in a control block leaves the index path as
it is and only appends to the assignments of its block. -/
theorem ctrlProcess_index_and_assignments (n : Node)
    (inner : stdElementHandler → WalkResult stdElementHandler) (s : stdElementHandler) :
    (ctrlBlockElementProcessor.Process n inner s).st.indexList = s.indexList ∧
    ∃ added, (ctrlBlockElementProcessor.Process n inner s).st.b.Assignments
      = s.b.Assignments ++ added := by
  obtain ⟨hb, hi, _⟩ := updateCurForm_frame s n
  unfold ctrlBlockElementProcessor.Process
  split
  · rename_i s2 msg heq
    rw [heq] at hb hi
    simp only at hb hi
    exact ⟨hi, [], by simp [hb]⟩
  · rename_i s2 heq
    rw [heq] at hb hi
    simp only at hb hi
    split
    · exact ⟨hi, [], by simp [hb]⟩
    · split
      · exact ⟨hi, [], by simp [hb]⟩
      · split
        · exact ⟨hi, [], by simp [hb]⟩
        · rename_i attrs _ _ _
          obtain ⟨h1, added, h2⟩ := handle_index_and_assignments s2 inner n attrs
          exact ⟨by rw [h1, hi], added, by rw [h2, hb]⟩

/-- Every handler of the walker of a control block leaves the index path as
it is and only appends to the assignments of its block. -/
theorem ctrlBlockWalker_handlers (P : Parsers) (t : NodeType) (d : String)
    (h : NodeHandler stdElementHandler) (n : Node)
    (inner : stdElementHandler → WalkResult stdElementHandler) (s : stdElementHandler)
    (hs : (ctrlBlockWalker P).slot t d = some h) :
    (h n inner s).st.indexList = s.indexList ∧
    ∃ added, (h n inner s).st.b.Assignments = s.b.Assignments ++ added := by
  rcases ctrlBlockWalker_slot P t d h hs with rfl | rfl | rfl | rfl
  · exact ⟨rfl, [], by simp [walker.Allow]⟩
  · refine ⟨(aText_frame s n).1, ?_⟩
    unfold aTextProcessor.Process
    simp only
    split_ifs
    · exact ⟨[], by simp⟩
    · exact ⟨[], by simp⟩
    · exact ⟨_, rfl⟩
  · obtain ⟨h1, h2⟩ := embedHandler_frame P s n
    exact ⟨h1, [], by simp [h2]⟩
  · exact ctrlProcess_index_and_assignments n inner s

/-- The walk of a control block only appends to the assignments of the
block. -/
theorem ctrlBlockWalker_appends (P : Parsers) (l : List Node) (k : Nat)
    (s : stdElementHandler) :
    ∃ added, ((ctrlBlockWalker P).walkChildren l k s).st.b.Assignments
      = s.b.Assignments ++ added := by
  apply walkChildren_preserves (ctrlBlockWalker P)
    (fun s1 => ∃ added, s1.b.Assignments = s.b.Assignments ++ added)
  · intro t d h n inner s1 hs _ hI
    obtain ⟨a1, h1⟩ := hI
    obtain ⟨_, a2, h2⟩ := ctrlBlockWalker_handlers P t d h n inner s1 hs
    exact ⟨a1 ++ a2, by rw [h2, h1, List.append_assoc]⟩
  · intro k s1 hI
    exact hI
  · intro s1 hI
    exact hI
  · exact ⟨[], by simp⟩

/-- The walk of a control block that ends without error leaves the index path
as it found it. -/
theorem ctrlBlockWalker_index (P : Parsers) (l : List Node) (k : Nat)
    (s : stdElementHandler) (h : ((ctrlBlockWalker P).walkChildren l k s).err = none) :
    ((ctrlBlockWalker P).walkChildren l k s).st.indexList = s.indexList :=
  walkChildren_index (ctrlBlockWalker P) stdElementHandler.indexRef
    (fun t d h n inner s1 hs => (ctrlBlockWalker_handlers P t d h n inner s1 hs).1)
    rfl (fun _ _ => rfl) l k s h

/-- A plain element is dispatched to the handler of plain elements. -/
theorem ctrlBlockWalker_plain (P : Parsers) (c : Node) (hc : c.isPlainElement) :
    (ctrlBlockWalker P).slot c.Typ c.Data = some ctrlBlockElementProcessor.Process := by
  obtain ⟨ht, hd⟩ := hc
  simp only [askewElementNames, List.mem_cons, List.mem_singleton, not_or, List.mem_nil_iff,
    not_false_eq_true, and_true] at hd
  obtain ⟨h1, h2, h3, h4, h5, h6, h7, h8, h9⟩ := hd
  rw [ht]
  simp [Walker.slot, Walker.elementSlot, ctrlBlockWalker, h1, h2, h3, h4, h5, h6, h7, h8, h9]

/-- The block of a control block after `setBlock`. -/
theorem setBlock_Block (cb : ControlBlock) (b : Block) : (cb.setBlock b).Block = b := by
  cases cb
  rfl

/-- What `handleControlBlocksAndAssignments` does on an element with the
control block `cb0`. -/
theorem handle_control_block (P : Parsers) (seh : stdElementHandler) (n : Node)
    (attrs : General) (cb0 : ControlBlock)
    (hone : (attrs.If = some cb0 ∧ attrs.For = none) ∨ (attrs.If = none ∧ attrs.For = some cb0)) :
    seh.handleControlBlocksAndAssignments (controlWalk P n) n attrs
      = { descend := false, err := none,
          node := n.setChildren (controlWalk P n (innerHandler seh cb0 attrs)).nodes,
          st := { seh with
            syms := (controlWalk P n (innerHandler seh cb0 attrs)).st.syms,
            b := { seh.b with Controlled := seh.b.Controlled ++
              [(cb0.setPath seh.indexList).setBlock
                { (controlWalk P n (innerHandler seh cb0 attrs)).st.b with
                  Controlled := reverseCopy ControlBlock.zero
                    (controlWalk P n (innerHandler seh cb0 attrs)).st.b.Controlled }] } } } := by
  unfold stdElementHandler.handleControlBlocksAndAssignments innerHandler
  rcases hone with ⟨hif, hfor⟩ | ⟨hif, hfor⟩
  · simp [hif, hfor, ControlBlock.setPath_Block]
  · simp [hif, hfor, ControlBlock.setPath_Block]

/-! ## Constructor calls of an embed -/

/-- What `constructProcessor.Process` has done when it returns without error:
all checks passed and one call was appended. -/
theorem constructProcessor_ok_spec (P : Parsers) (n : Node)
    (inner : constructProcessor → WalkResult constructProcessor) (cp : constructProcessor)
    (hok : (constructProcessor.Process P n inner cp).err = none) :
    cp.e.Kind ≠ .DirectEmbed ∧
    ∃ target attrs args call, cp.target = some target ∧ n.Ext.General = .ok attrs ∧
      ¬ (attrs.For.isSome = true ∧ attrs.If.isSome = true) ∧
      P.AnalyseArguments (attributes.Val n.Attr "args") = .ok args ∧
      args.Count = target.Parameters.length ∧
      (constructProcessor.Process P n inner cp).st
        = { cp with e := { cp.e with ConstructorCalls := cp.e.ConstructorCalls ++ [call] } } ∧
      call.Args = args ∧
      (∀ i, attrs.If = some i → call.Kind = .NestedIf ∧ call.Expression = i.Expression) ∧
      (∀ f, attrs.If = none → attrs.For = some f →
        call.Kind = .NestedFor ∧ call.Index = f.Index ∧ call.Variable = f.Variable ∧
        call.Expression = f.Expression ∧ cp.e.Kind ≠ .OptionalEmbed) ∧
      (attrs.If = none → attrs.For = none → call.Kind = .NestedDirect) := by
  unfold constructProcessor.Process at hok ⊢
  by_cases hk : cp.e.Kind = .DirectEmbed
  · simp [hk] at hok
  refine ⟨hk, ?_⟩
  cases ht : cp.target with
  | none => simp [hk, ht] at hok
  | some target =>
    cases hg : n.Ext.General with
    | error msg => simp [hk, ht, hg] at hok
    | ok attrs =>
      by_cases h1 : attrs.Assign = []
      swap
      · simp [hk, ht, hg, h1] at hok
      by_cases h2 : attrs.Bindings = []
      swap
      · simp [hk, ht, hg, h1, h2] at hok
      by_cases h3 : attrs.Capture = []
      swap
      · simp [hk, ht, hg, h1, h2, h3] at hok
      by_cases h4 : attrs.For.isSome = true ∧ attrs.If.isSome = true
      · simp [hk, ht, hg, h1, h2, h3, h4] at hok
      cases ha : P.AnalyseArguments (attributes.Val n.Attr "args") with
      | error msg => simp [hk, ht, hg, h1, h2, h3, h4, ha] at hok
      | ok args =>
        by_cases h5 : args.Count = target.Parameters.length
        swap
        · simp [hk, ht, hg, h1, h2, h3, h4, ha, h5] at hok
        cases hif : attrs.If with
        | some i =>
          have hfn : attrs.For.isSome = false := by
            cases hf : attrs.For.isSome
            · rfl
            · exact absurd ⟨hf, by simp [hif]⟩ h4
          refine ⟨target, attrs, args,
            ({ Args := args, Kind := .NestedIf, Expression := i.Expression } :
              NestedConstructorCall), rfl, rfl, h4, rfl, h5, ?_, rfl, ?_, ?_, ?_⟩
          · simp [hk, hg, h1, h2, h3, hfn, ha, h5, hif]
          · intro i2 hi2
            rw [hif] at hi2
            cases hi2
            exact ⟨rfl, rfl⟩
          · intro f hn
            rw [hif] at hn
            cases hn
          · intro hn
            rw [hif] at hn
            cases hn
        | none =>
          cases hfor : attrs.For with
          | some f =>
            by_cases hopt : cp.e.Kind = .OptionalEmbed
            · simp [hk, ht, hg, h1, h2, h3, h4, ha, h5, hif, hfor, hopt] at hok
            refine ⟨target, attrs, args,
              (⟨args, .NestedFor, f.Index, f.Variable, f.Expression⟩ : NestedConstructorCall),
              rfl, rfl, h4, rfl, h5, ?_, rfl, ?_, ?_, ?_⟩
            · simp [hk, hg, h1, h2, h3, ha, h5, hif, hfor, hopt]
            · intro i2 hi2
              rw [hif] at hi2
              cases hi2
            · intro f2 _ hf2
              rw [hfor] at hf2
              cases hf2
              exact ⟨rfl, rfl, rfl, rfl, hopt⟩
            · intro _ hn
              rw [hfor] at hn
              cases hn
          | none =>
            refine ⟨target, attrs, args,
              ({ Args := args, Kind := .NestedDirect } : NestedConstructorCall),
              rfl, rfl, h4, rfl, h5, ?_, rfl, ?_, ?_, ?_⟩
            · simp [hk, hg, h1, h2, h3, ha, h5, hif, hfor]
            · intro i2 hi2
              rw [hif] at hi2
              cases hi2
            · intro f2 _ hf2
              rw [hfor] at hf2
              cases hf2
            · intro _ _
              rfl

/-- A constructor state with nothing appended is the state itself. -/
theorem constructProcessor_append_nil (cp : constructProcessor) :
    ({ cp with e := { cp.e with ConstructorCalls := cp.e.ConstructorCalls ++ [] } } :
      constructProcessor) = cp := by
  cases cp with
  | mk e target =>
    cases e
    simp

/-- Appending to the calls of a constructor state twice is appending once. -/
theorem constructProcessor_append_append (cp : constructProcessor)
    (a b : List NestedConstructorCall) :
    ({ e := { ({ cp with e := { cp.e with ConstructorCalls := cp.e.ConstructorCalls ++ a } } :
                constructProcessor).e with
              ConstructorCalls := ({ cp with e := { cp.e with
                ConstructorCalls := cp.e.ConstructorCalls ++ a } } :
                  constructProcessor).e.ConstructorCalls ++ b },
       target := cp.target } : constructProcessor)
      = { cp with e := { cp.e with ConstructorCalls := cp.e.ConstructorCalls ++ (a ++ b) } } := by
  simp [List.append_assoc]

/-- Whatever `constructProcessor.Process` returns, it has appended at most one
call to the embed and changed nothing else; under an optional embed the call
is not of kind For. -/
theorem constructProcessor_state (P : Parsers) (n : Node)
    (inner : constructProcessor → WalkResult constructProcessor) (cp : constructProcessor) :
    ∃ added, (constructProcessor.Process P n inner cp).st
        = { cp with e := { cp.e with ConstructorCalls := cp.e.ConstructorCalls ++ added } } ∧
      added.length ≤ 1 ∧
      (cp.e.Kind = .OptionalEmbed → ∀ c ∈ added, c.Kind ≠ .NestedFor) := by
  have hnil : ∃ added : List NestedConstructorCall, cp
        = { cp with e := { cp.e with ConstructorCalls := cp.e.ConstructorCalls ++ added } } ∧
      added.length ≤ 1 ∧
      (cp.e.Kind = .OptionalEmbed → ∀ c ∈ added, c.Kind ≠ .NestedFor) :=
    ⟨[], (constructProcessor_append_nil cp).symm, by simp, by simp⟩
  unfold constructProcessor.Process
  simp only
  split
  · exact hnil
  split
  · exact hnil
  split
  · exact hnil
  split
  · exact hnil
  split
  · exact hnil
  split
  · exact hnil
  split
  · exact hnil
  split
  · exact hnil
  split
  · exact hnil
  split
  · exact hnil
  · rename_i call hcall
    refine ⟨[call], rfl, by simp, ?_⟩
    intro hopt c hc
    rw [List.mem_singleton] at hc
    subst hc
    split at hcall
    · cases hcall
      simp
    · rw [if_pos hopt] at hcall
      cases hcall
    · cases hcall
      simp

/-- Under a direct embed or an embed without type `constructProcessor.Process`
fails and leaves the embed as it is. -/
theorem constructProcessor_no_target (P : Parsers) (n : Node)
    (inner : constructProcessor → WalkResult constructProcessor) (cp : constructProcessor)
    (h : cp.e.Kind = .DirectEmbed ∨ cp.target = none) :
    (constructProcessor.Process P n inner cp).err ≠ none ∧
    (constructProcessor.Process P n inner cp).st = cp := by
  unfold constructProcessor.Process
  by_cases hk : cp.e.Kind = .DirectEmbed
  · simp [hk]
  · rcases h with h | h
    · exact absurd h hk
    · simp [hk, h]

/-- Under an optional embed an `<a:construct>` with `a:for` is rejected. -/
theorem constructProcessor_for_in_optional (P : Parsers) (n : Node)
    (inner : constructProcessor → WalkResult constructProcessor) (cp : constructProcessor)
    (attrs : General) (hopt : cp.e.Kind = .OptionalEmbed) (hattrs : n.Ext.General = .ok attrs)
    (hfor : attrs.For.isSome = true) :
    (constructProcessor.Process P n inner cp).err ≠ none := by
  intro hok
  obtain ⟨_, target, attrs2, args, call, _, hg, h4, _, _, _, _, _, hf, _⟩ :=
    constructProcessor_ok_spec P n inner cp hok
  rw [hattrs] at hg
  cases hg
  cases hif : attrs.If with
  | some i => exact h4 ⟨hfor, by simp [hif]⟩
  | none =>
    cases hf2 : attrs.For with
    | none => simp [hf2] at hfor
    | some f => exact (hf f hif hf2).2.2.2.2 hopt

/-- An `<a:construct>` whose argument count differs from the number of
parameters of the target is rejected. -/
theorem constructProcessor_arity (P : Parsers) (n : Node)
    (inner : constructProcessor → WalkResult constructProcessor) (cp : constructProcessor)
    (target : Target) (args : Arguments) (ht : cp.target = some target)
    (hargs : P.AnalyseArguments (attributes.Val n.Attr "args") = .ok args)
    (hne : args.Count ≠ target.Parameters.length) :
    (constructProcessor.Process P n inner cp).err ≠ none := by
  intro hok
  obtain ⟨_, target2, attrs2, args2, call, ht2, _, _, ha2, hc, _⟩ :=
    constructProcessor_ok_spec P n inner cp hok
  rw [ht] at ht2
  cases ht2
  rw [hargs] at ha2
  cases ha2
  exact hne hc

/-- The walker of an embed on one child: an `<a:construct>` goes to
`constructProcessor.Process`, with the walk of its children as callback; any
other child leaves the state as it is. -/
theorem constructWalker_node (P : Parsers) (c : Node) (s : constructProcessor) :
    (c.isConstruct = true →
      ∃ inner, ((constructWalker P).walkNode c s).st = (constructProcessor.Process P c inner s).st ∧
        ((constructWalker P).walkNode c s).err = (constructProcessor.Process P c inner s).err) ∧
    (c.isConstruct = false → ((constructWalker P).walkNode c s).st = s) := by
  obtain ⟨t, a, d, as, e, kids⟩ := c
  constructor
  · intro hc
    simp only [Node.isConstruct, Node.Typ, Node.Data, decide_eq_true_eq] at hc
    obtain ⟨ht, hd⟩ := hc
    subst ht
    subst hd
    refine ⟨fun s1 => (constructWalker P).walkChildren kids 0 s1, ?_⟩
    have hdesc : (constructProcessor.Process P (Node.mk .ElementNode a "a:construct" as e kids)
        (fun s1 => (constructWalker P).walkChildren kids 0 s1) s).err = none →
        (constructProcessor.Process P (Node.mk .ElementNode a "a:construct" as e kids)
          (fun s1 => (constructWalker P).walkChildren kids 0 s1) s).replacement = none ∧
        (constructProcessor.Process P (Node.mk .ElementNode a "a:construct" as e kids)
          (fun s1 => (constructWalker P).walkChildren kids 0 s1) s).descend = false := by
      unfold constructProcessor.Process
      simp only
      repeat' split
      all_goals simp
    unfold Walker.walkNode
    simp only [Walker.slot, Walker.elementSlot, constructWalker]
    simp only [String.reduceEq, if_false, if_true]
    split
    · rename_i msg hmsg
      exact ⟨rfl, hmsg.symm⟩
    · rename_i hnone
      obtain ⟨h1, h2⟩ := hdesc hnone
      simp only [constructWalker] at h1 h2
      rw [h1, h2]
      exact ⟨rfl, hnone.symm⟩
  · intro hc
    simp only [Node.isConstruct, Node.Typ, Node.Data, decide_eq_false_iff_not, not_and] at hc
    cases t with
    | CommentNode => simp [Walker.walkNode]
    | TextNode =>
      simp only [Walker.walkNode, Walker.slot, constructWalker, walker.WhitespaceOnly]
      repeat' split
      all_goals simp_all
    | ElementNode =>
      have hd : d ≠ "a:construct" := hc rfl
      simp only [Walker.walkNode, Walker.slot, Walker.elementSlot, constructWalker, hd, if_false]
      repeat' split
      all_goals simp_all

/-- The walk of the children of an embed: calls are only appended; under an
optional embed none is of kind For; under a direct embed or one without type
none is appended; and if the walk ends without error, the appended calls are
those of the `<a:construct>` children, in their order, each accepted by
`constructProcessor.Process` in a state with the kind and target of the
embed. -/
theorem constructWalker_walk (P : Parsers) :
    ∀ (kids : List Node) (k : Nat) (s : constructProcessor),
    ∃ added, ((constructWalker P).walkChildren kids k s).st
        = { s with e := { s.e with ConstructorCalls := s.e.ConstructorCalls ++ added } } ∧
      (s.e.Kind = .OptionalEmbed → ∀ c ∈ added, c.Kind ≠ .NestedFor) ∧
      ((s.e.Kind = .DirectEmbed ∨ s.target = none) → added = []) ∧
      (((constructWalker P).walkChildren kids k s).err = none →
        List.Forall₂ (fun c call => ∃ inner s1, s1.e.Kind = s.e.Kind ∧ s1.target = s.target ∧
            (constructProcessor.Process P c inner s1).err = none ∧
            (constructProcessor.Process P c inner s1).st
              = { s1 with e := { s1.e with
                    ConstructorCalls := s1.e.ConstructorCalls ++ [call] } })
          (kids.filter Node.isConstruct) added) := by
  intro kids
  induction kids with
  | nil =>
    intro k s
    exact ⟨[], by simp [Walker.walkChildren], by simp, by simp, by simp⟩
  | cons c rest ih =>
    intro k s
    have hpush : (constructWalker P).push k s = s := rfl
    have hpop : ∀ s2, (constructWalker P).pop s2 = s2 := fun _ => rfl
    obtain ⟨hyes, hno⟩ := constructWalker_node P c s
    rw [Walker.walkChildren]
    simp only [hpush, hpop]
    cases hc : c.isConstruct with
    | false =>
      have hst := hno hc
      simp only [List.filter_cons, hc]
      split
      · exact ⟨[], by rw [hst]; exact (constructProcessor_append_nil s).symm, by simp, by simp,
          by intro h; cases h⟩
      · rw [hst]
        exact ih (k + 1) s
    | true =>
      obtain ⟨inner, hst, herr⟩ := hyes hc
      obtain ⟨a1, ha1, hlen, hfor⟩ := constructProcessor_state P c inner s
      have hdirect : (s.e.Kind = .DirectEmbed ∨ s.target = none) → a1 = [] := by
        intro hd
        have h2 := (constructProcessor_no_target P c inner s hd).2
        rw [ha1] at h2
        have h3 := congrArg (fun x => x.e.ConstructorCalls) h2
        simpa using h3
      simp only [List.filter_cons, hc, if_true]
      split
      · refine ⟨a1, by rw [hst, ha1], hfor, hdirect, ?_⟩
        intro h
        cases h
      · rename_i hnone
        rw [herr] at hnone
        obtain ⟨_, _, _, _, call, _, _, _, _, _, hcall, _⟩ :=
          constructProcessor_ok_spec P c inner s hnone
        have ha1c : a1 = [call] := by
          rw [ha1] at hcall
          have h3 := congrArg (fun x => x.e.ConstructorCalls) hcall
          simpa using h3
        rw [hst, ha1]
        obtain ⟨a2, ha2, hfor2, hdirect2, hall2⟩ := ih (k + 1)
          { s with e := { s.e with ConstructorCalls := s.e.ConstructorCalls ++ a1 } }
        refine ⟨a1 ++ a2, ?_, ?_, ?_, ?_⟩
        · rw [ha2]
          simp [List.append_assoc]
        · intro hopt x hx
          rcases List.mem_append.1 hx with hx | hx
          · exact hfor hopt x hx
          · exact hfor2 hopt x hx
        · intro hd
          rw [hdirect hd, hdirect2 hd]
          rfl
        · intro hrest
          rw [ha1c]
          refine List.Forall₂.cons ⟨inner, s, rfl, rfl, hnone, hcall⟩ (hall2 hrest)

/-- Each entry of the left list of a pointwise relation has a partner. -/
theorem forall₂_mem_left {α β : Type} {R : α → β → Prop} {l₁ : List α} {l₂ : List β}
    (h : List.Forall₂ R l₁ l₂) : ∀ a ∈ l₁, ∃ b ∈ l₂, R a b := by
  induction h with
  | nil => intro a ha; cases ha
  | cons hab _ ih =>
    intro a ha
    rcases List.mem_cons.1 ha with rfl | ha
    · exact ⟨_, List.mem_cons_self _ _, hab⟩
    · obtain ⟨b, hb, hr⟩ := ih a ha
      exact ⟨b, List.mem_cons_of_mem _ hb, hr⟩

/-- What `EmbedProcessor.Process` returns once `resolveEmbed` has succeeded,
in terms of the calls the walk of the children appended. -/
theorem embedProcess_spec (P : Parsers) (n : Node) (syms : Symbols) (indexList : List Nat)
    (e : Embed) (t : Option Nat) (syms2 : Symbols)
    (hres : resolveEmbed n syms indexList = (.ok (e, t), syms2)) :
    ∃ added,
      (e.Kind = .OptionalEmbed → ∀ c ∈ added, c.Kind ≠ .NestedFor) ∧
      ((e.Kind = .DirectEmbed ∨ t = none) → added = []) ∧
      (∀ c ∈ n.Children, c.isConstruct = true →
        (EmbedProcessor.Process P n syms indexList).err = none →
        ∃ inner s1, s1.e.Kind = e.Kind ∧ (s1.target = none ↔ t = none) ∧
          (constructProcessor.Process P c inner s1).err = none) ∧
      ((EmbedProcessor.Process P n syms indexList).err = none →
        added.length = (n.Children.filter Node.isConstruct).length) ∧
      ((e.Kind = .OptionalEmbed ∧ (e.ConstructorCalls ++ added).length > 1) →
        (EmbedProcessor.Process P n syms indexList).err
          = some ": too many <a:construct> for optional embed" ∧
        (EmbedProcessor.Process P n syms indexList).st = syms2) ∧
      (¬ (e.Kind = .OptionalEmbed ∧ (e.ConstructorCalls ++ added).length > 1) →
        (EmbedProcessor.Process P n syms indexList).st.CurHost.Embeds
          = syms2.CurHost.Embeds ++
              [{ e with ConstructorCalls := e.ConstructorCalls ++ added }] ∧
        (EmbedProcessor.Process P n syms indexList).st.Targets = syms2.Targets ∧
        (EmbedProcessor.Process P n syms indexList).replacement
          = some (Node.comment ("embed(" ++ e.Field ++ ")"))) := by
  obtain ⟨added, hst, hfor, hdirect, hall⟩ := constructWalker_walk P n.Children 0
    { e := e, target := t.map (fun i => syms2.Targets.getD i {}) }
  have hproc : EmbedProcessor.Process P n syms indexList
      = if e.Kind = .OptionalEmbed ∧ (e.ConstructorCalls ++ added).length > 1 then
          { err := some ": too many <a:construct> for optional embed", node := n, st := syms2 }
        else
          { descend := false,
            replacement := some (Node.comment ("embed(" ++ e.Field ++ ")")),
            err := ((constructWalker P).walkChildren n.Children 0
              { e := e, target := t.map (fun i => syms2.Targets.getD i {}) }).err,
            node := n,
            st := { syms2 with CurHost := { Embeds := syms2.CurHost.Embeds ++
              [{ e with ConstructorCalls := e.ConstructorCalls ++ added }] } } } := by
    unfold EmbedProcessor.Process
    rw [hres]
    simp only [Walker.WalkChildren]
    rw [show (Walker.walkChildren
        { TextNode := some walker.WhitespaceOnly, Construct := some (constructProcessor.Process P) }
        n.Children 0 { e := e, target := t.map (fun i => syms2.Targets.getD i {}) })
        = (constructWalker P).walkChildren n.Children 0
          { e := e, target := t.map (fun i => syms2.Targets.getD i {}) } from rfl]
    rw [hst]
  have herr : (EmbedProcessor.Process P n syms indexList).err = none →
      ((constructWalker P).walkChildren n.Children 0
        { e := e, target := t.map (fun i => syms2.Targets.getD i {}) }).err = none := by
    rw [hproc]
    split
    · intro h; cases h
    · intro h; exact h
  refine ⟨added, hfor, ?_, ?_, ?_, ?_, ?_⟩
  · intro hd
    apply hdirect
    rcases hd with hd | hd
    · exact Or.inl hd
    · exact Or.inr (by simp [hd])
  · intro c hc hcon hok
    have hmem : c ∈ n.Children.filter Node.isConstruct := List.mem_filter.2 ⟨hc, hcon⟩
    obtain ⟨call, _, inner, s1, hk, ht, hacc, _⟩ := forall₂_mem_left (hall (herr hok)) c hmem
    refine ⟨inner, s1, hk, ?_, hacc⟩
    rw [ht]
    cases t <;> simp
  · intro hok
    exact (hall (herr hok)).length_eq.symm
  · intro hmany
    rw [hproc, if_pos hmany]
    exact ⟨rfl, rfl⟩
  · intro hfew
    rw [hproc, if_neg hfew]
    exact ⟨rfl, rfl, rfl⟩

/-! ## Invariants of the walk of a component -/

/-- A property of the handler state that `updateCurForm`,
`handleControlBlocksAndAssignments`, `mapCaptures` and `processBindings`
preserve is preserved by `componentElementHandler.Process`. -/
theorem componentProcess_preserves (P : Parsers) (I : componentElementHandler → Prop)
    (hupd : ∀ (ceh : componentElementHandler) (n : Node), I ceh →
      I { ceh with tostdElementHandler := (ceh.updateCurForm n).1 })
    (hhandle : ∀ (ceh : componentElementHandler) (n : Node) (attrs : General), I ceh →
      I { ceh with tostdElementHandler :=
        (ceh.tostdElementHandler.handleControlBlocksAndAssignments
          (fun cp => (ctrlBlockWalker P).WalkChildren n.Children cp) n attrs).st })
    (hcap : ∀ (ceh : componentElementHandler) (n : Node) (v : List UnboundEventMapping),
      I ceh → I (ceh.mapCaptures n v).1)
    (hbind : ∀ (ceh : componentElementHandler) (arr : List VariableMapping),
      I ceh → I (ceh.processBindings arr).1)
    (n : Node) (inner : componentElementHandler → WalkResult componentElementHandler)
    (ceh : componentElementHandler) (hI : I ceh) :
    I (componentElementHandler.Process P n inner ceh).st := by
  have h1 := hupd ceh n hI
  unfold componentElementHandler.Process
  split
  · rename_i seh msg heq
    rw [heq] at h1
    exact h1
  · rename_i seh heq
    rw [heq] at h1
    simp only at h1 ⊢
    split
    · exact h1
    · rename_i attrs hg
      have h2 := hhandle { ceh with tostdElementHandler := seh } n attrs h1
      simp only at h2
      generalize seh.handleControlBlocksAndAssignments
        (fun cp => (ctrlBlockWalker P).WalkChildren n.Children cp) n attrs = r at h2 ⊢
      have h3 := hcap { ceh with tostdElementHandler := r.st } r.node attrs.Capture h2
      split
      · split
        · rename_i y msg hy
          rw [hy] at h3
          exact h3
        · rename_i y hy
          rw [hy] at h3
          have h4 := hbind y attrs.Bindings h3
          split
          · rename_i z msg hz
            rw [hz] at h4
            exact h4
          · rename_i z hz
            rw [hz] at h4
            exact h4
      · split
        · exact h2
        · split
          · exact h2
          · exact h2

/-- A property of the handler state that every handler of the walker of a
component preserves, and that does not depend on the index path, holds after
the walk of the children of the component. -/
theorem componentWalker_preserves (P : Parsers) (I : componentElementHandler → Prop)
    (hidx : ∀ (l : List Nat) (s : componentElementHandler), I s → I { s with indexList := l })
    (htext : ∀ (n : Node) (s : componentElementHandler), I s →
      I (s.lift (aTextProcessor.Process s.tostdElementHandler n)).st)
    (hembed : ∀ (n : Node) (s : componentElementHandler), I s →
      I (s.lift (embedHandler P s.tostdElementHandler n)).st)
    (hH : ∀ n inner (s : componentElementHandler), I s →
      I (handlersProcessor.Process P n inner s).st)
    (hC : ∀ n inner (s : componentElementHandler), I s →
      I (controllerProcessor.Process P n inner s).st)
    (hD : ∀ n inner (s : componentElementHandler), I s →
      I (aDataProcessor.Process P n inner s).st)
    (hE : ∀ n inner (s : componentElementHandler), I s →
      I (componentElementHandler.Process P n inner s).st) :
    ∀ (kids : List Node) (k : Nat) (s : componentElementHandler), I s →
      I ((componentWalker P).walkChildren kids k s).st := by
  apply walkChildren_preserves (componentWalker P) I
  · intro t d h n inner s hs _ hI
    rcases componentWalker_slot P t d h hs with rfl | rfl | rfl | rfl | rfl | rfl | rfl
    · exact hI
    · exact htext n s hI
    · exact hembed n s hI
    · exact hH n inner s hI
    · exact hC n inner s hI
    · exact hD n inner s hI
    · exact hE n inner s hI
  · intro k s hI
    exact hidx _ s hI
  · intro s hI
    exact hidx _ s hI

/-! ## The synthesised id -/

/-- The character of a decimal digit denotes the digit and is not a hyphen. -/
theorem digitChar_decimal (k : Nat) (h : k < 10) :
    (Nat.digitChar k).toNat - 48 = k ∧ Nat.digitChar k ≠ '-' := by
  interval_cases k <;> exact ⟨by decide, by decide⟩

/-- The digits `Nat.toDigitsCore` puts in front of `ds` denote `n`. -/
theorem toDigitsCore_value : ∀ (fuel n : Nat) (ds : List Char), n < fuel →
    (Nat.toDigitsCore 10 fuel n ds).foldl (fun acc c => 10 * acc + (c.toNat - 48)) 0
      = ds.foldl (fun acc c => 10 * acc + (c.toNat - 48)) n
  | 0, n, ds, h => by omega
  | fuel + 1, n, ds, h => by
    have hd := (digitChar_decimal (n % 10) (Nat.mod_lt _ (by decide))).1
    rw [Nat.toDigitsCore]
    split
    · rename_i h0
      have hn : n % 10 = n := Nat.mod_eq_of_lt (by omega)
      rw [hn] at hd
      simp only [List.foldl_cons, Nat.mul_zero, Nat.zero_add, hn, hd]
    · rename_i h0
      rw [toDigitsCore_value fuel (n / 10) _ (by omega)]
      simp only [List.foldl_cons, hd]
      congr 1
      omega

/-- No digit that `Nat.toDigitsCore` produces is a hyphen. -/
theorem toDigitsCore_no_hyphen : ∀ (fuel n : Nat) (ds : List Char),
    (∀ c ∈ ds, c ≠ '-') → ∀ c ∈ Nat.toDigitsCore 10 fuel n ds, c ≠ '-'
  | 0, n, ds, h => by
    rw [Nat.toDigitsCore]
    exact h
  | fuel + 1, n, ds, h => by
    have hd := (digitChar_decimal (n % 10) (Nat.mod_lt _ (by decide))).2
    have hcons : ∀ c ∈ Nat.digitChar (n % 10) :: ds, c ≠ '-' := by
      intro c hc
      rcases List.mem_cons.1 hc with rfl | hc
      · exact hd
      · exact h c hc
    rw [Nat.toDigitsCore]
    split
    · exact hcons
    · exact toDigitsCore_no_hyphen fuel (n / 10) _ hcons

/-- The decimal representation of a number denotes the number. -/
theorem decimalValue_toString (n : Nat) : decimalValue (toString n).data = n := by
  show decimalValue (Nat.toDigits 10 n) = n
  unfold decimalValue Nat.toDigits
  rw [toDigitsCore_value (n + 1) n [] (by omega)]
  rfl

/-- The decimal representation of a number has no hyphen. -/
theorem toString_no_hyphen (n : Nat) : '-' ∉ (toString n).data := by
  intro h
  have : '-' ∈ Nat.toDigits 10 n := h
  exact toDigitsCore_no_hyphen (n + 1) n [] (by simp) '-' this rfl

/-- Two lists that agree up to and after their first hyphen have the same
part in front of it. -/
theorem eq_before_hyphen : ∀ (l₁ l₂ r₁ r₂ : List Char), '-' ∉ l₁ → '-' ∉ l₂ →
    l₁ ++ '-' :: r₁ = l₂ ++ '-' :: r₂ → l₁ = l₂
  | [], [], _, _, _, _, _ => rfl
  | [], c :: l₂, r₁, r₂, _, h2, h => by
    simp only [List.nil_append, List.cons_append, List.cons.injEq] at h
    exact absurd (h.1 ▸ List.mem_cons_self _ _) h2
  | c :: l₁, [], r₁, r₂, h1, _, h => by
    simp only [List.nil_append, List.cons_append, List.cons.injEq] at h
    exact absurd (h.1 ▸ List.mem_cons_self _ _) h1
  | c :: l₁, d :: l₂, r₁, r₂, h1, h2, h => by
    simp only [List.cons_append, List.cons.injEq] at h
    rw [h.1, eq_before_hyphen l₁ l₂ r₁ r₂
      (fun hm => h1 (List.mem_cons_of_mem _ hm)) (fun hm => h2 (List.mem_cons_of_mem _ hm)) h.2]

/-- The walk of the children of a component leaves the name, the id, the
parameters and the init block of the component as they are. -/
theorem walk_keeps_identity (P : Parsers) (kids : List Node) (k : Nat)
    (s : componentElementHandler) :
    ((componentWalker P).walkChildren kids k s).st.c.ID = s.c.ID ∧
    ((componentWalker P).walkChildren kids k s).st.c.Name = s.c.Name ∧
    ((componentWalker P).walkChildren kids k s).st.c.Parameters = s.c.Parameters ∧
    ((componentWalker P).walkChildren kids k s).st.c.Init = s.c.Init := by
  apply componentWalker_preserves P
    (fun s1 => s1.c.ID = s.c.ID ∧ s1.c.Name = s.c.Name ∧ s1.c.Parameters = s.c.Parameters ∧
      s1.c.Init = s.c.Init)
  · intro l s1 h
    exact h
  · intro n s1 h
    exact h
  · intro n s1 h
    exact h
  · intro n inner s1 h
    have : (handlersProcessor.Process P n inner s1).st.c.ID = s1.c.ID ∧
        (handlersProcessor.Process P n inner s1).st.c.Name = s1.c.Name ∧
        (handlersProcessor.Process P n inner s1).st.c.Parameters = s1.c.Parameters ∧
        (handlersProcessor.Process P n inner s1).st.c.Init = s1.c.Init := by
      unfold handlersProcessor.Process
      simp only
      repeat' split
      all_goals simp
    obtain ⟨a, b, c, d⟩ := this
    exact ⟨a.trans h.1, b.trans h.2.1, c.trans h.2.2.1, d.trans h.2.2.2⟩
  · intro n inner s1 h
    have : (controllerProcessor.Process P n inner s1).st.c.ID = s1.c.ID ∧
        (controllerProcessor.Process P n inner s1).st.c.Name = s1.c.Name ∧
        (controllerProcessor.Process P n inner s1).st.c.Parameters = s1.c.Parameters ∧
        (controllerProcessor.Process P n inner s1).st.c.Init = s1.c.Init := by
      unfold controllerProcessor.Process
      simp only
      repeat' split
      all_goals simp
    obtain ⟨a, b, c, d⟩ := this
    exact ⟨a.trans h.1, b.trans h.2.1, c.trans h.2.2.1, d.trans h.2.2.2⟩
  · intro n inner s1 h
    have : (aDataProcessor.Process P n inner s1).st.c.ID = s1.c.ID ∧
        (aDataProcessor.Process P n inner s1).st.c.Name = s1.c.Name ∧
        (aDataProcessor.Process P n inner s1).st.c.Parameters = s1.c.Parameters ∧
        (aDataProcessor.Process P n inner s1).st.c.Init = s1.c.Init := by
      unfold aDataProcessor.Process
      simp only
      repeat' split
      all_goals simp
    obtain ⟨a, b, c, d⟩ := this
    exact ⟨a.trans h.1, b.trans h.2.1, c.trans h.2.2.1, d.trans h.2.2.2⟩
  · intro n inner s1 h
    apply componentProcess_preserves P
      (fun s2 => s2.c.ID = s.c.ID ∧ s2.c.Name = s.c.Name ∧ s2.c.Parameters = s.c.Parameters ∧
        s2.c.Init = s.c.Init)
    · intro ceh n2 h2
      exact h2
    · intro ceh n2 attrs h2
      exact h2
    · intro ceh n2 v h2
      have : (ceh.mapCaptures n2 v).1.c.ID = ceh.c.ID ∧
          (ceh.mapCaptures n2 v).1.c.Name = ceh.c.Name ∧
          (ceh.mapCaptures n2 v).1.c.Parameters = ceh.c.Parameters ∧
          (ceh.mapCaptures n2 v).1.c.Init = ceh.c.Init := by
        unfold componentElementHandler.mapCaptures
        simp only
        repeat' split
        all_goals simp
      obtain ⟨a, b, c, d⟩ := this
      exact ⟨a.trans h2.1, b.trans h2.2.1, c.trans h2.2.2.1, d.trans h2.2.2.2⟩
    · intro ceh arr h2
      simpa [componentElementHandler.processBindings] using h2
    · exact h
  · exact ⟨rfl, rfl, rfl, rfl⟩

/-- What `Processor.Process` returns for a component with a name. -/
theorem process_ok_eq (P : Parsers) (p : Processor) (n : Node) (cmpAttrs : ComponentAttrs)
    (hattrs : n.Ext.Component = .ok cmpAttrs) (hname : cmpAttrs.Name.length ≠ 0) :
    (Processor.Process P p n).descend = false ∧
    (Processor.Process P p n).replacement
      = some ((p.newTemplate P cmpAttrs).setChildren (p.walk P cmpAttrs n).nodes) ∧
    (Processor.Process P p n).err = (p.walk P cmpAttrs n).err ∧
    (Processor.Process P p n).cmp = some (p.built P cmpAttrs n) ∧
    (Processor.Process P p n).p.counter = goInt.wrap (p.counter + 1) ∧
    (Processor.Process P p n).p.syms.Components
      = some (mapSet ((p.walk P cmpAttrs n).st.syms.Components.getD []) cmpAttrs.Name
          (p.built P cmpAttrs n)) ∧
    (Processor.Process P p n).p.syms.CurHost.Embeds = (p.built P cmpAttrs n).Embeds ∧
    (Processor.Process P p n).p.syms.Targets = (p.walk P cmpAttrs n).st.syms.Targets ∧
    (Processor.Process P p n).p.syms.Refs = (p.walk P cmpAttrs n).st.syms.Refs := by
  unfold Processor.Process Processor.built
  simp only [hattrs, hname, if_false]
  exact ⟨trivial, trivial, trivial, trivial, trivial, trivial, trivial, trivial, trivial⟩

/-! ## The symbol table during the walk -/

/-- The function `resolveEmbed` changes nothing in the symbol table but the
targets. -/
theorem resolveEmbed_frame (n : Node) (syms : Symbols) (indexList : List Nat) :
    (resolveEmbed n syms indexList).2.Components = syms.Components ∧
    (resolveEmbed n syms indexList).2.Refs = syms.Refs ∧
    (resolveEmbed n syms indexList).2.CurHost = syms.CurHost := by
  unfold resolveEmbed
  simp only
  repeat' split
  all_goals simp

/-- The embed processor changes nothing in the symbol table but the targets
and the embeds of the current host. -/
theorem embedProcess_frame (P : Parsers) (n : Node) (syms : Symbols) (indexList : List Nat) :
    (EmbedProcessor.Process P n syms indexList).st.Components = syms.Components ∧
    (EmbedProcessor.Process P n syms indexList).st.Refs = syms.Refs := by
  obtain ⟨h1, h2, _⟩ := resolveEmbed_frame n syms indexList
  unfold EmbedProcessor.Process
  split
  · rename_i msg syms2 heq
    rw [heq] at h1 h2
    exact ⟨h1, h2⟩
  · rename_i e t syms2 heq
    rw [heq] at h1 h2
    simp only
    split
    · exact ⟨h1, h2⟩
    · exact ⟨h1, h2⟩

/-- A property of the symbol table that the walk of the children preserves is
preserved by `handleControlBlocksAndAssignments`. -/
theorem handle_syms (J : Symbols → Prop) (seh : stdElementHandler)
    (walkInner : stdElementHandler → WalkResult stdElementHandler) (n : Node)
    (attrs : General) (hinner : ∀ s1, J s1.syms → J (walkInner s1).st.syms)
    (h : J seh.syms) :
    J (seh.handleControlBlocksAndAssignments walkInner n attrs).st.syms := by
  obtain ⟨_, _, _, hs, _⟩ := processAssignments_spec seh attrs.Assign seh.indexList
  unfold stdElementHandler.handleControlBlocksAndAssignments
  simp only
  split
  · exact h
  · split
    · rename_i block _
      apply hinner
      obtain ⟨_, _, _, hs2, _⟩ := processAssignments_spec
        ({ syms := seh.syms, indexList := [], b := (block.setPath seh.indexList).Block,
           curFormPos := seh.curFormPos, curForm := seh.curForm } : stdElementHandler)
        attrs.Assign []
      rw [hs2]
      exact h
    · split
      · rename_i s2 msg heq
        rw [heq] at hs
        simp only at hs
        rw [hs]
        exact h
      · rename_i s2 heq
        rw [heq] at hs
        simp only at hs
        rw [hs]
        exact h

/-- A property of the symbol table that the embed processor preserves holds
after the walk of a control block. -/
theorem ctrlBlockWalker_syms (P : Parsers) (J : Symbols → Prop)
    (hembed : ∀ (n : Node) (syms : Symbols) (l : List Nat), J syms →
      J (EmbedProcessor.Process P n syms l).st) :
    ∀ (kids : List Node) (k : Nat) (s : stdElementHandler), J s.syms →
      J ((ctrlBlockWalker P).walkChildren kids k s).st.syms := by
  apply walkChildren_preserves (ctrlBlockWalker P) (fun s => J s.syms)
  · intro t d h n inner s hs hinner hJ
    rcases ctrlBlockWalker_slot P t d h hs with rfl | rfl | rfl | rfl
    · exact hJ
    · have : (aTextProcessor.Process s n).st.syms = s.syms := by
        unfold aTextProcessor.Process
        simp only
        split_ifs <;> simp
      show J (aTextProcessor.Process s n).st.syms
      rw [this]
      exact hJ
    · exact hembed n s.syms s.indexList hJ
    · obtain ⟨_, _, hs3⟩ := updateCurForm_frame s n
      unfold ctrlBlockElementProcessor.Process
      split
      · rename_i s2 msg heq
        rw [heq] at hs3
        simp only at hs3
        show J s2.syms
        rw [hs3]
        exact hJ
      · rename_i s2 heq
        rw [heq] at hs3
        simp only at hs3
        have hJ2 : J s2.syms := by rw [hs3]; exact hJ
        split
        · exact hJ2
        · split
          · exact hJ2
          · split
            · exact hJ2
            · exact handle_syms J s2 inner n _ hinner hJ2
  · intro k s hJ
    exact hJ
  · intro s hJ
    exact hJ

/-- A property of the symbol table that the embed processor preserves holds
after the walk of the children of a component. -/
theorem componentWalker_syms (P : Parsers) (J : Symbols → Prop)
    (hembed : ∀ (n : Node) (syms : Symbols) (l : List Nat), J syms →
      J (EmbedProcessor.Process P n syms l).st) :
    ∀ (kids : List Node) (k : Nat) (s : componentElementHandler), J s.syms →
      J ((componentWalker P).walkChildren kids k s).st.syms := by
  have hframe3 : ∀ (f : NodeHandler componentElementHandler),
      (∀ n inner s, (f n inner s).st.syms = s.syms) →
      ∀ n inner (s : componentElementHandler), J s.syms → J (f n inner s).st.syms := by
    intro f hf n inner s hJ
    rw [hf]
    exact hJ
  apply componentWalker_preserves P (fun s => J s.syms)
  · intro l s h
    exact h
  · intro n s h
    have : (aTextProcessor.Process s.tostdElementHandler n).st.syms = s.syms := by
      unfold aTextProcessor.Process
      simp only
      split_ifs <;> simp
    show J (aTextProcessor.Process s.tostdElementHandler n).st.syms
    rw [this]
    exact h
  · intro n s h
    exact hembed n s.syms s.indexList h
  · apply hframe3
    intro n inner s
    unfold handlersProcessor.Process
    simp only
    repeat' split
    all_goals simp
  · apply hframe3
    intro n inner s
    unfold controllerProcessor.Process
    simp only
    repeat' split
    all_goals simp
  · apply hframe3
    intro n inner s
    unfold aDataProcessor.Process
    simp only
    repeat' split
    all_goals simp
  · intro n inner s h
    apply componentProcess_preserves P (fun s => J s.syms)
    · intro ceh n2 h2
      obtain ⟨_, _, hs3⟩ := updateCurForm_frame ceh.tostdElementHandler n2
      show J (ceh.updateCurForm n2).1.syms
      rw [hs3]
      exact h2
    · intro ceh n2 attrs h2
      exact handle_syms J ceh.tostdElementHandler _ n2 attrs
        (fun s1 h1 => ctrlBlockWalker_syms P J hembed n2.Children 0 s1 h1) h2
    · intro ceh n2 v h2
      have := (mapCaptures_c_frame ceh n2 v).2.2.2.2
      show J (ceh.mapCaptures n2 v).1.tostdElementHandler.syms
      rw [this]
      exact h2
    · intro ceh arr h2
      have := (processBindings_c_frame ceh arr).2.2.2.2
      show J (ceh.processBindings arr).1.tostdElementHandler.syms
      rw [this]
      exact h2
    · exact h

/-- The function `resolveEmbed` does not read the embeds of the current host:
with another host it returns the same result, next to the other host. -/
theorem resolveEmbed_host (n : Node) (syms : Symbols) (indexList : List Nat) (host : EmbedHost) :
    resolveEmbed n { syms with CurHost := host } indexList
      = ((resolveEmbed n syms indexList).1,
         { (resolveEmbed n syms indexList).2 with CurHost := host }) := by
  have hR : ∀ ref, Symbols.ResolveComponent { syms with CurHost := host } ref
      = syms.ResolveComponent ref := fun _ => rfl
  unfold resolveEmbed
  cases hE : n.Ext.Embed with
  | error msg => rfl
  | ok attrs =>
    by_cases hN : attrs.Name = ""
    · simp [hN]
    by_cases hT : attrs.T = ""
    · cases hL : attrs.List <;> cases hO : attrs.Optional <;> simp [hN, hT, hL, hO] <;>
        (split_ifs <;> simp)
    · simp only [hR]
      cases hR2 : syms.ResolveComponent attrs.T with
      | error msg =>
        cases hL : attrs.List <;> cases hO : attrs.Optional <;> simp [hN, hT, hL, hO]
      | ok r =>
        obtain ⟨i, typeName, aliasName⟩ := r
        cases hL : attrs.List <;> cases hO : attrs.Optional <;> simp [hN, hT, hL, hO] <;>
          (split_ifs <;> simp)

/-- The error of `EmbedProcessor.Process` does not depend on the embeds the
current host holds. -/
theorem embedProcess_host (P : Parsers) (n : Node) (syms : Symbols) (indexList : List Nat)
    (host : EmbedHost) :
    (EmbedProcessor.Process P n { syms with CurHost := host } indexList).err
      = (EmbedProcessor.Process P n syms indexList).err := by
  unfold EmbedProcessor.Process
  rw [resolveEmbed_host]
  cases resolveEmbed n syms indexList with
  | mk res s2 =>
    cases res with
    | error msg => rfl
    | ok r =>
      obtain ⟨e, t⟩ := r
      simp only
      split <;> rfl

/-- When `EmbedProcessor.Process` returns without error, `resolveEmbed` has
succeeded and the embed it returned is appended to those of the host, with
the constructor calls of the children. -/
theorem embedProcess_ok (P : Parsers) (n : Node) (syms : Symbols) (indexList : List Nat)
    (attrs : EmbedAttrs) (hattrs : n.Ext.Embed = .ok attrs)
    (hok : (EmbedProcessor.Process P n syms indexList).err = none) :
    ∃ e t syms2 added, resolveEmbed n syms indexList = (.ok (e, t), syms2) ∧
      (EmbedProcessor.Process P n syms indexList).st.CurHost.Embeds
        = syms.CurHost.Embeds ++ [{ e with ConstructorCalls := added }] ∧
      e.Field = attrs.Name := by
  cases hres : resolveEmbed n syms indexList with
  | mk res syms2 =>
    cases res with
    | error msg =>
      exfalso
      unfold EmbedProcessor.Process at hok
      rw [hres] at hok
      simp at hok
    | ok r =>
      obtain ⟨e, t⟩ := r
      obtain ⟨_, _, hfield, _, hcalls, _⟩ :=
        resolveEmbed_ok_spec n syms indexList attrs e t syms2 hattrs hres
      obtain ⟨added, _, _, _, _, hmany, hfew⟩ :=
        embedProcess_spec P n syms indexList e t syms2 hres
      have hhost : syms2.CurHost = syms.CurHost := by
        have := (resolveEmbed_frame n syms indexList).2.2
        rw [hres] at this
        exact this
      have hfew2 : ¬ (e.Kind = .OptionalEmbed ∧ (e.ConstructorCalls ++ added).length > 1) := by
        intro h
        rw [(hmany h).1] at hok
        cases hok
      refine ⟨e, t, syms2, added, rfl, ?_, hfield⟩
      rw [(hfew hfew2).1, hhost, hcalls, List.nil_append]

/-! ## Discovery of form values -/

/-- The three ways `formValueDiscovery.Process` treats an element, whatever
the map holds: it skips the element, it rejects it, or it has an entry for
its name, which is stored if the name is new, skipped if both the entry and
the stored one are radio inputs, and rejected otherwise. -/
theorem formValueDiscovery_cases (n : Node) :
    (∀ inner d, formValueDiscovery.Process n inner d = { node := n, st := d }) ∨
    (∃ msg, ∀ inner d, formValueDiscovery.Process n inner d
        = { err := some msg, node := n, st := d }) ∨
    (∃ v, attributes.Val n.Attr "name" ≠ "" ∧ (v.t = .StringVar ∨ v.t = .IntVar) ∧
      (v.radio = true → v.t = .StringVar) ∧
      ∀ inner d, formValueDiscovery.Process n inner d
        = match d.values.lookup (attributes.Val n.Attr "name") with
          | some existing =>
            if v.radio ∧ existing.radio then { node := n, st := d }
            else { err := some (": duplicate name `" ++ attributes.Val n.Attr "name"
                     ++ "` in same form"), node := n, st := d }
          | none => { node := n,
                      st := { values := mapSet d.values (attributes.Val n.Attr "name") v } }) := by
  by_cases hname : attributes.Val n.Attr "name" = ""
  · left
    intro inner d
    simp [formValueDiscovery.Process, hname]
  · cases ha : n.DataAtom with
    | Input =>
      by_cases h1 : attributes.Val n.Attr "type" = "radio"
      · right; right
        refine ⟨{ t := .StringVar, radio := true }, hname, Or.inl rfl, fun _ => rfl, ?_⟩
        intro inner d
        simp only [formValueDiscovery.Process, hname, ha, h1, if_true, if_false]
      · by_cases h2 : attributes.Val n.Attr "type" = "number" ∨
            attributes.Val n.Attr "type" = "range"
        · by_cases h3 : (attributes.Val n.Attr "min").contains '.' ∨
              (attributes.Val n.Attr "max").contains '.' ∨
              (attributes.Val n.Attr "step").contains '.'
          · right; left
            refine ⟨": non-integer " ++ attributes.Val n.Attr "type" ++ " inputs not supported",
              ?_⟩
            intro inner d
            simp only [formValueDiscovery.Process, hname, ha, h1, h2, h3, if_true, if_false]
          · right; right
            refine ⟨{ t := .IntVar, radio := false }, hname, Or.inr rfl,
              (fun h => by cases h), ?_⟩
            intro inner d
            simp only [formValueDiscovery.Process, hname, ha, h1, h2, h3, if_true, if_false]
        · by_cases h4 : attributes.Val n.Attr "type" = "text" ∨
              attributes.Val n.Attr "type" = ""
          · right; right
            refine ⟨{ t := .StringVar, radio := false }, hname, Or.inl rfl,
              fun _ => rfl, ?_⟩
            intro inner d
            simp only [formValueDiscovery.Process, hname, ha, h1, h2, h4, if_true, if_false]
          · by_cases h5 : attributes.Val n.Attr "type" = "submit" ∨
                attributes.Val n.Attr "type" = "reset" ∨
                attributes.Val n.Attr "type" = "hidden"
            · left
              intro inner d
              simp only [formValueDiscovery.Process, hname, ha, h1, h2, h4, h5, if_true,
                if_false]
            · right; left
              refine ⟨": unsupported input type: `" ++ attributes.Val n.Attr "type" ++ "`", ?_⟩
              intro inner d
              simp only [formValueDiscovery.Process, hname, ha, h1, h2, h4, h5, if_true,
                if_false]
    | Select =>
      right; right
      refine ⟨{ t := .StringVar, radio := false }, hname, Or.inl rfl, fun _ => rfl, ?_⟩
      intro inner d
      simp only [formValueDiscovery.Process, hname, ha, if_false]
    | Textarea =>
      right; right
      refine ⟨{ t := .StringVar, radio := false }, hname, Or.inl rfl, fun _ => rfl, ?_⟩
      intro inner d
      simp only [formValueDiscovery.Process, hname, ha, if_false]
    | Zero => left; intro inner d; simp only [formValueDiscovery.Process, hname, ha, if_false]
    | Form => left; intro inner d; simp only [formValueDiscovery.Process, hname, ha, if_false]
    | Template =>
      left; intro inner d; simp only [formValueDiscovery.Process, hname, ha, if_false]
    | Other => left; intro inner d; simp only [formValueDiscovery.Process, hname, ha, if_false]

/-- A key has an entry in an association list iff it is among the keys. -/
theorem lookup_isSome_iff {α : Type} (m : StrMap α) (k : String) :
    (m.lookup k).isSome = true ↔ k ∈ m.map Prod.fst := by
  induction m with
  | nil => simp
  | cons e rest ih =>
    obtain ⟨ek, ev⟩ := e
    by_cases h : k = ek
    · subst h
      simp [List.lookup]
    · have h2 : (k == ek) = false := by simpa using h
      simp [List.lookup, h2, ih, h]

/-- Lookup in a list with one entry appended. -/
theorem lookup_append_one {α : Type} (m : StrMap α) (key : String) (v : α) (k : String) :
    (m ++ [(key, v)]).lookup k
      = (m.lookup k).or (if k = key then some v else none) := by
  induction m with
  | nil =>
    by_cases h : k = key
    · subst h
      simp [List.lookup]
    · have h2 : (k == key) = false := by simpa using h
      simp [List.lookup, h2, h]
  | cons e rest ih =>
    obtain ⟨ek, ev⟩ := e
    by_cases h : k = ek
    · subst h
      simp [List.lookup]
    · have h2 : (k == ek) = false := by simpa using h
      simp only [List.cons_append, List.lookup, h2]
      exact ih

/-- `formValueDiscovery.Process` does not use the walk of the children. -/
theorem formValueDiscovery_inner (n : Node)
    (inner inner2 : formValueDiscovery → WalkResult formValueDiscovery)
    (d : formValueDiscovery) :
    formValueDiscovery.Process n inner d = formValueDiscovery.Process n inner2 d := by
  rcases formValueDiscovery_cases n with h | ⟨msg, h⟩ | ⟨v, _, _, _, h⟩
  · rw [h, h]
  · rw [h, h]
  · rw [h, h]

/-- What `formValueDiscovery.Process` does with a named, supported input: the
entry is stored if the name is new, skipped if the stored entry and the new
one are radio inputs, and rejected otherwise. -/
theorem formEntry_step (n : Node) (name : String) (v : formValue)
    (h : n.formEntry = some (name, v)) :
    name ≠ "" ∧ (v.radio = true → v.t = .StringVar) ∧
    ∀ inner d, formValueDiscovery.Process n inner d
      = match d.values.lookup name with
        | some existing =>
          if v.radio ∧ existing.radio then { node := n, st := d }
          else { err := some (": duplicate name `" ++ name ++ "` in same form"),
                 node := n, st := d }
        | none => { node := n, st := { values := d.values ++ [(name, v)] } } := by
  unfold Node.formEntry at h
  rcases formValueDiscovery_cases n with h1 | ⟨msg, h1⟩ | ⟨v1, hn, _, hr, h1⟩
  · rw [h1] at h
    simp [emptyDiscovery] at h
  · rw [h1] at h
    simp at h
  · rw [h1] at h
    simp [emptyDiscovery, mapSet] at h
    obtain ⟨h2, h3⟩ := h
    subst h2
    subst h3
    refine ⟨hn, hr, ?_⟩
    intro inner d
    rw [h1]
    cases hl : d.values.lookup (attributes.Val n.Attr "name") with
    | some ex => rfl
    | none => simp [mapSet, hl]

/-- The outcome of offering a sequence of named, supported inputs to a
well-formed discovery.  It succeeds iff inputs that share their name are radio
inputs, among themselves and with the entries stored before.  On success the
result is well formed, its names are the names stored before and those of the
inputs, the entries stored before are kept, and each input finds its entry
under its name. -/
theorem offerAll_spec : ∀ (l : List Node) (d : formValueDiscovery),
    (∀ c ∈ l, c.formEntry.isSome = true) → d.wellFormed →
    (((formValueDiscovery.offerAll l d).2 = none ↔
      ((l.filterMap Node.formEntry).Pairwise formValue.compatible ∧
        ∀ e ∈ l.filterMap Node.formEntry, ∀ ex, d.values.lookup e.1 = some ex →
          e.2.radio = true ∧ ex.radio = true)) ∧
    ((formValueDiscovery.offerAll l d).2 = none →
      (formValueDiscovery.offerAll l d).1.wellFormed ∧
      (∀ k, k ∈ (formValueDiscovery.offerAll l d).1.values.map Prod.fst ↔
        (k ∈ d.values.map Prod.fst ∨ k ∈ (l.filterMap Node.formEntry).map Prod.fst)) ∧
      (∀ k v, d.values.lookup k = some v →
        (formValueDiscovery.offerAll l d).1.values.lookup k = some v) ∧
      (∀ e ∈ l.filterMap Node.formEntry,
        (formValueDiscovery.offerAll l d).1.values.lookup e.1 = some e.2)))
  | [], d, _, hwf => by
    simp [formValueDiscovery.offerAll, hwf]
  | c :: rest, d, hsup, hwf => by
    have hrest : ∀ c2 ∈ rest, c2.formEntry.isSome = true :=
      fun c2 h2 => hsup c2 (List.mem_cons_of_mem _ h2)
    have hc := hsup c (List.mem_cons_self _ _)
    cases hce : c.formEntry with
    | none => rw [hce] at hc; cases hc
    | some nv =>
      obtain ⟨name, v⟩ := nv
      obtain ⟨_, hradio, hstep⟩ := formEntry_step c name v hce
      have hent : (c :: rest).filterMap Node.formEntry
          = (name, v) :: rest.filterMap Node.formEntry := by
        simp [List.filterMap_cons, hce]
      rw [hent]
      rw [formValueDiscovery.offerAll, hstep]
      cases hl : d.values.lookup name with
      | some ex =>
        by_cases hboth : v.radio = true ∧ ex.radio = true
        · obtain ⟨ih1, ih2⟩ := offerAll_spec rest d hrest hwf
          have hex : ex = v := by
            have h1 := hwf.2 name ex hl hboth.2
            have h2 := hradio hboth.1
            cases ex
            cases v
            simp_all
          simp only [hboth, and_self, if_true]
          constructor
          · rw [ih1]
            constructor
            · rintro ⟨hp, hd⟩
              refine ⟨List.Pairwise.cons ?_ hp, ?_⟩
              · intro e he heq
                have := hd e he ex (by rw [← heq]; exact hl)
                exact ⟨hboth.1, this.1⟩
              · intro e he ex2 hl2
                rcases List.mem_cons.1 he with rfl | he
                · rw [hl] at hl2
                  cases hl2
                  exact hboth
                · exact hd e he ex2 hl2
            · rintro ⟨hp, hd⟩
              exact ⟨(List.pairwise_cons.1 hp).2,
                fun e he => hd e (List.mem_cons_of_mem _ he)⟩
          · intro hok
            obtain ⟨r1, r2, r3, r4⟩ := ih2 hok
            refine ⟨r1, ?_, r3, ?_⟩
            · intro k
              rw [r2 k]
              have hmem : name ∈ d.values.map Prod.fst :=
                (lookup_isSome_iff d.values name).1 (by rw [hl]; rfl)
              simp only [List.map_cons, List.mem_cons]
              constructor
              · rintro (h | h)
                · exact Or.inl h
                · exact Or.inr (Or.inr h)
              · rintro (h | h | h)
                · exact Or.inl h
                · exact Or.inl (h ▸ hmem)
                · exact Or.inr h
            · intro e he
              rcases List.mem_cons.1 he with rfl | he
              · rw [← hex]
                exact r3 name ex hl
              · exact r4 e he
        · simp only [hboth, if_false]
          constructor
          · constructor
            · intro h
              cases h
            · rintro ⟨_, hd⟩
              exact absurd (hd (name, v) (List.mem_cons_self _ _) ex hl) hboth
          · intro h
            cases h
      | none =>
        have hnot : name ∉ d.values.map Prod.fst := by
          intro hm
          have := (lookup_isSome_iff d.values name).2 hm
          rw [hl] at this
          cases this
        have hwf2 : formValueDiscovery.wellFormed { values := d.values ++ [(name, v)] } := by
          constructor
          · simp only [List.map_append, List.map_cons, List.map_nil]
            exact List.Nodup.append hwf.1 (List.nodup_singleton _)
              (by simpa using hnot)
          · intro k x hk hx
            rw [lookup_append_one] at hk
            cases hd : d.values.lookup k with
            | some y =>
              rw [hd] at hk
              cases hk
              exact hwf.2 k x hd hx
            | none =>
              rw [hd, Option.none_or] at hk
              split_ifs at hk with hkn
              cases hk
              exact hradio hx
        obtain ⟨ih1, ih2⟩ := offerAll_spec rest { values := d.values ++ [(name, v)] } hrest hwf2
        have hlook : ∀ k, (d.values ++ [(name, v)]).lookup k
            = (d.values.lookup k).or (if k = name then some v else none) :=
          fun k => lookup_append_one d.values name v k
        simp only
        constructor
        · rw [ih1]
          constructor
          · rintro ⟨hp, hd⟩
            refine ⟨List.Pairwise.cons ?_ hp, ?_⟩
            · intro e he heq
              have h1 : (d.values ++ [(name, v)]).lookup e.1 = some v := by
                rw [hlook, ← heq]
                simp [hl]
              have := hd e he v h1
              exact ⟨this.2, this.1⟩
            · intro e he ex2 hl2
              rcases List.mem_cons.1 he with rfl | he
              · rw [hl] at hl2
                cases hl2
              · apply hd e he ex2
                rw [hlook, hl2]
                rfl
          · rintro ⟨hp, hd⟩
            obtain ⟨hp1, hp2⟩ := List.pairwise_cons.1 hp
            refine ⟨hp2, ?_⟩
            intro e he ex2 hl2
            rw [hlook] at hl2
            cases hd2 : d.values.lookup e.1 with
            | some y =>
              rw [hd2] at hl2
              cases hl2
              exact hd e (List.mem_cons_of_mem _ he) ex2 hd2
            | none =>
              rw [hd2, Option.none_or] at hl2
              split_ifs at hl2 with hkn
              cases hl2
              have := hp1 e he hkn.symm
              exact ⟨this.2, this.1⟩
        · intro hok
          obtain ⟨r1, r2, r3, r4⟩ := ih2 hok
          refine ⟨r1, ?_, ?_, ?_⟩
          · intro k
            rw [r2 k]
            simp only [List.map_append, List.map_cons, List.map_nil, List.mem_append,
              List.mem_singleton, List.mem_cons, List.mem_nil_iff, or_false]
            constructor
            · rintro ((h | h) | h)
              · exact Or.inl h
              · exact Or.inr (Or.inl h)
              · exact Or.inr (Or.inr h)
            · rintro (h | h | h)
              · exact Or.inl (Or.inl h)
              · exact Or.inl (Or.inr h)
              · exact Or.inr h
          · intro k x hk
            apply r3
            rw [hlook, hk]
            rfl
          · intro e he
            rcases List.mem_cons.1 he with rfl | he
            · apply r3
              rw [hlook]
              simp [hl]
            · exact r4 e he

/-- The walker of `discoverFormValues` on a plain element: the element is
offered to `formValueDiscovery.Process` and not descended into. -/
theorem discoveryWalker_plain (c : Node) (hc : c.isPlainElement) (s : formValueDiscovery) :
    (discoveryWalker.walkNode c s).st = (formValueDiscovery.Process c noDiscoveryWalk s).st ∧
    (discoveryWalker.walkNode c s).err = (formValueDiscovery.Process c noDiscoveryWalk s).err := by
  obtain ⟨t, a, d, as, e, kids⟩ := c
  obtain ⟨ht, hd⟩ := hc
  simp only [Node.Typ] at ht
  subst ht
  simp only [Node.Data, askewElementNames, List.mem_cons, List.mem_singleton, not_or,
    List.mem_nil_iff, or_false] at hd
  obtain ⟨h1, h2, h3, h4, h5, h6, h7, h8, h9⟩ := hd
  have hinner := formValueDiscovery_inner (Node.mk .ElementNode a d as e kids)
    (fun s1 => discoveryWalker.walkChildren kids 0 s1) noDiscoveryWalk s
  have hdesc : (formValueDiscovery.Process (Node.mk .ElementNode a d as e kids)
      noDiscoveryWalk s).descend = false ∧
      (formValueDiscovery.Process (Node.mk .ElementNode a d as e kids)
        noDiscoveryWalk s).replacement = none := by
    rcases formValueDiscovery_cases (Node.mk .ElementNode a d as e kids) with
      h | ⟨msg, h⟩ | ⟨v, _, _, _, h⟩
    · rw [h]
      exact ⟨rfl, rfl⟩
    · rw [h]
      exact ⟨rfl, rfl⟩
    · rw [h]
      split
      · split <;> exact ⟨rfl, rfl⟩
      · exact ⟨rfl, rfl⟩
  unfold Walker.walkNode
  simp only [Walker.slot, Walker.elementSlot, discoveryWalker, h1, h2, h3, h4, h5, h6, h7, h8,
    h9, if_false]
  simp only [discoveryWalker] at hinner
  rw [hinner]
  split
  · rename_i msg hmsg
    exact ⟨rfl, hmsg.symm⟩
  · rename_i hnone
    rw [hdesc.1, hdesc.2]
    exact ⟨rfl, hnone.symm⟩

/-- On plain elements the walk of `discoverFormValues` offers the elements
one after the other. -/
theorem discoveryWalker_flat : ∀ (l : List Node) (k : Nat) (s : formValueDiscovery),
    (∀ c ∈ l, c.isPlainElement) →
    (discoveryWalker.walkChildren l k s).st = (formValueDiscovery.offerAll l s).1 ∧
    (discoveryWalker.walkChildren l k s).err = (formValueDiscovery.offerAll l s).2
  | [], k, s, _ => by
    simp [Walker.walkChildren, formValueDiscovery.offerAll]
  | c :: rest, k, s, h => by
    obtain ⟨h1, h2⟩ := discoveryWalker_plain c (h c (List.mem_cons_self _ _)) s
    have hpush : discoveryWalker.push k s = s := rfl
    have hpop : ∀ s2, discoveryWalker.pop s2 = s2 := fun _ => rfl
    rw [Walker.walkChildren, formValueDiscovery.offerAll]
    simp only [hpush, hpop]
    rw [← h2]
    split
    · rename_i msg hmsg
      simp only [hmsg]
      exact ⟨h1, trivial⟩
    · rename_i hnone
      simp only [hnone]
      rw [h1]
      exact discoveryWalker_flat rest (k + 1) _ (fun c2 h2 => h c2 (List.mem_cons_of_mem _ h2))

/-- The function `discoverFormValues` on a form whose children are plain
elements. -/
theorem discoverFormValues_flat (form : Node) (h : ∀ c ∈ form.Children, c.isPlainElement) :
    discoverFormValues form
      = match (formValueDiscovery.offerAll form.Children emptyDiscovery).2 with
        | some msg => (none, some msg)
        | none => (some (formValueDiscovery.offerAll form.Children emptyDiscovery).1.values,
                   none) := by
  obtain ⟨h1, h2⟩ := discoveryWalker_flat form.Children 0 emptyDiscovery h
  unfold discoverFormValues
  simp only [Walker.WalkChildren]
  rw [show (Walker.walkChildren
      { TextNode := some walker.Allow, Embed := some walker.DontDescend,
        Handlers := some walker.DontDescend, Text := some walker.Allow,
        StdElements := some formValueDiscovery.Process } form.Children 0 { values := [] })
      = discoveryWalker.walkChildren form.Children 0 emptyDiscovery from rfl]
  rw [h1, h2]

/-- The entry of an element carries the element's name, and it is a radio
entry exactly for an `<input type="radio">`. -/
theorem formEntry_radio (n : Node) (name : String) (v : formValue)
    (h : n.formEntry = some (name, v)) :
    name = attributes.Val n.Attr "name" ∧ (v.radio = true ↔ n.isRadioInput) := by
  unfold Node.formEntry at h
  unfold Node.isRadioInput
  by_cases hname : attributes.Val n.Attr "name" = ""
  · simp [formValueDiscovery.Process, hname, emptyDiscovery] at h
  · cases ha : n.DataAtom <;>
      simp only [formValueDiscovery.Process, hname, ha, emptyDiscovery, if_false] at h
    all_goals try (simp at h; done)
    · by_cases h1 : attributes.Val n.Attr "type" = "radio"
      · simp [h1, mapSet] at h
        obtain ⟨h2, h3⟩ := h
        subst h2 h3
        simp [h1]
      · by_cases h2 : attributes.Val n.Attr "type" = "number" ∨
            attributes.Val n.Attr "type" = "range"
        · by_cases h3 : (attributes.Val n.Attr "min").contains '.' ∨
              (attributes.Val n.Attr "max").contains '.' ∨
              (attributes.Val n.Attr "step").contains '.'
          · simp [h1, h2, h3] at h
          · simp [h1, h2, h3, mapSet] at h
            obtain ⟨h4, h5⟩ := h
            subst h4 h5
            simp [h1]
        · by_cases h4 : attributes.Val n.Attr "type" = "text" ∨
              attributes.Val n.Attr "type" = ""
          · simp [h1, h2, h4, mapSet] at h
            obtain ⟨h5, h6⟩ := h
            subst h5 h6
            simp [h1]
          · by_cases h5 : attributes.Val n.Attr "type" = "submit" ∨
                attributes.Val n.Attr "type" = "reset" ∨
                attributes.Val n.Attr "type" = "hidden"
            · simp [h1, h2, h4, h5] at h
            · simp [h1, h2, h4, h5] at h
    · simp [mapSet] at h
      obtain ⟨h5, h6⟩ := h
      subst h5 h6
      simp
    · simp [mapSet] at h
      obtain ⟨h5, h6⟩ := h
      subst h5 h6
      simp

/-- A sequence of named, supported form inputs is only rejected for a
duplicate name. -/
theorem offerAll_error : ∀ (l : List Node) (d : formValueDiscovery) (msg : String),
    (∀ c ∈ l, c.formEntry.isSome = true) →
    (formValueDiscovery.offerAll l d).2 = some msg →
    ∃ c ∈ l, msg = ": duplicate name `" ++ attributes.Val c.Attr "name" ++ "` in same form"
  | [], d, msg, _, h => by
    simp [formValueDiscovery.offerAll] at h
  | c :: rest, d, msg, hl, h => by
    have hc := hl c (List.mem_cons_self _ _)
    obtain ⟨⟨name, v⟩, he⟩ := Option.isSome_iff_exists.mp hc
    obtain ⟨_, _, hstep⟩ := formEntry_step c name v he
    obtain ⟨hname, _⟩ := formEntry_radio c name v he
    subst hname
    rw [formValueDiscovery.offerAll] at h
    simp only [hstep noDiscoveryWalk d] at h
    cases hlk : d.values.lookup (attributes.Val c.Attr "name") with
    | none =>
      rw [hlk] at h
      simp only at h
      obtain ⟨c2, hc2, hm⟩ := offerAll_error rest _ msg
        (fun c2 h2 => hl c2 (List.mem_cons_of_mem _ h2)) h
      exact ⟨c2, List.mem_cons_of_mem _ hc2, hm⟩
    | some ex =>
      rw [hlk] at h
      simp only at h
      by_cases hr : v.radio = true ∧ ex.radio = true
      · rw [if_pos hr] at h
        simp only at h
        obtain ⟨c2, hc2, hm⟩ := offerAll_error rest _ msg
          (fun c2 h2 => hl c2 (List.mem_cons_of_mem _ h2)) h
        exact ⟨c2, List.mem_cons_of_mem _ hc2, hm⟩
      · rw [if_neg hr] at h
        simp only [Option.some.injEq] at h
        exact ⟨c, List.mem_cons_self _ _, h.symm⟩

/-! ## Errors of a walk and the form scope -/

mutual

/-- Every error of a walk of a node is one its handlers return or the
walker's error for a node kind without handler. -/
theorem walkNode_errors {σ : Type} (w : Walker σ) (E : String → Prop)
    (hslot : ∀ d, E (d ++ ": element not allowed here"))
    (hstep : ∀ (t : NodeType) (d : String) (h : NodeHandler σ) (n : Node)
      (inner : σ → WalkResult σ) (s : σ) (msg : String), w.slot t d = some h →
      (∀ s1 m, (inner s1).err = some m → E m) → (h n inner s).err = some msg → E msg) :
    ∀ (n : Node) (s : σ) (msg : String), (w.walkNode n s).err = some msg → E msg
  | .mk t a d as e kids, s, msg, hmsg => by
    have hinner : ∀ s1 m, (w.walkChildren kids 0 s1).err = some m → E m :=
      fun s1 m h1 => walkChildren_errors w E hslot hstep kids 0 s1 m h1
    unfold Walker.walkNode at hmsg
    cases t with
    | CommentNode => simp at hmsg
    | TextNode =>
      simp only at hmsg
      cases hsl : w.slot .TextNode d with
      | none =>
        rw [hsl] at hmsg
        simp only [Option.some.injEq] at hmsg
        rw [← hmsg]
        exact hslot d
      | some h =>
        rw [hsl] at hmsg
        have h1 := hstep .TextNode d h (Node.mk .TextNode a d as e kids)
          (fun s1 => w.walkChildren kids 0 s1) s
        simp only at hmsg
        split at hmsg
        · rename_i m hm
          simp only [Option.some.injEq] at hmsg
          rw [← hmsg]
          exact h1 m hsl hinner hm
        · split at hmsg
          · simp at hmsg
          · split at hmsg
            · exact hinner _ _ hmsg
            · simp at hmsg
    | ElementNode =>
      simp only at hmsg
      cases hsl : w.slot .ElementNode d with
      | none =>
        rw [hsl] at hmsg
        simp only [Option.some.injEq] at hmsg
        rw [← hmsg]
        exact hslot d
      | some h =>
        rw [hsl] at hmsg
        have h1 := hstep .ElementNode d h (Node.mk .ElementNode a d as e kids)
          (fun s1 => w.walkChildren kids 0 s1) s
        simp only at hmsg
        split at hmsg
        · rename_i m hm
          simp only [Option.some.injEq] at hmsg
          rw [← hmsg]
          exact h1 m hsl hinner hm
        · split at hmsg
          · simp at hmsg
          · split at hmsg
            · exact hinner _ _ hmsg
            · simp at hmsg

/-- Every error of a walk of a list of children is one its handlers return or
the walker's error for a node kind without handler. -/
theorem walkChildren_errors {σ : Type} (w : Walker σ) (E : String → Prop)
    (hslot : ∀ d, E (d ++ ": element not allowed here"))
    (hstep : ∀ (t : NodeType) (d : String) (h : NodeHandler σ) (n : Node)
      (inner : σ → WalkResult σ) (s : σ) (msg : String), w.slot t d = some h →
      (∀ s1 m, (inner s1).err = some m → E m) → (h n inner s).err = some msg → E msg) :
    ∀ (l : List Node) (k : Nat) (s : σ) (msg : String),
      (w.walkChildren l k s).err = some msg → E msg
  | [], _, s, msg, hmsg => by
    unfold Walker.walkChildren at hmsg
    simp at hmsg
  | n :: rest, k, s, msg, hmsg => by
    have hn := walkNode_errors w E hslot hstep n (w.push k s)
    unfold Walker.walkChildren at hmsg
    simp only at hmsg
    split at hmsg
    · rename_i m hm
      simp only [Option.some.injEq] at hmsg
      rw [← hmsg]
      exact hn m hm
    · exact walkChildren_errors w E hslot hstep rest (k + 1) _ msg hmsg

end

/-- The three errors of `formValueDiscovery.Process`. -/
theorem formValueDiscovery_errors (n : Node)
    (inner : formValueDiscovery → WalkResult formValueDiscovery) (d : formValueDiscovery)
    (msg : String) (h : (formValueDiscovery.Process n inner d).err = some msg) :
    msg = ": non-integer " ++ attributes.Val n.Attr "type" ++ " inputs not supported" ∨
    msg = ": unsupported input type: `" ++ attributes.Val n.Attr "type" ++ "`" ∨
    msg = ": duplicate name `" ++ attributes.Val n.Attr "name" ++ "` in same form" := by
  by_cases hname : attributes.Val n.Attr "name" = ""
  · simp [formValueDiscovery.Process, hname] at h
  · cases ha : n.DataAtom <;>
      simp only [formValueDiscovery.Process, hname, ha, if_false] at h
    all_goals try (simp at h; done)
    · by_cases h1 : attributes.Val n.Attr "type" = "radio"
      · simp only [h1, if_true] at h
        split at h
        · split at h
          · simp at h
          · simp only [Option.some.injEq] at h
            exact Or.inr (Or.inr h.symm)
        · simp at h
      · by_cases h2 : attributes.Val n.Attr "type" = "number" ∨
            attributes.Val n.Attr "type" = "range"
        · by_cases h3 : (attributes.Val n.Attr "min").contains '.' ∨
              (attributes.Val n.Attr "max").contains '.' ∨
              (attributes.Val n.Attr "step").contains '.'
          · simp only [h1, h2, h3, if_true, if_false, Option.some.injEq] at h
            exact Or.inl h.symm
          · simp only [h1, h2, h3, if_true, if_false] at h
            split at h
            · split at h
              · simp at h
              · simp only [Option.some.injEq] at h
                exact Or.inr (Or.inr h.symm)
            · simp at h
        · by_cases h4 : attributes.Val n.Attr "type" = "text" ∨
              attributes.Val n.Attr "type" = ""
          · simp only [h1, h2, h4, if_true, if_false] at h
            split at h
            · split at h
              · simp at h
              · simp only [Option.some.injEq] at h
                exact Or.inr (Or.inr h.symm)
            · simp at h
          · by_cases h5 : attributes.Val n.Attr "type" = "submit" ∨
                attributes.Val n.Attr "type" = "reset" ∨
                attributes.Val n.Attr "type" = "hidden"
            · simp [h1, h2, h4, h5] at h
            · simp only [h1, h2, h4, h5, if_false, Option.some.injEq] at h
              exact Or.inr (Or.inl h.symm)
    · split at h
      · split at h
        · simp at h
        · simp only [Option.some.injEq] at h
          exact Or.inr (Or.inr h.symm)
      · simp at h
    · split at h
      · split at h
        · simp at h
        · simp only [Option.some.injEq] at h
          exact Or.inr (Or.inr h.symm)
      · simp at h

/-- The handlers of the walker of `discoverFormValues`. -/
theorem discoveryWalker_slot (t : NodeType) (d : String)
    (h : NodeHandler formValueDiscovery) (hsl : discoveryWalker.slot t d = some h) :
    h = walker.Allow ∨ h = walker.DontDescend ∨ h = formValueDiscovery.Process := by
  cases t <;>
    simp only [Walker.slot, Walker.elementSlot, discoveryWalker] at hsl
  · simp only [Option.some.injEq] at hsl
    exact Or.inl hsl.symm
  · repeat' split at hsl
    all_goals first
      | (simp only [Option.some.injEq] at hsl
         first
           | exact Or.inl hsl.symm
           | exact Or.inr (Or.inl hsl.symm)
           | exact Or.inr (Or.inr hsl.symm))
      | (simp at hsl)
  · repeat' split at hsl
    all_goals first
      | (simp only [Option.some.injEq] at hsl
         first
           | exact Or.inl hsl.symm
           | exact Or.inr (Or.inl hsl.symm)
           | exact Or.inr (Or.inr hsl.symm))
      | (simp at hsl)

/-- The walk of `discoverFormValues` is the walk of `discoveryWalker` from the
empty map. -/
theorem discoverFormValues_eq (form : Node) :
    discoverFormValues form
      = match (discoveryWalker.walkChildren form.Children 0 emptyDiscovery).err with
        | some msg => (none, some msg)
        | none => (some (discoveryWalker.walkChildren form.Children 0
            emptyDiscovery).st.values, none) := rfl

/-- The pre-scan of a form never reports a nested form. -/
theorem discoverFormValues_error (form : Node) :
    (discoverFormValues form).2 ≠ some ": nested <form> not allowed" := by
  have hw := walkChildren_errors discoveryWalker (fun m => m ≠ ": nested <form> not allowed")
    (by
      intro d h
      have h2 := congrArg (fun s => s.data.reverse) h
      simp [String.data_append, List.reverse_append] at h2)
    (by
      intro t d h n inner s msg hsl _ hmsg
      have hcases := discoveryWalker_slot t d h hsl
      rcases hcases with hc | hc | hc
      · subst hc
        simp [walker.Allow] at hmsg
      · subst hc
        simp [walker.DontDescend] at hmsg
      · subst hc
        rcases formValueDiscovery_errors n inner s msg hmsg with hm | hm | hm
        · subst hm
          intro h
          have h2 := congrArg String.data h
          simp [String.data_append] at h2
        · subst hm
          intro h
          have h2 := congrArg String.data h
          simp [String.data_append] at h2
        · subst hm
          intro h
          have h2 := congrArg String.data h
          simp [String.data_append] at h2)
    form.Children 0 emptyDiscovery
  intro h
  rw [discoverFormValues_eq] at h
  cases herr : (discoveryWalker.walkChildren form.Children 0 emptyDiscovery).err with
  | none =>
    rw [herr] at h
    simp at h
  | some m =>
    rw [herr] at h
    simp only [Option.some.injEq] at h
    exact hw m herr h

/-! ## Types of the stored bindings -/

/-- The bindings the loop of `processBindings` stores: one per binding it
accepts, in order, with the type resolved; all of `arr` if it returns no
error, the bindings before the rejected one otherwise. -/
theorem processBindings_loop_types (fd : Int) (cf : Option (StrMap formValue))
    (path : List Nat) :
    ∀ (arr vars : List VariableMapping),
      ∃ added, (processBindings.loop fd cf path arr vars).1 = vars ++ added ∧
        ((processBindings.loop fd cf path arr vars).2 = none → added.length = arr.length) ∧
        List.Forall₂ (fun vb st =>
          st.Variable.Name = vb.Variable.Name ∧ st.Value.Kind = vb.Value.Kind ∧
          st.Value.ID = vb.Value.ID ∧ st.Path = path ∧
          (vb.Variable.Typ ≠ .AutoVar → st.Variable.Typ = vb.Variable.Typ) ∧
          (vb.Variable.Typ = .AutoVar → vb.Value.Kind = .BoundClass →
            st.Variable.Typ = .BoolVar) ∧
          (vb.Variable.Typ = .AutoVar → vb.Value.Kind = .BoundFormValue →
            ∃ val, mapGet cf vb.Value.ID = some val ∧ st.Variable.Typ = val.t) ∧
          (vb.Variable.Typ = .AutoVar → vb.Value.Kind ≠ .BoundClass →
            vb.Value.Kind ≠ .BoundFormValue → st.Variable.Typ = .StringVar))
          (arr.take added.length) added := by
  intro arr
  induction arr with
  | nil =>
    intro vars
    exact ⟨[], by simp [processBindings.loop], fun _ => rfl, List.Forall₂.nil⟩
  | cons vb rest ih =>
    intro vars
    unfold processBindings.loop
    by_cases hk : vb.Value.Kind = .BoundFormValue
    · rw [if_pos hk]
      by_cases hfd : fd = -1
      · rw [if_pos hfd]
        exact ⟨[], by simp, fun h => by simp at h, List.Forall₂.nil⟩
      · rw [if_neg hfd]
        simp only
        cases hval : mapGet cf vb.Value.ID with
        | none =>
          exact ⟨[], by simp, fun h => by simp at h, List.Forall₂.nil⟩
        | some val =>
          simp only
          obtain ⟨added, hres, hlen, hall⟩ := ih (vars ++
            [{ (if vb.Variable.Typ = VariableType.AutoVar then
                  { Value := { vb.Value with FormDepth := fd },
                    Variable := { vb.Variable with Typ := val.t }, Path := vb.Path }
                else { vb with Value := { vb.Value with FormDepth := fd } } : VariableMapping)
               with Path := path }])
          refine ⟨_ :: added, by rw [hres, List.append_assoc]; rfl,
            fun h => by rw [List.length_cons, List.length_cons, hlen h], ?_⟩
          rw [List.length_cons, List.take_succ_cons]
          refine List.Forall₂.cons ?_ hall
          by_cases ha : vb.Variable.Typ = .AutoVar
          · rw [if_pos ha]
            refine ⟨rfl, rfl, rfl, rfl, fun h => absurd ha h, ?_, fun _ _ => ⟨val, hval, rfl⟩,
              fun _ _ h => absurd hk h⟩
            intro _ hc
            rw [hk] at hc
            cases hc
          · rw [if_neg ha]
            exact ⟨rfl, rfl, rfl, rfl, fun _ => rfl, fun h => absurd h ha,
              fun h => absurd h ha, fun h => absurd h ha⟩
    · rw [if_neg hk]
      simp only
      obtain ⟨added, hres, hlen, hall⟩ := ih (vars ++
        [{ (if vb.Variable.Typ = VariableType.AutoVar then
              (if vb.Value.Kind = BoundKind.BoundClass then
                { vb with Variable := { vb.Variable with Typ := .BoolVar } }
               else { vb with Variable := { vb.Variable with Typ := .StringVar } })
            else vb : VariableMapping)
           with Path := path }])
      refine ⟨_ :: added, by rw [hres, List.append_assoc]; rfl,
        fun h => by rw [List.length_cons, List.length_cons, hlen h], ?_⟩
      rw [List.length_cons, List.take_succ_cons]
      refine List.Forall₂.cons ?_ hall
      by_cases ha : vb.Variable.Typ = .AutoVar
      · by_cases hc : vb.Value.Kind = .BoundClass
        · rw [if_pos ha, if_pos hc]
          refine ⟨rfl, rfl, rfl, rfl, fun h => absurd ha h, fun _ _ => rfl, ?_,
            fun _ h => absurd hc h⟩
          intro _ h
          exact absurd h hk
        · rw [if_pos ha, if_neg hc]
          exact ⟨rfl, rfl, rfl, rfl, fun h => absurd ha h, fun _ h => absurd h hc,
            fun _ h => absurd h hk, fun _ _ _ => rfl⟩
      · rw [if_neg ha]
        exact ⟨rfl, rfl, rfl, rfl, fun _ => rfl, fun h => absurd h ha,
          fun h => absurd h ha, fun h => absurd h ha⟩

/-- If no variable stored so far and no entry of the form scope has the type
Auto, no variable has it after the loop of `processBindings`, whether the
loop ends with an error or not. -/
theorem processBindings_loop_no_auto (fd : Int) (cf : Option (StrMap formValue))
    (path : List Nat)
    (hcf : ∀ k val, mapGet cf k = some val → val.t ≠ .AutoVar) :
    ∀ (arr vars : List VariableMapping),
      (∀ v ∈ vars, v.Variable.Typ ≠ .AutoVar) →
      ∀ v ∈ (processBindings.loop fd cf path arr vars).1, v.Variable.Typ ≠ .AutoVar := by
  intro arr
  induction arr with
  | nil =>
    intro vars hv
    simpa [processBindings.loop] using hv
  | cons vb rest ih =>
    intro vars hv
    unfold processBindings.loop
    by_cases hk : vb.Value.Kind = .BoundFormValue
    · simp only [hk, if_true]
      by_cases hfd : fd = -1
      · simpa [hfd] using hv
      · simp only [hfd, if_false]
        cases hval : mapGet cf vb.Value.ID with
        | none => simpa using hv
        | some val =>
          simp only
          apply ih
          intro v hvm
          rcases List.mem_append.1 hvm with h | h
          · exact hv v h
          · rw [List.mem_singleton] at h
            subst h
            by_cases ha : vb.Variable.Typ = .AutoVar
            · simp only [ha, if_true]
              exact hcf _ _ hval
            · simp only [ha, if_false]
              exact ha
    · simp only [hk, if_false]
      apply ih
      intro v hvm
      rcases List.mem_append.1 hvm with h | h
      · exact hv v h
      · rw [List.mem_singleton] at h
        subst h
        by_cases ha : vb.Variable.Typ = .AutoVar
        · by_cases hc : vb.Value.Kind = .BoundClass
          · simp [ha, hc]
          · simp [ha, hc]
        · simp only [ha, if_false]
          exact ha

/-- Every form value that `discoverFormValues` stores has the type string or
int. -/
theorem discoveryWalker_types (l : List Node) (k : Nat) (d : formValueDiscovery)
    (hd : ∀ key v, d.values.lookup key = some v → v.t = .StringVar ∨ v.t = .IntVar) :
    ∀ key v, (discoveryWalker.walkChildren l k d).st.values.lookup key = some v →
      v.t = .StringVar ∨ v.t = .IntVar := by
  apply walkChildren_preserves discoveryWalker
    (fun d1 => ∀ key v, d1.values.lookup key = some v → v.t = .StringVar ∨ v.t = .IntVar)
  · intro t nm h n inner s hsl _ hs
    rcases discoveryWalker_slot t nm h hsl with hc | hc | hc
    · subst hc
      exact hs
    · subst hc
      exact hs
    · subst hc
      rcases formValueDiscovery_cases n with h1 | ⟨msg, h1⟩ | ⟨v1, _, hv1, _, h1⟩
      · rw [h1]
        exact hs
      · rw [h1]
        exact hs
      · rw [h1]
        split
        · split
          · exact hs
          · exact hs
        · intro key v hlk
          simp only at hlk
          rw [lookup_mapSet] at hlk
          by_cases hkey : key = attributes.Val n.Attr "name"
          · rw [if_pos hkey] at hlk
            cases hlk
            exact hv1
          · rw [if_neg hkey] at hlk
            exact hs key v hlk
  · intro k1 s hs
    exact hs
  · intro s hs
    exact hs
  · exact hd

/-- No form value of the map `discoverFormValues` returns has the type
Auto. -/
theorem discoverFormValues_types (form : Node) (key : String) (v : formValue)
    (h : mapGet (discoverFormValues form).1 key = some v) : v.t ≠ .AutoVar := by
  rw [discoverFormValues_eq] at h
  cases herr : (discoveryWalker.walkChildren form.Children 0 emptyDiscovery).err with
  | some m =>
    rw [herr] at h
    simp [mapGet] at h
  | none =>
    rw [herr] at h
    simp only [mapGet] at h
    have := discoveryWalker_types form.Children 0 emptyDiscovery
      (by intro key v hk; simp [emptyDiscovery] at hk) key v h
    rcases this with h1 | h1 <;> rw [h1] <;> decide

/-- The form scope `updateCurForm` leaves behind has no entry of type Auto
if the one before had none. -/
theorem updateCurForm_types (seh : stdElementHandler) (n : Node)
    (hs : ∀ key v, mapGet seh.curForm key = some v → v.t ≠ .AutoVar) :
    ∀ key v, mapGet (seh.updateCurForm n).1.curForm key = some v → v.t ≠ .AutoVar := by
  intro key v
  have hd := discoverFormValues_types n key v
  unfold stdElementHandler.updateCurForm
  simp only
  rcases hdv : discoverFormValues n with ⟨vals, err⟩
  rw [hdv] at hd
  simp only at hd
  by_cases h1 : (seh.indexList.length : Int) ≤ seh.curFormPos
  · simp only [h1, if_true]
    by_cases hf : n.DataAtom = .Form
    · simp only [hf, if_true]
      cases err with
      | none =>
        simp only [ne_eq, not_true_eq_false, if_false]
        exact hd
      | some m =>
        simp [mapGet]
    · simp [hf, mapGet]
  · simp only [h1, if_false]
    by_cases hf : n.DataAtom = .Form
    · simp only [hf, if_true]
      by_cases h2 : seh.curFormPos = -1
      · cases err with
        | none =>
          simp only [h2, ne_eq, not_true_eq_false, if_false]
          exact hd
        | some m =>
          simp only [h2, ne_eq, not_true_eq_false, if_false]
          exact hs key v
      · simp only [ne_eq, h2, not_false_eq_true, if_true]
        exact hs key v
    · simp only [hf, if_false]
      exact hs key v

/-- The form scope is the same after `handleControlBlocksAndAssignments`. -/
theorem handle_curForm (seh : stdElementHandler)
    (walkInner : stdElementHandler → WalkResult stdElementHandler) (n : Node)
    (attrs : General) :
    (seh.handleControlBlocksAndAssignments walkInner n attrs).st.curForm = seh.curForm := by
  unfold stdElementHandler.handleControlBlocksAndAssignments
  simp only
  repeat' split
  all_goals first
    | rfl
    | (rename_i x _ heq
       have := congrArg (fun r => r.1.curForm) heq
       simpa [stdElementHandler.processAssignments] using this.symm)

/-- During the walk of a component no stored variable and no entry of the
active form scope has the type Auto, if that is so at the start. -/
theorem walk_no_auto_type (P : Parsers) (kids : List Node) (k : Nat)
    (s : componentElementHandler)
    (hs : (∀ v ∈ s.c.Variables, v.Variable.Typ ≠ .AutoVar) ∧
      (∀ key val, mapGet s.curForm key = some val → val.t ≠ .AutoVar)) :
    (∀ v ∈ ((componentWalker P).walkChildren kids k s).st.c.Variables,
      v.Variable.Typ ≠ .AutoVar) ∧
    (∀ key val, mapGet ((componentWalker P).walkChildren kids k s).st.curForm key = some val →
      val.t ≠ .AutoVar) := by
  apply componentWalker_preserves P
    (fun s1 => (∀ v ∈ s1.c.Variables, v.Variable.Typ ≠ .AutoVar) ∧
      (∀ key val, mapGet s1.curForm key = some val → val.t ≠ .AutoVar))
  · intro l s1 h
    exact h
  · intro n s1 h
    have : (s1.lift (aTextProcessor.Process s1.tostdElementHandler n)).st.c = s1.c ∧
        (s1.lift (aTextProcessor.Process s1.tostdElementHandler n)).st.curForm
          = s1.curForm := by
      unfold componentElementHandler.lift aTextProcessor.Process
      simp only
      split_ifs <;> exact ⟨trivial, rfl⟩
    rw [this.1, this.2]
    exact h
  · intro n s1 h
    exact h
  · intro n inner s1 h
    have : (handlersProcessor.Process P n inner s1).st.curForm = s1.curForm := by
      unfold handlersProcessor.Process
      simp only
      repeat' split
      all_goals simp
    rw [(handlersProcessor_c_frame P n inner s1).2.2.2, this]
    exact h
  · intro n inner s1 h
    have : (controllerProcessor.Process P n inner s1).st.curForm = s1.curForm := by
      unfold controllerProcessor.Process
      simp only
      repeat' split
      all_goals simp
    rw [(controllerProcessor_c_frame P n inner s1).2.2.2, this]
    exact h
  · intro n inner s1 h
    have : (aDataProcessor.Process P n inner s1).st.curForm = s1.curForm := by
      unfold aDataProcessor.Process
      simp only
      repeat' split
      all_goals simp
    rw [(aDataProcessor_c_frame P n inner s1).2.2.2, this]
    exact h
  · intro n inner s1 h
    apply componentProcess_preserves P
      (fun s2 => (∀ v ∈ s2.c.Variables, v.Variable.Typ ≠ .AutoVar) ∧
        (∀ key val, mapGet s2.curForm key = some val → val.t ≠ .AutoVar))
    · intro ceh n2 h2
      exact ⟨h2.1, updateCurForm_types ceh.tostdElementHandler n2 h2.2⟩
    · intro ceh n2 attrs h2
      refine ⟨h2.1, ?_⟩
      simp only
      rw [handle_curForm]
      exact h2.2
    · intro ceh n2 v h2
      obtain ⟨_, _, _, hv, hstd⟩ := mapCaptures_c_frame ceh n2 v
      rw [hv, hstd]
      exact h2
    · intro ceh arr h2
      constructor
      · exact processBindings_loop_no_auto _ ceh.curForm ceh.indexList h2.2 arr
          ceh.c.Variables h2.1
      · exact h2.2
    · exact h
  · exact hs

/-- No variable of a component that `Processor.Process` builds has the type
Auto. -/
theorem process_no_auto_type (P : Parsers) (p : Processor) (n : Node) (cmp : Component)
    (h : (Processor.Process P p n).cmp = some cmp) :
    ∀ v ∈ cmp.Variables, v.Variable.Typ ≠ .AutoVar := by
  unfold Processor.Process at h
  split at h
  · simp at h
  · rename_i cmpAttrs hattrs
    split at h
    · simp at h
    · simp only [Option.some.injEq] at h
      subst h
      simp only
      exact (walk_no_auto_type P n.Children 0 _
        ⟨by simp [Processor.newComponent], by simp [mapGet]⟩).1

/-- C21.  Constructor-call restrictions.  When `EmbedProcessor.Process`
returns without error it has appended one embed; if the kind of that embed is
Direct or the embed has no explicit type its `ConstructorCalls` are empty, and
if its kind is Optional it has at most one call and none of kind For.  An
`<a:construct>` under a Direct or untyped embed, an `<a:construct a:for>`
under an optional embed, and a second `<a:construct>` under an optional embed
each make `EmbedProcessor.Process` fail. -/
theorem embed_constructor_call_restrictions (P : Parsers) (n : Node) (syms : Symbols)
    (indexList : List Nat) (attrs : EmbedAttrs) (hattrs : n.Ext.Embed = .ok attrs) :
    ((EmbedProcessor.Process P n syms indexList).err = none →
      ∃ e, (EmbedProcessor.Process P n syms indexList).st.CurHost.Embeds
          = syms.CurHost.Embeds ++ [e] ∧
        e.Field = attrs.Name ∧
        ((e.Kind = .DirectEmbed ∨ attrs.T = "") → e.ConstructorCalls = []) ∧
        (e.Kind = .OptionalEmbed →
          e.ConstructorCalls.length ≤ 1 ∧ ∀ c ∈ e.ConstructorCalls, c.Kind ≠ .NestedFor)) ∧
    (((attrs.List = false ∧ attrs.Optional = false) ∨ attrs.T = "") →
      (∃ c ∈ n.Children, c.isConstruct = true) →
      (EmbedProcessor.Process P n syms indexList).err ≠ none) ∧
    (attrs.Optional = true →
      (∃ c ∈ n.Children, c.isConstruct = true ∧
        ∃ g, c.Ext.General = .ok g ∧ g.For.isSome = true) →
      (EmbedProcessor.Process P n syms indexList).err ≠ none) ∧
    (attrs.Optional = true → 2 ≤ (n.Children.filter Node.isConstruct).length →
      (EmbedProcessor.Process P n syms indexList).err ≠ none) := by
  cases hres : resolveEmbed n syms indexList with
  | mk res syms2 =>
    cases res with
    | error msg =>
      have herr : (EmbedProcessor.Process P n syms indexList).err ≠ none := by
        unfold EmbedProcessor.Process
        rw [hres]
        simp
      exact ⟨fun h => absurd h herr, fun _ _ => herr, fun _ _ => herr, fun _ _ => herr⟩
    | ok r =>
      obtain ⟨e, t⟩ := r
      obtain ⟨hkind, _, hfield, _, hcalls, hT⟩ :=
        resolveEmbed_ok_spec n syms indexList attrs e t syms2 hattrs hres
      obtain ⟨added, hfor, hdirect, hacc, hlen, hmany, hfew⟩ :=
        embedProcess_spec P n syms indexList e t syms2 hres
      have hhost : syms2.CurHost = syms.CurHost := by
        rcases hT with ⟨_, _, hs⟩ | ⟨_, _, _, _, _, _, _, _, hs, _⟩
        · rw [hs]
        · exact hs
      have huntyped : attrs.T = "" → t = none := by
        intro h0
        rcases hT with ⟨_, ht, _⟩ | ⟨hne, _⟩
        · exact ht
        · exact absurd h0 hne
      have hopt : attrs.Optional = true → e.Kind = .OptionalEmbed := by
        intro hO
        have hex : ∃ r, (resolveEmbed n syms indexList).1 = .ok r := ⟨(e, t), by rw [hres]⟩
        have hnot := ((resolveEmbed_ok_iff n syms indexList attrs hattrs).1 hex).2.1
        cases hL : attrs.List
        · simp [hkind, hL, hO]
        · exact absurd ⟨hL, hO⟩ hnot
      refine ⟨?_, ?_, ?_, ?_⟩
      · intro hok
        have hfew2 : ¬ (e.Kind = .OptionalEmbed ∧ (e.ConstructorCalls ++ added).length > 1) := by
          intro h
          rw [(hmany h).1] at hok
          cases hok
        refine ⟨{ e with ConstructorCalls := e.ConstructorCalls ++ added }, ?_, hfield, ?_, ?_⟩
        · rw [(hfew hfew2).1, hhost]
        · intro hd
          have : added = [] := by
            apply hdirect
            rcases hd with hd | hd
            · exact Or.inl hd
            · exact Or.inr (huntyped hd)
          simp [this, hcalls]
        · intro hk
          have hk2 : e.Kind = .OptionalEmbed := hk
          refine ⟨?_, ?_⟩
          · exact Nat.le_of_not_lt (fun h => hfew2 ⟨hk2, h⟩)
          · intro c hc
            simp only [hcalls, List.nil_append] at hc
            exact hfor hk2 c hc
      · intro hd ⟨c, hc, hcon⟩ hok
        obtain ⟨inner, s1, hk1, ht1, hacc1⟩ := hacc c hc hcon hok
        have hbad : s1.e.Kind = .DirectEmbed ∨ s1.target = none := by
          rcases hd with ⟨hL, hO⟩ | h0
          · left
            rw [hk1, hkind]
            simp [hL, hO]
          · right
            exact ht1.2 (huntyped h0)
        exact (constructProcessor_no_target P c inner s1 hbad).1 hacc1
      · intro hO ⟨c, hc, hcon, g, hg, hgf⟩ hok
        obtain ⟨inner, s1, hk1, _, hacc1⟩ := hacc c hc hcon hok
        exact constructProcessor_for_in_optional P c inner s1 g (by rw [hk1]; exact hopt hO)
          hg hgf hacc1
      · intro hO htwo hok
        have hl := hlen hok
        have hmany2 : e.Kind = .OptionalEmbed ∧ (e.ConstructorCalls ++ added).length > 1 := by
          refine ⟨hopt hO, ?_⟩
          rw [hcalls, List.nil_append, hl]
          exact htwo
        rw [(hmany hmany2).1] at hok
        cases hok

/-- Witness of C21: with the component `U` of one parameter, the optional
embed with one `<a:construct a:if="b" args="1">` is accepted with that one
call; an `<a:construct>` under a direct embed, under a list embed without
type, an `<a:construct a:for>` under an optional embed and two
`<a:construct>` under an optional embed are rejected. -/
theorem embed_constructor_call_restrictions_witness :
    ((EmbedProcessor.Process argumentParsers
      (embedWith { Name := "x", T := "U", Optional := true }
        [constructElement "1" { If := some (ifBlock "b") }]) unarySymbols [2]).st.CurHost.Embeds.map
        (fun e => (e.Kind, e.ConstructorCalls.map (fun c => (c.Kind, c.Expression)))))
      = [(.OptionalEmbed, [(.NestedIf, "b")])] ∧
    (EmbedProcessor.Process argumentParsers
      (embedWith { Name := "x", T := "U", Args := { Count := 1, Raw := "1" } }
        [constructElement "1" {}]) unarySymbols [2]).err
      = some ": element requires list or optional embed as parent" ∧
    (EmbedProcessor.Process argumentParsers
      (embedWith { Name := "x", List := true } [constructElement "1" {}]) unarySymbols [2]).err
      = some ": element requires embed with explicit type as parent" ∧
    (EmbedProcessor.Process argumentParsers
      (embedWith { Name := "x", T := "U", Optional := true }
        [constructElement "1" { For := some forBlock }]) unarySymbols [2]).err
      = some ": a:for not allowed inside optional embed" ∧
    (EmbedProcessor.Process argumentParsers
      (embedWith { Name := "x", T := "U", Optional := true }
        [constructElement "1" {}, constructElement "1" {}]) unarySymbols [2]).err
      = some ": too many <a:construct> for optional embed" ∧
    (embedWith { Name := "x", T := "U", Optional := true }
        [constructElement "1" { If := some (ifBlock "b") }]).Ext.Embed
      = .ok { Name := "x", T := "U", Optional := true } ∧
    (((EmbedProcessor.Process argumentParsers
        (embedWith { Name := "x", T := "U", Optional := true }
          [constructElement "1" { If := some (ifBlock "b") }]) unarySymbols [2]).err = none →
      ∃ e, (EmbedProcessor.Process argumentParsers
          (embedWith { Name := "x", T := "U", Optional := true }
            [constructElement "1" { If := some (ifBlock "b") }]) unarySymbols
          [2]).st.CurHost.Embeds = unarySymbols.CurHost.Embeds ++ [e] ∧
        e.Field = ({ Name := "x", T := "U", Optional := true } : EmbedAttrs).Name ∧
        ((e.Kind = .DirectEmbed ∨ ({ Name := "x", T := "U", Optional := true } : EmbedAttrs).T = "") →
          e.ConstructorCalls = []) ∧
        (e.Kind = .OptionalEmbed →
          e.ConstructorCalls.length ≤ 1 ∧ ∀ c ∈ e.ConstructorCalls, c.Kind ≠ .NestedFor)) ∧
    (((({ Name := "x", T := "U", Optional := true } : EmbedAttrs).List = false ∧
        ({ Name := "x", T := "U", Optional := true } : EmbedAttrs).Optional = false) ∨
        ({ Name := "x", T := "U", Optional := true } : EmbedAttrs).T = "") →
      (∃ c ∈ (embedWith { Name := "x", T := "U", Optional := true }
          [constructElement "1" { If := some (ifBlock "b") }]).Children, c.isConstruct = true) →
      (EmbedProcessor.Process argumentParsers
        (embedWith { Name := "x", T := "U", Optional := true }
          [constructElement "1" { If := some (ifBlock "b") }]) unarySymbols [2]).err ≠ none) ∧
    (({ Name := "x", T := "U", Optional := true } : EmbedAttrs).Optional = true →
      (∃ c ∈ (embedWith { Name := "x", T := "U", Optional := true }
          [constructElement "1" { If := some (ifBlock "b") }]).Children, c.isConstruct = true ∧
        ∃ g, c.Ext.General = .ok g ∧ g.For.isSome = true) →
      (EmbedProcessor.Process argumentParsers
        (embedWith { Name := "x", T := "U", Optional := true }
          [constructElement "1" { If := some (ifBlock "b") }]) unarySymbols [2]).err ≠ none) ∧
    (({ Name := "x", T := "U", Optional := true } : EmbedAttrs).Optional = true →
      2 ≤ ((embedWith { Name := "x", T := "U", Optional := true }
          [constructElement "1" { If := some (ifBlock "b") }]).Children.filter
            Node.isConstruct).length →
      (EmbedProcessor.Process argumentParsers
        (embedWith { Name := "x", T := "U", Optional := true }
          [constructElement "1" { If := some (ifBlock "b") }]) unarySymbols [2]).err ≠ none)) :=
  ⟨rfl, rfl, rfl, rfl, rfl, rfl,
   embed_constructor_call_restrictions argumentParsers
     (embedWith { Name := "x", T := "U", Optional := true }
       [constructElement "1" { If := some (ifBlock "b") }]) unarySymbols [2]
     { Name := "x", T := "U", Optional := true } rfl⟩

/-- C22.  An `<a:construct>` that `constructProcessor.Process` accepts
appends exactly one call at the end of the `ConstructorCalls` of the embed and
changes nothing else.  The argument count of the call equals the number of
parameters of the target of the embed.  Its kind is If with the expression of
`a:if` when `a:if` is present, For with index, variable and expression of
`a:for` when `a:for` is present, and Direct otherwise; both attributes
present are not accepted.  An `<a:construct>` whose argument count differs
from the number of parameters of the target is rejected. -/
theorem construct_appends_one_call (P : Parsers) (n : Node)
    (inner : constructProcessor → WalkResult constructProcessor) (cp : constructProcessor)
    (hok : (constructProcessor.Process P n inner cp).err = none) :
    (∃ target attrs args call, cp.target = some target ∧ n.Ext.General = .ok attrs ∧
      P.AnalyseArguments (attributes.Val n.Attr "args") = .ok args ∧
      (constructProcessor.Process P n inner cp).st
        = { cp with e := { cp.e with ConstructorCalls := cp.e.ConstructorCalls ++ [call] } } ∧
      call.Args = args ∧ call.Args.Count = target.Parameters.length ∧
      ¬ (attrs.For.isSome = true ∧ attrs.If.isSome = true) ∧
      (∀ i, attrs.If = some i → call.Kind = .NestedIf ∧ call.Expression = i.Expression) ∧
      (∀ f, attrs.If = none → attrs.For = some f →
        call.Kind = .NestedFor ∧ call.Index = f.Index ∧ call.Variable = f.Variable ∧
        call.Expression = f.Expression) ∧
      (attrs.If = none → attrs.For = none → call.Kind = .NestedDirect)) ∧
    (∀ (m : Node) (inner2 : constructProcessor → WalkResult constructProcessor)
      (cp2 : constructProcessor) (target : Target) (args : Arguments),
      cp2.target = some target →
      P.AnalyseArguments (attributes.Val m.Attr "args") = .ok args →
      args.Count ≠ target.Parameters.length →
      (constructProcessor.Process P m inner2 cp2).err ≠ none) := by
  constructor
  · obtain ⟨_, target, attrs, args, call, ht, hg, h4, ha, hc, hst, hargs, hif, hfor, hdir⟩ :=
      constructProcessor_ok_spec P n inner cp hok
    refine ⟨target, attrs, args, call, ht, hg, ha, hst, hargs, by rw [hargs]; exact hc, h4, hif,
      ?_, hdir⟩
    intro f h1 h2
    obtain ⟨a, b, c, d, _⟩ := hfor f h1 h2
    exact ⟨a, b, c, d⟩
  · intro m inner2 cp2 target args ht ha hne
    exact constructProcessor_arity P m inner2 cp2 target args ht ha hne

/-- Witness of C22: under `<a:embed name="items" type="U" list>`, `U` having
one parameter, `<a:construct a:for="i, v := range items" args="1">` appends
the call For(i, v, items) with one argument; the three constructs of the
second embed yield the calls Direct, For, If in document order; a construct
with two arguments is rejected. -/
theorem construct_appends_one_call_witness :
    ((EmbedProcessor.Process argumentParsers
      (embedWith { Name := "items", T := "U", List := true }
        [constructElement "1" {}, constructElement "1" { For := some forBlock },
         constructElement "1" { If := some (ifBlock "b") }]) unarySymbols
      [2]).st.CurHost.Embeds.map
        (fun e => e.ConstructorCalls.map (fun c => (c.Kind, c.Args.Count, c.Expression))))
      = [[(.NestedDirect, 1, ""), (.NestedFor, 1, "items"), (.NestedIf, 1, "b")]] ∧
    (constructProcessor.Process argumentParsers (constructElement "1, 2" {}) noConstructWalk
      underListOfU).err = some ": target component requires 1 arguments, but 2 were given" ∧
    (constructProcessor.Process argumentParsers (constructElement "1" { For := some forBlock })
      noConstructWalk underListOfU).st.e.ConstructorCalls
      = [{ Args := { Count := 1, Raw := "1" }, Kind := .NestedFor, Index := "i",
           Variable := "v", Expression := "items" }] ∧
    (constructProcessor.Process argumentParsers (constructElement "1" { For := some forBlock })
      noConstructWalk underListOfU).err = none ∧
    ((∃ target attrs args call, underListOfU.target = some target ∧
      (constructElement "1" { For := some forBlock }).Ext.General = .ok attrs ∧
      argumentParsers.AnalyseArguments
        (attributes.Val (constructElement "1" { For := some forBlock }).Attr "args") = .ok args ∧
      (constructProcessor.Process argumentParsers (constructElement "1" { For := some forBlock })
        noConstructWalk underListOfU).st
        = { underListOfU with e := { underListOfU.e with
              ConstructorCalls := underListOfU.e.ConstructorCalls ++ [call] } } ∧
      call.Args = args ∧ call.Args.Count = target.Parameters.length ∧
      ¬ (attrs.For.isSome = true ∧ attrs.If.isSome = true) ∧
      (∀ i, attrs.If = some i → call.Kind = .NestedIf ∧ call.Expression = i.Expression) ∧
      (∀ f, attrs.If = none → attrs.For = some f →
        call.Kind = .NestedFor ∧ call.Index = f.Index ∧ call.Variable = f.Variable ∧
        call.Expression = f.Expression) ∧
      (attrs.If = none → attrs.For = none → call.Kind = .NestedDirect)) ∧
    (∀ (m : Node) (inner2 : constructProcessor → WalkResult constructProcessor)
      (cp2 : constructProcessor) (target : Target) (args : Arguments),
      cp2.target = some target →
      argumentParsers.AnalyseArguments (attributes.Val m.Attr "args") = .ok args →
      args.Count ≠ target.Parameters.length →
      (constructProcessor.Process argumentParsers m inner2 cp2).err ≠ none)) :=
  ⟨rfl, rfl, rfl, rfl,
   construct_appends_one_call argumentParsers (constructElement "1" { For := some forBlock })
     noConstructWalk underListOfU rfl⟩

/-- C24 (amended).  `Processor.Process` does not compare the name of a
component with the components already registered.  For an `<a:component>`
with a non-empty name the error it returns is that of the walk of the
children, and the component it built is registered under its name in
`Components` of the current file: an earlier registration of that name is
replaced, the registrations of other names stay. -/
theorem process_registers_component (P : Parsers) (p : Processor) (n : Node)
    (cmpAttrs : ComponentAttrs) (hattrs : n.Ext.Component = .ok cmpAttrs)
    (hname : cmpAttrs.Name.length ≠ 0) :
    (Processor.Process P p n).err = (p.walk P cmpAttrs n).err ∧
    ∃ cmp, (Processor.Process P p n).cmp = some cmp ∧ cmp.Name = cmpAttrs.Name ∧
      (Processor.Process P p n).p.syms.Components
        = some (mapSet (p.syms.Components.getD []) cmpAttrs.Name cmp) ∧
      mapGet (Processor.Process P p n).p.syms.Components cmpAttrs.Name = some cmp ∧
      (∀ k, k ≠ cmpAttrs.Name →
        mapGet (Processor.Process P p n).p.syms.Components k = mapGet p.syms.Components k) := by
  obtain ⟨_, _, herr, hcmp, _, hcomp, _⟩ := process_ok_eq P p n cmpAttrs hattrs hname
  have hsyms : (p.walk P cmpAttrs n).st.syms.Components = p.syms.Components :=
    componentWalker_syms P (fun y => y.Components = p.syms.Components)
      (fun m syms l h => ((embedProcess_frame P m syms l).1).trans h)
      n.Children 0 _ rfl
  have hnm : (p.built P cmpAttrs n).Name = cmpAttrs.Name :=
    (walk_keeps_identity P n.Children 0 _).2.1
  rw [hsyms] at hcomp
  refine ⟨herr, p.built P cmpAttrs n, hcmp, hnm, hcomp, ?_, ?_⟩
  · rw [hcomp]
    simp [mapGet, lookup_mapSet]
  · intro k hk
    rw [hcomp]
    cases hc : p.syms.Components <;> simp [mapGet, lookup_mapSet, hk]

/-- Witness of C24: with `C` registered, processing another `<a:component
name="C">` returns no error and registers the new component under `C`. -/
theorem process_registers_component_witness :
    (componentElement "C" []).Ext.Component = .ok { Name := "C" } ∧
    ({ Name := "C" } : ComponentAttrs).Name.length ≠ 0 ∧
    ((Processor.Process exampleParsers processorWithC (componentElement "C" [])).err
      = (processorWithC.walk exampleParsers { Name := "C" } (componentElement "C" [])).err ∧
    ∃ cmp, (Processor.Process exampleParsers processorWithC (componentElement "C" [])).cmp
        = some cmp ∧ cmp.Name = ({ Name := "C" } : ComponentAttrs).Name ∧
      (Processor.Process exampleParsers processorWithC
          (componentElement "C" [])).p.syms.Components
        = some (mapSet (processorWithC.syms.Components.getD [])
            ({ Name := "C" } : ComponentAttrs).Name cmp) ∧
      mapGet (Processor.Process exampleParsers processorWithC
          (componentElement "C" [])).p.syms.Components
        ({ Name := "C" } : ComponentAttrs).Name = some cmp ∧
      (∀ k, k ≠ ({ Name := "C" } : ComponentAttrs).Name →
        mapGet (Processor.Process exampleParsers processorWithC
            (componentElement "C" [])).p.syms.Components k
          = mapGet processorWithC.syms.Components k)) :=
  ⟨rfl, by decide,
   process_registers_component exampleParsers processorWithC (componentElement "C" [])
     { Name := "C" } rfl (by decide)⟩

/-- Counterexample to C24 as stated: with the component `C` (init block
`first`) registered in the current file, processing a second
`<a:component name="C">` returns no error, and afterwards `Components` holds
one entry for `C`, the new component with its empty init block: the earlier
registration is gone. -/
theorem duplicate_component_name_is_accepted :
    mapGet processorWithC.syms.Components "C" = some earlierC ∧
    (Processor.Process exampleParsers processorWithC (componentElement "C" [])).err = none ∧
    ((Processor.Process exampleParsers processorWithC
        (componentElement "C" [])).p.syms.Components.map
      (fun m => m.map (fun e => (e.1, e.2.Init)))) = some [("C", "")] ∧
    earlierC.Init = "first" :=
  ⟨rfl, rfl, rfl, rfl⟩

/-- C25 (amended).  `EmbedProcessor.Process` does not compare the name of an
`<a:embed>` with the embeds the current host holds: its error is the same
whatever embeds the host holds, and when it returns without error it has
appended the embed, with the name as `Field`, to those of the host. -/
theorem embed_is_appended_to_host (P : Parsers) (n : Node) (syms : Symbols)
    (indexList : List Nat) (attrs : EmbedAttrs) (hattrs : n.Ext.Embed = .ok attrs) :
    (∀ host : EmbedHost,
      (EmbedProcessor.Process P n { syms with CurHost := host } indexList).err
        = (EmbedProcessor.Process P n syms indexList).err) ∧
    ((EmbedProcessor.Process P n syms indexList).err = none →
      ∃ e, (EmbedProcessor.Process P n syms indexList).st.CurHost.Embeds
          = syms.CurHost.Embeds ++ [e] ∧
        e.Field = attrs.Name) := by
  refine ⟨fun host => embedProcess_host P n syms indexList host, ?_⟩
  intro hok
  obtain ⟨e, _, _, added, _, h1, h2⟩ := embedProcess_ok P n syms indexList attrs hattrs hok
  exact ⟨_, h1, h2⟩

/-- Witness of C25: on a host that holds an embed `a` already,
`<a:embed name="a" type="T">` is accepted and appended. -/
theorem embed_is_appended_to_host_witness :
    (embedElement "a" "T").Ext.Embed = .ok { Name := "a", T := "T" } ∧
    ((∀ host : EmbedHost,
      (EmbedProcessor.Process exampleParsers (embedElement "a" "T")
          { symbolsWithEmbedA with CurHost := host } [1]).err
        = (EmbedProcessor.Process exampleParsers (embedElement "a" "T")
            symbolsWithEmbedA [1]).err) ∧
    ((EmbedProcessor.Process exampleParsers (embedElement "a" "T") symbolsWithEmbedA [1]).err
        = none →
      ∃ e, (EmbedProcessor.Process exampleParsers (embedElement "a" "T") symbolsWithEmbedA
          [1]).st.CurHost.Embeds = symbolsWithEmbedA.CurHost.Embeds ++ [e] ∧
        e.Field = ({ Name := "a", T := "T" } : EmbedAttrs).Name)) :=
  ⟨rfl,
   embed_is_appended_to_host exampleParsers (embedElement "a" "T") symbolsWithEmbedA [1]
     { Name := "a", T := "T" } rfl⟩

/-- Counterexample to C25 as stated: on a host that holds an embed with the
field `a`, `<a:embed name="a" type="T">` is processed without error and the
host then holds two embeds with the field `a`; the component with two such
embeds is analysed without error and has the embeds `a` (path `[1]`) and `a`
(path `[0]`). -/
theorem duplicate_embed_field_is_accepted :
    (EmbedProcessor.Process exampleParsers (embedElement "a" "T") symbolsWithEmbedA [1]).err
      = none ∧
    ((EmbedProcessor.Process exampleParsers (embedElement "a" "T") symbolsWithEmbedA
      [1]).st.CurHost.Embeds.map (fun e => e.Field)) = ["a", "a"] ∧
    (Processor.Process exampleParsers exampleProcessor sameNameEmbeds).err = none ∧
    ((Processor.Process exampleParsers exampleProcessor sameNameEmbeds).cmp.map
      (fun c => c.Embeds.map (fun e => (e.Field, e.Path)))) = some [("a", [1]), ("a", [0])] :=
  ⟨rfl, rfl, rfl, rfl⟩

/-- C27.  Form-input classification.  For an element with a non-empty name
that is not yet in the map, `formValueDiscovery.Process` does what the table
says: `<input type=radio>` gets the entry (string, radio);
`<input type=number|range>` gets the entry (int, not radio) if none of `min`,
`max`, `step` contains a dot and is an error otherwise; `<input type=text>`
and `<input>` without type get the entry (string, not radio);
`<input type=submit|reset|hidden>` gets no entry and is no error; any other
`<input>` type is an error; `<select>` and `<textarea>` get the entry
(string, not radio); any other element gets no entry and is no error.  In
every case the element is not descended into and not replaced. -/
theorem form_input_classification (n : Node)
    (inner : formValueDiscovery → WalkResult formValueDiscovery) (d : formValueDiscovery)
    (hname : attributes.Val n.Attr "name" ≠ "")
    (hfresh : d.values.lookup (attributes.Val n.Attr "name") = none) :
    (n.DataAtom = .Input → attributes.Val n.Attr "type" = "radio" →
      formValueDiscovery.Process n inner d
        = { node := n, st := { values := d.values ++
              [(attributes.Val n.Attr "name", { t := .StringVar, radio := true })] } }) ∧
    (n.DataAtom = .Input →
      (attributes.Val n.Attr "type" = "number" ∨ attributes.Val n.Attr "type" = "range") →
      ((attributes.Val n.Attr "min").contains '.' = false ∧
       (attributes.Val n.Attr "max").contains '.' = false ∧
       (attributes.Val n.Attr "step").contains '.' = false →
        formValueDiscovery.Process n inner d
          = { node := n, st := { values := d.values ++
                [(attributes.Val n.Attr "name", { t := .IntVar, radio := false })] } }) ∧
      (((attributes.Val n.Attr "min").contains '.' = true ∨
        (attributes.Val n.Attr "max").contains '.' = true ∨
        (attributes.Val n.Attr "step").contains '.' = true) →
        formValueDiscovery.Process n inner d
          = { err := some (": non-integer " ++ attributes.Val n.Attr "type"
                ++ " inputs not supported"), node := n, st := d })) ∧
    (n.DataAtom = .Input →
      (attributes.Val n.Attr "type" = "text" ∨ attributes.Val n.Attr "type" = "") →
      formValueDiscovery.Process n inner d
        = { node := n, st := { values := d.values ++
              [(attributes.Val n.Attr "name", { t := .StringVar, radio := false })] } }) ∧
    (n.DataAtom = .Input →
      (attributes.Val n.Attr "type" = "submit" ∨ attributes.Val n.Attr "type" = "reset" ∨
        attributes.Val n.Attr "type" = "hidden") →
      formValueDiscovery.Process n inner d = { node := n, st := d }) ∧
    (n.DataAtom = .Input →
      attributes.Val n.Attr "type" ∉
        ["radio", "number", "range", "text", "", "submit", "reset", "hidden"] →
      formValueDiscovery.Process n inner d
        = { err := some (": unsupported input type: `" ++ attributes.Val n.Attr "type" ++ "`"),
            node := n, st := d }) ∧
    ((n.DataAtom = .Select ∨ n.DataAtom = .Textarea) →
      formValueDiscovery.Process n inner d
        = { node := n, st := { values := d.values ++
              [(attributes.Val n.Attr "name", { t := .StringVar, radio := false })] } }) ∧
    (n.DataAtom ≠ .Input → n.DataAtom ≠ .Select → n.DataAtom ≠ .Textarea →
      formValueDiscovery.Process n inner d = { node := n, st := d }) ∧
    (formValueDiscovery.Process n inner d).descend = false ∧
    (formValueDiscovery.Process n inner d).replacement = none := by
  have hset : ∀ v : formValue, mapSet d.values (attributes.Val n.Attr "name") v
      = d.values ++ [(attributes.Val n.Attr "name", v)] := by
    intro v
    simp [mapSet, hfresh]
  refine ⟨?_, ?_, ?_, ?_, ?_, ?_, ?_, ?_, ?_⟩
  · intro ha ht
    simp [formValueDiscovery.Process, hname, ha, ht, hfresh, hset]
  · intro ha ht
    constructor
    · rintro ⟨h1, h2, h3⟩
      rcases ht with ht | ht <;>
        simp [formValueDiscovery.Process, hname, ha, ht, hfresh, hset, h1, h2, h3]
    · intro h
      rcases ht with ht | ht <;>
        simp [formValueDiscovery.Process, hname, ha, ht, h]
  · intro ha ht
    rcases ht with ht | ht <;>
      simp [formValueDiscovery.Process, hname, ha, ht, hfresh, hset]
  · intro ha ht
    rcases ht with ht | ht | ht <;>
      simp [formValueDiscovery.Process, hname, ha, ht]
  · intro ha ht
    simp only [List.mem_cons, List.mem_singleton, List.mem_nil_iff, or_false, not_or] at ht
    obtain ⟨h1, h2, h3, h4, h5, h6, h7, h8⟩ := ht
    simp [formValueDiscovery.Process, hname, ha, h1, h2, h3, h4, h5, h6, h7, h8]
  · intro ha
    rcases ha with ha | ha <;>
      simp [formValueDiscovery.Process, hname, ha, hfresh, hset]
  · intro h1 h2 h3
    cases ha : n.DataAtom <;> simp_all [formValueDiscovery.Process]
  · rcases formValueDiscovery_cases n with h | ⟨msg, h⟩ | ⟨v, _, _, _, h⟩
    · rw [h]
    · rw [h]
    · rw [h]
      split
      · split <;> rfl
      · rfl
  · rcases formValueDiscovery_cases n with h | ⟨msg, h⟩ | ⟨v, _, _, _, h⟩
    · rw [h]
    · rw [h]
    · rw [h]
      split
      · split <;> rfl
      · rfl

/-- Witness of C27: the rows of the table on `<input name="q">` with the
types `radio`, `number` (with and without `min="0.5"`), `text`, none,
`submit` and `color`, on `<select name="q">`, `<textarea name="q">` and
`<div name="q">`, each offered to an empty map. -/
theorem form_input_classification_witness :
    ((formValueDiscovery.Process radioQ noDiscoveryWalk emptyDiscovery).st.values
      = [("q", { t := .StringVar, radio := true })]) ∧
    ((formValueDiscovery.Process (inputElement "q" "number" []) noDiscoveryWalk
      emptyDiscovery).st.values = [("q", { t := .IntVar, radio := false })]) ∧
    ((formValueDiscovery.Process (inputElement "q" "number" [{ Key := "min", Val := "0.5" }])
      noDiscoveryWalk emptyDiscovery).err = some ": non-integer number inputs not supported") ∧
    ((formValueDiscovery.Process (inputElement "q" "text" []) noDiscoveryWalk
      emptyDiscovery).st.values = [("q", { t := .StringVar, radio := false })]) ∧
    ((formValueDiscovery.Process (namedElement "input" .Input "q" []) noDiscoveryWalk
      emptyDiscovery).st.values = [("q", { t := .StringVar, radio := false })]) ∧
    ((formValueDiscovery.Process (inputElement "q" "submit" []) noDiscoveryWalk
      emptyDiscovery).st.values = [] ∧
     (formValueDiscovery.Process (inputElement "q" "submit" []) noDiscoveryWalk
      emptyDiscovery).err = none) ∧
    ((formValueDiscovery.Process (inputElement "q" "color" []) noDiscoveryWalk
      emptyDiscovery).err = some ": unsupported input type: `color`") ∧
    ((formValueDiscovery.Process (namedElement "select" .Select "q" []) noDiscoveryWalk
      emptyDiscovery).st.values = [("q", { t := .StringVar, radio := false })]) ∧
    ((formValueDiscovery.Process (namedElement "textarea" .Textarea "q" []) noDiscoveryWalk
      emptyDiscovery).st.values = [("q", { t := .StringVar, radio := false })]) ∧
    ((formValueDiscovery.Process (namedElement "div" .Other "q" []) noDiscoveryWalk
      emptyDiscovery).st.values = [] ∧
     (formValueDiscovery.Process (namedElement "div" .Other "q" []) noDiscoveryWalk
      emptyDiscovery).err = none) ∧
    attributes.Val radioQ.Attr "name" ≠ "" ∧
    emptyDiscovery.values.lookup (attributes.Val radioQ.Attr "name") = none ∧
    ((radioQ.DataAtom = .Input → attributes.Val radioQ.Attr "type" = "radio" →
      formValueDiscovery.Process radioQ noDiscoveryWalk emptyDiscovery
        = { node := radioQ, st := { values := emptyDiscovery.values ++
              [(attributes.Val radioQ.Attr "name", { t := .StringVar, radio := true })] } }) ∧
    (radioQ.DataAtom = .Input →
      (attributes.Val radioQ.Attr "type" = "number" ∨ attributes.Val radioQ.Attr "type" = "range") →
      ((attributes.Val radioQ.Attr "min").contains '.' = false ∧
       (attributes.Val radioQ.Attr "max").contains '.' = false ∧
       (attributes.Val radioQ.Attr "step").contains '.' = false →
        formValueDiscovery.Process radioQ noDiscoveryWalk emptyDiscovery
          = { node := radioQ, st := { values := emptyDiscovery.values ++
                [(attributes.Val radioQ.Attr "name", { t := .IntVar, radio := false })] } }) ∧
      (((attributes.Val radioQ.Attr "min").contains '.' = true ∨
        (attributes.Val radioQ.Attr "max").contains '.' = true ∨
        (attributes.Val radioQ.Attr "step").contains '.' = true) →
        formValueDiscovery.Process radioQ noDiscoveryWalk emptyDiscovery
          = { err := some (": non-integer " ++ attributes.Val radioQ.Attr "type"
                ++ " inputs not supported"), node := radioQ, st := emptyDiscovery })) ∧
    (radioQ.DataAtom = .Input →
      (attributes.Val radioQ.Attr "type" = "text" ∨ attributes.Val radioQ.Attr "type" = "") →
      formValueDiscovery.Process radioQ noDiscoveryWalk emptyDiscovery
        = { node := radioQ, st := { values := emptyDiscovery.values ++
              [(attributes.Val radioQ.Attr "name", { t := .StringVar, radio := false })] } }) ∧
    (radioQ.DataAtom = .Input →
      (attributes.Val radioQ.Attr "type" = "submit" ∨ attributes.Val radioQ.Attr "type" = "reset" ∨
        attributes.Val radioQ.Attr "type" = "hidden") →
      formValueDiscovery.Process radioQ noDiscoveryWalk emptyDiscovery = { node := radioQ, st := emptyDiscovery }) ∧
    (radioQ.DataAtom = .Input →
      attributes.Val radioQ.Attr "type" ∉
        ["radio", "number", "range", "text", "", "submit", "reset", "hidden"] →
      formValueDiscovery.Process radioQ noDiscoveryWalk emptyDiscovery
        = { err := some (": unsupported input type: `" ++ attributes.Val radioQ.Attr "type" ++ "`"),
            node := radioQ, st := emptyDiscovery }) ∧
    ((radioQ.DataAtom = .Select ∨ radioQ.DataAtom = .Textarea) →
      formValueDiscovery.Process radioQ noDiscoveryWalk emptyDiscovery
        = { node := radioQ, st := { values := emptyDiscovery.values ++
              [(attributes.Val radioQ.Attr "name", { t := .StringVar, radio := false })] } }) ∧
    (radioQ.DataAtom ≠ .Input → radioQ.DataAtom ≠ .Select → radioQ.DataAtom ≠ .Textarea →
      formValueDiscovery.Process radioQ noDiscoveryWalk emptyDiscovery = { node := radioQ, st := emptyDiscovery }) ∧
    (formValueDiscovery.Process radioQ noDiscoveryWalk emptyDiscovery).descend = false ∧
    (formValueDiscovery.Process radioQ noDiscoveryWalk emptyDiscovery).replacement = none) :=
  ⟨by decide,
   by simp [formValueDiscovery.Process, inputElement, plainElement, attributes.Val, Node.Attr,
     Node.DataAtom, String.contains, String.any_eq, emptyDiscovery, mapSet],
   by simp [formValueDiscovery.Process, inputElement, plainElement, attributes.Val, Node.Attr,
     Node.DataAtom, String.contains, String.any_eq, emptyDiscovery],
   by decide, by decide, ⟨by decide, by decide⟩, by decide, by decide, by decide,
   ⟨by decide, by decide⟩, by decide, rfl,
   form_input_classification radioQ noDiscoveryWalk emptyDiscovery (by decide) rfl⟩

/-- C28.  Duplicate form-input names.  For every sequence of named, supported
form inputs (elements for which `formValueDiscovery.Process` has an entry)
offered one after the other to one `formValueDiscovery` that starts empty:
discovery succeeds iff any two inputs of the sequence with the same name are
both radio inputs; on success the names of the map are pairwise distinct and
are exactly the names of the inputs, each input finds its own entry under
its name, and the entry of a radio input is (string, radio); a failure is the
error "duplicate name" for the name of one of the inputs. -/
theorem discovery_duplicate_names (l : List Node)
    (h : ∀ c ∈ l, c.formEntry.isSome = true) :
    ((formValueDiscovery.offerAll l emptyDiscovery).2 = none ↔
      l.Pairwise (fun a b => attributes.Val a.Attr "name" = attributes.Val b.Attr "name" →
        a.isRadioInput ∧ b.isRadioInput)) ∧
    ((formValueDiscovery.offerAll l emptyDiscovery).2 = none →
      ((formValueDiscovery.offerAll l emptyDiscovery).1.values.map Prod.fst).Nodup ∧
      (∀ k, k ∈ (formValueDiscovery.offerAll l emptyDiscovery).1.values.map Prod.fst ↔
        ∃ c ∈ l, attributes.Val c.Attr "name" = k) ∧
      (∀ c ∈ l, (formValueDiscovery.offerAll l emptyDiscovery).1.values.lookup
          (attributes.Val c.Attr "name") = c.formEntry.map Prod.snd) ∧
      (∀ c ∈ l, c.isRadioInput →
        (formValueDiscovery.offerAll l emptyDiscovery).1.values.lookup
          (attributes.Val c.Attr "name") = some { t := .StringVar, radio := true })) ∧
    (∀ msg, (formValueDiscovery.offerAll l emptyDiscovery).2 = some msg →
      ∃ c ∈ l, msg = ": duplicate name `" ++ attributes.Val c.Attr "name"
        ++ "` in same form") := by
  have hwf : emptyDiscovery.wellFormed := by
    constructor
    · simp [emptyDiscovery]
    · intro k v hk
      simp [emptyDiscovery] at hk
  obtain ⟨hiff, hok⟩ := offerAll_spec l emptyDiscovery h hwf
  have hentry : ∀ c ∈ l, ∃ v, c.formEntry = some (attributes.Val c.Attr "name", v) ∧
      (v.radio = true ↔ c.isRadioInput) ∧ (v.radio = true → v.t = .StringVar) := by
    intro c hc
    obtain ⟨⟨name, v⟩, he⟩ := Option.isSome_iff_exists.mp (h c hc)
    obtain ⟨hn, hr⟩ := formEntry_radio c name v he
    obtain ⟨_, hs, _⟩ := formEntry_step c name v he
    subst hn
    exact ⟨v, he, hr, hs⟩
  refine ⟨?_, ?_, ?_⟩
  · rw [hiff]
    constructor
    · rintro ⟨hp, _⟩
      rw [List.pairwise_filterMap] at hp
      refine hp.imp_of_mem ?_
      intro a b ha hb hab hnames
      obtain ⟨va, hea, hra, _⟩ := hentry a ha
      obtain ⟨vb, heb, hrb, _⟩ := hentry b hb
      have := hab _ hea _ heb hnames
      exact ⟨hra.mp this.1, hrb.mp this.2⟩
    · intro hp
      constructor
      · rw [List.pairwise_filterMap]
        refine hp.imp_of_mem ?_
        intro a b ha hb hab ea hea eb heb hnames
        obtain ⟨va, hea2, hra, _⟩ := hentry a ha
        obtain ⟨vb, heb2, hrb, _⟩ := hentry b hb
        rw [hea2] at hea
        rw [heb2] at heb
        cases hea
        cases heb
        have := hab hnames
        exact ⟨hra.mpr this.1, hrb.mpr this.2⟩
      · intro e _ ex hex
        simp [emptyDiscovery] at hex
  · intro hnone
    obtain ⟨hw, hkeys, _, hfind⟩ := hok hnone
    refine ⟨hw.1, ?_, ?_, ?_⟩
    · intro k
      rw [hkeys k]
      constructor
      · intro hk
        rcases hk with hk | hk
        · simp [emptyDiscovery] at hk
        · obtain ⟨e, he, hek⟩ := List.mem_map.mp hk
          obtain ⟨c, hc, hce⟩ := List.mem_filterMap.mp he
          obtain ⟨v, hev, _⟩ := hentry c hc
          rw [hev] at hce
          cases hce
          exact ⟨c, hc, hek⟩
      · rintro ⟨c, hc, hk⟩
        right
        obtain ⟨v, hev, _⟩ := hentry c hc
        exact List.mem_map.mpr ⟨_, List.mem_filterMap.mpr ⟨c, hc, hev⟩, hk⟩
    · intro c hc
      obtain ⟨v, hev, _⟩ := hentry c hc
      rw [hev]
      exact hfind _ (List.mem_filterMap.mpr ⟨c, hc, hev⟩)
    · intro c hc hr
      obtain ⟨v, hev, hrv, hs⟩ := hentry c hc
      have h1 := hfind _ (List.mem_filterMap.mpr ⟨c, hc, hev⟩)
      have h2 : v.radio = true := hrv.mpr hr
      have h3 : v = { t := .StringVar, radio := true } := by
        obtain ⟨t, r⟩ := v
        simp only at h2
        have := hs h2
        simp only at this
        subst h2
        subst this
        rfl
      rw [← h3]
      exact h1
  · intro msg hmsg
    exact offerAll_error l emptyDiscovery msg h hmsg

/-- Witness of C28: the inputs radio `q`, text `t`, radio `q` are accepted
and give the two entries `q` (string, radio) and `t` (string, not radio);
radio `q` followed by text `q` is rejected as a duplicate name. -/
theorem discovery_duplicate_names_witness :
    (∀ c ∈ radioGroupInputs, c.formEntry.isSome = true) ∧
    (formValueDiscovery.offerAll radioGroupInputs emptyDiscovery)
      = ({ values := [("q", { t := .StringVar, radio := true }),
                      ("t", { t := .StringVar, radio := false })] }, none) ∧
    (formValueDiscovery.offerAll clashingInputs emptyDiscovery).2
      = some ": duplicate name `q` in same form" ∧
    (((formValueDiscovery.offerAll radioGroupInputs emptyDiscovery).2 = none ↔
      radioGroupInputs.Pairwise
        (fun a b => attributes.Val a.Attr "name" = attributes.Val b.Attr "name" →
          a.isRadioInput ∧ b.isRadioInput)) ∧
    ((formValueDiscovery.offerAll radioGroupInputs emptyDiscovery).2 = none →
      ((formValueDiscovery.offerAll radioGroupInputs
          emptyDiscovery).1.values.map Prod.fst).Nodup ∧
      (∀ k, k ∈ (formValueDiscovery.offerAll radioGroupInputs
          emptyDiscovery).1.values.map Prod.fst ↔
        ∃ c ∈ radioGroupInputs, attributes.Val c.Attr "name" = k) ∧
      (∀ c ∈ radioGroupInputs,
        (formValueDiscovery.offerAll radioGroupInputs emptyDiscovery).1.values.lookup
          (attributes.Val c.Attr "name") = c.formEntry.map Prod.snd) ∧
      (∀ c ∈ radioGroupInputs, c.isRadioInput →
        (formValueDiscovery.offerAll radioGroupInputs emptyDiscovery).1.values.lookup
          (attributes.Val c.Attr "name") = some { t := .StringVar, radio := true })) ∧
    (∀ msg, (formValueDiscovery.offerAll radioGroupInputs emptyDiscovery).2 = some msg →
      ∃ c ∈ radioGroupInputs, msg = ": duplicate name `" ++ attributes.Val c.Attr "name"
        ++ "` in same form")) :=
  ⟨by decide, rfl, by decide,
   discovery_duplicate_names radioGroupInputs (by decide)⟩

/-- C29 fails on the code.  The form pre-scan does not cover the subtree:
`formValueDiscovery.Process` returns descend = false for every element,
whatever the map holds, so the walk of `discoverFormValues` sees only the
children of the form.  For `<form><div><input name="q"></div></form>` the
discovered map is empty and does not contain `q`, while the same input as a
child of the form is discovered with the type string.  As a consequence the
binding `form(q):x` on the input below the `<div>` is rejected as an unknown
form value, and is accepted when the input is a child of the form. -/
theorem prescan_misses_nested_input :
    discoverFormValues nestedInputForm = (some [], none) ∧
    mapGet (discoverFormValues nestedInputForm).1 "q" = none ∧
    discoverFormValues directInputForm
      = (some [("q", { t := .StringVar, radio := false })], none) ∧
    (∀ (n : Node) (inner : formValueDiscovery → WalkResult formValueDiscovery)
      (d : formValueDiscovery), (formValueDiscovery.Process n inner d).descend = false) ∧
    (Processor.Process exampleParsers exampleProcessor boundNestedInput).err
      = some ": unknown form value name: `q`" ∧
    (Processor.Process exampleParsers exampleProcessor boundDirectInput).err = none := by
  refine ⟨rfl, rfl, rfl, ?_, by decide, by decide⟩
  intro n inner d
  rcases formValueDiscovery_cases n with h | ⟨msg, h⟩ | ⟨v, _, _, _, h⟩
  · rw [h]
  · rw [h]
  · rw [h]
    split
    · split <;> rfl
    · rfl

/-- C30.  Nested forms.  `updateCurForm` returns the error
`: nested <form> not allowed` iff the element is a `<form>` and a form scope
is still active at it: a form was entered (`curFormPos` is not -1) and the
index path is strictly longer than the path length at which that form began.
In that case nothing else changes.  A `<form>` at which no scope is active (no
form was entered, or the path is not longer than the start of the form entered
before, as for a later sibling or a shallower element) is not rejected as
nested: the start of the scope becomes the current path length, the only
error is that of the pre-scan of its own inputs, and without such an error
its discovered map becomes the active map.  The inner form of
`<form><form></form></form>` is rejected; forms that follow a form as a
sibling or at a shallower depth are accepted. -/
theorem nested_form_is_rejected (seh : stdElementHandler) (n : Node) :
    ((seh.updateCurForm n).2 = some ": nested <form> not allowed" ↔
      (n.DataAtom = .Form ∧ seh.curFormPos ≠ -1 ∧
        seh.curFormPos < (seh.indexList.length : Int))) ∧
    (n.DataAtom = .Form → seh.curFormPos ≠ -1 →
      seh.curFormPos < (seh.indexList.length : Int) →
      seh.updateCurForm n = (seh, some ": nested <form> not allowed")) ∧
    (n.DataAtom = .Form →
      (seh.curFormPos = -1 ∨ (seh.indexList.length : Int) ≤ seh.curFormPos) →
      (seh.updateCurForm n).2 = (discoverFormValues n).2 ∧
      (seh.updateCurForm n).1.curFormPos = (seh.indexList.length : Int) ∧
      ((discoverFormValues n).2 = none →
        (seh.updateCurForm n).1.curForm = (discoverFormValues n).1)) ∧
    (n.DataAtom ≠ .Form → (seh.updateCurForm n).2 = none) ∧
    (Processor.Process exampleParsers exampleProcessor nestedForms).err
      = some ": nested <form> not allowed" ∧
    (Processor.Process exampleParsers exampleProcessor siblingForms).err = none ∧
    insideTopLevelForm.updateCurForm (formElement [])
      = (insideTopLevelForm, some ": nested <form> not allowed") ∧
    afterTopLevelForm.updateCurForm (formElement [])
      = ({ afterTopLevelForm with curFormPos := 1, curForm := some [] }, none) := by
  have hne := discoverFormValues_error n
  have hnested : n.DataAtom = .Form → seh.curFormPos ≠ -1 →
      seh.curFormPos < (seh.indexList.length : Int) →
      seh.updateCurForm n = (seh, some ": nested <form> not allowed") := by
    intro hf h1 h2
    have h3 : ¬ ((seh.indexList.length : Int) ≤ seh.curFormPos) := not_le.mpr h2
    simp [stdElementHandler.updateCurForm, hf, h1, h3]
  have hfree : n.DataAtom = .Form →
      (seh.curFormPos = -1 ∨ (seh.indexList.length : Int) ≤ seh.curFormPos) →
      (seh.updateCurForm n).2 = (discoverFormValues n).2 ∧
      (seh.updateCurForm n).1.curFormPos = (seh.indexList.length : Int) ∧
      ((discoverFormValues n).2 = none →
        (seh.updateCurForm n).1.curForm = (discoverFormValues n).1) := by
    intro hf hfree
    rcases hd : discoverFormValues n with ⟨vals, err⟩
    by_cases h3 : (seh.indexList.length : Int) ≤ seh.curFormPos
    · cases err <;> simp [stdElementHandler.updateCurForm, hf, h3, hd]
    · have h1 : seh.curFormPos = -1 := by
        rcases hfree with h | h
        · exact h
        · exact absurd h h3
      have h4 : ¬ ((seh.indexList.length : Int) ≤ -1) := by
        rw [h1] at h3
        exact h3
      cases err <;> simp [stdElementHandler.updateCurForm, hf, h4, hd, h1]
  refine ⟨?_, hnested, hfree, ?_, by decide, by decide, rfl, rfl⟩
  · constructor
    · intro herr
      by_cases hf : n.DataAtom = .Form
      · by_cases hact : seh.curFormPos ≠ -1 ∧ seh.curFormPos < (seh.indexList.length : Int)
        · exact ⟨hf, hact⟩
        · have hfr : seh.curFormPos = -1 ∨ (seh.indexList.length : Int) ≤ seh.curFormPos := by
            by_cases h1 : seh.curFormPos = -1
            · exact Or.inl h1
            · right
              exact not_lt.mp (fun h2 => hact ⟨h1, h2⟩)
          rw [(hfree hf hfr).1] at herr
          exact absurd herr hne
      · simp [stdElementHandler.updateCurForm, hf] at herr
    · rintro ⟨hf, h1, h2⟩
      rw [hnested hf h1 h2]
  · intro hf
    simp [stdElementHandler.updateCurForm, hf]

/-- C26.  Auto-typed bindings are resolved during analysis.
`processBindings` appends one variable mapping per binding it accepts, in
order (all of `arr` if it returns no error, the bindings before the rejected
one otherwise), with the name, the kind and the id of the binding and the
current path.  A declared type other than Auto is stored unchanged.  A
declared type Auto is stored as bool if the bound value is of kind Class, as
the type the active form scope holds for the name if it is of kind FormValue,
and as string for every other kind.  No variable of a component that
`Processor.Process` builds has the type Auto.  At an element inside the form
of the inputs `q` (text) and `n` (number), the bindings `form(n):count`,
`class(active):active`, `prop(title):title` and `prop(width):(width int)` are
stored with the types int, bool, string and int, and the component with the
bound text input `q` has the variable `x` of type string. -/
theorem auto_bindings_are_resolved (ceh : componentElementHandler)
    (arr : List VariableMapping) :
    (∃ added, (ceh.processBindings arr).1.c.Variables = ceh.c.Variables ++ added ∧
      ((ceh.processBindings arr).2 = none → added.length = arr.length) ∧
      List.Forall₂ (fun vb st =>
        st.Variable.Name = vb.Variable.Name ∧ st.Value.Kind = vb.Value.Kind ∧
        st.Value.ID = vb.Value.ID ∧ st.Path = ceh.indexList ∧
        (vb.Variable.Typ ≠ .AutoVar → st.Variable.Typ = vb.Variable.Typ) ∧
        (vb.Variable.Typ = .AutoVar → vb.Value.Kind = .BoundClass →
          st.Variable.Typ = .BoolVar) ∧
        (vb.Variable.Typ = .AutoVar → vb.Value.Kind = .BoundFormValue →
          ∃ val, mapGet ceh.curForm vb.Value.ID = some val ∧ st.Variable.Typ = val.t) ∧
        (vb.Variable.Typ = .AutoVar → vb.Value.Kind ≠ .BoundClass →
          vb.Value.Kind ≠ .BoundFormValue → st.Variable.Typ = .StringVar))
        (arr.take added.length) added) ∧
    (∀ (P : Parsers) (p : Processor) (n : Node) (cmp : Component),
      (Processor.Process P p n).cmp = some cmp →
      ∀ v ∈ cmp.Variables, v.Variable.Typ ≠ .AutoVar) ∧
    (insideForm.processBindings exampleBindings).2 = none ∧
    (insideForm.processBindings exampleBindings).1.c.Variables.map
        (fun st => (st.Variable.Name, st.Variable.Typ))
      = [("count", .IntVar), ("active", .BoolVar), ("title", .StringVar),
         ("width", .IntVar)] ∧
    (Processor.Process exampleParsers exampleProcessor boundDirectInput).cmp.map
        (fun c => c.Variables.map (fun st => (st.Variable.Name, st.Variable.Typ)))
      = some [("x", .StringVar)] := by
  refine ⟨?_, ?_, by decide, by decide, by decide⟩
  · simp only [componentElementHandler.processBindings]
    exact processBindings_loop_types _ ceh.curForm ceh.indexList arr ceh.c.Variables
  · intro P p n cmp h
    exact process_no_auto_type P p n cmp h

/-! ## The start of the form scope -/

/-- The start of the form scope after `updateCurForm`: it is -1 or at most
the path length, it is not below -1 if it was not before, and after a call
without error on a state whose start was not below -1 it is -1 or between 0
and the path length. -/
theorem updateCurForm_start (seh : stdElementHandler) (n : Node) :
    ((seh.updateCurForm n).1.curFormPos = -1 ∨
      (seh.updateCurForm n).1.curFormPos ≤ (seh.indexList.length : Int)) ∧
    (-1 ≤ seh.curFormPos → -1 ≤ (seh.updateCurForm n).1.curFormPos) ∧
    (-1 ≤ seh.curFormPos → (seh.updateCurForm n).2 = none →
      ((seh.updateCurForm n).1.curFormPos = -1 ∨
        (0 ≤ (seh.updateCurForm n).1.curFormPos ∧
          (seh.updateCurForm n).1.curFormPos ≤ (seh.indexList.length : Int)))) := by
  unfold stdElementHandler.updateCurForm
  simp only
  rcases hdv : discoverFormValues n with ⟨vals, err⟩
  by_cases h1 : (seh.indexList.length : Int) ≤ seh.curFormPos
  · simp only [h1, if_true]
    by_cases hf : n.DataAtom = .Form
    · simp only [hf, if_true, ne_eq, not_true_eq_false, if_false]
      cases err <;> simp <;> omega
    · simp [hf]
  · simp only [h1, if_false]
    by_cases hf : n.DataAtom = .Form
    · simp only [hf, if_true]
      by_cases h2 : seh.curFormPos = -1
      · simp only [h2, ne_eq, not_true_eq_false, if_false]
        cases err <;> simp <;> omega
      · simp only [ne_eq, h2, not_false_eq_true, if_true]
        refine ⟨Or.inr (by omega), fun h => h, ?_⟩
        intro _ h
        simp at h
    · simp only [hf, if_false]
      refine ⟨Or.inr (by omega), fun h => h, ?_⟩
      intro h _
      by_cases h2 : seh.curFormPos = -1
      · exact Or.inl h2
      · exact Or.inr ⟨by omega, by omega⟩

/-- The start of the form scope is the same after
`handleControlBlocksAndAssignments`. -/
theorem handle_curFormPos (seh : stdElementHandler)
    (walkInner : stdElementHandler → WalkResult stdElementHandler) (n : Node)
    (attrs : General) :
    (seh.handleControlBlocksAndAssignments walkInner n attrs).st.curFormPos
      = seh.curFormPos := by
  unfold stdElementHandler.handleControlBlocksAndAssignments
  simp only
  repeat' split
  all_goals first
    | rfl
    | (rename_i x _ heq
       have := congrArg (fun r => r.1.curFormPos) heq
       simpa [stdElementHandler.processAssignments] using this.symm)

/-- During the walk of a control block the start of the form scope is never
below -1 if it was not at the start. -/
theorem ctrlBlockWalker_form_start (P : Parsers) :
    ∀ (kids : List Node) (k : Nat) (s : stdElementHandler), -1 ≤ s.curFormPos →
      -1 ≤ ((ctrlBlockWalker P).walkChildren kids k s).st.curFormPos := by
  apply walkChildren_preserves (ctrlBlockWalker P) (fun s => -1 ≤ s.curFormPos)
  · intro t d h n inner s hs _ hI
    rcases ctrlBlockWalker_slot P t d h hs with rfl | rfl | rfl | rfl
    · exact hI
    · have : (aTextProcessor.Process s n).st.curFormPos = s.curFormPos := by
        unfold aTextProcessor.Process
        simp only
        split_ifs <;> simp
      show -1 ≤ (aTextProcessor.Process s n).st.curFormPos
      rw [this]
      exact hI
    · exact hI
    · have h2 := (updateCurForm_start s n).2.1 hI
      unfold ctrlBlockElementProcessor.Process
      split
      · rename_i s2 msg heq
        rw [heq] at h2
        exact h2
      · rename_i s2 heq
        rw [heq] at h2
        simp only at h2
        split
        · exact h2
        · split
          · exact h2
          · split
            · exact h2
            · show -1 ≤ (s2.handleControlBlocksAndAssignments inner n _).st.curFormPos
              rw [handle_curFormPos]
              exact h2
  · intro k s hI
    exact hI
  · intro s hI
    exact hI

/-- During the walk of a component the start of the form scope is never below
-1 if it was not at the start. -/
theorem componentWalker_form_start (P : Parsers) :
    ∀ (kids : List Node) (k : Nat) (s : componentElementHandler), -1 ≤ s.curFormPos →
      -1 ≤ ((componentWalker P).walkChildren kids k s).st.curFormPos := by
  apply componentWalker_preserves P (fun s => -1 ≤ s.curFormPos)
  · intro l s h
    exact h
  · intro n s h
    have : (aTextProcessor.Process s.tostdElementHandler n).st.curFormPos
        = s.curFormPos := by
      unfold aTextProcessor.Process
      simp only
      split_ifs <;> simp
    show -1 ≤ (aTextProcessor.Process s.tostdElementHandler n).st.curFormPos
    rw [this]
    exact h
  · intro n s h
    exact h
  · intro n inner s h
    have : (handlersProcessor.Process P n inner s).st.curFormPos = s.curFormPos := by
      unfold handlersProcessor.Process
      simp only
      repeat' split
      all_goals simp
    rw [this]
    exact h
  · intro n inner s h
    have : (controllerProcessor.Process P n inner s).st.curFormPos = s.curFormPos := by
      unfold controllerProcessor.Process
      simp only
      repeat' split
      all_goals simp
    rw [this]
    exact h
  · intro n inner s h
    have : (aDataProcessor.Process P n inner s).st.curFormPos = s.curFormPos := by
      unfold aDataProcessor.Process
      simp only
      repeat' split
      all_goals simp
    rw [this]
    exact h
  · intro n inner s h
    apply componentProcess_preserves P (fun s2 => -1 ≤ s2.curFormPos)
    · intro ceh n2 h2
      exact (updateCurForm_start ceh.tostdElementHandler n2).2.1 h2
    · intro ceh n2 attrs h2
      simp only
      rw [handle_curFormPos]
      exact h2
    · intro ceh n2 v h2
      obtain ⟨_, _, _, _, hstd⟩ := mapCaptures_c_frame ceh n2 v
      rw [hstd]
      exact h2
    · intro ceh arr h2
      exact h2
    · exact h

/-! ## The stored bound values -/

/-- The value of each binding the loop of `processBindings` stores: the
supplied value, with the form depth set if it is a form value. -/
theorem processBindings_loop_values (fd : Int) (cf : Option (StrMap formValue))
    (path : List Nat) :
    ∀ (arr vars : List VariableMapping),
      ∃ added, (processBindings.loop fd cf path arr vars).1 = vars ++ added ∧
        ((processBindings.loop fd cf path arr vars).2 = none → added.length = arr.length) ∧
        List.Forall₂ (fun vb st =>
          (vb.Value.Kind = .BoundFormValue → st.Value = { vb.Value with FormDepth := fd }) ∧
          (vb.Value.Kind ≠ .BoundFormValue → st.Value = vb.Value))
          (arr.take added.length) added := by
  intro arr
  induction arr with
  | nil =>
    intro vars
    exact ⟨[], by simp [processBindings.loop], fun _ => rfl, List.Forall₂.nil⟩
  | cons vb rest ih =>
    intro vars
    unfold processBindings.loop
    by_cases hk : vb.Value.Kind = .BoundFormValue
    · rw [if_pos hk]
      by_cases hfd : fd = -1
      · rw [if_pos hfd]
        exact ⟨[], by simp, fun h => by simp at h, List.Forall₂.nil⟩
      · rw [if_neg hfd]
        simp only
        cases hval : mapGet cf vb.Value.ID with
        | none =>
          exact ⟨[], by simp, fun h => by simp at h, List.Forall₂.nil⟩
        | some val =>
          simp only
          obtain ⟨added, hres, hlen, hall⟩ := ih (vars ++
            [{ (if vb.Variable.Typ = VariableType.AutoVar then
                  { Value := { vb.Value with FormDepth := fd },
                    Variable := { vb.Variable with Typ := val.t }, Path := vb.Path }
                else { vb with Value := { vb.Value with FormDepth := fd } } : VariableMapping)
               with Path := path }])
          refine ⟨_ :: added, by rw [hres, List.append_assoc]; rfl,
            fun h => by rw [List.length_cons, List.length_cons, hlen h], ?_⟩
          rw [List.length_cons, List.take_succ_cons]
          refine List.Forall₂.cons ?_ hall
          by_cases ha : vb.Variable.Typ = .AutoVar
          · rw [if_pos ha]
            exact ⟨fun _ => rfl, fun h => absurd hk h⟩
          · rw [if_neg ha]
            exact ⟨fun _ => rfl, fun h => absurd hk h⟩
    · rw [if_neg hk]
      simp only
      obtain ⟨added, hres, hlen, hall⟩ := ih (vars ++
        [{ (if vb.Variable.Typ = VariableType.AutoVar then
              (if vb.Value.Kind = BoundKind.BoundClass then
                { vb with Variable := { vb.Variable with Typ := .BoolVar } }
               else { vb with Variable := { vb.Variable with Typ := .StringVar } })
            else vb : VariableMapping)
           with Path := path }])
      refine ⟨_ :: added, by rw [hres, List.append_assoc]; rfl,
        fun h => by rw [List.length_cons, List.length_cons, hlen h], ?_⟩
      rw [List.length_cons, List.take_succ_cons]
      refine List.Forall₂.cons ?_ hall
      by_cases ha : vb.Variable.Typ = .AutoVar
      · by_cases hc : vb.Value.Kind = .BoundClass
        · rw [if_pos ha, if_pos hc]
          exact ⟨fun h => absurd h hk, fun _ => rfl⟩
        · rw [if_pos ha, if_neg hc]
          exact ⟨fun h => absurd h hk, fun _ => rfl⟩
      · rw [if_neg ha]
        exact ⟨fun h => absurd h hk, fun _ => rfl⟩

/-- The target of each assignment the loop of `processAssignments` stores:
the supplied target, with the form depth set if it is a form value; the
expression is the supplied one. -/
theorem processAssignments_loop_values (fd : Int) (cf : Option (StrMap formValue))
    (path : List Nat) :
    ∀ (arr assignments : List Assignment),
      ∃ added, (processAssignments.loop fd cf path arr assignments).1
          = assignments ++ added ∧
        ((processAssignments.loop fd cf path arr assignments).2 = none →
          added.length = arr.length) ∧
        List.Forall₂ (fun a st =>
          st.Expression = a.Expression ∧
          (a.Target.Kind = .BoundFormValue → st.Target = { a.Target with FormDepth := fd }) ∧
          (a.Target.Kind ≠ .BoundFormValue → st.Target = a.Target))
          (arr.take added.length) added := by
  intro arr
  induction arr with
  | nil =>
    intro assignments
    exact ⟨[], by simp [processAssignments.loop], fun _ => rfl, List.Forall₂.nil⟩
  | cons a rest ih =>
    intro assignments
    unfold processAssignments.loop
    by_cases hk : a.Target.Kind = .BoundFormValue
    · rw [if_pos hk]
      by_cases hfd : fd = -1
      · rw [if_pos hfd]
        exact ⟨[], by simp, fun h => by simp at h, List.Forall₂.nil⟩
      · rw [if_neg hfd]
        simp only
        cases hval : mapGet cf a.Target.ID with
        | none =>
          exact ⟨[], by simp, fun h => by simp at h, List.Forall₂.nil⟩
        | some val =>
          simp only
          obtain ⟨added, hres, hlen, hall⟩ := ih (assignments ++
            [{ Expression := a.Expression, Path := path,
               Target := { a.Target with FormDepth := fd } }])
          refine ⟨_ :: added, by rw [hres, List.append_assoc]; rfl,
            fun h => by rw [List.length_cons, List.length_cons, hlen h], ?_⟩
          rw [List.length_cons, List.take_succ_cons]
          exact List.Forall₂.cons ⟨rfl, fun _ => rfl, fun h => absurd hk h⟩ hall
    · rw [if_neg hk]
      obtain ⟨added, hres, hlen, hall⟩ := ih (assignments ++ [{ a with Path := path }])
      refine ⟨_ :: added, by rw [hres, List.append_assoc]; rfl,
        fun h => by rw [List.length_cons, List.length_cons, hlen h], ?_⟩
      rw [List.length_cons, List.take_succ_cons]
      exact List.Forall₂.cons ⟨rfl, fun h => absurd h hk, fun _ => rfl⟩ hall

/-- A form value among the parameters `mapOne` stores is the user-supplied
mapping of the parameter's name with the form depth set. -/
theorem mapOne_values (c : Component) (fd : Int) (cf : Option (StrMap formValue))
    (u : UnboundEventMapping) (m : EventMapping)
    (h : mapCaptures.mapOne c fd cf u = .ok m) :
    ∀ bp ∈ m.ParamMappings, bp.Value.Kind = .BoundFormValue →
      ∃ bVal, u.ParamMappings.lookup bp.Param = some bVal ∧
        bVal.Kind = .BoundFormValue ∧ bp.Value = { bVal with FormDepth := fd } := by
  obtain ⟨sig, _, hp, _, _, _⟩ := mapOne_ok _ _ _ _ _ h
  intro bp hbp hk
  rw [hp] at hbp
  obtain ⟨p, _, rfl⟩ := List.mem_map.1 hbp
  obtain ⟨bVal, hl, hbk, hv⟩ := expectedParam_formValue _ _ _ hk
  have hname : (expectedParam fd u.ParamMappings p).Param = p.Name := by
    unfold expectedParam
    split <;> rfl
  rw [hname]
  exact ⟨bVal, hl, hbk, hv⟩

/-! ## The site descriptor -/

/-- The scan of `filepath.Base` from the end of a path that ends in an
element `l` without separator: the element is found. -/
theorem base_scan (l r : List Char) (hl : l ≠ []) (hsep : ∀ c ∈ l, c ≠ '/')
    (hr : r = [] ∨ ∃ t, r = '/' :: t) :
    (((l.reverse ++ r).dropWhile (fun c => c == '/')).takeWhile (fun c => c != '/')).reverse
      = l := by
  have hdrop : (l.reverse ++ r).dropWhile (fun c => c == '/') = l.reverse ++ r := by
    cases hrev : l.reverse with
    | nil => simp at hrev; exact absurd hrev hl
    | cons x xs =>
      have hx : x ∈ l := by
        rw [← List.mem_reverse, hrev]
        exact List.mem_cons_self _ _
      have : (x == '/') = false := by simpa using hsep x hx
      simp [List.dropWhile, this]
  have htake : (l.reverse ++ r).takeWhile (fun c => c != '/') = l.reverse := by
    rw [List.takeWhile_append_of_pos]
    · rcases hr with h | ⟨t, h⟩ <;> simp [h, List.takeWhile]
    · intro c hc
      have := hsep c (List.mem_reverse.mp hc)
      simpa using this
  rw [hdrop, htake, List.reverse_reverse]

/-- The last path element of a non-empty name without separator is the name
itself. -/
theorem filepath_Base_plain (name : String) (hne : name ≠ "")
    (hsep : ∀ c ∈ name.data, c ≠ '/') : filepath.Base name = name := by
  obtain ⟨l⟩ := name
  have hl : l ≠ [] := by
    intro h
    apply hne
    rw [h]
  simp only at hsep
  unfold filepath.Base
  rw [if_neg hne]
  have h := base_scan l [] hl hsep (Or.inl rfl)
  simp only [List.append_nil] at h
  simp only [h]
  rw [if_neg hl]

/-- The last path element of `dir/name` is `name`, for a non-empty `name`
without separator. -/
theorem filepath_Base_join (dir name : String) (hne : name ≠ "")
    (hsep : ∀ c ∈ name.data, c ≠ '/') :
    filepath.Base (dir ++ "/" ++ name) = name := by
  obtain ⟨l⟩ := name
  obtain ⟨d⟩ := dir
  have hl : l ≠ [] := by
    intro h
    apply hne
    rw [h]
  simp only at hsep
  have hdata : (String.mk d ++ "/" ++ String.mk l).data = d ++ '/' :: l := by
    simp [String.data_append]
  have hnonempty : String.mk d ++ "/" ++ String.mk l ≠ "" := by
    intro h
    have := congrArg String.data h
    rw [hdata] at this
    simp at this
  unfold filepath.Base
  rw [if_neg hnonempty, hdata]
  have hrev : (d ++ '/' :: l).reverse = l.reverse ++ '/' :: d.reverse := by
    simp
  rw [hrev]
  have h := base_scan l ('/' :: d.reverse) hl hsep (Or.inr ⟨_, rfl⟩)
  simp only [h]
  rw [if_neg hl]

/-- C34.  `mapCaptures` is atomic on the captures list.  If it returns an
error the handler state, and with it `Captures` of the component, is as
before.  If it returns no error on a non-empty list of raw mappings it has
appended exactly one capture, whose path is the current index path and whose
mappings are as many as the raw mappings, in their order, each with the event
and the handler name of its raw mapping.  On the empty list it returns no
error and changes nothing.  With the handlers `onClick` and `h` declared, the
raw captures `click:onClick` and `click:onClick{n=.., x=..}` (unknown
parameter `x`) are rejected and leave no capture; `click:onClick` and
`submit:onClick{n=..}` give one capture with the two mappings. -/
theorem mapCaptures_is_atomic (ceh : componentElementHandler) (n : Node)
    (v : List UnboundEventMapping) :
    ((ceh.mapCaptures n v).2 ≠ none →
      (ceh.mapCaptures n v).1 = ceh ∧
      (ceh.mapCaptures n v).1.c.Captures = ceh.c.Captures) ∧
    ((ceh.mapCaptures n v).2 = none → v ≠ [] →
      ∃ ms, (ceh.mapCaptures n v).1.c.Captures
          = ceh.c.Captures ++ [{ Path := ceh.indexList, Mappings := ms }] ∧
        ms.length = v.length ∧
        List.Forall₂ (fun u m => m.Event = u.Event ∧ m.Handler = u.Handler) v ms) ∧
    ceh.mapCaptures n [] = (ceh, none) ∧
    (insideForm.mapCaptures button [clickCapture, unknownParamCapture]).2
      = some "unknown param for capture mapping: x" ∧
    (insideForm.mapCaptures button [clickCapture, unknownParamCapture]).1.c.Captures = [] ∧
    (insideForm.mapCaptures button [clickCapture, preventCapture]).2 = none ∧
    (insideForm.mapCaptures button [clickCapture, preventCapture]).1.c.Captures.map
        (fun c => (c.Path, c.Mappings.map (fun m => (m.Event, m.Handler))))
      = [([0, 0, 0], [("click", "onClick"), ("submit", "onClick")])] := by
  refine ⟨?_, ?_, rfl, by decide, by decide, by decide, by decide⟩
  · intro herr
    have hst : (ceh.mapCaptures n v).1 = ceh := by
      rcases mapCaptures_cases ceh n v with h | ⟨h, _⟩
      · exact h
      · exact absurd h herr
    exact ⟨hst, by rw [hst]⟩
  · intro hok hv
    obtain ⟨ms, hcap, hall⟩ := mapCaptures_ok ceh n v hv hok
    refine ⟨ms, hcap, hall.length_eq.symm, ?_⟩
    refine List.Forall₂.imp ?_ hall
    intro u m hm
    obtain ⟨_, _, _, he, hh, _⟩ := mapOne_ok _ _ _ _ _ hm
    exact ⟨he, hh⟩

/-- C33.  Resolving a form value changes only its depth.  Every form value
that `mapCaptures` stores as a bound parameter is the user-supplied mapping
of that parameter with `FormDepth` set to the form depth and nothing else
changed; every binding `processBindings` stores and every assignment
`processAssignments` stores has the supplied value, with `FormDepth` set if
it is a form value and unchanged otherwise.  In particular `IsRadio` is
stored as supplied.  Inside the form of the radio group `q`, the capture
`click:h{q=form(q)}`, the binding `form(q):x` and the assignment `form(q)=x`,
supplied with `IsRadio = false`, are stored with `IsRadio = false`, and a
binding supplied with `IsRadio = true` is stored with it. -/
theorem form_value_resolution_sets_depth_only (ceh : componentElementHandler) (n : Node)
    (v : List UnboundEventMapping) (arr : List VariableMapping)
    (seh : stdElementHandler) (assigns : List Assignment) (path : List Nat) :
    ((ceh.mapCaptures n v).2 = none → v ≠ [] →
      ∃ ms, (ceh.mapCaptures n v).1.c.Captures
          = ceh.c.Captures ++ [{ Path := ceh.indexList, Mappings := ms }] ∧
        List.Forall₂ (fun u m =>
          ∀ bp ∈ m.ParamMappings, bp.Value.Kind = .BoundFormValue →
            ∃ bVal, u.ParamMappings.lookup bp.Param = some bVal ∧
              bp.Value = { bVal with FormDepth := ceh.formDepth } ∧
              bp.Value.IsRadio = bVal.IsRadio) v ms) ∧
    (∃ added, (ceh.processBindings arr).1.c.Variables = ceh.c.Variables ++ added ∧
      ((ceh.processBindings arr).2 = none → added.length = arr.length) ∧
      List.Forall₂ (fun vb st =>
        (vb.Value.Kind = .BoundFormValue →
          st.Value = { vb.Value with FormDepth := ceh.formDepth }) ∧
        (vb.Value.Kind ≠ .BoundFormValue → st.Value = vb.Value) ∧
        st.Value.IsRadio = vb.Value.IsRadio)
        (arr.take added.length) added) ∧
    (∃ added, (seh.processAssignments assigns path).1.b.Assignments
        = seh.b.Assignments ++ added ∧
      ((seh.processAssignments assigns path).2 = none → added.length = assigns.length) ∧
      List.Forall₂ (fun a st =>
        st.Expression = a.Expression ∧
        (a.Target.Kind = .BoundFormValue →
          st.Target = { a.Target with FormDepth := seh.formDepth }) ∧
        (a.Target.Kind ≠ .BoundFormValue → st.Target = a.Target) ∧
        st.Target.IsRadio = a.Target.IsRadio)
        (assigns.take added.length) added) ∧
    mapGet insideRadioForm.curForm "q" = some { t := .StringVar, radio := true } ∧
    (insideRadioForm.mapCaptures button [formCapture]).1.c.Captures.map
        (fun c => c.Mappings.map (fun m => m.ParamMappings.map (fun bp => bp.Value)))
      = [[[{ Kind := .BoundFormValue, ID := "q", IsRadio := false, FormDepth := 2 }]]] ∧
    (insideRadioForm.processBindings [formBindingQ, radioBindingQ]).1.c.Variables.map
        (fun st => st.Value)
      = [{ Kind := .BoundFormValue, ID := "q", IsRadio := false, FormDepth := 2 },
         { Kind := .BoundFormValue, ID := "q", IsRadio := true, FormDepth := 2 }] ∧
    (insideRadioForm.tostdElementHandler.processAssignments [formAssignment]
        [0, 0, 0]).1.b.Assignments.map (fun st => st.Target)
      = [{ Kind := .BoundFormValue, ID := "q", IsRadio := false, FormDepth := 2 }] := by
  refine ⟨?_, ?_, ?_, rfl, by decide, by decide, by decide⟩
  · intro hok hv
    obtain ⟨ms, hcap, hall⟩ := mapCaptures_ok ceh n v hv hok
    refine ⟨ms, hcap, List.Forall₂.imp ?_ hall⟩
    intro u m hm bp hbp hk
    obtain ⟨bVal, hl, _, hval⟩ := mapOne_values _ _ _ _ _ hm bp hbp hk
    exact ⟨bVal, hl, hval, by rw [hval]⟩
  · simp only [componentElementHandler.processBindings]
    rw [formDepth_inline]
    obtain ⟨added, hres, hlen, hall⟩ := processBindings_loop_values
      ceh.formDepth ceh.curForm ceh.indexList arr ceh.c.Variables
    refine ⟨added, hres, hlen, List.Forall₂.imp ?_ hall⟩
    intro vb st hst
    refine ⟨hst.1, hst.2, ?_⟩
    by_cases hk : vb.Value.Kind = .BoundFormValue
    · rw [hst.1 hk]
    · rw [hst.2 hk]
  · simp only [stdElementHandler.processAssignments]
    rw [formDepth_inline]
    obtain ⟨added, hres, hlen, hall⟩ := processAssignments_loop_values
      seh.formDepth seh.curForm path assigns seh.b.Assignments
    refine ⟨added, hres, hlen, List.Forall₂.imp ?_ hall⟩
    intro a st hst
    refine ⟨hst.1, hst.2.1, hst.2.2, ?_⟩
    by_cases hk : a.Target.Kind = .BoundFormValue
    · rw [hst.2.1 hk]
    · rw [hst.2.2 hk]

/-- C31.  Site descriptor defaults.  When `processSiteDescriptor` returns
without error, the site has a root element whose attributes were collected,
and afterwards `HTMLFile` is the collected `html-file` value if that is not
empty and `index.html` otherwise, `JSPath` is `js-path` or the last path
element of the base name followed by `.js`, `WASMExecPath` is
`wasm-exec-path` or `wasm_exec.js`, and `WASMPath` is `wasm-path` or the last
path element of the base name followed by `.wasm`; the base name is
unchanged.  Each field is the same for two sites that agree on its own
attribute and, for `JSPath` and `WASMPath`, on the base name.  The last path
element of a name without separator is the name, and that of `dir/name` is
`name`. -/
theorem site_descriptor_defaults (site : ASiteFile)
    (hok : (processSiteDescriptor site).2 = none) :
    (∃ rootNode siteAttrs, site.rootNode = some rootNode ∧
      rootNode.Ext.Site = .ok siteAttrs ∧
      (processSiteDescriptor site).1.HTMLFile
        = (if siteAttrs.HTMLFile = "" then "index.html" else siteAttrs.HTMLFile) ∧
      (processSiteDescriptor site).1.JSPath
        = (if siteAttrs.JSPath = "" then filepath.Base site.BaseName ++ ".js"
           else siteAttrs.JSPath) ∧
      (processSiteDescriptor site).1.WASMExecPath
        = (if siteAttrs.WASMExecPath = "" then "wasm_exec.js" else siteAttrs.WASMExecPath) ∧
      (processSiteDescriptor site).1.WASMPath
        = (if siteAttrs.WASMPath = "" then filepath.Base site.BaseName ++ ".wasm"
           else siteAttrs.WASMPath) ∧
      (processSiteDescriptor site).1.BaseName = site.BaseName ∧
      (∀ (site2 : ASiteFile) (root2 : Node) (attrs2 : SiteAttrs),
        site2.rootNode = some root2 → root2.Ext.Site = .ok attrs2 →
        (attrs2.HTMLFile = siteAttrs.HTMLFile →
          (processSiteDescriptor site2).1.HTMLFile = (processSiteDescriptor site).1.HTMLFile) ∧
        (attrs2.JSPath = siteAttrs.JSPath → site2.BaseName = site.BaseName →
          (processSiteDescriptor site2).1.JSPath = (processSiteDescriptor site).1.JSPath) ∧
        (attrs2.WASMExecPath = siteAttrs.WASMExecPath →
          (processSiteDescriptor site2).1.WASMExecPath
            = (processSiteDescriptor site).1.WASMExecPath) ∧
        (attrs2.WASMPath = siteAttrs.WASMPath → site2.BaseName = site.BaseName →
          (processSiteDescriptor site2).1.WASMPath
            = (processSiteDescriptor site).1.WASMPath))) ∧
    (∀ name : String, name ≠ "" → (∀ c ∈ name.data, c ≠ '/') →
      filepath.Base name = name) ∧
    (∀ dir name : String, name ≠ "" → (∀ c ∈ name.data, c ≠ '/') →
      filepath.Base (dir ++ "/" ++ name) = name) := by
  refine ⟨?_, filepath_Base_plain, filepath_Base_join⟩
  have hform : ∀ (s : ASiteFile) (r : Node) (a : SiteAttrs), s.rootNode = some r →
      r.Ext.Site = .ok a →
      (processSiteDescriptor s).1.HTMLFile
        = (if a.HTMLFile = "" then "index.html" else a.HTMLFile) ∧
      (processSiteDescriptor s).1.JSPath
        = (if a.JSPath = "" then filepath.Base s.BaseName ++ ".js" else a.JSPath) ∧
      (processSiteDescriptor s).1.WASMExecPath
        = (if a.WASMExecPath = "" then "wasm_exec.js" else a.WASMExecPath) ∧
      (processSiteDescriptor s).1.WASMPath
        = (if a.WASMPath = "" then filepath.Base s.BaseName ++ ".wasm" else a.WASMPath) ∧
      (processSiteDescriptor s).1.BaseName = s.BaseName := by
    intro s r a hr ha
    unfold processSiteDescriptor
    rw [hr]
    simp [ha]
  cases hr : site.rootNode with
  | none =>
    unfold processSiteDescriptor at hok
    rw [hr] at hok
    simp at hok
  | some rootNode =>
    cases ha : rootNode.Ext.Site with
    | error msg =>
      unfold processSiteDescriptor at hok
      rw [hr] at hok
      simp [ha] at hok
    | ok siteAttrs =>
      obtain ⟨h1, h2, h3, h4, h5⟩ := hform site rootNode siteAttrs hr ha
      refine ⟨rootNode, siteAttrs, rfl, ha, h1, h2, h3, h4, h5, ?_⟩
      intro site2 root2 attrs2 hr2 ha2
      obtain ⟨g1, g2, g3, g4, _⟩ := hform site2 root2 attrs2 hr2 ha2
      refine ⟨?_, ?_, ?_, ?_⟩
      · intro e
        rw [g1, h1, e]
      · intro e eb
        rw [g2, h2, e, eb]
      · intro e
        rw [g3, h3, e]
      · intro e eb
        rw [g4, h4, e, eb]

/-- Witness of C31: for the site `web/shop.asite` whose root element has only
`js-path="app.js"` the four paths are `index.html`, `app.js`, `wasm_exec.js`
and `shop.wasm`; for `main.asite` with all four attributes they are the four
attribute values.  The last path element of `web/shop` is `shop`, that of
`main` is `main`, that of `a/b/` is `b`. -/
theorem site_descriptor_defaults_witness :
    (processSiteDescriptor shopSite).2 = none ∧
    ((processSiteDescriptor shopSite).1.HTMLFile, (processSiteDescriptor shopSite).1.JSPath,
      (processSiteDescriptor shopSite).1.WASMExecPath,
      (processSiteDescriptor shopSite).1.WASMPath)
      = ("index.html", "app.js", "wasm_exec.js", "shop.wasm") ∧
    ((processSiteDescriptor mainSite).1.HTMLFile, (processSiteDescriptor mainSite).1.JSPath,
      (processSiteDescriptor mainSite).1.WASMExecPath,
      (processSiteDescriptor mainSite).1.WASMPath)
      = ("out.html", "app.js", "exec.js", "app.wasm") ∧
    filepath.Base "web/shop" = "shop" ∧ filepath.Base "main" = "main" ∧
    filepath.Base "a/b/" = "b" ∧ filepath.Base "" = "." ∧ filepath.Base "//" = "/" ∧
    ((∃ rootNode siteAttrs, shopSite.rootNode = some rootNode ∧
      rootNode.Ext.Site = .ok siteAttrs ∧
      (processSiteDescriptor shopSite).1.HTMLFile
        = (if siteAttrs.HTMLFile = "" then "index.html" else siteAttrs.HTMLFile) ∧
      (processSiteDescriptor shopSite).1.JSPath
        = (if siteAttrs.JSPath = "" then filepath.Base shopSite.BaseName ++ ".js"
           else siteAttrs.JSPath) ∧
      (processSiteDescriptor shopSite).1.WASMExecPath
        = (if siteAttrs.WASMExecPath = "" then "wasm_exec.js" else siteAttrs.WASMExecPath) ∧
      (processSiteDescriptor shopSite).1.WASMPath
        = (if siteAttrs.WASMPath = "" then filepath.Base shopSite.BaseName ++ ".wasm"
           else siteAttrs.WASMPath) ∧
      (processSiteDescriptor shopSite).1.BaseName = shopSite.BaseName ∧
      (∀ (site2 : ASiteFile) (root2 : Node) (attrs2 : SiteAttrs),
        site2.rootNode = some root2 → root2.Ext.Site = .ok attrs2 →
        (attrs2.HTMLFile = siteAttrs.HTMLFile →
          (processSiteDescriptor site2).1.HTMLFile
            = (processSiteDescriptor shopSite).1.HTMLFile) ∧
        (attrs2.JSPath = siteAttrs.JSPath → site2.BaseName = shopSite.BaseName →
          (processSiteDescriptor site2).1.JSPath
            = (processSiteDescriptor shopSite).1.JSPath) ∧
        (attrs2.WASMExecPath = siteAttrs.WASMExecPath →
          (processSiteDescriptor site2).1.WASMExecPath
            = (processSiteDescriptor shopSite).1.WASMExecPath) ∧
        (attrs2.WASMPath = siteAttrs.WASMPath → site2.BaseName = shopSite.BaseName →
          (processSiteDescriptor site2).1.WASMPath
            = (processSiteDescriptor shopSite).1.WASMPath))) ∧
    (∀ name : String, name ≠ "" → (∀ c ∈ name.data, c ≠ '/') →
      filepath.Base name = name) ∧
    (∀ dir name : String, name ≠ "" → (∀ c ∈ name.data, c ≠ '/') →
      filepath.Base (dir ++ "/" ++ name) = name)) :=
  ⟨rfl, by decide, by decide, by decide, by decide, by decide, by decide, by decide,
   site_descriptor_defaults shopSite rfl⟩

/-- C32.  Form-scope state invariant.  The field `curFormPos` is -1 or the
length of an index path in every state of the analysis: the walk of a
component starts with -1, `updateCurForm` assigns only -1 or the length of the
index path, and the walks of a component and of a control block keep it at or
above -1.  For every such prior state, every index path and every element, if
`updateCurForm` returns without error then afterwards `curFormPos` is -1 or
lies between 0 and the length of the index path, which the call leaves as it
is; `formDepth` computed right after the call is -1 exactly when `curFormPos`
is -1 (no form scope is active) and is not negative otherwise, so a depth is
never taken for the sentinel. -/
theorem form_start_within_path (seh : stdElementHandler) (n : Node)
    (hstate : -1 ≤ seh.curFormPos) (hok : (seh.updateCurForm n).2 = none) :
    ((seh.updateCurForm n).1.curFormPos = -1 ∨
      (0 ≤ (seh.updateCurForm n).1.curFormPos ∧
        (seh.updateCurForm n).1.curFormPos
          ≤ ((seh.updateCurForm n).1.indexList.length : Int))) ∧
    (seh.updateCurForm n).1.indexList = seh.indexList ∧
    ((seh.updateCurForm n).1.formDepth = -1 ↔ (seh.updateCurForm n).1.curFormPos = -1) ∧
    ((seh.updateCurForm n).1.curFormPos ≠ -1 → 0 ≤ (seh.updateCurForm n).1.formDepth) ∧
    -1 ≤ (seh.updateCurForm n).1.curFormPos ∧
    (∀ (P : Parsers) (p : Processor) (cmpAttrs : ComponentAttrs) (m : Node),
      -1 ≤ (p.walk P cmpAttrs m).st.curFormPos) ∧
    (∀ (P : Parsers) (kids : List Node) (s : stdElementHandler), -1 ≤ s.curFormPos →
      -1 ≤ ((ctrlBlockWalker P).WalkChildren kids s).st.curFormPos) := by
  obtain ⟨h1, h2, h3⟩ := updateCurForm_start seh n
  obtain ⟨_, hidx, _⟩ := updateCurForm_frame seh n
  refine ⟨?_, hidx, ?_, ?_, h2 hstate, ?_, ?_⟩
  · rw [hidx]
    exact h3 hstate hok
  · unfold stdElementHandler.formDepth
    rw [hidx]
    by_cases hc : (seh.updateCurForm n).1.curFormPos = -1
    · simp [hc]
    · simp only [hc, if_false, iff_false]
      have h4 := h3 hstate hok
      rcases h4 with h | h
      · exact absurd h hc
      · omega
  · intro hc
    unfold stdElementHandler.formDepth
    rw [hidx]
    simp only [hc, if_false]
    have h4 := h3 hstate hok
    rcases h4 with h | h
    · exact absurd h hc
    · omega
  · intro P p cmpAttrs m
    exact componentWalker_form_start P m.Children 0 _ (by simp)
  · intro P kids s hs
    exact ctrlBlockWalker_form_start P kids 0 s hs

/-- Witness of C32: at the first child of a form that is a top-level element,
the start of the form is 1; `updateCurForm` on a `<div>` returns no error and
leaves the start of the form at 1, within the path of length 2; the form depth
is 1. -/
theorem form_start_within_path_witness :
    insideTopLevelForm.curFormPos = 1 ∧
    (insideTopLevelForm.updateCurForm (plainElement "div" .Other [] {} [])).2 = none ∧
    (insideTopLevelForm.updateCurForm (plainElement "div" .Other [] {} [])).1.curFormPos = 1 ∧
    (insideTopLevelForm.updateCurForm (plainElement "div" .Other [] {} [])).1.formDepth = 1 ∧
    (((insideTopLevelForm.updateCurForm
          (plainElement "div" .Other [] {} [])).1.curFormPos = -1 ∨
        (0 ≤ (insideTopLevelForm.updateCurForm
            (plainElement "div" .Other [] {} [])).1.curFormPos ∧
          (insideTopLevelForm.updateCurForm
              (plainElement "div" .Other [] {} [])).1.curFormPos
            ≤ ((insideTopLevelForm.updateCurForm
                (plainElement "div" .Other [] {} [])).1.indexList.length : Int))) ∧
    (insideTopLevelForm.updateCurForm (plainElement "div" .Other [] {} [])).1.indexList
      = insideTopLevelForm.indexList ∧
    ((insideTopLevelForm.updateCurForm (plainElement "div" .Other [] {} [])).1.formDepth = -1 ↔
      (insideTopLevelForm.updateCurForm
        (plainElement "div" .Other [] {} [])).1.curFormPos = -1) ∧
    ((insideTopLevelForm.updateCurForm (plainElement "div" .Other [] {} [])).1.curFormPos ≠ -1 →
      0 ≤ (insideTopLevelForm.updateCurForm
        (plainElement "div" .Other [] {} [])).1.formDepth) ∧
    -1 ≤ (insideTopLevelForm.updateCurForm
        (plainElement "div" .Other [] {} [])).1.curFormPos ∧
    (∀ (P : Parsers) (p : Processor) (cmpAttrs : ComponentAttrs) (m : Node),
      -1 ≤ (p.walk P cmpAttrs m).st.curFormPos) ∧
    (∀ (P : Parsers) (kids : List Node) (s : stdElementHandler), -1 ≤ s.curFormPos →
      -1 ≤ ((ctrlBlockWalker P).WalkChildren kids s).st.curFormPos)) :=
  ⟨rfl, rfl, rfl, rfl,
   form_start_within_path insideTopLevelForm (plainElement "div" .Other [] {} [])
     (by decide) rfl⟩

/-- A loop of `controllerProcessor.Process` that ends without error leaves the
entries the table had as they were. -/
theorem controller_insertAll_keeps_value (handlers : Option (StrMap Handler)) :
    ∀ (parsed : List HandlerSpec) (m : StrMap ControllerMethod) (k : String)
      (cm : ControllerMethod),
      (controllerProcessor.insertAll handlers parsed m).2 = none →
      m.lookup k = some cm →
      (controllerProcessor.insertAll handlers parsed m).1.lookup k = some cm := by
  intro parsed
  induction parsed with
  | nil => intro m k cm _ h; simpa [controllerProcessor.insertAll] using h
  | cons raw rest ih =>
    intro m k cm hok h
    rw [controller_insertAll_cons] at hok ⊢
    split at hok
    · simp at hok
    · rename_i hdup
      simp only [hdup, if_false]
      simp only [Bool.or_eq_true, not_or, Bool.not_eq_true] at hdup
      apply ih _ k cm hok
      rw [lookup_mapSet]
      have hk : k ≠ raw.Name := by
        intro hk
        rw [hk] at h
        rw [h] at hdup
        simp at hdup
      simp [hk, h]

/-- A loop of `controllerProcessor.Process` that ends without error has stored
every declaration under its name, with the parameters and the result type of
the declaration and with `CanCapture = canCapture(params)`. -/
theorem controller_insertAll_stored (handlers : Option (StrMap Handler)) :
    ∀ (parsed : List HandlerSpec) (m : StrMap ControllerMethod),
      (controllerProcessor.insertAll handlers parsed m).2 = none →
      ∀ raw ∈ parsed,
        (controllerProcessor.insertAll handlers parsed m).1.lookup raw.Name
          = some { Handler := { Params := raw.Params, Returns := raw.Returns },
                   CanCapture := canCapture raw.Params } := by
  intro parsed
  induction parsed with
  | nil => intro m _ raw hr; cases hr
  | cons r rest ih =>
    intro m hok raw hr
    rw [controller_insertAll_cons] at hok ⊢
    split at hok
    · simp at hok
    · rename_i hdup
      simp only [hdup, if_false]
      rcases List.mem_cons.1 hr with rfl | hr
      · apply controller_insertAll_keeps_value _ _ _ _ _ hok
        rw [lookup_mapSet]
        simp
      · exact ih _ hok raw hr

/-- A loop of `handlersProcessor.Process` that ends without error leaves the
entries the table had as they were. -/
theorem handlers_insertAll_keeps_value (controller : Option (StrMap ControllerMethod)) :
    ∀ (parsed : List HandlerSpec) (m : StrMap Handler) (k : String) (h : Handler),
      (handlersProcessor.insertAll controller parsed m).2 = none →
      m.lookup k = some h →
      (handlersProcessor.insertAll controller parsed m).1.lookup k = some h := by
  intro parsed
  induction parsed with
  | nil => intro m k h _ hl; simpa [handlersProcessor.insertAll] using hl
  | cons raw rest ih =>
    intro m k h hok hl
    rw [handlers_insertAll_cons] at hok ⊢
    split at hok
    · simp at hok
    · rename_i hdup
      simp only [hdup, if_false]
      split at hok
      · simp at hok
      · rename_i hcan
        simp only [hcan, if_false]
        simp only [Bool.or_eq_true, not_or, Bool.not_eq_true] at hdup
        apply ih _ k h hok
        rw [lookup_mapSet]
        have hk : k ≠ raw.Name := by
          intro hk
          rw [hk] at hl
          rw [hl] at hdup
          simp at hdup
        simp [hk, hl]

/-- A loop of `handlersProcessor.Process` that ends without error has stored
every declaration under its name, with the parameters and the result type of
the declaration. -/
theorem handlers_insertAll_stored (controller : Option (StrMap ControllerMethod)) :
    ∀ (parsed : List HandlerSpec) (m : StrMap Handler),
      (handlersProcessor.insertAll controller parsed m).2 = none →
      ∀ raw ∈ parsed,
        (handlersProcessor.insertAll controller parsed m).1.lookup raw.Name
          = some { Params := raw.Params, Returns := raw.Returns } := by
  intro parsed
  induction parsed with
  | nil => intro m _ raw hr; cases hr
  | cons r rest ih =>
    intro m hok raw hr
    rw [handlers_insertAll_cons] at hok ⊢
    split at hok
    · simp at hok
    · rename_i hdup
      simp only [hdup, if_false]
      split at hok
      · simp at hok
      · rename_i hcan
        simp only [hcan, if_false]
        rcases List.mem_cons.1 hr with rfl | hr
        · apply handlers_insertAll_keeps_value _ _ _ _ _ hok
          rw [lookup_mapSet]
          simp
        · exact ih _ hok raw hr

/-- When `controllerProcessor.Process` returns no error, the element had plain
text that parsed, and every method declared there is in the table `Controller`
under its name, with its parameters, its result type and
`CanCapture = canCapture(params)`. -/
theorem controllerProcessor_stores (P : Parsers) (n : Node)
    (inner : componentElementHandler → WalkResult componentElementHandler)
    (cp : componentElementHandler)
    (hok : (controllerProcessor.Process P n inner cp).err = none) :
    ∃ text parsed, plainTextContent n = .ok text ∧ P.ParseHandlers text = .ok parsed ∧
      ∀ raw ∈ parsed,
        mapGet (controllerProcessor.Process P n inner cp).st.c.Controller raw.Name
          = some { Handler := { Params := raw.Params, Returns := raw.Returns },
                   CanCapture := canCapture raw.Params } := by
  rcases controllerProcessor_cases P n inner cp with ⟨h, _⟩ |
      ⟨_, _, text, parsed, hpt, hparse, hins, _, hst, _⟩
  · exact absurd hok h
  · refine ⟨text, parsed, hpt, hparse, ?_⟩
    intro raw hr
    rw [hst]
    exact controller_insertAll_stored _ _ _ hins raw hr

/-- When `handlersProcessor.Process` returns no error, the element had plain
text that parsed, and every handler declared there is in the table `Handlers`
under its name, with its parameters and its result type. -/
theorem handlersProcessor_stores (P : Parsers) (n : Node)
    (inner : componentElementHandler → WalkResult componentElementHandler)
    (hp : componentElementHandler)
    (hok : (handlersProcessor.Process P n inner hp).err = none) :
    ∃ text parsed, plainTextContent n = .ok text ∧ P.ParseHandlers text = .ok parsed ∧
      ∀ raw ∈ parsed,
        mapGet (handlersProcessor.Process P n inner hp).st.c.Handlers raw.Name
          = some { Params := raw.Params, Returns := raw.Returns } := by
  rcases handlersProcessor_cases P n inner hp with ⟨h, _⟩ |
      ⟨_, _, text, parsed, hpt, hparse, hins, _, hst, _⟩
  · exact absurd hok h
  · refine ⟨text, parsed, hpt, hparse, ?_⟩
    intro raw hr
    rw [hst]
    exact handlers_insertAll_stored _ _ _ hins raw hr

/-- At a direct child of the component that has no controller yet,
`controllerProcessor.Process` returns no error on plain text that parses into
declarations with distinct names, none of them the name of a handler, whatever
the parameter types are. -/
theorem controllerProcessor_accepts (P : Parsers) (n : Node)
    (inner : componentElementHandler → WalkResult componentElementHandler)
    (cp : componentElementHandler) (text : String) (parsed : List HandlerSpec)
    (hlen : cp.indexList.length = 1) (hpt : plainTextContent n = .ok text)
    (hC : cp.c.Controller = none) (hparse : P.ParseHandlers text = .ok parsed)
    (hnd : (parsed.map (fun r => r.Name)).Nodup)
    (hfresh : ∀ raw ∈ parsed, (mapGet cp.c.Handlers raw.Name).isSome = false) :
    (controllerProcessor.Process P n inner cp).err = none := by
  have hins := controller_insertAll_fresh cp.c.Handlers parsed [] hnd
    (fun raw hr => ⟨rfl, hfresh raw hr⟩)
  unfold controllerProcessor.Process
  simp only [hlen, hpt, hC, hparse]
  cases hres : controllerProcessor.insertAll cp.c.Handlers parsed [] with
  | mk m e =>
    rw [hres] at hins
    simp only at hins
    subst hins
    simp

/-- C14.  `canCapture(params)` is true iff the type kind of every parameter
is `int`, `string` or `bool`, and it is true for the empty list.
`handlersProcessor.Process` returns an error whenever the text holds a
declaration for which it is false; when it returns no error every declared
handler is stored in `Handlers` under its name with its parameters and result
type, and every handler in the table `Handlers` of an analysed component has
only such parameters.  `controllerProcessor.Process` accepts declarations of
any parameter types: at a direct child of a component without a controller it
returns no error on text that parses into declarations with distinct names
that are not names of handlers, its loop fails only with the duplicate-name
error, and when it returns no error every declared method is stored in
`Controller` under its name with its parameters, its result type and
`CanCapture = canCapture(params)`; every method in `Controller` of an analysed
component carries `CanCapture = canCapture(params)`. -/
theorem canCapture_restricts_handlers_only (P : Parsers) (p : Processor) (el : Node)
    (cmpAttrs : ComponentAttrs)
    (hattrs : el.Ext.Component = .ok cmpAttrs) (hname : cmpAttrs.Name.length ≠ 0) :
    (∀ params : List Param, canCapture params = true ↔
      ∀ q ∈ params, q.Typ.Kind = .IntType ∨ q.Typ.Kind = .StringType ∨ q.Typ.Kind = .BoolType) ∧
    canCapture [] = true ∧
    (∀ (n : Node) (inner : componentElementHandler → WalkResult componentElementHandler)
      (s : componentElementHandler) (text : String) (parsed : List HandlerSpec),
      plainTextContent n = .ok text → P.ParseHandlers text = .ok parsed →
      (∃ raw ∈ parsed, canCapture raw.Params = false) →
      (handlersProcessor.Process P n inner s).err ≠ none) ∧
    (∃ cmp, (Processor.Process P p el).cmp = some cmp ∧
      (∀ name h, mapGet cmp.Handlers name = some h → canCapture h.Params = true) ∧
      (∀ name cm, mapGet cmp.Controller name = some cm →
        cm.CanCapture = canCapture cm.Handler.Params)) ∧
    (∀ (n : Node) (inner : componentElementHandler → WalkResult componentElementHandler)
      (s : componentElementHandler),
      (controllerProcessor.Process P n inner s).err = none →
      ∃ text parsed, plainTextContent n = .ok text ∧ P.ParseHandlers text = .ok parsed ∧
        ∀ raw ∈ parsed,
          mapGet (controllerProcessor.Process P n inner s).st.c.Controller raw.Name
            = some { Handler := { Params := raw.Params, Returns := raw.Returns },
                     CanCapture := canCapture raw.Params }) ∧
    (∀ (n : Node) (inner : componentElementHandler → WalkResult componentElementHandler)
      (s : componentElementHandler) (text : String) (parsed : List HandlerSpec),
      s.indexList.length = 1 → plainTextContent n = .ok text → s.c.Controller = none →
      P.ParseHandlers text = .ok parsed → (parsed.map (fun r => r.Name)).Nodup →
      (∀ raw ∈ parsed, (mapGet s.c.Handlers raw.Name).isSome = false) →
      (controllerProcessor.Process P n inner s).err = none) ∧
    (∀ (n : Node) (inner : componentElementHandler → WalkResult componentElementHandler)
      (s : componentElementHandler),
      (handlersProcessor.Process P n inner s).err = none →
      ∃ text parsed, plainTextContent n = .ok text ∧ P.ParseHandlers text = .ok parsed ∧
        ∀ raw ∈ parsed,
          mapGet (handlersProcessor.Process P n inner s).st.c.Handlers raw.Name
            = some { Params := raw.Params, Returns := raw.Returns }) ∧
    (∀ (handlers : Option (StrMap Handler)) (parsed : List HandlerSpec)
      (m : StrMap ControllerMethod),
      (∀ msg, (controllerProcessor.insertAll handlers parsed m).2 = some msg →
        ∃ raw ∈ parsed, msg = ": duplicate handler name: " ++ raw.Name) ∧
      ((parsed.map (fun r => r.Name)).Nodup →
        (∀ raw ∈ parsed, (m.lookup raw.Name).isSome = false ∧
          (mapGet handlers raw.Name).isSome = false) →
        (controllerProcessor.insertAll handlers parsed m).2 = none) ∧
      (∀ name cm, (controllerProcessor.insertAll handlers parsed m).1.lookup name = some cm →
        m.lookup name = some cm ∨
          ∃ raw ∈ parsed, raw.Name = name ∧
            cm = { Handler := { Params := raw.Params, Returns := raw.Returns },
                   CanCapture := canCapture raw.Params })) := by
  refine ⟨canCapture_iff, rfl, ?_, ?_,
    fun n inner s hok => controllerProcessor_stores P n inner s hok,
    fun n inner s text parsed h1 h2 h3 h4 h5 h6 =>
      controllerProcessor_accepts P n inner s text parsed h1 h2 h3 h4 h5 h6,
    fun n inner s hok => handlersProcessor_stores P n inner s hok, ?_⟩
  · intro n inner s text parsed hpt hparse hbad
    rcases handlersProcessor_cases P n inner s with ⟨h, _⟩ |
        ⟨_, _, text2, parsed2, hpt2, hparse2, hok, _⟩
    · exact h
    · exfalso
      rw [hpt] at hpt2
      cases hpt2
      rw [hparse] at hparse2
      cases hparse2
      obtain ⟨raw, hraw, hcan⟩ := hbad
      have := (handlers_insertAll_ok _ _ _ hok raw hraw).1
      rw [hcan] at this
      cases this
  · obtain ⟨cmp, hcmp, _, _, hH, hC, _⟩ := process_cmp_fields P p el cmpAttrs hattrs hname
    have hw := walk_tables_typed P el.Children 0
      { syms := { p.syms with CurHost := {} }, indexList := [],
        b := (p.newComponent P cmpAttrs).Block, curFormPos := -1, curForm := none,
        c := p.newComponent P cmpAttrs }
      ⟨by intro name h hl; simp [Processor.newComponent, mapGet] at hl,
       by intro name cm hl; simp [Processor.newComponent, mapGet] at hl⟩
    refine ⟨cmp, hcmp, ?_, ?_⟩
    · intro name h hl
      rw [hH] at hl
      exact hw.1 name h hl
    · intro name cm hl
      rw [hC] at hl
      exact hw.2 name cm hl
  · intro handlers parsed m
    refine ⟨fun msg h => controller_insertAll_error handlers parsed m msg h,
      controller_insertAll_fresh handlers parsed m, ?_⟩
    intro name cm hl
    rcases controller_insertAll_entries _ _ _ _ _ hl with h | ⟨_, h⟩
    · exact Or.inl h
    · exact Or.inr h

/-- Witness of C14: `<a:controller>f() g(v Vec)</a:controller>` is accepted
although the parameter of `g` is neither `int`, `string` nor `bool`, and the
table `Controller` then holds `f` with `CanCapture = true` and `g` with its
parameter and `CanCapture = false`, as does the table of the component
`<a:controller>g(v Vec)</a:controller><a:handlers>f()</a:handlers>`; the same
text in `<a:handlers>` is rejected. -/
theorem canCapture_restricts_handlers_only_witness :
    (handlersProcessor.Process declarationParsers (handlersElement "f() g(v Vec)") noWalk
      atDirectChild).err
      = some ": handlers must only use int, string and bool as parameter types" ∧
    (controllerProcessor.Process declarationParsers (controllerElement "f() g(v Vec)") noWalk
      atDirectChild).err = none ∧
    mapGet (controllerProcessor.Process declarationParsers (controllerElement "f() g(v Vec)")
      noWalk atDirectChild).st.c.Controller "f"
      = some { Handler := { Params := [], Returns := none }, CanCapture := true } ∧
    mapGet (controllerProcessor.Process declarationParsers (controllerElement "f() g(v Vec)")
      noWalk atDirectChild).st.c.Controller "g"
      = some { Handler := { Params := [{ Name := "v", Typ := { Kind := .OtherType } }],
                            Returns := none },
               CanCapture := false } ∧
    (Processor.Process declarationParsers exampleProcessor
        (componentElement "C" [controllerElement "g(v Vec)", handlersElement "f()"])).cmp.map
        (fun c => mapGet c.Controller "g")
      = some (some { Handler := { Params := [{ Name := "v", Typ := { Kind := .OtherType } }],
                                  Returns := none },
                     CanCapture := false }) ∧
    ((∀ params : List Param, canCapture params = true ↔
      ∀ q ∈ params, q.Typ.Kind = .IntType ∨ q.Typ.Kind = .StringType ∨ q.Typ.Kind = .BoolType) ∧
    canCapture [] = true ∧
    (∀ (n : Node) (inner : componentElementHandler → WalkResult componentElementHandler)
      (s : componentElementHandler) (text : String) (parsed : List HandlerSpec),
      plainTextContent n = .ok text → declarationParsers.ParseHandlers text = .ok parsed →
      (∃ raw ∈ parsed, canCapture raw.Params = false) →
      (handlersProcessor.Process declarationParsers n inner s).err ≠ none) ∧
    (∃ cmp, (Processor.Process declarationParsers exampleProcessor
        (componentElement "C" [controllerElement "g(v Vec)", handlersElement "f()"])).cmp
          = some cmp ∧
      (∀ name h, mapGet cmp.Handlers name = some h → canCapture h.Params = true) ∧
      (∀ name cm, mapGet cmp.Controller name = some cm →
        cm.CanCapture = canCapture cm.Handler.Params)) ∧
    (∀ (n : Node) (inner : componentElementHandler → WalkResult componentElementHandler)
      (s : componentElementHandler),
      (controllerProcessor.Process declarationParsers n inner s).err = none →
      ∃ text parsed, plainTextContent n = .ok text ∧ declarationParsers.ParseHandlers text = .ok parsed ∧
        ∀ raw ∈ parsed,
          mapGet (controllerProcessor.Process declarationParsers n inner s).st.c.Controller raw.Name
            = some { Handler := { Params := raw.Params, Returns := raw.Returns },
                     CanCapture := canCapture raw.Params }) ∧
    (∀ (n : Node) (inner : componentElementHandler → WalkResult componentElementHandler)
      (s : componentElementHandler) (text : String) (parsed : List HandlerSpec),
      s.indexList.length = 1 → plainTextContent n = .ok text → s.c.Controller = none →
      declarationParsers.ParseHandlers text = .ok parsed → (parsed.map (fun r => r.Name)).Nodup →
      (∀ raw ∈ parsed, (mapGet s.c.Handlers raw.Name).isSome = false) →
      (controllerProcessor.Process declarationParsers n inner s).err = none) ∧
    (∀ (n : Node) (inner : componentElementHandler → WalkResult componentElementHandler)
      (s : componentElementHandler),
      (handlersProcessor.Process declarationParsers n inner s).err = none →
      ∃ text parsed, plainTextContent n = .ok text ∧ declarationParsers.ParseHandlers text = .ok parsed ∧
        ∀ raw ∈ parsed,
          mapGet (handlersProcessor.Process declarationParsers n inner s).st.c.Handlers raw.Name
            = some { Params := raw.Params, Returns := raw.Returns }) ∧
    (∀ (handlers : Option (StrMap Handler)) (parsed : List HandlerSpec)
      (m : StrMap ControllerMethod),
      (∀ msg, (controllerProcessor.insertAll handlers parsed m).2 = some msg →
        ∃ raw ∈ parsed, msg = ": duplicate handler name: " ++ raw.Name) ∧
      ((parsed.map (fun r => r.Name)).Nodup →
        (∀ raw ∈ parsed, (m.lookup raw.Name).isSome = false ∧
          (mapGet handlers raw.Name).isSome = false) →
        (controllerProcessor.insertAll handlers parsed m).2 = none) ∧
      (∀ name cm, (controllerProcessor.insertAll handlers parsed m).1.lookup name = some cm →
        m.lookup name = some cm ∨
          ∃ raw ∈ parsed, raw.Name = name ∧
            cm = { Handler := { Params := raw.Params, Returns := raw.Returns },
                   CanCapture := canCapture raw.Params }))) :=
  ⟨by decide, by decide, by decide, by decide, by decide,
   canCapture_restricts_handlers_only declarationParsers exampleProcessor
     (componentElement "C" [controllerElement "g(v Vec)", handlersElement "f()"])
     { Name := "C" } rfl (by decide)⟩

/-- `Nat.toDigitsCore` returns a non-empty list when it is given one. -/
theorem toDigitsCore_ne_nil : ∀ (fuel n : Nat) (ds : List Char), ds ≠ [] →
    Nat.toDigitsCore 10 fuel n ds ≠ []
  | 0, n, ds, h => by
    rw [Nat.toDigitsCore]
    exact h
  | fuel + 1, n, ds, h => by
    rw [Nat.toDigitsCore]
    split
    · exact List.cons_ne_nil _ _
    · exact toDigitsCore_ne_nil fuel (n / 10) _ (List.cons_ne_nil _ _)

/-- The decimal representation of a natural number is not empty. -/
theorem toString_ne_nil (n : Nat) : (toString n).data ≠ [] := by
  show Nat.toDigits 10 n ≠ []
  unfold Nat.toDigits
  rw [Nat.toDigitsCore]
  split
  · exact List.cons_ne_nil _ _
  · exact toDigitsCore_ne_nil n (n / 10) _ (List.cons_ne_nil _ _)

/-- The decimal representation of an integer that is not negative is the one
of the natural number. -/
theorem toString_ofNat (m : Nat) : (toString (Int.ofNat m)).data = (toString m).data := rfl

/-- The decimal representation of a negative integer is a minus sign followed
by the digits of its absolute value. -/
theorem toString_negSucc (m : Nat) :
    (toString (Int.negSucc m)).data = '-' :: (toString (m + 1)).data := rfl

/-- The decimal representation of an integer, followed by a hyphen,
determines the integer. -/
theorem int_eq_before_hyphen (i j : Int) (r₁ r₂ : List Char)
    (h : (toString i).data ++ '-' :: r₁ = (toString j).data ++ '-' :: r₂) : i = j := by
  have hhead : ∀ (m : Nat) (l r : List Char), (toString m).data ++ r ≠ '-' :: l := by
    intro m l r heq
    cases hd : (toString m).data with
    | nil => exact toString_ne_nil m hd
    | cons c rest =>
      rw [hd] at heq
      simp only [List.cons_append, List.cons.injEq] at heq
      have hc : c ∈ (toString m).data := by rw [hd]; exact List.mem_cons_self _ _
      rw [heq.1] at hc
      exact toString_no_hyphen m hc
  cases i with
  | ofNat m =>
    cases j with
    | ofNat k =>
      rw [toString_ofNat, toString_ofNat] at h
      have h5 := eq_before_hyphen _ _ _ _ (toString_no_hyphen _) (toString_no_hyphen _) h
      have h6 := congrArg decimalValue h5
      rw [decimalValue_toString, decimalValue_toString] at h6
      rw [h6]
    | negSucc k =>
      rw [toString_ofNat, toString_negSucc] at h
      exact absurd h (hhead m _ _)
  | negSucc m =>
    cases j with
    | ofNat k =>
      rw [toString_ofNat, toString_negSucc] at h
      exact absurd h.symm (hhead k _ _)
    | negSucc k =>
      rw [toString_negSucc, toString_negSucc] at h
      simp only [List.cons_append, List.cons.injEq, true_and] at h
      have h5 := eq_before_hyphen _ _ _ _ (toString_no_hyphen _) (toString_no_hyphen _) h
      have h6 := congrArg decimalValue h5
      rw [decimalValue_toString, decimalValue_toString] at h6
      have : m = k := by omega
      rw [this]

/-- The value of Go `int` arithmetic lies in the range of `int`, and it is the
exact result when that lies in the range. -/
theorem goInt_wrap_range (x : Int) :
    goInt.inRange (goInt.wrap x) ∧ (goInt.inRange x → goInt.wrap x = x) := by
  unfold goInt.wrap goInt.inRange
  constructor
  · omega
  · intro h
    omega

/-- An increment in Go `int` arithmetic changes the value. -/
theorem goInt_wrap_succ (x : Int) : goInt.wrap (x + 1) ≠ x := by
  unfold goInt.wrap
  omega

/-- Two values of Go `int` that differ still differ after an increment. -/
theorem goInt_wrap_injective (x y : Int) (hx : goInt.inRange x) (hy : goInt.inRange y)
    (h : goInt.wrap (x + 1) = goInt.wrap (y + 1)) : x = y := by
  unfold goInt.wrap at h
  unfold goInt.inRange at hx hy
  omega

/-- The synthesised id determines the counter after the increment. -/
theorem componentID_counter (P Q : Parsers) (p q : Processor) (a b : ComponentAttrs)
    (h : p.componentID P a = q.componentID Q b) :
    goInt.wrap (p.counter + 1) = goInt.wrap (q.counter + 1) := by
  unfold Processor.componentID at h
  have h2 := congrArg String.data h
  simp only [String.data_append] at h2
  rw [List.append_assoc, List.append_assoc, List.append_assoc, List.append_assoc] at h2
  have h3 := List.append_cancel_left h2
  exact int_eq_before_hyphen _ _ _ _ h3

/-- C23 (amended).  Synthesised component id.  For an `<a:component>` with
non-empty name `N`, processed when the counter holds `c`,
`Processor.Process` increments the counter once in Go `int` arithmetic: the
counter is left at `c + 1` when that is a value of `int`, and at
-9223372036854775808 when `c` is 9223372036854775807; it is never left at `c`.
The `ID` of the component, and the `id` attribute of the replacement
template, are `askew-component-` followed by the decimal of the counter after
the increment, a hyphen and `strings.ToLower(N)`.  The id determines the
counter after the increment, so a component processed next gets a different
id, and so do components processed with different counters.  If the name is
missing, or the attributes are not collected, the call fails and the
processor, its counter included, is unchanged. -/
theorem process_synthesises_id (P : Parsers) (p : Processor) (n : Node)
    (cmpAttrs : ComponentAttrs) (hattrs : n.Ext.Component = .ok cmpAttrs)
    (hname : cmpAttrs.Name.length ≠ 0) :
    (Processor.Process P p n).p.counter = goInt.wrap (p.counter + 1) ∧
    goInt.inRange (Processor.Process P p n).p.counter ∧
    (Processor.Process P p n).p.counter ≠ p.counter ∧
    (goInt.inRange (p.counter + 1) → (Processor.Process P p n).p.counter = p.counter + 1) ∧
    (p.counter = 9223372036854775807 →
      (Processor.Process P p n).p.counter = -9223372036854775808) ∧
    (∃ cmp tmpl, (Processor.Process P p n).cmp = some cmp ∧
      (Processor.Process P p n).replacement = some tmpl ∧
      cmp.Name = cmpAttrs.Name ∧
      cmp.ID = "askew-component-" ++ toString (Processor.Process P p n).p.counter ++ "-"
        ++ strings.ToLower P.ToLower cmpAttrs.Name ∧
      cmp.Template = tmpl ∧
      tmpl.Attr = [{ Key := "id", Val := cmp.ID }] ∧
      attributes.Val tmpl.Attr "id" = cmp.ID ∧
      (∀ (m : Node) (a : ComponentAttrs), m.Ext.Component = .ok a → a.Name.length ≠ 0 →
        ∃ cmp2, (Processor.Process P (Processor.Process P p n).p m).cmp = some cmp2 ∧
          cmp2.ID ≠ cmp.ID)) ∧
    (∀ (q : Processor) (b : ComponentAttrs), goInt.inRange p.counter →
      goInt.inRange q.counter → q.counter ≠ p.counter →
      q.componentID P b ≠ p.componentID P cmpAttrs) ∧
    (∀ m : Node, (∀ a, m.Ext.Component = .ok a → a.Name.length = 0) →
      (Processor.Process P p m).err ≠ none ∧ (Processor.Process P p m).p = p) := by
  have hid : ∀ (q : Processor) (m : Node) (a : ComponentAttrs), m.Ext.Component = .ok a →
      a.Name.length ≠ 0 →
      (Processor.Process P q m).p.counter = goInt.wrap (q.counter + 1) ∧
      ∃ cmp tmpl, (Processor.Process P q m).cmp = some cmp ∧
        (Processor.Process P q m).replacement = some tmpl ∧
        cmp.Name = a.Name ∧ cmp.ID = q.componentID P a ∧ cmp.Template = tmpl ∧
        tmpl.Attr = [{ Key := "id", Val := cmp.ID }] := by
    intro q m a ha hn
    obtain ⟨h1, h2, _, _⟩ := walk_keeps_identity P m.Children 0
      { syms := { q.syms with CurHost := {} }, indexList := [],
        b := (q.newComponent P a).Block, curFormPos := -1, curForm := none,
        c := q.newComponent P a }
    obtain ⟨_, hrep, _, hcmp, hcnt, _⟩ := process_ok_eq P q m a ha hn
    refine ⟨hcnt, _, _, hcmp, hrep, h2, h1, rfl, ?_⟩
    have h3 : ((q.newTemplate P a).setChildren (q.walk P a m).nodes).Attr
        = [{ Key := "id", Val := q.componentID P a }] := rfl
    rw [h3]
    congr 2
    exact h1.symm
  obtain ⟨hc, cmp, tmpl, hcmp, hrep, hnm, hi, htm, hat⟩ := hid p n cmpAttrs hattrs hname
  refine ⟨hc, ?_, ?_, ?_, ?_, ⟨cmp, tmpl, hcmp, hrep, hnm, ?_, htm, hat, ?_, ?_⟩, ?_, ?_⟩
  · rw [hc]
    exact (goInt_wrap_range _).1
  · rw [hc]
    exact goInt_wrap_succ _
  · intro hr
    rw [hc]
    exact (goInt_wrap_range _).2 hr
  · intro hmax
    rw [hc, hmax]
    decide
  · rw [hi, hc]
    rfl
  · rw [hat]
    simp [attributes.Val]
  · intro m a ha hn
    obtain ⟨hc2, cmp2, _, hcmp2, _, _, hi2, _⟩ := hid (Processor.Process P p n).p m a ha hn
    refine ⟨cmp2, hcmp2, ?_⟩
    rw [hi2, hi]
    intro heq
    have h5 := componentID_counter _ _ _ _ _ _ heq
    rw [hc] at h5
    exact goInt_wrap_succ _ h5
  · intro q b hp hq hne heq
    exact hne (goInt_wrap_injective _ _ hq hp (componentID_counter _ _ _ _ _ _ heq))
  · intro m hm
    unfold Processor.Process
    cases hc2 : m.Ext.Component with
    | error msg => simp
    | ok a => simp [hm a hc2]

/-- Witness of C23: with the counter at 0 the component `C` gets the id
`askew-component-1-c` and the counter is left at 1; with the counter at 6 the
component `ÄB` gets the id `askew-component-7-äb`. -/
theorem process_synthesises_id_witness :
    (Processor.Process exampleParsers exampleProcessor (componentElement "C" [])).p.counter = 1 ∧
    (Processor.Process exampleParsers exampleProcessor (componentElement "C" [])).cmp.map
      (fun c => c.ID) = some "askew-component-1-c" ∧
    (Processor.Process exampleParsers exampleProcessor
      (componentElement "C" [])).replacement.map (fun t => t.Attr)
      = some [{ Key := "id", Val := "askew-component-1-c" }] ∧
    (Processor.Process exampleParsers { syms := exampleSymbols, counter := 6 }
      (componentElement "ÄB" [])).cmp.map (fun c => c.ID) = some "askew-component-7-äb" ∧
    (componentElement "C" []).Ext.Component = .ok { Name := "C" } ∧
    ({ Name := "C" } : ComponentAttrs).Name.length ≠ 0 ∧
    ((Processor.Process exampleParsers exampleProcessor (componentElement "C" [])).p.counter
      = goInt.wrap (exampleProcessor.counter + 1) ∧
    goInt.inRange
      (Processor.Process exampleParsers exampleProcessor (componentElement "C" [])).p.counter ∧
    (Processor.Process exampleParsers exampleProcessor (componentElement "C" [])).p.counter
      ≠ exampleProcessor.counter ∧
    (goInt.inRange (exampleProcessor.counter + 1) →
      (Processor.Process exampleParsers exampleProcessor (componentElement "C" [])).p.counter
        = exampleProcessor.counter + 1) ∧
    (exampleProcessor.counter = 9223372036854775807 →
      (Processor.Process exampleParsers exampleProcessor (componentElement "C" [])).p.counter
        = -9223372036854775808) ∧
    (∃ cmp tmpl, (Processor.Process exampleParsers exampleProcessor
        (componentElement "C" [])).cmp = some cmp ∧
      (Processor.Process exampleParsers exampleProcessor
        (componentElement "C" [])).replacement = some tmpl ∧
      cmp.Name = ({ Name := "C" } : ComponentAttrs).Name ∧
      cmp.ID = "askew-component-"
        ++ toString (Processor.Process exampleParsers exampleProcessor
            (componentElement "C" [])).p.counter ++ "-"
        ++ strings.ToLower exampleParsers.ToLower ({ Name := "C" } : ComponentAttrs).Name ∧
      cmp.Template = tmpl ∧
      tmpl.Attr = [{ Key := "id", Val := cmp.ID }] ∧
      attributes.Val tmpl.Attr "id" = cmp.ID ∧
      (∀ (m : Node) (a : ComponentAttrs), m.Ext.Component = .ok a → a.Name.length ≠ 0 →
        ∃ cmp2, (Processor.Process exampleParsers
            (Processor.Process exampleParsers exampleProcessor (componentElement "C" [])).p
            m).cmp = some cmp2 ∧
          cmp2.ID ≠ cmp.ID)) ∧
    (∀ (q : Processor) (b : ComponentAttrs), goInt.inRange exampleProcessor.counter →
      goInt.inRange q.counter → q.counter ≠ exampleProcessor.counter →
      q.componentID exampleParsers b ≠ exampleProcessor.componentID exampleParsers { Name := "C" }) ∧
    (∀ m : Node, (∀ a, m.Ext.Component = .ok a → a.Name.length = 0) →
      (Processor.Process exampleParsers exampleProcessor m).err ≠ none ∧
      (Processor.Process exampleParsers exampleProcessor m).p = exampleProcessor)) :=
  ⟨by decide, by decide, by decide, by decide, rfl, by decide,
   process_synthesises_id exampleParsers exampleProcessor (componentElement "C" [])
     { Name := "C" } rfl (by decide)⟩

/-- Counterexample to C23 as stated: when the counter holds
9223372036854775807, the largest value of Go `int`, processing the component
`C` leaves the counter at -9223372036854775808, not at 9223372036854775808, and
the id is `askew-component--9223372036854775808-c`, not
`askew-component-9223372036854775808-c`. -/
theorem counter_wraps_at_largest_int :
    lastCounterProcessor.counter = 9223372036854775807 ∧
    (Processor.Process exampleParsers lastCounterProcessor (componentElement "C" [])).err
      = none ∧
    (Processor.Process exampleParsers lastCounterProcessor (componentElement "C" [])).p.counter
      = -9223372036854775808 ∧
    (Processor.Process exampleParsers lastCounterProcessor (componentElement "C" [])).p.counter
      ≠ lastCounterProcessor.counter + 1 ∧
    (Processor.Process exampleParsers lastCounterProcessor (componentElement "C" [])).cmp.map
      (fun c => c.ID) = some "askew-component--9223372036854775808-c" ∧
    (Processor.Process exampleParsers lastCounterProcessor (componentElement "C" [])).cmp.map
      (fun c => c.ID)
      ≠ some ("askew-component-" ++ toString (lastCounterProcessor.counter + 1) ++ "-c") := by
  refine ⟨rfl, ?_, ?_, ?_, ?_, ?_⟩ <;> decide

/-- The entries the loop of `processAssignments` stores are, the depth of the
form scope apart, the supplied ones with the given path, in their order: a
first part of them, and all of them when the loop ends without error. -/
theorem processAssignments_loop_entries (fd : Int) (cf : Option (StrMap formValue))
    (path : List Nat) :
    ∀ (arr assignments : List Assignment),
      ∃ added, (processAssignments.loop fd cf path arr assignments).1
          = assignments ++ added ∧
        added.map Assignment.entry
          <+: (arr.map (fun a => { a with Path := path })).map Assignment.entry ∧
        ((processAssignments.loop fd cf path arr assignments).2 = none →
          added.map Assignment.entry
            = (arr.map (fun a => { a with Path := path })).map Assignment.entry) := by
  intro arr
  induction arr with
  | nil =>
    intro assignments
    exact ⟨[], by simp [processAssignments.loop], by simp, fun _ => rfl⟩
  | cons a rest ih =>
    intro assignments
    unfold processAssignments.loop
    by_cases hk : a.Target.Kind = .BoundFormValue
    · rw [if_pos hk]
      by_cases hfd : fd = -1
      · rw [if_pos hfd]
        exact ⟨[], by simp, List.nil_prefix, fun h => by simp at h⟩
      · rw [if_neg hfd]
        simp only
        cases hg : mapGet cf a.Target.ID with
        | none => exact ⟨[], by simp, List.nil_prefix, fun h => by simp at h⟩
        | some v =>
          simp only
          obtain ⟨added, h1, h2, h3⟩ := ih (assignments ++
            [{ Expression := a.Expression, Path := path,
               Target := { a.Target with FormDepth := fd } }])
          refine ⟨_ :: added, by rw [h1, List.append_assoc]; rfl, ?_, ?_⟩
          · rw [List.map_cons, List.map_cons, List.map_cons]
            exact (List.prefix_cons_inj _).2 h2
          · intro h
            rw [List.map_cons, List.map_cons, List.map_cons, h3 h]
            rfl
    · rw [if_neg hk]
      obtain ⟨added, h1, h2, h3⟩ := ih (assignments ++ [{ a with Path := path }])
      refine ⟨_ :: added, by rw [h1, List.append_assoc]; rfl, ?_, ?_⟩
      · rw [List.map_cons, List.map_cons, List.map_cons]
        exact (List.prefix_cons_inj _).2 h2
      · intro h
        rw [List.map_cons, List.map_cons, List.map_cons, h3 h]

/-- The entries `processAssignments` stores are, the depth of the form scope
apart, the supplied ones with the given path: a first part of them, and all of
them when it returns no error.  The rest of the state is as before. -/
theorem processAssignments_entries (seh : stdElementHandler) (arr : List Assignment)
    (path : List Nat) :
    ∃ added, (seh.processAssignments arr path).1.b.Assignments = seh.b.Assignments ++ added ∧
      added.map Assignment.entry
        <+: (arr.map (fun a => { a with Path := path })).map Assignment.entry ∧
      ((seh.processAssignments arr path).2 = none →
        added.map Assignment.entry
          = (arr.map (fun a => { a with Path := path })).map Assignment.entry) ∧
      (seh.processAssignments arr path).1.indexList = seh.indexList := by
  unfold stdElementHandler.processAssignments
  simp only
  obtain ⟨added, h1, h2, h3⟩ := processAssignments_loop_entries
    (if seh.curFormPos ≠ -1 then (seh.indexList.length : Int) - seh.curFormPos else -1)
    seh.curForm path arr seh.b.Assignments
  exact ⟨added, h1, h2, h3, trivial⟩

/-- The embed processor never asks to descend. -/
theorem embedHandler_descend (P : Parsers) (seh : stdElementHandler) (n : Node) :
    (embedHandler P seh n).descend = false := by
  unfold embedHandler EmbedProcessor.Process
  simp only
  split
  · rfl
  · split_ifs <;> rfl

/-- What the handler of plain elements in a control block records for an
element: nothing if it returns an error before `processAssignments` or if the
element carries `a:if` or `a:for`; else the `a:assign` entries with the index
path, a first part of them if `processAssignments` fails.  It asks to descend
exactly when it returns no error and the element carries neither `a:if` nor
`a:for`. -/
theorem ctrlProcess_records (t : NodeType) (a : Atom) (d : String) (as : List Attribute)
    (e : Extracted) (kids : List Node)
    (inner : stdElementHandler → WalkResult stdElementHandler) (s : stdElementHandler)
    (ht : t = .ElementNode) (hd : d ∉ askewElementNames) :
    ∃ X, (ctrlBlockElementProcessor.Process (Node.mk t a d as e kids) inner s).st.b.Assignments
        = s.b.Assignments ++ X ∧
      X.map Assignment.entry
        <+: ((Node.mk t a d as e kids).ownAssignments s.indexList).map Assignment.entry ∧
      ((ctrlBlockElementProcessor.Process (Node.mk t a d as e kids) inner s).err = none →
        X.map Assignment.entry
          = ((Node.mk t a d as e kids).ownAssignments s.indexList).map Assignment.entry ∧
        (ctrlBlockElementProcessor.Process (Node.mk t a d as e kids) inner s).replacement
          = none ∧
        (ctrlBlockElementProcessor.Process (Node.mk t a d as e kids) inner s).descend
          = (Node.mk t a d as e kids).isOpen) := by
  subst ht
  have hd2 : d ≠ "a:text" := by
    intro h
    apply hd
    rw [h]
    decide
  obtain ⟨hb, hi, _⟩ := updateCurForm_frame s (Node.mk .ElementNode a d as e kids)
  have hown : ∀ attrs, e.General = .ok attrs →
      (Node.mk .ElementNode a d as e kids).ownAssignments s.indexList
        = if attrs.If.isSome ∨ attrs.For.isSome then []
          else attrs.Assign.map (fun x => { x with Path := s.indexList }) := by
    intro attrs hg
    simp only [Node.ownAssignments, Node.Typ, Node.Data, Node.Ext, hd2, hd, if_false, hg]
  have hopen : ∀ attrs, e.General = .ok attrs →
      (Node.mk .ElementNode a d as e kids).isOpen = !(attrs.If.isSome || attrs.For.isSome) := by
    intro attrs hg
    simp only [Node.isOpen, Node.Typ, Node.Data, Node.Ext, hd, if_false, hg]
  unfold ctrlBlockElementProcessor.Process
  split
  · rename_i s2 msg heq
    rw [heq] at hb
    simp only at hb
    exact ⟨[], by simp [hb], List.nil_prefix, fun h => by simp at h⟩
  · rename_i s2 heq
    rw [heq] at hb hi
    simp only at hb hi
    split
    · exact ⟨[], by simp [hb], List.nil_prefix, fun h => by simp at h⟩
    · rename_i attrs hg
      have hg2 : e.General = .ok attrs := hg
      split
      · exact ⟨[], by simp [hb], List.nil_prefix, fun h => by simp at h⟩
      · split
        · exact ⟨[], by simp [hb], List.nil_prefix, fun h => by simp at h⟩
        · rw [hown attrs hg2, hopen attrs hg2]
          unfold stdElementHandler.handleControlBlocksAndAssignments
          simp only
          split
          · exact ⟨[], by simp [hb], List.nil_prefix, fun h => by simp at h⟩
          · rename_i hboth
            split
            · rename_i blk hblk
              have hsome : attrs.If.isSome ∨ attrs.For.isSome := by
                cases hf : attrs.For with
                | some f => exact Or.inr rfl
                | none =>
                  rw [hf] at hblk
                  simp only at hblk
                  rw [hblk]
                  exact Or.inl rfl
              refine ⟨[], by simp [hb], List.nil_prefix, fun _ => ⟨?_, rfl, ?_⟩⟩
              · rw [if_pos hsome]
              · rcases hsome with h | h <;> simp [h]
            · rename_i hblk
              have hif : attrs.If = none := by
                cases hf : attrs.For with
                | some f => rw [hf] at hblk; simp at hblk
                | none => rw [hf] at hblk; simpa using hblk
              have hfor : attrs.For = none := by
                cases hf : attrs.For with
                | some f => rw [hf] at hblk; simp at hblk
                | none => rfl
              have hnone : ¬ (attrs.If.isSome ∨ attrs.For.isSome) := by simp [hif, hfor]
              rw [if_neg hnone, ← hi]
              obtain ⟨added, h1, h2, h3, _⟩ :=
                processAssignments_entries s2 attrs.Assign s2.indexList
              split
              · rename_i s3 msg heq3
                rw [heq3] at h1
                simp only at h1
                exact ⟨added, by rw [h1, hb], h2, fun h => by simp at h⟩
              · rename_i s3 heq3
                rw [heq3] at h1 h3
                simp only at h1 h3
                exact ⟨added, by rw [h1, hb], h2, fun _ => ⟨h3 trivial, rfl, by simp [hif, hfor]⟩⟩

/-- The walk of a node of a control block that ends without error leaves the
index path as it found it. -/
theorem ctrlBlockWalker_node_index (P : Parsers) (n : Node) (s : stdElementHandler)
    (h : ((ctrlBlockWalker P).walkNode n s).err = none) :
    ((ctrlBlockWalker P).walkNode n s).st.indexList = s.indexList :=
  walkNode_index (ctrlBlockWalker P) stdElementHandler.indexRef
    (fun t d h n inner s1 hs => (ctrlBlockWalker_handlers P t d h n inner s1 hs).1)
    rfl (fun _ _ => rfl) n s h

/-- What a handler of the walker of a control block records for a node that is
not a comment: the depth of the form scope apart, a first part of
`ownAssignments` of the node at the index path, and all of it when the handler
returns no error.  Then the handler replaces the node, or asks not to descend,
exactly when the node is not open. -/
theorem ctrlHandler_records (P : Parsers) (t : NodeType) (a : Atom) (d : String)
    (as : List Attribute) (e : Extracted) (kids : List Node)
    (h : NodeHandler stdElementHandler)
    (inner : stdElementHandler → WalkResult stdElementHandler) (s : stdElementHandler)
    (ht : t ≠ .CommentNode) (hs : (ctrlBlockWalker P).slot t d = some h) :
    ∃ X, (h (Node.mk t a d as e kids) inner s).st.b.Assignments = s.b.Assignments ++ X ∧
      X.map Assignment.entry
        <+: ((Node.mk t a d as e kids).ownAssignments s.indexList).map Assignment.entry ∧
      ((h (Node.mk t a d as e kids) inner s).err = none →
        X.map Assignment.entry
          = ((Node.mk t a d as e kids).ownAssignments s.indexList).map Assignment.entry ∧
        (((h (Node.mk t a d as e kids) inner s).replacement = none ∧
            (h (Node.mk t a d as e kids) inner s).descend = true ∧
            (Node.mk t a d as e kids).isOpen = true) ∨
          (((h (Node.mk t a d as e kids) inner s).replacement ≠ none ∨
            (h (Node.mk t a d as e kids) inner s).descend = false) ∧
            (Node.mk t a d as e kids).isOpen = false))) := by
  cases t with
  | CommentNode => exact absurd rfl ht
  | TextNode =>
    have hh : h = walker.Allow := by
      simp only [Walker.slot, ctrlBlockWalker, Option.some.injEq] at hs
      exact hs.symm
    subst hh
    refine ⟨[], by simp [walker.Allow], List.nil_prefix, fun _ => ⟨?_, Or.inl ⟨rfl, rfl, ?_⟩⟩⟩
    · simp [Node.ownAssignments, Node.Typ]
    · simp [Node.isOpen, Node.Typ]
  | ElementNode =>
    by_cases h1 : d = "a:text"
    · have hslot : (ctrlBlockWalker P).slot .ElementNode d
          = some (fun n _ s => aTextProcessor.Process s n) := by
        rw [h1]
        rfl
      have hh : h = (fun n _ s => aTextProcessor.Process s n) := by
        rw [hslot] at hs
        exact (Option.some.inj hs).symm
      have hown : (Node.mk .ElementNode a d as e kids).ownAssignments s.indexList
          = [{ Expression := attributes.Val as "expr", Path := s.indexList,
               Target := { Kind := .BoundSelf } }] := by
        simp [Node.ownAssignments, Node.Typ, Node.Data, Node.Attr, h1]
      have hopen : (Node.mk .ElementNode a d as e kids).isOpen = false := by
        simp [Node.isOpen, Node.Typ, Node.Data, h1, askewElementNames]
      rw [hown, hopen, hh]
      simp only
      unfold aTextProcessor.Process
      simp only [Node.Attr, Node.Children]
      by_cases hexpr : attributes.Val as "expr" = ""
      · rw [if_pos hexpr]
        exact ⟨[], by simp, List.nil_prefix, fun h => by simp at h⟩
      · rw [if_neg hexpr]
        by_cases hch : kids.isEmpty = false
        · rw [if_pos hch]
          exact ⟨[], by simp, List.nil_prefix, fun h => by simp at h⟩
        · rw [if_neg hch]
          exact ⟨_, rfl, List.prefix_refl _, fun _ => ⟨rfl, Or.inr ⟨Or.inl (by simp), trivial⟩⟩⟩
    · by_cases h2 : d ∈ askewElementNames
      · have hown : (Node.mk .ElementNode a d as e kids).ownAssignments s.indexList = [] := by
          simp [Node.ownAssignments, Node.Typ, Node.Data, h1, h2]
        have hopen : (Node.mk .ElementNode a d as e kids).isOpen = false := by
          simp [Node.isOpen, Node.Typ, Node.Data, h2]
        rw [hown, hopen]
        by_cases h3 : d = "a:embed"
        · have hslot : (ctrlBlockWalker P).slot .ElementNode d
              = some (fun n _ s => embedHandler P s n) := by
            rw [h3]
            rfl
          have hh : h = (fun n _ s => embedHandler P s n) := by
            rw [hslot] at hs
            exact (Option.some.inj hs).symm
          subst hh
          have hfr := (embedHandler_frame P s (Node.mk .ElementNode a d as e kids)).2
          have hde := embedHandler_descend P s (Node.mk .ElementNode a d as e kids)
          exact ⟨[], by simp [hfr], List.nil_prefix, fun _ => ⟨rfl, Or.inr ⟨Or.inr hde, rfl⟩⟩⟩
        · exfalso
          have hslot : (ctrlBlockWalker P).slot .ElementNode d = none := by
            simp only [askewElementNames, List.mem_cons, List.mem_singleton,
              List.mem_nil_iff, or_false] at h2
            rcases h2 with h | h | h | h | h | h | h | h | h <;>
              first
                | exact absurd h h1
                | exact absurd h h3
                | (subst h; rfl)
          rw [hslot] at hs
          cases hs
      · have hslot : (ctrlBlockWalker P).slot .ElementNode d
            = some ctrlBlockElementProcessor.Process :=
          ctrlBlockWalker_plain P (Node.mk .ElementNode a d as e kids) ⟨rfl, h2⟩
        rw [hslot] at hs
        cases hs
        obtain ⟨X, hX1, hX2, hX3⟩ := ctrlProcess_records .ElementNode a d as e kids inner s rfl h2
        refine ⟨X, hX1, hX2, fun herr => ?_⟩
        obtain ⟨hX4, hrep, hdesc⟩ := hX3 herr
        refine ⟨hX4, ?_⟩
        cases hopen : (Node.mk .ElementNode a d as e kids).isOpen with
        | false => exact Or.inr ⟨Or.inr (by rw [hdesc, hopen]), rfl⟩
        | true => exact Or.inl ⟨hrep, by rw [hdesc, hopen], rfl⟩

/-- The walk of a node that is not a comment: the node is dispatched to the
handler of its slot. -/
theorem walkNode_not_comment {σ : Type} (w : Walker σ) (t : NodeType) (a : Atom) (d : String)
    (as : List Attribute) (e : Extracted) (kids : List Node) (s : σ)
    (ht : t ≠ .CommentNode) :
    w.walkNode (Node.mk t a d as e kids) s =
      match w.slot t d with
      | none =>
        { node := Node.mk t a d as e kids, err := some (d ++ ": element not allowed here"),
          st := s }
      | some h =>
        match (h (Node.mk t a d as e kids) (fun s1 => w.walkChildren kids 0 s1) s).err with
        | some msg =>
          { node := (h (Node.mk t a d as e kids) (fun s1 => w.walkChildren kids 0 s1) s).node,
            err := some msg,
            st := (h (Node.mk t a d as e kids) (fun s1 => w.walkChildren kids 0 s1) s).st }
        | none =>
          match (h (Node.mk t a d as e kids)
              (fun s1 => w.walkChildren kids 0 s1) s).replacement with
          | some rep =>
            { node := rep, err := none,
              st := (h (Node.mk t a d as e kids) (fun s1 => w.walkChildren kids 0 s1) s).st }
          | none =>
            if (h (Node.mk t a d as e kids) (fun s1 => w.walkChildren kids 0 s1) s).descend
            then
              { node := (h (Node.mk t a d as e kids)
                    (fun s1 => w.walkChildren kids 0 s1) s).node.setChildren
                  (w.walkChildren kids 0 (h (Node.mk t a d as e kids)
                    (fun s1 => w.walkChildren kids 0 s1) s).st).nodes,
                err := (w.walkChildren kids 0 (h (Node.mk t a d as e kids)
                    (fun s1 => w.walkChildren kids 0 s1) s).st).err,
                st := (w.walkChildren kids 0 (h (Node.mk t a d as e kids)
                    (fun s1 => w.walkChildren kids 0 s1) s).st).st }
            else
              { node := (h (Node.mk t a d as e kids)
                  (fun s1 => w.walkChildren kids 0 s1) s).node,
                err := none,
                st := (h (Node.mk t a d as e kids) (fun s1 => w.walkChildren kids 0 s1) s).st } := by
  cases t with
  | CommentNode => exact absurd rfl ht
  | TextNode =>
    unfold Walker.walkNode
    rfl
  | ElementNode =>
    unfold Walker.walkNode
    rfl

mutual

/-- The walk of a node of a control block appends to the assignments of the
block, the depth of the form scope apart, a first part of
`subtreeAssignments` of the node at the index path, and all of it when the
walk ends without error. -/
theorem ctrlWalk_node_records (P : Parsers) :
    ∀ (n : Node) (s : stdElementHandler),
      ∃ X, ((ctrlBlockWalker P).walkNode n s).st.b.Assignments = s.b.Assignments ++ X ∧
        X.map Assignment.entry <+: (subtreeAssignments n s.indexList).map Assignment.entry ∧
        (((ctrlBlockWalker P).walkNode n s).err = none →
          X.map Assignment.entry = (subtreeAssignments n s.indexList).map Assignment.entry)
  | .mk t a d as e kids, s => by
    have hkids := ctrlWalk_children_records P kids 0
    rw [subtreeAssignments]
    by_cases ht : t = .CommentNode
    · subst ht
      unfold Walker.walkNode
      refine ⟨[], by simp, List.nil_prefix, fun _ => ?_⟩
      simp [Node.ownAssignments, Node.isOpen, Node.Typ]
    · rw [walkNode_not_comment _ t a d as e kids s ht]
      cases hs : (ctrlBlockWalker P).slot t d with
      | none =>
        exact ⟨[], by simp, List.nil_prefix, fun h => by simp at h⟩
      | some h =>
        simp only
        obtain ⟨X, hX1, hX2, hX3⟩ := ctrlHandler_records P t a d as e kids h
          (fun s1 => (ctrlBlockWalker P).walkChildren kids 0 s1) s ht hs
        have hidx := (ctrlBlockWalker_handlers P t d h (Node.mk t a d as e kids)
          (fun s1 => (ctrlBlockWalker P).walkChildren kids 0 s1) s hs).1
        cases herr : (h (Node.mk t a d as e kids)
            (fun s1 => (ctrlBlockWalker P).walkChildren kids 0 s1) s).err with
        | some msg =>
          simp only
          refine ⟨X, hX1, ?_, fun h => by simp at h⟩
          rw [List.map_append]
          exact hX2.trans (List.prefix_append _ _)
        | none =>
          obtain ⟨hX4, hcase⟩ := hX3 herr
          simp only
          rcases hcase with ⟨hrep, hdesc, hopen⟩ | ⟨hcl, hopen⟩
          · rw [hrep, hdesc, hopen]
            simp only [if_true]
            obtain ⟨Y, hY1, hY2, hY3⟩ := hkids
              (h (Node.mk t a d as e kids)
                (fun s1 => (ctrlBlockWalker P).walkChildren kids 0 s1) s).st
            rw [hidx] at hY2 hY3
            refine ⟨X ++ Y, by rw [hY1, hX1, List.append_assoc], ?_, ?_⟩
            · rw [List.map_append, List.map_append, hX4]
              exact (List.prefix_append_right_inj _).2 hY2
            · intro h
              rw [List.map_append, List.map_append, hX4, hY3 h]
          · rw [hopen]
            simp only [Bool.false_eq_true, if_false, List.append_nil]
            cases hrep : (h (Node.mk t a d as e kids)
                (fun s1 => (ctrlBlockWalker P).walkChildren kids 0 s1) s).replacement with
            | some rep =>
              exact ⟨X, hX1, hX2, fun _ => hX4⟩
            | none =>
              rcases hcl with hcl | hcl
              · exact absurd hrep hcl
              · rw [hcl]
                simp only [Bool.false_eq_true, if_false]
                exact ⟨X, hX1, hX2, fun _ => hX4⟩

/-- The walk of the children of a node of a control block appends to the
assignments of the block, the depth of the form scope apart, a first part of
`childrenAssignments` of the children at the index path, and all of it when
the walk ends without error. -/
theorem ctrlWalk_children_records (P : Parsers) :
    ∀ (l : List Node) (k : Nat) (s : stdElementHandler),
      ∃ X, ((ctrlBlockWalker P).walkChildren l k s).st.b.Assignments = s.b.Assignments ++ X ∧
        X.map Assignment.entry
          <+: (childrenAssignments l s.indexList k).map Assignment.entry ∧
        (((ctrlBlockWalker P).walkChildren l k s).err = none →
          X.map Assignment.entry = (childrenAssignments l s.indexList k).map Assignment.entry)
  | [], k, s => by
    rw [childrenAssignments]
    unfold Walker.walkChildren
    exact ⟨[], by simp, List.nil_prefix, fun _ => rfl⟩
  | n :: rest, k, s => by
    obtain ⟨X, hX1, hX2, hX3⟩ := ctrlWalk_node_records P n ((ctrlBlockWalker P).push k s)
    have hidx := ctrlBlockWalker_node_index P n ((ctrlBlockWalker P).push k s)
    have hpushI : ((ctrlBlockWalker P).push k s).indexList = s.indexList ++ [k] := rfl
    rw [hpushI] at hX2 hX3 hidx
    rw [childrenAssignments]
    unfold Walker.walkChildren
    simp only
    cases herr : ((ctrlBlockWalker P).walkNode n ((ctrlBlockWalker P).push k s)).err with
    | some msg =>
      simp only
      refine ⟨X, hX1, ?_, fun h => by simp at h⟩
      rw [List.map_append]
      exact hX2.trans (List.prefix_append _ _)
    | none =>
      simp only
      obtain ⟨Y, hY1, hY2, hY3⟩ := ctrlWalk_children_records P rest (k + 1)
        ((ctrlBlockWalker P).pop ((ctrlBlockWalker P).walkNode n ((ctrlBlockWalker P).push k s)).st)
      have hpopI : ((ctrlBlockWalker P).pop
          ((ctrlBlockWalker P).walkNode n ((ctrlBlockWalker P).push k s)).st).indexList
          = s.indexList := by
        show (((ctrlBlockWalker P).walkNode n
          ((ctrlBlockWalker P).push k s)).st.indexList).dropLast = s.indexList
        rw [hidx herr]
        simp
      rw [hpopI] at hY2 hY3
      have hY1b : ((ctrlBlockWalker P).walkChildren rest (k + 1) ((ctrlBlockWalker P).pop
          ((ctrlBlockWalker P).walkNode n ((ctrlBlockWalker P).push k s)).st)).st.b.Assignments
          = ((ctrlBlockWalker P).walkNode n ((ctrlBlockWalker P).push k s)).st.b.Assignments
            ++ Y := hY1
      have hX1b : ((ctrlBlockWalker P).walkNode n ((ctrlBlockWalker P).push k s)).st.b.Assignments
          = s.b.Assignments ++ X := hX1
      refine ⟨X ++ Y, by rw [hY1b, hX1b, List.append_assoc], ?_, ?_⟩
      · rw [List.map_append, List.map_append, hX3 herr]
        exact (List.prefix_append_right_inj _).2 hY2
      · intro h
        rw [List.map_append, List.map_append, hX3 herr, hY3 h]

end

/-- The assignments of a node itself are among those of its subtree. -/
theorem ownAssignments_subset (n : Node) (q : List Nat) (a : Assignment)
    (h : a ∈ n.ownAssignments q) : a ∈ subtreeAssignments n q := by
  cases n with
  | mk t da d as e kids =>
    rw [subtreeAssignments]
    exact List.mem_append_left _ h

/-- The assignments below an open node are among those of its subtree. -/
theorem childrenAssignments_subset (n : Node) (q : List Nat) (a : Assignment)
    (hopen : n.isOpen = true) (h : a ∈ childrenAssignments n.Children q 0) :
    a ∈ subtreeAssignments n q := by
  cases n with
  | mk t da d as e kids =>
    rw [subtreeAssignments, hopen]
    exact List.mem_append_right _ (by simpa using h)

/-- The assignments of the subtree of child `i` are among those of the
children. -/
theorem subtree_of_child_subset (p : List Nat) (a : Assignment) :
    ∀ (l : List Node) (k0 i : Nat) (c : Node), l[i]? = some c →
      a ∈ subtreeAssignments c (p ++ [k0 + i]) → a ∈ childrenAssignments l p k0
  | [], _, _, _, h, _ => by simp at h
  | n :: rest, k0, 0, c, h, ha => by
    simp only [List.getElem?_cons_zero, Option.some.injEq] at h
    subst h
    rw [childrenAssignments]
    exact List.mem_append_left _ ha
  | n :: rest, k0, i + 1, c, h, ha => by
    simp only [List.getElem?_cons_succ] at h
    rw [childrenAssignments]
    apply List.mem_append_right
    apply subtree_of_child_subset p a rest (k0 + 1) i c h
    have : k0 + 1 + i = k0 + (i + 1) := by omega
    rw [this]
    exact ha

/-- An assignment of a descendant that is reached without passing an element
with `a:if` or `a:for` is among `childrenAssignments`, at the path of the
descendant. -/
theorem reachedAt_mem (a : Assignment) :
    ∀ (q : List Nat) (kids : List Node) (d : Node) (p : List Nat),
      reachedAt kids q = some d → a ∈ d.ownAssignments (p ++ q) →
      a ∈ childrenAssignments kids p 0
  | [], kids, d, p, h, _ => by simp [reachedAt] at h
  | [k], kids, d, p, h, ha => by
    rw [reachedAt] at h
    simp only [List.get?_eq_getElem?] at h
    apply subtree_of_child_subset p a kids 0 k d h
    rw [Nat.zero_add]
    exact ownAssignments_subset d _ a ha
  | k :: j :: q, kids, d, p, h, ha => by
    rw [reachedAt] at h
    simp only [List.get?_eq_getElem?] at h
    cases hc : kids[k]? with
    | none =>
      rw [hc] at h
      cases h
    | some c =>
      rw [hc] at h
      simp only at h
      by_cases hopen : c.isOpen = true
      · rw [if_pos hopen] at h
        apply subtree_of_child_subset p a kids 0 k c hc
        rw [Nat.zero_add]
        apply childrenAssignments_subset c _ a hopen
        apply reachedAt_mem a (j :: q) c.Children d (p ++ [k]) h
        rw [List.append_assoc]
        exact ha
      · rw [if_neg hopen] at h
        cases h

/-- A descendant reached among the later siblings is reached among all of
them, one index further. -/
theorem reachedAt_cons (n : Node) (rest : List Node) (i : Nat) (q : List Nat) :
    reachedAt (n :: rest) ((i + 1) :: q) = reachedAt rest (i :: q) := by
  cases q with
  | nil => simp [reachedAt]
  | cons j q => simp [reachedAt]

mutual

/-- Every assignment of `subtreeAssignments` is one of the node itself, or one
of a descendant that is reached without passing an element with `a:if` or
`a:for`, at the path of the descendant. -/
theorem subtreeAssignments_source (a : Assignment) :
    ∀ (n : Node) (p : List Nat), a ∈ subtreeAssignments n p →
      a ∈ n.ownAssignments p ∨
        (n.isOpen = true ∧ ∃ i q d, reachedAt n.Children (i :: q) = some d ∧
          a ∈ d.ownAssignments (p ++ i :: q))
  | .mk t da d as e kids, p, h => by
    rw [subtreeAssignments] at h
    rcases List.mem_append.1 h with h | h
    · exact Or.inl h
    · by_cases hopen : (Node.mk t da d as e kids).isOpen = true
      · rw [if_pos hopen] at h
        obtain ⟨i, q, d2, hr, ha⟩ := childrenAssignments_source a kids p 0 h
        rw [Nat.zero_add] at ha
        exact Or.inr ⟨hopen, i, q, d2, hr, ha⟩
      · rw [if_neg hopen] at h
        cases h

/-- Every assignment of `childrenAssignments` is one of a descendant that is
reached without passing an element with `a:if` or `a:for`, at the path of the
descendant. -/
theorem childrenAssignments_source (a : Assignment) :
    ∀ (l : List Node) (p : List Nat) (k0 : Nat), a ∈ childrenAssignments l p k0 →
      ∃ i q d, reachedAt l (i :: q) = some d ∧ a ∈ d.ownAssignments (p ++ (k0 + i) :: q)
  | [], p, k0, h => by
    rw [childrenAssignments] at h
    cases h
  | n :: rest, p, k0, h => by
    rw [childrenAssignments] at h
    rcases List.mem_append.1 h with h | h
    · rcases subtreeAssignments_source a n (p ++ [k0]) h with h1 | ⟨hopen, i, q, d, hr, ha⟩
      · refine ⟨0, [], n, by simp [reachedAt], ?_⟩
        simpa using h1
      · refine ⟨0, i :: q, d, ?_, ?_⟩
        · rw [reachedAt]
          simp only [List.get?_eq_getElem?, List.getElem?_cons_zero, hopen, if_true]
          exact hr
        · rw [List.append_assoc] at ha
          simpa using ha
    · obtain ⟨i, q, d, hr, ha⟩ := childrenAssignments_source a rest p (k0 + 1) h
      refine ⟨i + 1, q, d, by rw [reachedAt_cons]; exact hr, ?_⟩
      have : k0 + 1 + i = k0 + (i + 1) := by omega
      rw [this] at ha
      exact ha

end

/-- C18 (amended).  For a plain element carrying exactly one of `a:if` and
`a:for` at outer path `P`, `handleControlBlocksAndAssignments` returns
descend = false, leaves the `Assignments` of the enclosing block as they are
and appends to the enclosing block one control block whose `Path` is `P` and
whose assignments are those of the inner handler after the walk of the
children.  The inner handler starts with an empty index path.  The depth of
the form scope apart, the inner block holds, after what the attribute parser
delivered in it, first a part of the element's own `a:assign` entries with
path `[]` (all of them when `processAssignments` returns no error for them,
and exactly them when none is a form value), then a part of the assignments
of the descendants that are neither an element with `a:if` or `a:for` nor
inside one, each with its path relative to the control element (all of them
when the walk of the children ends without error).  Whatever the walk adds is
an assignment of such a descendant at its relative path: child `k` has path
`[k]`, not `P ++ [k]`, and an assignment inside a nested element with `a:if`
or `a:for` is not added. -/
theorem control_block_resets_index_path (P : Parsers) (seh : stdElementHandler) (n : Node)
    (attrs : General) (cb0 : ControlBlock)
    (hone : (attrs.If = some cb0 ∧ attrs.For = none) ∨ (attrs.If = none ∧ attrs.For = some cb0)) :
    (seh.handleControlBlocksAndAssignments (controlWalk P n) n attrs).descend = false ∧
    (seh.handleControlBlocksAndAssignments (controlWalk P n) n attrs).st.b.Assignments
      = seh.b.Assignments ∧
    (∃ cb, (seh.handleControlBlocksAndAssignments (controlWalk P n) n attrs).st.b.Controlled
        = seh.b.Controlled ++ [cb] ∧
      cb.Path = seh.indexList ∧
      cb.Block.Assignments = (controlWalk P n (innerHandler seh cb0 attrs)).st.b.Assignments) ∧
    (innerHandler seh cb0 attrs).indexList = [] ∧
    innerHandler seh cb0 attrs
      = ((freshInnerHandler seh cb0).processAssignments attrs.Assign []).1 ∧
    (∃ own sub,
      (innerHandler seh cb0 attrs).b.Assignments = cb0.Block.Assignments ++ own ∧
      (controlWalk P n (innerHandler seh cb0 attrs)).st.b.Assignments
        = cb0.Block.Assignments ++ own ++ sub ∧
      own.map Assignment.entry
        <+: (attrs.Assign.map (fun a => { a with Path := [] })).map Assignment.entry ∧
      (((freshInnerHandler seh cb0).processAssignments attrs.Assign []).2 = none →
        own.map Assignment.entry
          = (attrs.Assign.map (fun a => { a with Path := [] })).map Assignment.entry) ∧
      ((∀ a ∈ attrs.Assign, a.Target.Kind ≠ .BoundFormValue) →
        own = attrs.Assign.map (fun a => { a with Path := [] })) ∧
      sub.map Assignment.entry
        <+: (childrenAssignments n.Children [] 0).map Assignment.entry ∧
      ((controlWalk P n (innerHandler seh cb0 attrs)).err = none →
        sub.map Assignment.entry = (childrenAssignments n.Children [] 0).map Assignment.entry) ∧
      (∀ x ∈ sub, ∃ q d a, reachedAt n.Children q = some d ∧ a ∈ d.ownAssignments q ∧
        x.entry = a.entry) ∧
      ((controlWalk P n (innerHandler seh cb0 attrs)).err = none →
        ∀ q d a, reachedAt n.Children q = some d → a ∈ d.ownAssignments q →
          ∃ x ∈ sub, x.entry = a.entry)) := by
  have hidx : (innerHandler seh cb0 attrs).indexList = [] := by
    obtain ⟨_, _, _, _, h, _⟩ := processAssignments_spec
      ({ syms := seh.syms, indexList := [], b := cb0.Block, curFormPos := seh.curFormPos,
         curForm := seh.curForm } : stdElementHandler) attrs.Assign []
    exact h
  rw [handle_control_block P seh n attrs cb0 hone]
  refine ⟨rfl, rfl, ⟨_, rfl, ?_, ?_⟩, hidx, rfl, ?_⟩
  · rw [ControlBlock.setBlock_Path, ControlBlock.setPath_Path]
  · rw [setBlock_Block]
  · obtain ⟨own, ho1, ho2, ho3, _⟩ :=
      processAssignments_entries (freshInnerHandler seh cb0) attrs.Assign []
    have ho1b : (innerHandler seh cb0 attrs).b.Assignments = cb0.Block.Assignments ++ own := ho1
    obtain ⟨sub, hs1, hs2, hs3⟩ :=
      ctrlWalk_children_records P n.Children 0 (innerHandler seh cb0 attrs)
    rw [hidx] at hs2 hs3
    have hs1b : (controlWalk P n (innerHandler seh cb0 attrs)).st.b.Assignments
        = (innerHandler seh cb0 attrs).b.Assignments ++ sub := hs1
    refine ⟨own, sub, ho1b, by rw [hs1b, ho1b], ho2, ho3, ?_, hs2, hs3, ?_, ?_⟩
    · intro hplain
      have h2 := (processAssignments_plain (freshInnerHandler seh cb0) attrs.Assign []
        hplain).1
      have h3 : (innerHandler seh cb0 attrs).b.Assignments
          = cb0.Block.Assignments ++ attrs.Assign.map (fun a => { a with Path := [] }) := h2
      rw [ho1b] at h3
      exact List.append_cancel_left h3
    · intro x hx
      have hmem : x.entry ∈ (childrenAssignments n.Children [] 0).map Assignment.entry :=
        hs2.subset (List.mem_map_of_mem _ hx)
      obtain ⟨a, ha, hae⟩ := List.mem_map.1 hmem
      obtain ⟨i, q, d, hr, hd⟩ := childrenAssignments_source a n.Children [] 0 ha
      rw [List.nil_append, Nat.zero_add] at hd
      exact ⟨i :: q, d, a, hr, hd, hae.symm⟩
    · intro herr q d a hr ha
      have hmem : a ∈ childrenAssignments n.Children [] 0 :=
        reachedAt_mem a q n.Children d [] hr (by rw [List.nil_append]; exact ha)
      have hmem2 : a.entry ∈ sub.map Assignment.entry := by
        rw [hs3 herr]
        exact List.mem_map_of_mem _ hmem
      obtain ⟨x, hx, hxe⟩ := List.mem_map.1 hmem2
      exact ⟨x, hx, hxe⟩

/-- Witness of C18: `<li a:for=... a:assign="prop(title)=i"><div>
<span a:assign="prop(title)=v"></span></div><a:text expr="t"></a:text>
<p a:if="b" a:assign="prop(title)=w"></p></li>` at path `[3]` yields one
control block with path `[3]` that holds the assignment of the `li` with path
`[]`, that of the `span`, a grandchild, with path `[0, 0]`, and the text of
child 1 with path `[1]`; the assignment of the nested `p` is in the control
block of the `p`, which has the path `[2]`.  In `<li a:for=...
a:assign="prop(title)=i"><b></b><span a:assign="prop(title)=v"></span></li>`
the assignment of the `span`, child 1, has the path `[1]`. -/
theorem control_block_resets_index_path_witness :
    ((atFourthChild.handleControlBlocksAndAssignments (controlWalk exampleParsers loopWithSpan)
      loopWithSpan loopAttrs).st.b.Controlled.map
        (fun cb => (cb.Path, cb.Block.Assignments.map (fun a => (a.Expression, a.Path)))))
      = [([3], [("i", []), ("v", [1])])] ∧
    ((atFourthChild.handleControlBlocksAndAssignments
        (controlWalk exampleParsers loopWithGrandchild) loopWithGrandchild
        loopAttrs).st.b.Controlled.map
      (fun cb => (cb.Path, cb.Block.Assignments.map (fun a => (a.Expression, a.Path)),
        cb.Block.Controlled.map (fun c =>
          (c.Path, c.Block.Assignments.map (fun a => (a.Expression, a.Path)))))))
      = [([3], [("i", []), ("v", [0, 0]), ("t", [1])], [([2], [("w", [])])])] ∧
    ((loopAttrs.If = some forBlock ∧ loopAttrs.For = none) ∨
      (loopAttrs.If = none ∧ loopAttrs.For = some forBlock)) ∧
    ((atFourthChild.handleControlBlocksAndAssignments
        (controlWalk exampleParsers loopWithGrandchild) loopWithGrandchild
        loopAttrs).descend = false ∧
    (atFourthChild.handleControlBlocksAndAssignments
        (controlWalk exampleParsers loopWithGrandchild) loopWithGrandchild
        loopAttrs).st.b.Assignments = atFourthChild.b.Assignments ∧
    (∃ cb, (atFourthChild.handleControlBlocksAndAssignments
        (controlWalk exampleParsers loopWithGrandchild) loopWithGrandchild
        loopAttrs).st.b.Controlled = atFourthChild.b.Controlled ++ [cb] ∧
      cb.Path = atFourthChild.indexList ∧
      cb.Block.Assignments = (controlWalk exampleParsers loopWithGrandchild
        (innerHandler atFourthChild forBlock loopAttrs)).st.b.Assignments) ∧
    (innerHandler atFourthChild forBlock loopAttrs).indexList = [] ∧
    innerHandler atFourthChild forBlock loopAttrs
      = ((freshInnerHandler atFourthChild forBlock).processAssignments loopAttrs.Assign []).1 ∧
    (∃ own sub,
      (innerHandler atFourthChild forBlock loopAttrs).b.Assignments
        = forBlock.Block.Assignments ++ own ∧
      (controlWalk exampleParsers loopWithGrandchild
          (innerHandler atFourthChild forBlock loopAttrs)).st.b.Assignments
        = forBlock.Block.Assignments ++ own ++ sub ∧
      own.map Assignment.entry
        <+: (loopAttrs.Assign.map (fun a => { a with Path := [] })).map Assignment.entry ∧
      (((freshInnerHandler atFourthChild forBlock).processAssignments loopAttrs.Assign []).2
          = none →
        own.map Assignment.entry
          = (loopAttrs.Assign.map (fun a => { a with Path := [] })).map Assignment.entry) ∧
      ((∀ a ∈ loopAttrs.Assign, a.Target.Kind ≠ .BoundFormValue) →
        own = loopAttrs.Assign.map (fun a => { a with Path := [] })) ∧
      sub.map Assignment.entry
        <+: (childrenAssignments loopWithGrandchild.Children [] 0).map Assignment.entry ∧
      ((controlWalk exampleParsers loopWithGrandchild
          (innerHandler atFourthChild forBlock loopAttrs)).err = none →
        sub.map Assignment.entry
          = (childrenAssignments loopWithGrandchild.Children [] 0).map Assignment.entry) ∧
      (∀ x ∈ sub, ∃ q d a, reachedAt loopWithGrandchild.Children q = some d ∧
        a ∈ d.ownAssignments q ∧ x.entry = a.entry) ∧
      ((controlWalk exampleParsers loopWithGrandchild
          (innerHandler atFourthChild forBlock loopAttrs)).err = none →
        ∀ q d a, reachedAt loopWithGrandchild.Children q = some d → a ∈ d.ownAssignments q →
          ∃ x ∈ sub, x.entry = a.entry))) :=
  ⟨rfl, rfl, Or.inr ⟨rfl, rfl⟩,
   control_block_resets_index_path exampleParsers atFourthChild loopWithGrandchild loopAttrs
     forBlock (Or.inr ⟨rfl, rfl⟩)⟩

/-- Counterexample to C18 as stated: in `<div a:for=...><p a:if="b">
<span a:assign="prop(title)=v"></span></p></div>` at path `[3]` the `span` is
a descendant of the `div` with relative path `[0, 0]`.  Its assignment is not
among the assignments of the inner block of the `div`, which are empty; it is
recorded in the control block of the `p`, with the path `[0]` relative to the
`p`. -/
theorem assignment_below_nested_control_block_is_not_in_outer_block :
    ((atFourthChild.handleControlBlocksAndAssignments
      (controlWalk exampleParsers nestedControlAssignment) nestedControlAssignment
      { For := some forBlock }).st.b.Controlled.map
        (fun cb => (cb.Path, cb.Block.Assignments.map (fun a => (a.Expression, a.Path)),
          cb.Block.Controlled.map (fun c =>
            (c.Path, c.Block.Assignments.map (fun a => (a.Expression, a.Path)))))))
      = [([3], [], [([0], [("v", [0])])])] :=
  rfl

end Askew
